import Mathlib

/-!
# OVER-SAVE browser client: verification development

A shallow embedding of the functions of `static/js/*.js` that the budgeting
client's contract rests on, followed by theorems about them.

Modelling conventions.
* A JavaScript number is a `JSNum`: `NaN`, the two infinities, or a finite
  value carried as an exact rational.  Binary64 rounding and the sign of zero
  are not modelled; every comparison and every rounding step the code performs
  is otherwise the one ECMAScript prescribes.
* A JavaScript string is a list of characters (`Str`).
* A primitive JavaScript value is a `JSVal`.
* Host facilities that the code calls but does not define (`Date.parse`, the
  clock, the local time-zone offset, `fetch`, `confirm`) are explicit inputs.
-/

namespace OverSave

/-! ## JavaScript numbers -/

/-- A JavaScript number: NaN, a finite value, or one of the two infinities. -/
inductive JSNum where
  | nan : JSNum
  | num (q : ℚ) : JSNum
  | pinf : JSNum
  | ninf : JSNum
deriving DecidableEq

namespace JSNum

/-- The global `isNaN` / `Number.isNaN` on a number. -/
def isNaN : JSNum → Bool
  | nan => true
  | _ => false

/-- Unary minus. -/
def neg : JSNum → JSNum
  | nan => nan
  | num q => num (-q)
  | pinf => ninf
  | ninf => pinf

/-- Binary `+` on numbers. -/
def add : JSNum → JSNum → JSNum
  | nan, _ => nan
  | _, nan => nan
  | num a, num b => num (a + b)
  | num _, pinf => pinf
  | num _, ninf => ninf
  | pinf, ninf => nan
  | pinf, _ => pinf
  | ninf, pinf => nan
  | ninf, _ => ninf

/-- Binary `-` on numbers. -/
def sub (a b : JSNum) : JSNum := add a (neg b)

/-- An infinity with the sign of a non-zero rational. -/
def infOfSign (q : ℚ) : JSNum := if 0 < q then pinf else ninf

/-- Binary `*` on numbers. -/
def mul : JSNum → JSNum → JSNum
  | nan, _ => nan
  | _, nan => nan
  | num a, num b => num (a * b)
  | num a, pinf => if a = 0 then nan else infOfSign a
  | num a, ninf => if a = 0 then nan else infOfSign (-a)
  | pinf, num b => if b = 0 then nan else infOfSign b
  | ninf, num b => if b = 0 then nan else infOfSign (-b)
  | pinf, pinf => pinf
  | ninf, ninf => pinf
  | pinf, ninf => ninf
  | ninf, pinf => ninf

/-- Binary `/` on numbers; a zero divisor is taken to be `+0`. -/
def div : JSNum → JSNum → JSNum
  | nan, _ => nan
  | _, nan => nan
  | num a, num b => if b = 0 then (if a = 0 then nan else infOfSign a) else num (a / b)
  | num _, pinf => num 0
  | num _, ninf => num 0
  | pinf, num b => if 0 ≤ b then pinf else ninf
  | ninf, num b => if 0 ≤ b then ninf else pinf
  | pinf, _ => nan
  | ninf, _ => nan

/-- The relational operator `a < b`; false as soon as an operand is NaN. -/
def lt : JSNum → JSNum → Bool
  | nan, _ => false
  | _, nan => false
  | num a, num b => decide (a < b)
  | num _, pinf => true
  | num _, ninf => false
  | pinf, _ => false
  | ninf, ninf => false
  | ninf, _ => true

/-- The relational operator `a <= b`; false as soon as an operand is NaN. -/
def le : JSNum → JSNum → Bool
  | nan, _ => false
  | _, nan => false
  | num a, num b => decide (a ≤ b)
  | num _, pinf => true
  | num _, ninf => false
  | pinf, pinf => true
  | pinf, _ => false
  | ninf, _ => true

/-- The relational operator `a > b`. -/
def gt (a b : JSNum) : Bool := lt b a

/-- The relational operator `a >= b`. -/
def ge (a b : JSNum) : Bool := le b a

/-- `Math.round`: the nearest integer, a tie going towards positive infinity. -/
def round : JSNum → JSNum
  | num q => num (⌊q + 1 / 2⌋ : ℤ)
  | x => x

/-- Truthiness of a number: every number but NaN and zero. -/
def truthy : JSNum → Bool
  | nan => false
  | num q => decide (q ≠ 0)
  | _ => true

/-- The abstract operation `ToIntegerOrInfinity` restricted to finite results:
truncation towards zero, `none` for NaN and the infinities. -/
def toInteger : JSNum → Option ℤ
  | num q => some (if 0 ≤ q then ⌊q⌋ else ⌈q⌉)
  | _ => none

end JSNum

/-- A number literal or other finite value. -/
def jsn (q : ℚ) : JSNum := JSNum.num q

/-! ## JavaScript strings -/

/-- A JavaScript string, as its sequence of characters. -/
abbrev Str := List Char

/-- White space and line terminators, the characters `trim` and the numeric
parsers strip. -/
def isWhiteSpace (c : Char) : Bool :=
  c.toNat = 0x09 || c.toNat = 0x0A || c.toNat = 0x0B || c.toNat = 0x0C || c.toNat = 0x0D ||
  c.toNat = 0x20 || c.toNat = 0xA0 || c.toNat = 0x1680 ||
  (0x2000 ≤ c.toNat && c.toNat ≤ 0x200A) ||
  c.toNat = 0x2028 || c.toNat = 0x2029 || c.toNat = 0x202F || c.toNat = 0x205F ||
  c.toNat = 0x3000 || c.toNat = 0xFEFF

/-- `String.prototype.trimStart`. -/
def trimStart (s : Str) : Str := s.dropWhile isWhiteSpace

/-- `String.prototype.trimEnd`. -/
def trimEnd (s : Str) : Str := (s.reverse.dropWhile isWhiteSpace).reverse

/-- `String.prototype.trim`. -/
def trim (s : Str) : Str := trimEnd (trimStart s)

/-- `String.prototype.toLowerCase` on the ASCII letters; other characters are
left as they are. -/
def toLowerCase (s : Str) : Str := s.map Char.toLower

/-- `String.prototype.includes` for a one-character needle. -/
def includesChar (s : Str) (c : Char) : Bool := s.contains c

/-- `String.prototype.split` with a one-character separator. -/
def splitOnChar (sep : Char) : Str → List Str
  | [] => [[]]
  | c :: cs =>
    match splitOnChar sep cs with
    | [] => [[]]
    | w :: ws => if c = sep then [] :: w :: ws else (c :: w) :: ws

/-- `String.prototype.replace` with one-character pattern and replacement:
only the first occurrence is replaced. -/
def replaceFirstChar (c r : Char) : Str → Str
  | [] => []
  | x :: xs => if x = c then r :: xs else x :: replaceFirstChar c r xs

/-- Whether a character is a decimal digit. -/
def isDigit (c : Char) : Bool := 48 ≤ c.toNat && c.toNat ≤ 57

/-- The value of a run of decimal digits. -/
def digitsValue (ds : Str) : ℕ := ds.foldl (fun n c => 10 * n + (c.toNat - 48)) 0

/-- The value of one hexadecimal digit, if the character is one. -/
def hexDigit (c : Char) : Option ℕ :=
  if 48 ≤ c.toNat ∧ c.toNat ≤ 57 then some (c.toNat - 48)
  else if 97 ≤ c.toNat ∧ c.toNat ≤ 102 then some (c.toNat - 87)
  else if 65 ≤ c.toNat ∧ c.toNat ≤ 70 then some (c.toNat - 55)
  else none

/-- The value of a non-empty run of digits in the given radix (2, 8 or 16);
`none` when a character is no digit of that radix or the run is empty. -/
def radixValue (radix : ℕ) (ds : Str) : Option ℕ :=
  if ds.isEmpty then none
  else ds.foldl (fun acc c =>
    match acc, hexDigit c with
    | some n, some d => if d < radix then some (radix * n + d) else none
    | _, _ => none) (some 0)

/-- Ten to an integer power, as a rational. -/
def pow10 (e : ℤ) : ℚ := (10 : ℚ) ^ e

/-- The optional exponent part of a decimal literal: `e` or `E`, an optional
sign and at least one digit.  Returns the exponent and the rest; an incomplete
exponent part is not consumed. -/
def scanExponent (s : Str) : ℤ × Str :=
  match s with
  | [] => (0, [])
  | c :: t =>
    if c = 'e' ∨ c = 'E' then
      let body : Bool × Str :=
        match t with
        | '-' :: u => (true, u)
        | '+' :: u => (false, u)
        | _ => (false, t)
      let ds := body.2.takeWhile isDigit
      if ds.isEmpty then (0, s)
      else ((if body.1 then -(digitsValue ds : ℤ) else (digitsValue ds : ℤ)),
            body.2.dropWhile isDigit)
    else (0, s)

/-- The longest prefix of `s` that is an unsigned `StrDecimalLiteral`
(`Infinity`, or digits with an optional fraction and exponent), with its value
and the unread rest; `none` when no prefix is one. -/
def scanUnsignedDecimal (s : Str) : Option (JSNum × Str) :=
  if "Infinity".toList.isPrefixOf s then some (JSNum.pinf, s.drop 8)
  else
    let ip := s.takeWhile isDigit
    let r1 := s.dropWhile isDigit
    let fp : Str × Str :=
      match r1 with
      | '.' :: t => (t.takeWhile isDigit, t.dropWhile isDigit)
      | _ => ([], r1)
    let r2 : Str := if ip.isEmpty ∧ fp.1.isEmpty then s else fp.2
    if ip.isEmpty ∧ fp.1.isEmpty then none
    else
      let ex := scanExponent r2
      some (JSNum.num ((digitsValue (ip ++ fp.1) : ℚ) / (10 : ℚ) ^ fp.1.length * pow10 ex.1), ex.2)

/-- The longest prefix of `s` that is a signed `StrDecimalLiteral`. -/
def scanDecimal (s : Str) : Option (JSNum × Str) :=
  match s with
  | '-' :: t => (scanUnsignedDecimal t).map (fun r => (JSNum.neg r.1, r.2))
  | '+' :: t => scanUnsignedDecimal t
  | _ => scanUnsignedDecimal s

/-- The global `parseFloat` on a string: leading white space is skipped and
the longest decimal-literal prefix is converted; NaN when there is none. -/
def parseFloatStr (s : Str) : JSNum :=
  match scanDecimal (trimStart s) with
  | some r => r.1
  | none => JSNum.nan

/-- The abstract operation `StringToNumber`, which `Number(s)` applies to a
string: the whole trimmed string must be a numeric literal; the empty string
converts to 0. -/
def stringToNumber (s : Str) : JSNum :=
  let t := trim s
  if t.isEmpty then JSNum.num 0
  else
    match t with
    | '0' :: 'x' :: ds | '0' :: 'X' :: ds => ((radixValue 16 ds).map (fun n => JSNum.num n)).getD JSNum.nan
    | '0' :: 'o' :: ds | '0' :: 'O' :: ds => ((radixValue 8 ds).map (fun n => JSNum.num n)).getD JSNum.nan
    | '0' :: 'b' :: ds | '0' :: 'B' :: ds => ((radixValue 2 ds).map (fun n => JSNum.num n)).getD JSNum.nan
    | _ =>
      match scanDecimal t with
      | some (v, []) => v
      | _ => JSNum.nan

/-! ## Primitive JavaScript values -/

/-- A primitive JavaScript value. -/
inductive JSVal where
  | undefined : JSVal
  | null : JSVal
  | bool (b : Bool) : JSVal
  | num (n : JSNum) : JSVal
  | str (s : Str) : JSVal
deriving DecidableEq

namespace JSVal

/-- The abstract operation `ToBoolean`. -/
def truthy : JSVal → Bool
  | undefined => false
  | null => false
  | bool b => b
  | num n => n.truthy
  | str s => !s.isEmpty

/-- The abstract operation `ToNumber`, which `Number(v)` and the arithmetic
and relational operators apply to a primitive. -/
def toNumber : JSVal → JSNum
  | undefined => JSNum.nan
  | null => JSNum.num 0
  | bool b => JSNum.num (if b then 1 else 0)
  | num n => n
  | str s => stringToNumber s

/-- The logical operator `a || b`. -/
def or (a b : JSVal) : JSVal := if a.truthy then a else b

/-- The nullish coalescing operator `a ?? b`. -/
def coalesce (a b : JSVal) : JSVal :=
  match a with
  | undefined => b
  | null => b
  | _ => a

/-- Strict equality with the empty string, `v === ''`. -/
def isEmptyString : JSVal → Bool
  | str s => s.isEmpty
  | _ => false

/-- The global `parseFloat`: the argument is converted to a string, whose
longest numeric prefix is read.  A number prints to a string that reads back
as the same number; `undefined`, `null`, `true` and `false` print to words
that are not numeric. -/
def parseFloat : JSVal → JSNum
  | num n => n
  | str s => parseFloatStr s
  | _ => JSNum.nan

end JSVal

/-! ## Binary64 arithmetic

The Number type of JavaScript holds the binary64 values.  An arithmetic
operator returns the binary64 value nearest to the exact result, a tie going
to the value with an even significand, and an infinity from 2^1024 − 2^970
on.  The zeros are not told apart. -/

/-- The search of `binaryExponent` upwards: the least `e' ≥ e` with
`a < 2 ^ (e' + 1)`, within `fuel` steps. -/
def log2Up : ℕ → ℚ → ℤ → ℤ
  | 0, _, e => e
  | fuel + 1, a, e => if a < 2 ^ (e + 1) then e else log2Up fuel a (e + 1)

/-- The search of `binaryExponent` downwards: the greatest `e' ≤ e` with
`2 ^ e' ≤ a`, within `fuel` steps. -/
def log2Down : ℕ → ℚ → ℤ → ℤ
  | 0, _, e => e
  | fuel + 1, a, e => if 2 ^ e ≤ a then e else log2Down fuel a (e - 1)

/-- The binary exponent of a positive rational `a`: the integer `e` with
`2 ^ e ≤ a < 2 ^ (e + 1)`. -/
def binaryExponent (a : ℚ) : ℤ :=
  if 1 ≤ a then log2Up a.num.natAbs a 0 else log2Down a.den a (-1)

/-- The integer nearest to a rational, a tie going to the even one. -/
def roundHalfEven (m : ℚ) : ℤ :=
  if m - ⌊m⌋ < 1 / 2 then ⌊m⌋
  else if 1 / 2 < m - ⌊m⌋ then ⌊m⌋ + 1
  else if ⌊m⌋ % 2 = 0 then ⌊m⌋ else ⌊m⌋ + 1

/-- The distance between neighbouring binary64 values around a positive
rational: 53 significant bits, and the spacing of the subnormal numbers below
2^-1022. -/
def ulpOf (a : ℚ) : ℚ := 2 ^ (max (binaryExponent a) (-1022) - 52)

/-- The binary64 value nearest to a positive rational, before the test for
overflow. -/
def nearestBinary64 (a : ℚ) : ℚ := (roundHalfEven (a / ulpOf a) : ℚ) * ulpOf a

/-- The Number value for a rational: the nearest binary64 value, or an
infinity. -/
def toDouble (q : ℚ) : JSNum :=
  if q = 0 then JSNum.num 0
  else if 0 < q then
    (if 2 ^ (1024 : ℕ) ≤ nearestBinary64 q then JSNum.pinf else JSNum.num (nearestBinary64 q))
  else
    (if 2 ^ (1024 : ℕ) ≤ nearestBinary64 (-q) then JSNum.ninf
     else JSNum.num (-nearestBinary64 (-q)))

namespace JSNum

/-- The result of an operator, rounded to the Number type. -/
def toBinary64 : JSNum → JSNum
  | num q => toDouble q
  | x => x

/-- Whether a number is a value of the Number type. -/
def isBinary64 (x : JSNum) : Bool := decide (x.toBinary64 = x)

/-- Binary `+` of JavaScript. -/
def fadd (a b : JSNum) : JSNum := (add a b).toBinary64

/-- Binary `-` of JavaScript. -/
def fsub (a b : JSNum) : JSNum := (sub a b).toBinary64

/-- Binary `*` of JavaScript. -/
def fmul (a b : JSNum) : JSNum := (mul a b).toBinary64

/-- Binary `/` of JavaScript. -/
def fdiv (a b : JSNum) : JSNum := (div a b).toBinary64

end JSNum

/-- The global `parseFloat` on a string, with the value read rounded to the
Number type. -/
def parseFloatNumber (s : Str) : JSNum := (parseFloatStr s).toBinary64

/-- The smallest positive binary64 value, 2^-1074. -/
def minSubnormal : ℚ := 1 / 2 ^ 1074

/-! ## budget-service.js

`BudgetService.validateBudgetData`. -/

/-- The form payload handed to `setBudget`. -/
structure BudgetData where
  categoryId : JSVal
  amount : JSVal
  customName : JSVal

/-- The object `validateBudgetData` returns. -/
structure BudgetValidation where
  isValid : Bool
  errors : List String

/-- The largest budget amount, the literal `999999.99` of the source. -/
def maxBudgetAmount : ℚ := 999999.99

/-- `BudgetService.validateBudgetData(budgetData)`. -/
def validateBudgetData (budgetData : BudgetData) : BudgetValidation :=
  let errors0 : List String := []
  let errors1 : List String :=
    if !budgetData.categoryId.truthy || budgetData.categoryId.isEmptyString then
      errors0 ++ ["Please select a category"]
    else errors0
  let errors2 : List String :=
    if !budgetData.amount.truthy || budgetData.amount.isEmptyString then
      errors1 ++ ["Amount is required"]
    else
      let amount := budgetData.amount.parseFloat
      if amount.isNaN then errors1 ++ ["Amount must be a valid number"]
      else if amount.le (jsn 0) then errors1 ++ ["Amount must be greater than 0"]
      else if amount.gt (jsn maxBudgetAmount) then errors1 ++ ["Amount cannot exceed $999,999.99"]
      else errors1
  ⟨errors2.length == 0, errors2⟩

/-! ## budgets.js and dashboard.js

The percentage and banding computed by `renderBudgetItem`,
`generateBudgetAlerts` (budgets.js) and `renderBudgetStatusItem`
(dashboard.js).  The HTML the functions assemble around these values is not
modelled. -/

/-- The `summary` object of a budget item, as sent by the backend. -/
structure BudgetSummary where
  spent : JSVal
  budget : JSVal
  customName : JSVal

/-- An element of the list handed to the budget renderers; `summary` may be
missing. -/
structure BudgetItem where
  name : JSVal
  categoryId : JSVal
  summary : Option BudgetSummary

/-- The expression `budget > 0 ? Math.round((spent / budget) * 100) : 0`,
which the three functions share verbatim.  The quotient and the product are
binary64 operations; `Math.round` of a binary64 value is exact. -/
def percentageExpr (spent budget : JSVal) : JSNum :=
  if budget.toNumber.gt (jsn 0) then
    JSNum.round (JSNum.fmul (JSNum.fdiv spent.toNumber budget.toNumber) (jsn 100))
  else jsn 0

/-- The values `renderBudgetItem` and `renderBudgetStatusItem` compute before
they build their markup. -/
structure BudgetView where
  percentage : JSNum
  remaining : JSNum
  progressClass : String
  warningText : String

/-- The `if` cascade of `renderBudgetItem` that picks the progress class and
the warning copy. -/
def budgetItemBand (percentage : JSNum) : String × String :=
  if percentage.ge (jsn 100) then ("danger", "🔥 Over budget!")
  else if percentage.ge (jsn 90) then ("danger", "🔥 Over limit risk")
  else if percentage.ge (jsn 80) then ("warning", "⚠️ High usage")
  else ("safe", "")

/-- `renderBudgetItem(item)` of budgets.js; `none` stands for the TypeError
raised when `item.summary` is missing. -/
def renderBudgetItem (item : BudgetItem) : Option BudgetView :=
  match item.summary with
  | none => none
  | some summary =>
    let spent := summary.spent.or (JSVal.num (jsn 0))
    let budget := summary.budget
    let percentage := percentageExpr spent budget
    let remaining := JSNum.fsub budget.toNumber spent.toNumber
    let band := budgetItemBand percentage
    some ⟨percentage, remaining, band.1, band.2⟩

/-- An entry of the `alerts` array of `generateBudgetAlerts`; the message
text is left out. -/
structure BudgetAlert where
  type : String
  icon : String
  percentage : JSNum
deriving DecidableEq

/-- The percentage `generateBudgetAlerts` computes for one item. -/
def alertPercentage (summary : BudgetSummary) : JSNum :=
  let spent := summary.spent.or (JSVal.num (jsn 0))
  let budget := summary.budget
  percentageExpr spent budget

/-- Whether a value is a number, on which `toFixed` can be called. -/
def JSVal.isNumber : JSVal → Bool
  | JSVal.num _ => true
  | _ => false

/-- The body of the `forEach` of `generateBudgetAlerts`: the alerts one item
contributes.  `none` stands for the TypeError raised when an alert is due and
`spent.toFixed(2)` or `budget.toFixed(2)` is called on a value that is no
number. -/
def alertsForItem (summary : BudgetSummary) : Option (List BudgetAlert) :=
  let spent := summary.spent.or (JSVal.num (jsn 0))
  let budget := summary.budget
  let percentage := alertPercentage summary
  if percentage.ge (jsn 100) then
    if spent.isNumber && budget.isNumber then some [⟨"danger", "⚠️", percentage⟩] else none
  else if percentage.ge (jsn 80) then
    if spent.isNumber && budget.isNumber then some [⟨"warning", "🚨", percentage⟩] else none
  else some []

/-- `generateBudgetAlerts(budgetData, container)`: the `alerts` array;
`none` stands for the TypeError raised at an item without `summary` or inside
the body. -/
def generateBudgetAlerts : List BudgetItem → Option (List BudgetAlert)
  | [] => some []
  | item :: rest =>
    match item.summary with
    | none => none
    | some summary =>
      match alertsForItem summary with
      | none => none
      | some alerts => (generateBudgetAlerts rest).map (fun tl => alerts ++ tl)

/-- The destructuring default `= 0`: it applies to `undefined` only. -/
def defaultZero : JSVal → JSVal
  | JSVal.undefined => JSVal.num (jsn 0)
  | v => v

/-- The `if` cascade of `renderBudgetStatusItem`. -/
def budgetStatusBand (percentage : JSNum) : String × String :=
  if percentage.ge (jsn 100) then ("danger", " ⚠️")
  else if percentage.ge (jsn 90) then ("danger", " ⚠️")
  else if percentage.ge (jsn 80) then ("warning", "")
  else ("safe", "")

/-- `renderBudgetStatusItem(item)` of dashboard.js. -/
def renderBudgetStatusItem (item : BudgetItem) : BudgetView :=
  let summary : BudgetSummary :=
    item.summary.getD ⟨JSVal.undefined, JSVal.undefined, JSVal.undefined⟩
  let spent := defaultZero summary.spent
  let budget := defaultZero summary.budget
  let percentage := percentageExpr spent budget
  let remaining := JSNum.fsub budget.toNumber spent.toNumber
  let band := budgetStatusBand percentage
  ⟨percentage, remaining, band.1, band.2⟩

/-- Budget items for worked examples: 120, 10 and 85 spent of 100. -/
def sampleBudgetItems : List BudgetItem :=
  [⟨JSVal.str "Food".toList, JSVal.num (jsn 1),
    some ⟨JSVal.num (jsn 120), JSVal.num (jsn 100), JSVal.null⟩⟩,
   ⟨JSVal.str "Fun".toList, JSVal.num (jsn 2),
    some ⟨JSVal.num (jsn 10), JSVal.num (jsn 100), JSVal.null⟩⟩,
   ⟨JSVal.str "Rent".toList, JSVal.num (jsn 3),
    some ⟨JSVal.num (jsn 85), JSVal.num (jsn 100), JSVal.null⟩⟩]

/-! ## coin-system.js

`CoinSystem.spendCoins`.  The object keeps `currentBalance`; the value cached
under the `oversave-coin-balance` key of `localStorage` is kept next to it as
the number whose decimal rendering is stored. -/

/-- The mutable state of the `CoinSystem` instance and of its cache entry. -/
structure CoinSystem where
  currentBalance : JSNum
  cachedBalance : Option JSNum
deriving DecidableEq

/-- What the session look-up at the head of a `try` block finds: `JSON.parse`
may throw, otherwise `userInfo && userInfo.userId` and `sessionToken` are
each present or not. -/
inductive SessionLookup where
  | parseError : SessionLookup
  | found (hasUserId : Bool) (hasToken : Bool) : SessionLookup
deriving DecidableEq

/-- How the server answers `POST /api/budgetcoin/redeem`. -/
inductive RedeemReply where
  | networkError : RedeemReply
  | httpError : RedeemReply
  | badBody : RedeemReply
  | ok (balanceAfter : JSVal) : RedeemReply
deriving DecidableEq

/-- The first argument of `spendCoins`: an object, of which `itemId` and
`amount` are read, or a primitive (the legacy call passes the amount). -/
inductive SpendPayload where
  | object (itemId : JSVal) (amount : JSVal) : SpendPayload
  | primitive (v : JSVal) : SpendPayload
deriving DecidableEq

/-- What `spendCoins` returns: `false`, or the parsed response body. -/
inductive SpendResult where
  | refused : SpendResult
  | data (balanceAfter : JSVal) : SpendResult
deriving DecidableEq

/-- The observable actions of `spendCoins`, in program order. -/
inductive CoinEffect where
  | insufficientFundsAlert (cost balance : JSNum) : CoinEffect
  | redeemRequest (itemId : JSVal) : CoinEffect
  | failureAlert : CoinEffect
  | displayUpdate (balance : JSNum) : CoinEffect
  | balanceEvent (balance : JSNum) : CoinEffect
deriving DecidableEq

/-- Whether an action is a network request. -/
def CoinEffect.isRequest : CoinEffect → Bool
  | CoinEffect.redeemRequest _ => true
  | _ => false

/-- The `request` object built at the head of `spendCoins`, as the pair of
its `itemId` and `amount`. -/
def spendRequest : SpendPayload → JSVal × JSVal
  | SpendPayload.object itemId amount => (itemId, amount)
  | SpendPayload.primitive v => (JSVal.undefined, v)

/-- `CoinSystem.spendCoins(payload, legacyItemLabel)`: the returned value, the
state afterwards and the actions performed. -/
def spendCoins (self : CoinSystem) (session : SessionLookup) (reply : RedeemReply)
    (payload : SpendPayload) : SpendResult × CoinSystem × List CoinEffect :=
  let request := spendRequest payload
  let spendAmount := (request.2.coalesce (JSVal.num (jsn 0))).toNumber
  if !request.1.truthy then (SpendResult.refused, self, [])
  else if self.currentBalance.lt spendAmount then
    (SpendResult.refused, self, [CoinEffect.insufficientFundsAlert spendAmount self.currentBalance])
  else
    match session with
    | SessionLookup.parseError => (SpendResult.refused, self, [CoinEffect.failureAlert])
    | SessionLookup.found hasUserId hasToken =>
      if !hasUserId || !hasToken then (SpendResult.refused, self, [])
      else
        match reply with
        | RedeemReply.networkError =>
          (SpendResult.refused, self, [CoinEffect.redeemRequest request.1, CoinEffect.failureAlert])
        | RedeemReply.httpError =>
          (SpendResult.refused, self, [CoinEffect.redeemRequest request.1, CoinEffect.failureAlert])
        | RedeemReply.badBody =>
          (SpendResult.refused, self, [CoinEffect.redeemRequest request.1, CoinEffect.failureAlert])
        | RedeemReply.ok balanceAfter =>
          let newBalance : JSNum :=
            if balanceAfter ≠ JSVal.undefined ∧ balanceAfter ≠ JSVal.null then balanceAfter.toNumber
            else JSNum.fsub self.currentBalance spendAmount
          (SpendResult.data balanceAfter, ⟨newBalance, some newBalance⟩,
            [CoinEffect.redeemRequest request.1, CoinEffect.displayUpdate newBalance,
             CoinEffect.balanceEvent newBalance])

/-! ## goals.js

The submit handler of the contribution form. -/

/-- The module variable `currentGoal`, set by `openContributeModal`. -/
structure Goal where
  name : Str
  current : JSNum
  target : JSNum
  id : JSVal
deriving DecidableEq

/-- The module variable `contributionAccount`. -/
structure Account where
  id : JSVal
  name : JSVal
  balance : JSVal
deriving DecidableEq

/-- The two module variables the handler reads and writes. -/
structure GoalsPage where
  currentGoal : Option Goal
  contributionAccount : Option Account
deriving DecidableEq

/-- The settlement of a promise. -/
inductive Reply (α : Type) where
  | resolved (a : α) : Reply α
  | rejected : Reply α

/-- What the surroundings answer during one submit: the `confirm` dialog,
`goalService.getPrimaryContributionAccount(true)`, `goalService.contributeToGoal`
(resolved with `result.newCashBalance`, `undefined` when it is absent), and
whether the global `coinSystem` is defined. -/
structure ContributeHost where
  confirmAnswer : Bool
  primaryAccount : Reply (Option Account)
  contributeReply : Reply JSVal
  coinSystemDefined : Bool

/-- The five notifications with which an accepted contribution can end. -/
inductive GoalOutcome where
  | goalCompleted : GoalOutcome
  | milestone75 : GoalOutcome
  | milestone50 : GoalOutcome
  | milestone25 : GoalOutcome
  | plainSuccess : GoalOutcome
deriving DecidableEq

/-- The observable actions of the submit handler, in program order (the
delays of `setTimeout` are not modelled). -/
inductive GoalEffect where
  | errorNotification (message : String) : GoalEffect
  | confirmPrompt : GoalEffect
  | accountRequest : GoalEffect
  | contributeRequest (fromAccountId goalId : JSVal) (amount : JSNum) : GoalEffect
  | celebration (emoji : String) : GoalEffect
  | earnFromSavingsGoal : GoalEffect
  | earnCoins (amount : ℕ) (reason : String) : GoalEffect
  | successNotification (outcome : GoalOutcome) : GoalEffect
  | reloadGoals : GoalEffect
  | closeModal : GoalEffect
deriving DecidableEq

/-- The outcome a notification announces, if the action is a success
notification. -/
def GoalEffect.outcome? : GoalEffect → Option GoalOutcome
  | GoalEffect.successNotification o => some o
  | _ => none

/-- The milestone block of the handler ("Check for milestones"). -/
def milestoneEffects (coinSystemDefined : Bool) (oldPercentage newPercentage : JSNum) :
    List GoalEffect :=
  if newPercentage.ge (jsn 100) then
    [GoalEffect.celebration "🎉"] ++
    (if coinSystemDefined then [GoalEffect.earnFromSavingsGoal] else []) ++
    [GoalEffect.successNotification GoalOutcome.goalCompleted]
  else if newPercentage.ge (jsn 75) && oldPercentage.lt (jsn 75) then
    [GoalEffect.celebration "🔥"] ++
    (if coinSystemDefined then [GoalEffect.earnCoins 75 "75% milestone reached"] else []) ++
    [GoalEffect.successNotification GoalOutcome.milestone75]
  else if newPercentage.ge (jsn 50) && oldPercentage.lt (jsn 50) then
    [GoalEffect.celebration "⭐"] ++
    (if coinSystemDefined then [GoalEffect.earnCoins 50 "50% milestone reached"] else []) ++
    [GoalEffect.successNotification GoalOutcome.milestone50]
  else if newPercentage.ge (jsn 25) && oldPercentage.lt (jsn 25) then
    [GoalEffect.celebration "🎯"] ++
    (if coinSystemDefined then [GoalEffect.earnCoins 25 "25% milestone reached"] else []) ++
    [GoalEffect.successNotification GoalOutcome.milestone25]
  else [GoalEffect.successNotification GoalOutcome.plainSuccess]

/-- The part of the handler inside `try`, once an account is at hand.  The
sum, the quotient and the product are binary64 operations. -/
def contributeWithAccount (host : ContributeHost) (page : GoalsPage) (goal : Goal)
    (contribution oldPercentage : JSNum) (account : Account) (before : List GoalEffect) :
    GoalsPage × List GoalEffect :=
  let availableBalance := (account.balance.or (JSVal.num (jsn 0))).toNumber
  if contribution.gt availableBalance then
    (⟨page.currentGoal, some account⟩, before ++ [GoalEffect.errorNotification "Insufficient balance"])
  else
    let request := GoalEffect.contributeRequest account.id goal.id contribution
    match host.contributeReply with
    | Reply.rejected =>
      (⟨page.currentGoal, some account⟩,
        before ++ [request, GoalEffect.errorNotification "Failed to add contribution"])
    | Reply.resolved _ =>
      let newTotal := JSNum.fadd goal.current contribution
      let newPercentage := JSNum.fmul (JSNum.fdiv newTotal goal.target) (jsn 100)
      (⟨none, none⟩,
        before ++ [request] ++ milestoneEffects host.coinSystemDefined oldPercentage newPercentage ++
          [GoalEffect.reloadGoals, GoalEffect.closeModal])

/-- The submit handler of `contribute-form`, given the text of the amount
field.  `none` stands for the TypeError raised when `currentGoal` is null.
The amount is the Number value `parseFloat` returns, and the arithmetic is
binary64. -/
def contributeSubmit (host : ContributeHost) (page : GoalsPage) (amountInput : Str) :
    Option (GoalsPage × List GoalEffect) :=
  let amount := parseFloatNumber amountInput
  if !amount.truthy || amount.le (jsn 0) then
    some (page, [GoalEffect.errorNotification "Please enter a valid contribution amount!"])
  else
    match page.currentGoal with
    | none => none
    | some goal =>
      let contribution := amount
      let oldPercentage := JSNum.fmul (JSNum.fdiv goal.current goal.target) (jsn 100)
      let asked : List GoalEffect :=
        if contribution.gt (JSNum.fsub goal.target goal.current) then [GoalEffect.confirmPrompt]
        else []
      if contribution.gt (JSNum.fsub goal.target goal.current) && !host.confirmAnswer then
        some (page, asked)
      else
        match page.contributionAccount with
        | some account =>
          some (contributeWithAccount host page goal contribution oldPercentage account asked)
        | none =>
          match host.primaryAccount with
          | Reply.rejected =>
            some (page, asked ++ [GoalEffect.accountRequest,
              GoalEffect.errorNotification "Failed to add contribution"])
          | Reply.resolved none =>
            some (page, asked ++ [GoalEffect.accountRequest,
              GoalEffect.errorNotification "No eligible account found for contributions."])
          | Reply.resolved (some account) =>
            some (contributeWithAccount host page goal contribution oldPercentage account
              (asked ++ [GoalEffect.accountRequest]))

/-- The notification the specification prescribes for an accepted
contribution, from the percentage before and after: completion from 100 up,
else the highest of the thresholds 75, 50, 25 lying in `(old, new]`, else the
plain success message. -/
def expectedOutcome (old new : ℚ) : GoalOutcome :=
  if 100 ≤ new then GoalOutcome.goalCompleted
  else
    match [((75 : ℚ), GoalOutcome.milestone75), (50, GoalOutcome.milestone50),
           (25, GoalOutcome.milestone25)].find? (fun T => decide (old < T.1 ∧ T.1 ≤ new)) with
    | some T => T.2
    | none => GoalOutcome.plainSuccess

/-- The notification the specification prescribes, on the numbers the
handler holds: completion when `new >= 100`, else the highest of the
thresholds 75, 50, 25 with `old < T` and `new >= T`, else the plain success
message.  The comparisons are those of JavaScript, so an infinite percentage
compares as such and NaN compares false. -/
def expectedOutcomeNum (old new : JSNum) : GoalOutcome :=
  if new.ge (jsn 100) then GoalOutcome.goalCompleted
  else
    match [((75 : ℚ), GoalOutcome.milestone75), (50, GoalOutcome.milestone50),
           (25, GoalOutcome.milestone25)].find?
        (fun T => old.lt (jsn T.1) && new.ge (jsn T.1)) with
    | some T => T.2
    | none => GoalOutcome.plainSuccess

/-! ## The `Date` object

A `Date` holds a time value, the number of milliseconds since the epoch, or
NaN ("Invalid Date").  The calendar functions follow the ECMAScript
definitions of `Day`, `DayFromYear`, `YearFromTime`, `MonthFromTime`,
`DateFromTime`, `MakeDay`, `MakeTime`, `MakeDate` and `TimeClip`.  Local time
is UTC shifted by the constant `tzOffset` of the host. -/

/-- A `Date` object: its time value, `none` for NaN. -/
abbrev JSDate := Option ℤ

/-- What the code takes from its surroundings: the local time-zone offset in
milliseconds, the reading of the clock, and `Date.parse`. -/
structure Host where
  tzOffset : ℤ
  now : ℤ
  dateParse : Str → Option ℤ

/-- Milliseconds per day. -/
def msPerDay : ℤ := 86400000

/-- The largest magnitude of a time value. -/
def maxTime : ℤ := 8640000000000000

/-- `DayFromYear(y)`: the day number of 1 January of year `y`. -/
def dayFromYear (y : ℤ) : ℤ :=
  365 * (y - 1970) + (y - 1969) / 4 - (y - 1901) / 100 + (y - 1601) / 400

/-- Whether `y` is a leap year (`DaysInYear(y) = 366`). -/
def isLeapYear (y : ℤ) : Bool :=
  decide (y % 4 = 0 ∧ (y % 100 ≠ 0 ∨ y % 400 = 0))

/-- The year containing day number `day`, found by peeling off 400-year,
100-year, 4-year and 1-year cycles counted from 1 January 1601. -/
def yearFromDay (day : ℤ) : ℤ :=
  let z := day + 134774
  let n400 := z / 146097
  let doe := z % 146097
  let n100 := min (doe / 36524) 3
  let r1 := doe - 36524 * n100
  let n4 := min (r1 / 1461) 24
  let r2 := r1 - 1461 * n4
  let n1 := min (r2 / 365) 3
  1601 + 400 * n400 + 100 * n100 + 4 * n4 + n1

/-- `DayWithinYear`: the zero-based index of the day inside its year. -/
def dayWithinYear (day : ℤ) : ℤ := day - dayFromYear (yearFromDay day)

/-- The index inside a year of the first day of month `m` (0 = January). -/
def monthStart (leap : Bool) (m : ℤ) : ℤ :=
  let l : ℤ := if leap then 1 else 0
  if m ≤ 0 then 0
  else if m = 1 then 31
  else if m = 2 then 59 + l
  else if m = 3 then 90 + l
  else if m = 4 then 120 + l
  else if m = 5 then 151 + l
  else if m = 6 then 181 + l
  else if m = 7 then 212 + l
  else if m = 8 then 243 + l
  else if m = 9 then 273 + l
  else if m = 10 then 304 + l
  else 334 + l

/-- The month (0 to 11) of the day with index `dwy` inside a year. -/
def monthOfYearDay (leap : Bool) (dwy : ℤ) : ℤ :=
  let l : ℤ := if leap then 1 else 0
  if dwy < 31 then 0
  else if dwy < 59 + l then 1
  else if dwy < 90 + l then 2
  else if dwy < 120 + l then 3
  else if dwy < 151 + l then 4
  else if dwy < 181 + l then 5
  else if dwy < 212 + l then 6
  else if dwy < 243 + l then 7
  else if dwy < 273 + l then 8
  else if dwy < 304 + l then 9
  else if dwy < 334 + l then 10
  else 11

/-- `MonthFromTime` on a day number. -/
def monthFromDay (day : ℤ) : ℤ :=
  monthOfYearDay (isLeapYear (yearFromDay day)) (dayWithinYear day)

/-- `DateFromTime` on a day number: the day of the month, from 1. -/
def dateFromDay (day : ℤ) : ℤ :=
  dayWithinYear day - monthStart (isLeapYear (yearFromDay day)) (monthFromDay day) + 1

/-- `MakeDay(year, month, date)` on integers. -/
def makeDay (year month date : ℤ) : ℤ :=
  let ym := year + month / 12
  let mn := month % 12
  dayFromYear ym + monthStart (isLeapYear ym) mn + date - 1

/-- `TimeClip`. -/
def timeClip (t : ℤ) : JSDate :=
  if maxTime < t ∨ t < -maxTime then none else some t

/-- `new Date(value)` for a number. -/
def dateOfNumber : JSNum → JSDate
  | JSNum.num q =>
    if (maxTime : ℚ) < q ∨ q < -(maxTime : ℚ) then none
    else some (if 0 ≤ q then ⌊q⌋ else ⌈q⌉)
  | _ => none

/-- `new Date(string)`: the string is read by `Date.parse` and the result is
clipped. -/
def dateOfString (dateParse : Str → Option ℤ) (s : Str) : JSDate :=
  (dateParse s).bind timeClip

/-- `new Date(year, month, day, hour, minute, second)`: the components are
read in local time; a year from 0 to 99 means 1900 + year. -/
def dateFromParts (host : Host) (year month day hour minute second : JSNum) : JSDate :=
  match year.toInteger, month.toInteger, day.toInteger, hour.toInteger, minute.toInteger,
      second.toInteger with
  | some y, some m, some d, some h, some mi, some s =>
    let yr := if 0 ≤ y ∧ y ≤ 99 then 1900 + y else y
    timeClip (makeDay yr m d * msPerDay + (h * 3600000 + mi * 60000 + s * 1000) - host.tzOffset)
  | _, _, _, _, _, _ => none

/-- `Day(LocalTime(t))`: the day number, in local time, of a time value. -/
def localDay (host : Host) (t : ℤ) : ℤ := (t + host.tzOffset) / msPerDay

/-- `Date.prototype.getFullYear`; `none` for NaN. -/
def getFullYear (host : Host) (date : JSDate) : Option ℤ :=
  date.map (fun t => yearFromDay (localDay host t))

/-- `Date.prototype.getMonth`; `none` for NaN. -/
def getMonth (host : Host) (date : JSDate) : Option ℤ :=
  date.map (fun t => monthFromDay (localDay host t))

/-- `Date.prototype.getDate`; `none` for NaN. -/
def getDate (host : Host) (date : JSDate) : Option ℤ :=
  date.map (fun t => dateFromDay (localDay host t))

/-- The value of `a - b` on two `Date` objects. -/
def dateDiff (a b : JSDate) : JSNum :=
  match a, b with
  | some x, some y => JSNum.num ((x - y : ℤ) : ℚ)
  | _, _ => JSNum.nan

/-! ### Numbers to strings -/

/-- The character of a decimal digit. -/
def digitChar (d : ℕ) : Char := Char.ofNat (48 + d)

/-- The decimal digits of `n`, most significant first, put in front of `acc`;
`fuel` bounds the number of digits. -/
def natToStrAux : ℕ → ℕ → Str → Str
  | 0, _, acc => acc
  | fuel + 1, n, acc =>
    if n < 10 then digitChar n :: acc
    else natToStrAux fuel (n / 10) (digitChar (n % 10) :: acc)

/-- The decimal rendering of a natural number. -/
def natToStr (n : ℕ) : Str := natToStrAux (n + 1) n []

/-- The decimal rendering of an integer, as `String(n)` gives it. -/
def intToStr (i : ℤ) : Str :=
  if i < 0 then '-' :: natToStr i.natAbs else natToStr i.toNat

/-- The string a template literal or `String(...)` makes of the result of a
`Date` getter, possibly after arithmetic: `NaN` for an invalid date. -/
def numberToStr : Option ℤ → Str
  | some i => intToStr i
  | none => "NaN".toList

/-- `String.prototype.padStart(2, '0')`. -/
def padStart2 (s : Str) : Str :=
  if s.length < 2 then List.replicate (2 - s.length) '0' ++ s else s

/-! ### A sample `Date.parse`

The ECMAScript date-time string format in the forms `YYYY-MM-DD`,
`YYYY-MM-DDTHH:mmZ` and `YYYY-MM-DDTHH:mm:ssZ`; every other string is
rejected.  Every conforming host reads these strings to these values. -/

/-- The value of exactly `n` decimal digits. -/
def fixedDigits (n : ℕ) (s : Str) : Option ℤ :=
  if s.length = n ∧ s.all isDigit then some (digitsValue s : ℤ) else none

/-- The time value of a UTC calendar date and time of day, if in range. -/
def utcTime (y m d h mi s : ℤ) : Option ℤ :=
  if 1 ≤ m ∧ m ≤ 12 ∧ 1 ≤ d ∧ d ≤ 31 ∧ h ≤ 24 ∧ mi ≤ 59 ∧ s ≤ 59 then
    timeClip (makeDay y (m - 1) d * msPerDay + (h * 3600000 + mi * 60000 + s * 1000))
  else none

/-- The sample `Date.parse`. -/
def sampleDateParse (s : Str) : Option ℤ :=
  match splitOnChar 'T' s with
  | [datePart] =>
    match (splitOnChar '-' datePart).map (fun p => (p.length, fixedDigits p.length p)) with
    | [(4, some y), (2, some m), (2, some d)] => utcTime y m d 0 0 0
    | _ => none
  | [datePart, timePart] =>
    match (splitOnChar '-' datePart).map (fun p => (p.length, fixedDigits p.length p)),
        timePart.reverse with
    | [(4, some y), (2, some m), (2, some d)], 'Z' :: rest =>
      match (splitOnChar ':' rest.reverse).map (fun p => (p.length, fixedDigits p.length p)) with
      | [(2, some h), (2, some mi)] => utcTime y m d h mi 0
      | [(2, some h), (2, some mi), (2, some sec)] => utcTime y m d h mi sec
      | _ => none
    | _, _ => none
  | _ => none

/-- A sample host: UTC+10:00, with the clock at 2024-06-15T02:00:00Z. -/
def sampleHost : Host := ⟨36000000, 1718416800000, sampleDateParse⟩

/-! ## transaction-categories.js

`handleImportFile`, the CSV import.  `Date.parse` is a facility of the host;
the functions below take it as the argument `dateParse`, which maps a string
to the time value of the date it denotes (milliseconds since the epoch) or to
`none` for an invalid date. -/

/-- `text.split(/\r?\n/)`. -/
def splitLines : Str → List Str
  | [] => [[]]
  | '\r' :: '\n' :: cs => [] :: splitLines cs
  | '\n' :: cs => [] :: splitLines cs
  | c :: cs =>
    match splitLines cs with
    | [] => [[c]]
    | w :: ws => (c :: w) :: ws

/-- The test `/[zZ]|[+\-]\d{2}:?\d{2}$/`: the string holds a `z` or `Z`
somewhere, or ends in a numeric zone offset. -/
def hasZoneSuffix (s : Str) : Bool :=
  s.contains 'z' || s.contains 'Z' ||
  (match s.reverse with
   | d4 :: d3 :: ':' :: d2 :: d1 :: sg :: _ =>
     isDigit d4 && isDigit d3 && isDigit d2 && isDigit d1 && (sg == '+' || sg == '-')
   | _ => false) ||
  (match s.reverse with
   | d4 :: d3 :: d2 :: d1 :: sg :: _ =>
     isDigit d4 && isDigit d3 && isDigit d2 && isDigit d1 && (sg == '+' || sg == '-')
   | _ => false)

/-- The two normalisation steps applied to a date string before it is handed
to `new Date`: a first blank becomes `T` when there is no `T` yet, and `Z` is
appended when no zone is given. -/
def normalizeDateString (s : Str) : Str :=
  let s1 := if includesChar s ' ' && !includesChar s 'T' then replaceFirstChar ' ' 'T' s else s
  if !hasZoneSuffix s1 then s1 ++ ['Z'] else s1

/-- An element pushed onto `importedTransactions`.  `occurredAt` is the time
value whose ISO rendering the source stores; `categoryName` is `none` for
`null`. -/
structure ImportedTransaction where
  description : Str
  amount : JSNum
  occurredAt : ℤ
  type : Str
  categoryName : Option Str
deriving DecidableEq

/-- The header names: `rows[0].split(',').map(h => h.trim().toLowerCase())`. -/
def csvHeaders (headerRow : Str) : List Str :=
  (splitOnChar ',' headerRow).map (fun h => toLowerCase (trim h))

/-- The required columns. -/
def requiredColumns : List Str :=
  ["datetime".toList, "description".toList, "amount".toList, "type".toList]

/-- The object `obj` built by `headers.forEach((h, idx) => obj[h] = cols[idx]?.trim() ?? '')`,
as the list of its assignments in order. -/
def rowObject (headers : List Str) (cols : List Str) : List (Str × Str) :=
  headers.enum.map (fun p => (p.2, ((cols.get? p.1).map trim).getD []))

/-- Reading a property of `obj`: the value assigned last under that name,
`none` for `undefined`. -/
def objGet (obj : List (Str × Str)) (key : Str) : Option Str :=
  (obj.reverse.find? (fun p => p.1 == key)).map (fun p => p.2)

/-- The trimmed text a row holds in the column `key`, as the row loop reads it
from `obj`; `none` when there is no such column. -/
def rowField (headers : List Str) (row : Str) (key : Str) : Option Str :=
  objGet (rowObject headers (splitOnChar ',' row)) key

/-- The operand chain `a || b || ''` on properties that are strings or
`undefined`. -/
def firstNonEmpty (a b : Option Str) : Str :=
  match a with
  | some (c :: cs) => c :: cs
  | _ =>
    match b with
    | some (c :: cs) => c :: cs
    | _ => []

/-- What one pass of the row loop does. -/
inductive RowResult where
  | skipped : RowResult
  | record (tx : ImportedTransaction) : RowResult
  | threw : RowResult
deriving DecidableEq

/-- The body of the row loop of `handleImportFile` for one row.  `threw`
stands for an exception leaving the loop: the TypeError of
`obj.type.toLowerCase()` on a missing `type`, or the RangeError of
`new Date(dateStr).toISOString()` on an invalid date. -/
def importRow (dateParse : Str → Option ℤ) (headers : List Str) (row : Str) : RowResult :=
  let cols := splitOnChar ',' row
  if cols.length < headers.length then RowResult.skipped
  else
    let obj := rowObject headers cols
    let amount : JSNum :=
      match objGet obj "amount".toList with
      | some s => parseFloatStr s
      | none => JSNum.nan
    match objGet obj "type".toList with
    | none => RowResult.threw
    | some rawType =>
      let type := toLowerCase rawType
      if amount.isNaN || (type != "income".toList && type != "expense".toList) then
        RowResult.skipped
      else
        let dateStr :=
          normalizeDateString
            (firstNonEmpty (objGet obj "datetime".toList) (objGet obj "date".toList))
        match dateOfString dateParse dateStr with
        | none => RowResult.threw
        | some occurredAt =>
          RowResult.record
            ⟨(match objGet obj "description".toList with
              | some (c :: cs) => c :: cs
              | _ => "Imported transaction".toList),
             amount, occurredAt, type,
             (match objGet obj "category".toList with
              | some (c :: cs) => some (c :: cs)
              | _ => none)⟩

/-- The state of the row loop: the records pushed so far and whether an
exception has ended it. -/
structure ImportRun where
  records : List ImportedTransaction
  threw : Bool
deriving DecidableEq

/-- The row loop `for (let i = 1; i < rows.length; i++)`, started with the
records pushed so far. -/
def importRows (dateParse : Str → Option ℤ) (headers : List Str) :
    List Str → List ImportedTransaction → ImportRun
  | [], acc => ⟨acc, false⟩
  | row :: rest, acc =>
    match importRow dateParse headers row with
    | RowResult.skipped => importRows dateParse headers rest acc
    | RowResult.record tx => importRows dateParse headers rest (acc ++ [tx])
    | RowResult.threw => ⟨acc, true⟩

/-- How a call of `handleImportFile` ends. -/
inductive ImportEnd where
  | notCsv : ImportEnd
  | emptyFile : ImportEnd
  | missingColumn (column : Str) : ImportEnd
  | threw : ImportEnd
  | noValidTransactions : ImportEnd
  | preview : ImportEnd
deriving DecidableEq

/-- The module variable `importedTransactions` after a call, and how the call
ended. -/
structure ImportResult where
  importedTransactions : List ImportedTransaction
  ending : ImportEnd
deriving DecidableEq

/-- `handleImportFile` from the point where `rows` has been computed. -/
def handleImportRows (dateParse : Str → Option ℤ) (previous : List ImportedTransaction)
    (rows : List Str) : ImportResult :=
  if rows.length < 2 then ⟨previous, ImportEnd.emptyFile⟩
  else
    match rows with
    | [] => ⟨previous, ImportEnd.emptyFile⟩
    | headerRow :: dataRows =>
      let headers := csvHeaders headerRow
      match requiredColumns.find? (fun req => !headers.contains req) with
      | some req => ⟨previous, ImportEnd.missingColumn req⟩
      | none =>
        let run := importRows dateParse headers dataRows []
        if run.threw then ⟨run.records, ImportEnd.threw⟩
        else if run.records.length == 0 then ⟨run.records, ImportEnd.noValidTransactions⟩
        else ⟨run.records, ImportEnd.preview⟩

/-- `handleImportFile(file)`, given the file's name and text and the value of
`importedTransactions` before the call. -/
def handleImportFile (dateParse : Str → Option ℤ) (previous : List ImportedTransaction)
    (fileName text : Str) : ImportResult :=
  if !".csv".toList.isSuffixOf fileName then ⟨previous, ImportEnd.notCsv⟩
  else
    let rows := (splitLines text).filter (fun r => (trim r).length > 0)
    handleImportRows dateParse previous rows

/-! ## transactions.js

`parseTransactionDate`, `getDateKey`, `parseDateKey` and
`groupTransactionsByDate`. -/

/-- A value found where a date is expected: a `Date` object or a primitive. -/
inductive DateInput where
  | date (d : JSDate) : DateInput
  | prim (v : JSVal) : DateInput
deriving DecidableEq

/-- `ToNumber` of such a value, as the operator `-` applies it: a `Date` gives
its time value. -/
def DateInput.toNumber : DateInput → JSNum
  | DateInput.date (some t) => JSNum.num ((t : ℤ) : ℚ)
  | DateInput.date none => JSNum.nan
  | DateInput.prim v => v.toNumber

/-- An element of the `transactions` array, with the properties
`loadTransactions` gives it. -/
structure Transaction where
  id : Str
  title : JSVal
  description : JSVal
  amount : JSNum
  type : Str
  category : JSVal
  icon : Str
  date : DateInput
  timestamp : Str
  updatedBalance : JSVal
deriving DecidableEq

/-- The object spread `{ ...transaction, date: transactionDate }`. -/
def Transaction.withDate (tx : Transaction) (d : JSDate) : Transaction :=
  ⟨tx.id, tx.title, tx.description, tx.amount, tx.type, tx.category, tx.icon,
   DateInput.date d, tx.timestamp, tx.updatedBalance⟩

/-- `String.prototype.replace(/[zZ]$/, '')`. -/
def stripTrailingZ (s : Str) : Str :=
  match s.reverse with
  | c :: rest => if c = 'z' ∨ c = 'Z' then rest.reverse else s
  | [] => s

/-- The element of an array of numbers at an index, with the default of a
destructuring pattern for a missing element. -/
def partOr (parts : List JSNum) (i : ℕ) (dflt : JSNum) : JSNum :=
  (parts.get? i).getD dflt

/-- The fallback of `parseTransactionDate`: the components of the string,
split at `T`, `-` and `:`, are read as local time. -/
def manualDate (host : Host) (normalized : Str) : JSDate :=
  let pieces := splitOnChar 'T' (stripTrailingZ normalized)
  let datePart := pieces.headD []
  let timePart := (pieces.get? 1).getD "00:00:00".toList
  let dparts := (splitOnChar '-' datePart).map stringToNumber
  let tparts := (splitOnChar ':' timePart).map stringToNumber
  dateFromParts host (partOr dparts 0 JSNum.nan)
    (JSNum.sub (partOr dparts 1 (jsn 1)) (jsn 1)) (partOr dparts 2 (jsn 1))
    (partOr tparts 0 (jsn 0)) (partOr tparts 1 (jsn 0)) (partOr tparts 2 (jsn 0))

/-- `parseTransactionDate(value)`. -/
def parseTransactionDate (host : Host) (value : DateInput) : JSDate :=
  match value with
  | DateInput.date d => d.bind timeClip
  | DateInput.prim v =>
    if !v.truthy then some host.now
    else
      match v with
      | JSVal.num n => dateOfNumber n
      | JSVal.str s =>
        let trimmed := trim s
        if trimmed.isEmpty then some host.now
        else
          let normalized := normalizeDateString trimmed
          match dateOfString host.dateParse normalized with
          | some t => some t
          | none => manualDate host normalized
      | other => dateOfNumber other.toNumber

/-- `getDateKey(date)`. -/
def getDateKey (host : Host) (date : JSDate) : Str :=
  let year := numberToStr (getFullYear host date)
  let month := padStart2 (numberToStr ((getMonth host date).map (fun m => m + 1)))
  let day := padStart2 (numberToStr (getDate host date))
  year ++ '-' :: (month ++ '-' :: day)

/-- The tail of `parseDateKey`: `new Date(key)`, replaced by `new Date()` when
invalid. -/
def parseDateKeyFallback (host : Host) (key : DateInput) : JSDate :=
  let fallback : JSDate :=
    match key with
    | DateInput.date d => d.bind timeClip
    | DateInput.prim (JSVal.str s) => dateOfString host.dateParse s
    | DateInput.prim v => dateOfNumber v.toNumber
  match fallback with
  | some t => some t
  | none => some host.now

/-- `parseDateKey(key)`. -/
def parseDateKey (host : Host) (key : DateInput) : JSDate :=
  match key with
  | DateInput.date d => d.bind timeClip
  | DateInput.prim (JSVal.str s) =>
    match (splitOnChar '-' s).map stringToNumber with
    | [year, month, day] =>
      if !year.isNaN && !month.isNaN && !day.isNaN then
        dateFromParts host year (JSNum.sub month (jsn 1)) day (jsn 0) (jsn 0) (jsn 0)
      else parseDateKeyFallback host key
    | _ => parseDateKeyFallback host key
  | _ => parseDateKeyFallback host key

/-- `Array.prototype.sort(compareFn)`, one insertion: `x` goes in front of the
first element it does not compare greater than (a NaN result counts as 0). -/
def sortInsert {α : Type} (cmp : α → α → JSNum) (x : α) : List α → List α
  | [] => [x]
  | y :: ys => if (cmp x y).gt (jsn 0) then y :: sortInsert cmp x ys else x :: y :: ys

/-- `Array.prototype.sort(compareFn)` as a stable insertion sort.  For a
comparator that is a consistent ordering every conforming engine returns this
same array. -/
def jsSort {α : Type} (cmp : α → α → JSNum) : List α → List α
  | [] => []
  | x :: xs => sortInsert cmp x (jsSort cmp xs)

/-- One pass of the `forEach` of `groupTransactionsByDate` on the object
`grouped`, held as the list of its properties in creation order: the
transaction is pushed onto the array under `key`, created if need be. -/
def groupPush (grouped : List (Str × List Transaction)) (key : Str) (tx : Transaction) :
    List (Str × List Transaction) :=
  match grouped with
  | [] => [(key, [tx])]
  | (k, txs) :: rest =>
    if k = key then (k, txs ++ [tx]) :: rest else (k, txs) :: groupPush rest key tx

/-- The object `grouped` after the `forEach`. -/
def groupByKey (host : Host) (transactions : List Transaction) :
    List (Str × List Transaction) :=
  transactions.foldl (fun grouped transaction =>
    let transactionDate := parseTransactionDate host transaction.date
    let dateKey := getDateKey host transactionDate
    groupPush grouped dateKey (transaction.withDate transactionDate)) []

/-- The comparator of the key sort, `dateB - dateA`. -/
def compareKeys (host : Host) (a b : Str) : JSNum :=
  dateDiff (parseDateKey host (DateInput.prim (JSVal.str b)))
    (parseDateKey host (DateInput.prim (JSVal.str a)))

/-- The comparator of the sort inside a group, `b.date - a.date`. -/
def compareByDate (a b : Transaction) : JSNum :=
  JSNum.sub b.date.toNumber a.date.toNumber

/-- `groupTransactionsByDate(transactions)`: the object returned, as the list
of its properties in the order `Object.keys` enumerates them.  (Every key has
the form `year-month-day`, so none is an array index and the enumeration order
is the creation order.) -/
def groupTransactionsByDate (host : Host) (transactions : List Transaction) :
    List (Str × List Transaction) :=
  let grouped := groupByKey host transactions
  let sortedKeys := jsSort (compareKeys host) (grouped.map Prod.fst)
  sortedKeys.map (fun key => (key, jsSort compareByDate ((grouped.lookup key).getD [])))

/-! ### Notions used to state the properties of the grouping -/

/-- The time value of the date of a grouped transaction; `none` when the date
is invalid. -/
def transactionTime (x : Transaction) : Option ℤ :=
  match x.date with
  | DateInput.date d => d
  | DateInput.prim _ => none

/-- The local day number of the date of a grouped transaction. -/
def transactionDay (host : Host) (x : Transaction) : Option ℤ :=
  (transactionTime x).map (localDay host)

/-- What holds of every host: the zone offset is less than a day and the clock
shows a time value a `Date` can hold. -/
def Host.sane (host : Host) : Prop :=
  (-msPerDay ≤ host.tzOffset ∧ host.tzOffset ≤ msPerDay) ∧
  (-maxTime ≤ host.now ∧ host.now ≤ maxTime)

instance (host : Host) : Decidable host.sane := by
  unfold Host.sane
  infer_instance

/-- A transaction for worked examples, with the given id and date. -/
def sampleTransaction (id : Str) (date : DateInput) : Transaction :=
  ⟨id, JSVal.str "Coffee".toList, JSVal.str "Coffee".toList, jsn (9 / 2), "expense".toList,
   JSVal.str "Food".toList, "🍔".toList, date, "10:00 AM".toList, JSVal.undefined⟩

/-! ## category-service.js and goal-service.js

`categoryService.validateCategoryName` and `goalService.validateGoalData`. -/

/-- The object a validator returns. -/
structure Validation where
  isValid : Bool
  errors : List String
deriving DecidableEq

/-- `String.prototype.length`: the number of UTF-16 code units. -/
def utf16Length (s : Str) : ℕ :=
  (s.map (fun c => if c.toNat < 0x10000 then 1 else 2)).sum

/-- The test `!v || v.trim().length === 0` on a name; `none` stands for the
TypeError raised when a truthy value that is no string is asked for `trim`. -/
def isBlankName (v : JSVal) : Option Bool :=
  if !v.truthy then some true
  else
    match v with
    | JSVal.str s => some (utf16Length (trim s) == 0)
    | _ => none

/-- The property `length` of a primitive: defined on strings only. -/
def lengthOf : JSVal → Option ℕ
  | JSVal.str s => some (utf16Length s)
  | _ => none

/-- `categoryService.validateCategoryName(name)`; `none` stands for a
TypeError. -/
def validateCategoryName (name : JSVal) : Option Validation :=
  match isBlankName name with
  | none => none
  | some blank =>
    let errors0 : List String := []
    let errors1 : List String :=
      if blank then errors0 ++ ["Category name is required"] else errors0
    let tooLong : Bool :=
      name.truthy &&
        (match lengthOf name with
         | some n => decide (255 < n)
         | none => false)
    let errors2 : List String :=
      if tooLong then errors1 ++ ["Category name must be less than 255 characters"] else errors1
    some ⟨errors2.length == 0, errors2⟩

/-- The payload of the goal form. -/
structure GoalData where
  name : JSVal
  targetAmount : JSVal
  dueDate : JSVal
  description : JSVal

/-- `new Date(value)` for a primitive: a string is parsed, anything else is
converted to a number. -/
def dateOfValue (host : Host) : JSVal → JSDate
  | JSVal.str s => dateOfString host.dateParse s
  | v => dateOfNumber v.toNumber

/-- The time value of a `Date` as a number, NaN when invalid. -/
def dateValue : JSDate → JSNum
  | some t => JSNum.num ((t : ℤ) : ℚ)
  | none => JSNum.nan

/-- `new Date()` followed by `setHours(0, 0, 0, 0)`: local midnight of the
current day. -/
def startOfToday (host : Host) : JSDate :=
  timeClip (localDay host host.now * msPerDay - host.tzOffset)

/-- `goalService.validateGoalData(goalData)`; `none` stands for a TypeError. -/
def validateGoalData (host : Host) (goalData : GoalData) : Option Validation :=
  match isBlankName goalData.name with
  | none => none
  | some blank =>
    let errors0 : List String := []
    let errors1 : List String :=
      if blank then errors0 ++ ["Goal name is required"] else errors0
    let errors2 : List String :=
      if !goalData.targetAmount.truthy || goalData.targetAmount.toNumber.le (jsn 0) then
        errors1 ++ ["Target amount must be greater than 0"]
      else errors1
    let errors3 : List String :=
      if !goalData.dueDate.truthy then errors2 ++ ["Due date is required"]
      else
        let dueDate := dateOfValue host goalData.dueDate
        let today := startOfToday host
        if (dateValue dueDate).lt (dateValue today) then
          errors2 ++ ["Due date must be in the future"]
        else errors2
    some ⟨errors3.length == 0, errors3⟩

/-- A host on UTC whose clock shows 12:00 on 15 June 2024. -/
def utcNoonHost : Host := ⟨0, 1718452800000, sampleDateParse⟩

/-! ## coin-system.js, continued

`CoinSystem.earnCoins` and sequences of calls. -/

/-- How the server answers `POST /api/budgetcoin/grant`. -/
inductive GrantReply where
  | networkError : GrantReply
  | httpError : GrantReply
  | badBody : GrantReply
  | ok (balanceAfter : JSVal) : GrantReply
deriving DecidableEq

/-- How a call of `earnCoins` ends: it returns `null`, returns the parsed
response body, or rethrows the error caught in its `catch` block. -/
inductive EarnResult where
  | null : EarnResult
  | threw : EarnResult
  | data (balanceAfter : JSVal) : EarnResult
deriving DecidableEq

/-- The observable actions of `earnCoins`, in program order. -/
inductive EarnEffect where
  | grantRequest (amount : JSNum) : EarnEffect
  | displayUpdate (balance : JSNum) : EarnEffect
  | earningNotification (amount : JSNum) : EarnEffect
  | pulseBalance : EarnEffect
  | balanceEvent (balance : JSNum) : EarnEffect
deriving DecidableEq

/-- `CoinSystem.earnCoins(amount, reason, options)` for a numeric amount: how
the call ends, the state afterwards and the actions performed. -/
def earnCoins (self : CoinSystem) (session : SessionLookup) (reply : GrantReply)
    (amount : JSNum) : EarnResult × CoinSystem × List EarnEffect :=
  if !amount.truthy || amount.le (jsn 0) then (EarnResult.null, self, [])
  else
    match session with
    | SessionLookup.parseError => (EarnResult.threw, self, [])
    | SessionLookup.found hasUserId hasToken =>
      if !hasUserId || !hasToken then (EarnResult.null, self, [])
      else
        match reply with
        | GrantReply.networkError => (EarnResult.threw, self, [EarnEffect.grantRequest amount])
        | GrantReply.httpError => (EarnResult.threw, self, [EarnEffect.grantRequest amount])
        | GrantReply.badBody => (EarnResult.threw, self, [EarnEffect.grantRequest amount])
        | GrantReply.ok balanceAfter =>
          let newBalance : JSNum :=
            if balanceAfter ≠ JSVal.undefined ∧ balanceAfter ≠ JSVal.null then balanceAfter.toNumber
            else JSNum.fadd self.currentBalance amount
          (EarnResult.data balanceAfter, ⟨newBalance, some newBalance⟩,
            [EarnEffect.grantRequest amount, EarnEffect.displayUpdate newBalance,
             EarnEffect.earningNotification amount, EarnEffect.pulseBalance,
             EarnEffect.balanceEvent newBalance])

/-- One call of either method, together with what its surroundings answer. -/
inductive CoinCall where
  | earn (session : SessionLookup) (reply : GrantReply) (amount : JSNum) : CoinCall
  | spend (session : SessionLookup) (reply : RedeemReply) (payload : SpendPayload) : CoinCall

/-- The state after one call. -/
def CoinCall.run (self : CoinSystem) : CoinCall → CoinSystem
  | CoinCall.earn session reply amount => (earnCoins self session reply amount).2.1
  | CoinCall.spend session reply payload => (spendCoins self session reply payload).2.1

/-- Whether the session look-up finds both the user id and the token. -/
def SessionLookup.live : SessionLookup → Bool
  | SessionLookup.found true true => true
  | _ => false

/-- Whether the grant was answered with a 2xx status and a JSON body. -/
def GrantReply.isOk : GrantReply → Bool
  | GrantReply.ok _ => true
  | _ => false

/-- Whether the redemption was answered with a 2xx status and a JSON body. -/
def RedeemReply.isOk : RedeemReply → Bool
  | RedeemReply.ok _ => true
  | _ => false

/-- The calls that go without a server confirmation: a grant whose amount is
missing (zero, NaN) or not positive, a redemption that names no item, a call
without a user session, and a call the server does not answer with a 2xx status
and a body. -/
def CoinCall.unconfirmed : CoinCall → Bool
  | CoinCall.earn session reply amount =>
    !amount.truthy || amount.le (jsn 0) || !session.live || !reply.isOk
  | CoinCall.spend session reply payload =>
    !(spendRequest payload).1.truthy || !session.live || !reply.isOk

/-- A number that is a non-negative integer. -/
def isCoinCount (n : JSNum) : Prop := ∃ k : ℕ, n = JSNum.num (k : ℚ)

/-- What a balance made of coin counts can be: a non-negative integer, or the
infinity a sum beyond the range of the Number type gives. -/
def isCoinBalance (n : JSNum) : Prop := isCoinCount n ∨ n = JSNum.pinf

/-- A call whose confirmation, if it gets one, keeps the balance a
non-negative integer: the response carries a `balanceAfter` that converts to a
non-negative integer, or carries none while the amount of the call is an
integer. -/
def CoinCall.integral : CoinCall → Prop
  | CoinCall.earn _ (GrantReply.ok balanceAfter) amount =>
    if balanceAfter ≠ JSVal.undefined ∧ balanceAfter ≠ JSVal.null then
      isCoinCount balanceAfter.toNumber
    else ∃ z : ℤ, amount = JSNum.num (z : ℚ)
  | CoinCall.spend _ (RedeemReply.ok balanceAfter) payload =>
    if balanceAfter ≠ JSVal.undefined ∧ balanceAfter ≠ JSVal.null then
      isCoinCount balanceAfter.toNumber
    else ∃ z : ℤ,
      ((spendRequest payload).2.coalesce (JSVal.num (jsn 0))).toNumber = JSNum.num (z : ℚ)
  | _ => True

/-! ### Calls that overlap

Both methods are `async`: a call runs up to `await fetch`, and the rest runs
when the response has arrived.  The callers of `earnCoins` do not await it,
and nothing keeps a second call from starting while one is pending. -/

/-- A call that has sent its request and awaits the response, with the local
variable the rest of the call reads. -/
inductive PendingCoinCall where
  | grant (amount : JSNum) : PendingCoinCall
  | redeem (spendAmount : JSNum) : PendingCoinCall
deriving DecidableEq

/-- The part of `earnCoins` before `await fetch`: `none` when the call ends
there, without a request. -/
def earnCoinsStart (session : SessionLookup) (amount : JSNum) : Option PendingCoinCall :=
  if !amount.truthy || amount.le (jsn 0) then none
  else
    match session with
    | SessionLookup.parseError => none
    | SessionLookup.found hasUserId hasToken =>
      if !hasUserId || !hasToken then none else some (PendingCoinCall.grant amount)

/-- The part of `spendCoins` before `await fetch`, which tests the balance of
that moment. -/
def spendCoinsStart (self : CoinSystem) (session : SessionLookup) (payload : SpendPayload) :
    Option PendingCoinCall :=
  let request := spendRequest payload
  let spendAmount := (request.2.coalesce (JSVal.num (jsn 0))).toNumber
  if !request.1.truthy then none
  else if self.currentBalance.lt spendAmount then none
  else
    match session with
    | SessionLookup.parseError => none
    | SessionLookup.found hasUserId hasToken =>
      if !hasUserId || !hasToken then none else some (PendingCoinCall.redeem spendAmount)

/-- The part of `earnCoins` after the response: the state it leaves, from the
state of that moment. -/
def earnCoinsFinish (self : CoinSystem) (reply : GrantReply) (amount : JSNum) : CoinSystem :=
  match reply with
  | GrantReply.ok balanceAfter =>
    let newBalance : JSNum :=
      if balanceAfter ≠ JSVal.undefined ∧ balanceAfter ≠ JSVal.null then balanceAfter.toNumber
      else JSNum.fadd self.currentBalance amount
    ⟨newBalance, some newBalance⟩
  | _ => self

/-- The part of `spendCoins` after the response. -/
def spendCoinsFinish (self : CoinSystem) (reply : RedeemReply) (spendAmount : JSNum) :
    CoinSystem :=
  match reply with
  | RedeemReply.ok balanceAfter =>
    let newBalance : JSNum :=
      if balanceAfter ≠ JSVal.undefined ∧ balanceAfter ≠ JSVal.null then balanceAfter.toNumber
      else JSNum.fsub self.currentBalance spendAmount
    ⟨newBalance, some newBalance⟩
  | _ => self

/-- What happens to the coin system: a method is called, or the response to
the pending call at a position arrives. -/
inductive CoinEvent where
  | earnCalled (session : SessionLookup) (amount : JSNum) : CoinEvent
  | spendCalled (session : SessionLookup) (payload : SpendPayload) : CoinEvent
  | grantAnswered (index : ℕ) (reply : GrantReply) : CoinEvent
  | redeemAnswered (index : ℕ) (reply : RedeemReply) : CoinEvent

/-- The coin system together with the calls that await their response. -/
structure CoinRun where
  system : CoinSystem
  pending : List PendingCoinCall
deriving DecidableEq

/-- One event; a response for which no call of its kind is pending at the
position does nothing. -/
def coinStep (r : CoinRun) : CoinEvent → CoinRun
  | CoinEvent.earnCalled session amount =>
    match earnCoinsStart session amount with
    | some p => ⟨r.system, r.pending ++ [p]⟩
    | none => r
  | CoinEvent.spendCalled session payload =>
    match spendCoinsStart r.system session payload with
    | some p => ⟨r.system, r.pending ++ [p]⟩
    | none => r
  | CoinEvent.grantAnswered index reply =>
    match r.pending.get? index with
    | some (PendingCoinCall.grant amount) =>
      ⟨earnCoinsFinish r.system reply amount, r.pending.eraseIdx index⟩
    | _ => r
  | CoinEvent.redeemAnswered index reply =>
    match r.pending.get? index with
    | some (PendingCoinCall.redeem spendAmount) =>
      ⟨spendCoinsFinish r.system reply spendAmount, r.pending.eraseIdx index⟩
    | _ => r

/-- The state after a sequence of events. -/
def runCoinEvents (r : CoinRun) (events : List CoinEvent) : CoinRun :=
  events.foldl coinStep r

/-- The two events of a call that is awaited: the call, then its response. -/
def CoinCall.events : CoinCall → List CoinEvent
  | CoinCall.earn session reply amount =>
    [CoinEvent.earnCalled session amount, CoinEvent.grantAnswered 0 reply]
  | CoinCall.spend session reply payload =>
    [CoinEvent.spendCalled session payload, CoinEvent.redeemAnswered 0 reply]

/-- The events of a sequence of calls each of which is awaited before the
next is made. -/
def sequentialEvents (calls : List CoinCall) : List CoinEvent :=
  calls.flatMap CoinCall.events

/-- An event that keeps the balance a non-negative integer whatever calls
overlap: a grant is called with an integer amount, a confirming response to a
grant carries no `balanceAfter` or one that converts to a non-negative
integer, and a confirming response to a redemption carries a `balanceAfter`
that converts to a non-negative integer. -/
def CoinEvent.integral : CoinEvent → Prop
  | CoinEvent.earnCalled _ amount => ∃ z : ℤ, amount = JSNum.num (z : ℚ)
  | CoinEvent.grantAnswered _ (GrantReply.ok balanceAfter) =>
    (balanceAfter ≠ JSVal.undefined ∧ balanceAfter ≠ JSVal.null) →
      isCoinCount balanceAfter.toNumber
  | CoinEvent.redeemAnswered _ (RedeemReply.ok balanceAfter) =>
    (balanceAfter ≠ JSVal.undefined ∧ balanceAfter ≠ JSVal.null) ∧
      isCoinCount balanceAfter.toNumber
  | _ => True

/-- What holds of the calls that await a response when every event so far was
integral: a pending grant has a positive integer amount. -/
def PendingCoinCall.integral : PendingCoinCall → Prop
  | PendingCoinCall.grant amount => ∃ z : ℤ, 0 < z ∧ amount = JSNum.num (z : ℚ)
  | PendingCoinCall.redeem _ => True

/-! ## transactions.js: filters

`applyFilters` and `filterByDate`. -/

/-- The module variable `currentFilters`; the handlers store strings. -/
structure Filters where
  search : Str
  category : Str
  type : Str
  date : Str
deriving DecidableEq

/-- `String.prototype.includes` for a string argument. -/
def includes (s sub : Str) : Bool := s.tails.any (fun t => sub.isPrefixOf t)

/-- `(v || '').toLowerCase()`; `none` stands for the TypeError raised when `v`
is truthy and no string. -/
def lowerOrEmpty (v : JSVal) : Option Str :=
  match v.or (JSVal.str []) with
  | JSVal.str s => some (toLowerCase s)
  | _ => none

/-- A date field read with `getFullYear`, `getMonth` or `getDate`, as a
number. -/
def fieldValue : Option ℤ → JSNum
  | some i => JSNum.num ((i : ℤ) : ℚ)
  | none => JSNum.nan

/-- The operator `===` on two date fields: NaN equals nothing. -/
def fieldEq : Option ℤ → Option ℤ → Bool
  | some a, some b => decide (a = b)
  | _, _ => false

/-- `new Date(now.getFullYear(), now.getMonth(), now.getDate())` for
`now = new Date()`. -/
def todayOf (host : Host) : JSDate :=
  let now : JSDate := some host.now
  dateFromParts host (fieldValue (getFullYear host now)) (fieldValue (getMonth host now))
    (fieldValue (getDate host now)) (jsn 0) (jsn 0) (jsn 0)

/-- `filterByDate(transactionDate, filter)`; `none` stands for the TypeError
raised when `getMonth` or `getFullYear` is called on a value that is no
`Date`. -/
def filterByDate (host : Host) (transactionDate : DateInput) (filter : Str) : Option Bool :=
  let now : JSDate := some host.now
  let today := todayOf host
  if filter = "today".toList then
    some (transactionDate.toNumber.ge (dateValue today))
  else if filter = "week".toList then
    let weekAgo : JSDate := dateOfNumber (JSNum.sub (dateValue today) (jsn (7 * 24 * 60 * 60 * 1000)))
    some (transactionDate.toNumber.ge (dateValue weekAgo))
  else if filter = "month".toList then
    match transactionDate with
    | DateInput.date d =>
      some (fieldEq (getMonth host d) (getMonth host now) &&
        fieldEq (getFullYear host d) (getFullYear host now))
    | DateInput.prim _ => none
  else if filter = "year".toList then
    match transactionDate with
    | DateInput.date d => some (fieldEq (getFullYear host d) (getFullYear host now))
    | DateInput.prim _ => none
  else some true

/-- The callback `applyFilters` hands to `transactions.filter`; `none` stands
for a TypeError. -/
def matchesFilters (host : Host) (currentFilters : Filters) (transaction : Transaction) :
    Option Bool :=
  match lowerOrEmpty transaction.title, lowerOrEmpty transaction.description with
  | some title, some description =>
    let matchesSearch : Bool :=
      currentFilters.search.isEmpty || includes title currentFilters.search ||
        includes description currentFilters.search
    match lowerOrEmpty transaction.category with
    | some lowered =>
      let transactionCategory := trim lowered
      let selectedCategory := trim (toLowerCase currentFilters.category)
      let matchesCategory : Bool :=
        selectedCategory.isEmpty || decide (transactionCategory = selectedCategory)
      let matchesType : Bool :=
        currentFilters.type.isEmpty || decide (transaction.type = currentFilters.type)
      match filterByDate host transaction.date currentFilters.date with
      | some matchesDate => some (matchesSearch && matchesCategory && matchesType && matchesDate)
      | none => none
    | none => none
  | _, _ => none

/-- `transactions.filter(callback)` with that callback: the elements it
accepts, in order; `none` when a call of it throws. -/
def filterTransactions (host : Host) (currentFilters : Filters) :
    List Transaction → Option (List Transaction)
  | [] => some []
  | t :: ts =>
    match matchesFilters host currentFilters t with
    | none => none
    | some keep =>
      match filterTransactions host currentFilters ts with
      | none => none
      | some rest => some (if keep then t :: rest else rest)

/-! ## transactions.js: rendering

What `renderTransactions` puts into the `#transactions-list` element, as a
tree of the texts and attributes that vary. -/

/-- The text `toLocaleDateString('en-US', options)` gives, by the fields it
shows: month and day, with the year when `year: 'numeric'` is asked for. -/
inductive DateText where
  | invalid : DateText
  | monthDay (month day : ℤ) : DateText
  | monthDayYear (month day year : ℤ) : DateText
deriving DecidableEq

/-- `date.toLocaleDateString('en-US', ...)` with the options `month: 'short'`,
`day: 'numeric'` and, if `withYear`, `year: 'numeric'`. -/
def toLocaleDateString (host : Host) (date : JSDate) (withYear : Bool) : DateText :=
  match getFullYear host date, getMonth host date, getDate host date with
  | some y, some m, some d => if withYear then DateText.monthDayYear m d y else DateText.monthDay m d
  | _, _, _ => DateText.invalid

/-- Whether `a.toDateString() === b.toDateString()`: the two texts name the
same local day, or both read `Invalid Date`. -/
def sameDateString (host : Host) (a b : JSDate) : Bool :=
  decide ((getFullYear host a, getMonth host a, getDate host a) =
    (getFullYear host b, getMonth host b, getDate host b))

/-- The text of a date header: a lead (`Today, `, `Yesterday, ` or nothing)
followed by a date. -/
structure HeaderLabel where
  lead : String
  date : DateText
deriving DecidableEq

/-- `formatDateHeader(dateString)`. -/
def formatDateHeader (host : Host) (dateString : Str) : HeaderLabel :=
  let date := parseDateKey host (DateInput.prim (JSVal.str dateString))
  let today : JSDate := some host.now
  let yesterday : JSDate :=
    dateOfNumber (JSNum.sub (dateValue today) (jsn (24 * 60 * 60 * 1000)))
  if sameDateString host date today then ⟨"Today, ", toLocaleDateString host date false⟩
  else if sameDateString host date yesterday then
    ⟨"Yesterday, ", toLocaleDateString host date false⟩
  else ⟨"", toLocaleDateString host date true⟩

/-- The object literal `categoryMap` of `getCategoryName`. -/
def categoryMap : List (Str × Str) :=
  [("food".toList, "Food & Dining".toList),
   ("transport".toList, "Transportation".toList),
   ("transportation".toList, "Transportation".toList),
   ("shopping".toList, "Shopping".toList),
   ("entertainment".toList, "Entertainment".toList),
   ("bills".toList, "Bills & Utilities".toList),
   ("utilities".toList, "Utilities".toList),
   ("income".toList, "Income".toList),
   ("education".toList, "Education".toList),
   ("health".toList, "Health".toList),
   ("fitness".toList, "Fitness".toList),
   ("rent".toList, "Rent".toList),
   ("housing".toList, "Housing".toList),
   ("groceries".toList, "Groceries".toList),
   ("other".toList, "Other".toList),
   ("uncategorized".toList, "Uncategorized".toList)]

/-- The text a template literal shows for the two properties an object
literal inherits under a lower-case name: the function `Object` and the
object `Object.prototype`. -/
def inheritedText (key : Str) : Option Str :=
  if key = "constructor".toList then some "function Object() \x7b [native code] \x7d".toList
  else if key = "__proto__".toList then some "[object Object]".toList
  else none

/-- `map[key] || dflt` for an object literal `map` with non-empty string
values, as a template literal shows the result. -/
def lookupOr (map : List (Str × Str)) (key dflt : Str) : Str :=
  match map.lookup key with
  | some v => v
  | none =>
    match inheritedText key with
    | some text => text
    | none => dflt

/-- `getCategoryName(category)`, as the template literal of
`createTransactionElement` shows it; `none` stands for the TypeError raised
when `category` is truthy and no string. -/
def getCategoryName (category : JSVal) : Option Str :=
  if !category.truthy then some "Uncategorized".toList
  else
    match category with
    | JSVal.str (c :: cs) =>
      if includes (c :: cs) " ".toList || decide (c = c.toUpper) then some (c :: cs)
      else some (lookupOr categoryMap (toLowerCase (c :: cs)) (c :: cs))
    | _ => none

/-- The parts of a transaction row that `createTransactionElement` fills in. -/
structure RenderedItem where
  type : Str
  iconBackground : String
  icon : Str
  title : JSVal
  categoryName : Str
  formattedDate : DateText
  sign : Char
  amount : JSNum
deriving DecidableEq

/-- `createTransactionElement(transaction)`; the amount is shown with two
decimals. -/
def createTransactionElement (host : Host) (transaction : Transaction) : Option RenderedItem :=
  let isIncome : Bool := decide (transaction.type = "income".toList)
  let iconBg : String := if isIncome then "#d1fae5" else "#fee2e2"
  match getCategoryName transaction.category with
  | none => none
  | some categoryName =>
    let formattedDate :=
      toLocaleDateString host (parseTransactionDate host transaction.date) true
    some ⟨transaction.type, iconBg, transaction.icon, transaction.description, categoryName,
      formattedDate, if transaction.type = "income".toList then '+' else '-', transaction.amount⟩

/-- A `transaction-date-group` element: its header and its rows. -/
structure RenderedGroup where
  header : HeaderLabel
  items : List RenderedItem
deriving DecidableEq

/-- What the scripts put into the `#transactions-list` element: the date
groups appended by `renderTransactions` (none after `innerHTML = ''`), the
"No transactions yet" block, or the error block with its Retry button. -/
inductive ListContent where
  | groups (gs : List RenderedGroup) : ListContent
  | noTransactions : ListContent
  | loadError : ListContent
deriving DecidableEq

/-- The rows of one group, `none` when `createTransactionElement` throws. -/
def renderItems (host : Host) : List Transaction → Option (List RenderedItem)
  | [] => some []
  | t :: ts =>
    match createTransactionElement host t with
    | none => none
    | some item =>
      match renderItems host ts with
      | none => none
      | some items => some (item :: items)

/-- The loop over `Object.keys(groupedTransactions)`: the groups appended to
the container and whether the loop was left by an exception; a group is
appended after its rows are built. -/
def renderGroups (host : Host) : List (Str × List Transaction) → List RenderedGroup × Bool
  | [] => ([], false)
  | (dateKey, ts) :: rest =>
    match renderItems host ts with
    | none => ([], true)
    | some items =>
      let r := renderGroups host rest
      (⟨formatDateHeader host dateKey, items⟩ :: r.1, r.2)

/-! ## transactions.js: the page

The module variables and the elements the functions write to. -/

/-- An element the functions look up before writing to it: absent from the
page, still as the page was served, or showing what a function wrote. -/
inductive Slot (α : Type) where
  | absent : Slot α
  | served : Slot α
  | shows (a : α) : Slot α
deriving DecidableEq

/-- An assignment to the content of an element, guarded by `if (element)`. -/
def Slot.write {α : Type} (s : Slot α) (a : α) : Slot α :=
  match s with
  | Slot.absent => Slot.absent
  | _ => Slot.shows a

/-- The module variables `transactions`, `filteredTransactions` and
`currentFilters`, the `#transactions-list` element, the `.transaction-count`
element (the number before the word "transactions") and the four summary
cards (amounts are shown with two decimals). -/
structure TransactionsPage where
  transactions : List Transaction
  filteredTransactions : List Transaction
  currentFilters : Filters
  list : Slot ListContent
  countElement : Slot ℕ
  incomeCard : Slot JSNum
  expenseCard : Slot JSNum
  balanceCard : Slot JSNum
  transactionCard : Slot ℕ
deriving DecidableEq

/-- `renderTransactions()`: the page afterwards and whether the call was left
by an exception. -/
def renderTransactions (host : Host) (page : TransactionsPage) : TransactionsPage × Bool :=
  match page.list with
  | Slot.absent => (page, false)
  | _ =>
    if page.filteredTransactions.length = 0 then
      ({ page with list := Slot.shows ListContent.noTransactions }, false)
    else
      let groupedTransactions := groupTransactionsByDate host page.filteredTransactions
      let r := renderGroups host groupedTransactions
      ({ page with list := Slot.shows (ListContent.groups r.1) }, r.2)

/-- `updateTransactionCount()`. -/
def updateTransactionCount (page : TransactionsPage) : TransactionsPage :=
  { page with countElement := page.countElement.write page.filteredTransactions.length }

/-- `applyFilters()`: the page afterwards and whether the call was left by an
exception. -/
def applyFilters (host : Host) (page : TransactionsPage) : TransactionsPage × Bool :=
  match filterTransactions host page.currentFilters page.transactions with
  | none => (page, true)
  | some visible =>
    let rendered := renderTransactions host { page with filteredTransactions := visible }
    if rendered.2 then (rendered.1, true) else (updateTransactionCount rendered.1, false)

/-- `list.filter(t => t.type === type).reduce((sum, t) => sum + t.amount, 0)`. -/
def sumOfType (type : Str) (list : List Transaction) : JSNum :=
  (list.filter (fun t => decide (t.type = type))).foldl (fun sum t => JSNum.add sum t.amount)
    (jsn 0)

/-- `updateSummary()`. -/
def updateSummary (page : TransactionsPage) : TransactionsPage :=
  let income := sumOfType "income".toList page.transactions
  let expenses := sumOfType "expense".toList page.transactions
  let balance := JSNum.sub income expenses
  { page with
    incomeCard := page.incomeCard.write income
    expenseCard := page.expenseCard.write expenses
    balanceCard := page.balanceCard.write balance
    transactionCard := page.transactionCard.write page.transactions.length }

/-- The object literal `iconMap` of `getCategoryIcon`. -/
def iconMap : List (Str × Str) :=
  [("food".toList, "🍔".toList),
   ("food & dining".toList, "🍔".toList),
   ("groceries".toList, "🛒".toList),
   ("transport".toList, "🚗".toList),
   ("transportation".toList, "🚗".toList),
   ("shopping".toList, "🛍️".toList),
   ("entertainment".toList, "🎮".toList),
   ("education".toList, "📚".toList),
   ("health".toList, "🏥".toList),
   ("fitness".toList, "💪".toList),
   ("utilities".toList, "💡".toList),
   ("bills".toList, "🏠".toList),
   ("bills & utilities".toList, "💡".toList),
   ("rent".toList, "🏠".toList),
   ("housing".toList, "🏠".toList),
   ("income".toList, "💰".toList),
   ("other".toList, "💸".toList),
   ("uncategorized".toList, "💸".toList)]

/-- `getCategoryIcon(categoryName)`, as a template literal shows the result;
`none` stands for the TypeError raised when `categoryName` is truthy and no
string. -/
def getCategoryIcon (categoryName : JSVal) : Option Str :=
  match lowerOrEmpty categoryName with
  | none => none
  | some lowered => some (lookupOr iconMap (trim lowered) "💸".toList)

/-- `date.toLocaleTimeString('en-US', ...)` with the options `hour: 'numeric'`,
`minute: '2-digit'` and `hour12: true`, the day period set off by a space. -/
def toLocaleTimeString (host : Host) (date : JSDate) : Str :=
  match date with
  | none => "Invalid Date".toList
  | some t =>
    let msOfDay : ℤ := (t + host.tzOffset) % msPerDay
    let hour : ℤ := msOfDay / 3600000
    let minute : ℤ := msOfDay / 60000 % 60
    let hour12 : ℤ := if hour % 12 = 0 then 12 else hour % 12
    intToStr hour12 ++ ':' :: (padStart2 (intToStr minute) ++
      (if hour < 12 then " AM".toList else " PM".toList))

/-- An element of the arrays `GET /api/income` and `GET /api/expenses` answer
with, by the properties `loadTransactions` reads. -/
structure ApiRecord where
  description : JSVal
  amount : JSVal
  categoryName : JSVal
  occurredAt : JSVal
  createdAt : JSVal
  updatedBalance : JSVal
deriving DecidableEq

/-- The callback of `incomeData.map`; `Date.now()` is read off the host
clock. -/
def incomeTransaction (host : Host) (income : ApiRecord) (index : ℕ) : Transaction :=
  let occurredAt := parseTransactionDate host (DateInput.prim (income.occurredAt.or income.createdAt))
  { id := "income-".toList ++ natToStr index ++ '-' :: intToStr host.now
    title := income.description
    description := income.description
    amount := income.amount.parseFloat
    type := "income".toList
    category := income.categoryName.or (JSVal.str "Income".toList)
    icon := "💰".toList
    date := DateInput.date occurredAt
    timestamp := toLocaleTimeString host occurredAt
    updatedBalance := income.updatedBalance }

/-- The callback of `expenseData.map`; `none` when `getCategoryIcon` throws. -/
def expenseTransaction (host : Host) (expense : ApiRecord) (index : ℕ) : Option Transaction :=
  let occurredAt :=
    parseTransactionDate host (DateInput.prim (expense.occurredAt.or expense.createdAt))
  match getCategoryIcon (expense.categoryName.or (JSVal.str "Uncategorized".toList)) with
  | none => none
  | some icon =>
    some
      { id := "expense-".toList ++ natToStr index ++ '-' :: intToStr host.now
        title := expense.description
        description := expense.description
        amount := expense.amount.parseFloat
        type := "expense".toList
        category := expense.categoryName.or (JSVal.str "Uncategorized".toList)
        icon := icon
        date := DateInput.date occurredAt
        timestamp := toLocaleTimeString host occurredAt
        updatedBalance := expense.updatedBalance }

/-- `incomeData.map(callback)`, from the given index on. -/
def incomeTransactions (host : Host) : ℕ → List ApiRecord → List Transaction
  | _, [] => []
  | index, income :: rest =>
    incomeTransaction host income index :: incomeTransactions host (index + 1) rest

/-- `expenseData.map(callback)`, from the given index on; `none` when a call
of the callback throws. -/
def expenseTransactions (host : Host) : ℕ → List ApiRecord → Option (List Transaction)
  | _, [] => some []
  | index, expense :: rest =>
    match expenseTransaction host expense index with
    | none => none
    | some t =>
      match expenseTransactions host (index + 1) rest with
      | none => none
      | some ts => some (t :: ts)

/-- How one of the two requests of `loadTransactions` ends: the promise is
rejected, or a response arrives, with `ok` set for a 2xx status and a body that
is an array of records or is not (`none`). -/
inductive FetchReply where
  | networkError : FetchReply
  | response (ok : Bool) (body : Option (List ApiRecord)) : FetchReply
deriving DecidableEq

/-- What `loadTransactions` meets: the `sessionToken` entry of `localStorage`
and the answers to `GET /api/income` and `GET /api/expenses`. -/
structure LoadEnv where
  sessionToken : JSVal
  income : FetchReply
  expenses : FetchReply
deriving DecidableEq

/-- The array literal `loadTransactions` builds from the two bodies, before it
is sorted; `none` when the `try` block is left by an exception before the
assignment to `transactions`. -/
def mergedTransactions (host : Host) (env : LoadEnv) : Option (List Transaction) :=
  if !env.sessionToken.truthy then none
  else
    match env.income, env.expenses with
    | FetchReply.response incomeOk incomeBody, FetchReply.response expenseOk expenseBody =>
      if !incomeOk || !expenseOk then none
      else
        match incomeBody, expenseBody with
        | some incomeData, some expenseData =>
          match expenseTransactions host 0 expenseData with
          | none => none
          | some expenses => some (incomeTransactions host 0 incomeData ++ expenses)
        | _, _ => none
    | _, _ => none

/-- The `catch` block of `loadTransactions`: the error block with its Retry
button replaces the content of the list element. -/
def showLoadError (page : TransactionsPage) : TransactionsPage :=
  { page with list := page.list.write ListContent.loadError }

/-- `loadTransactions()`. -/
def loadTransactions (host : Host) (env : LoadEnv) (page : TransactionsPage) :
    TransactionsPage :=
  match mergedTransactions host env with
  | none => showLoadError page
  | some merged =>
    let sorted := jsSort compareByDate merged
    let rendered :=
      renderTransactions host { page with transactions := sorted, filteredTransactions := sorted }
    if rendered.2 then showLoadError rendered.1
    else updateTransactionCount (updateSummary rendered.1)

/-- The string a text field holds, the empty string when it is missing. -/
def textOf : JSVal → Str
  | JSVal.str s => s
  | _ => []

/-- A value that is a string or falsy, as `title`, `description` and
`category` are. -/
def JSVal.isTextOrFalsy : JSVal → Bool
  | JSVal.str _ => true
  | v => !v.truthy

/-- A transaction as `loadTransactions` builds them from well-formed records:
the text fields are strings or missing and `date` is a `Date` object. -/
def Transaction.wellTyped (t : Transaction) : Bool :=
  t.title.isTextOrFalsy && t.description.isTextOrFalsy && t.category.isTextOrFalsy &&
    (match t.date with
     | DateInput.date _ => true
     | DateInput.prim _ => false)

/-- A page for worked examples: two coffees, bought on 14 and on 15 June 2024,
no filter set, every element present. -/
def samplePage : TransactionsPage :=
  { transactions :=
      [sampleTransaction "a".toList (DateInput.date (some 1718416000000)),
       sampleTransaction "b".toList (DateInput.date (some 1718330000000))]
    filteredTransactions := []
    currentFilters := ⟨[], [], [], "all".toList⟩
    list := Slot.served
    countElement := Slot.served
    incomeCard := Slot.served
    expenseCard := Slot.served
    balanceCard := Slot.served
    transactionCard := Slot.served }

/-- The value of a finite number (zero for NaN and the infinities), used to
state sums. -/
def JSNum.toRat : JSNum → ℚ
  | JSNum.num q => q
  | _ => 0

/-- The sum of the amounts of the transactions of one type. -/
def totalOfType (type : Str) (list : List Transaction) : ℚ :=
  ((list.filter (fun t => decide (t.type = type))).map (fun t => t.amount.toRat)).sum

/-- An income record for worked examples: 100, at 10:00 UTC on 14 June 2024. -/
def sampleIncomeRecord : ApiRecord :=
  ⟨JSVal.str "Pay".toList, JSVal.num (jsn 100), JSVal.null,
   JSVal.str "2024-06-14T10:00:00".toList, JSVal.undefined, JSVal.undefined⟩

/-- An expense record for worked examples: 4.50, at 01:00 UTC on 15 June
2024. -/
def sampleExpenseRecord : ApiRecord :=
  ⟨JSVal.str "Coffee".toList, JSVal.str "4.50".toList, JSVal.str "Food".toList,
   JSVal.str "2024-06-15T01:00:00".toList, JSVal.undefined, JSVal.undefined⟩

/-- Answers for worked examples: a token and one record of each kind. -/
def sampleEnv : LoadEnv :=
  ⟨JSVal.str "token".toList, FetchReply.response true (some [sampleIncomeRecord]),
   FetchReply.response true (some [sampleExpenseRecord])⟩

/-! ## transaction-categories.js: the category dialogs

The module variables behind the manage, delete and merge dialogs, the buttons
the render functions create (each holds the `category.id` its click handler
closes over), and the handlers.  An `async` handler runs up to its `await`
and is suspended there; other handlers run before its continuation does. -/

/-- An element of `manageCategoriesData`, by the properties the dialogs read. -/
structure Category where
  id : JSVal
  name : JSVal
  system : JSVal
deriving DecidableEq

/-- The state of the dialogs: which containers the page has, the module
variables, the ids held by the Rename/Delete buttons of `#categories-list` and
by the button pairs of the merge dialog, and the `disabled` property of
`#confirm-merge-btn`. -/
structure CategoryDialogs where
  hasUserList : Bool
  hasSystemList : Bool
  hasMergeControls : Bool
  manageCategoriesData : List Category
  deleteCategoryId : JSVal
  mergeSourceCategoryIds : List JSVal
  mergeTargetCategoryId : JSVal
  deleteButtons : List JSVal
  mergeButtons : List JSVal
  confirmDisabled : Bool
deriving DecidableEq

/-- The state when the script has been loaded: no data, nothing selected, no
button rendered. -/
def initialDialogs (hasUserList hasSystemList hasMergeControls confirmDisabled : Bool) :
    CategoryDialogs :=
  ⟨hasUserList, hasSystemList, hasMergeControls, [], JSVal.null, [], JSVal.null, [], [],
   confirmDisabled⟩

/-- What the dialogs exchange with the server, as far as categories are
concerned: a list of categories received, and the two requests that remove
categories. -/
inductive CategoryCall where
  | loaded (categories : List Category) : CategoryCall
  | deleteCategory (id : JSVal) : CategoryCall
  | mergeCategories (sourceIds : List JSVal) (targetId : JSVal) : CategoryCall
deriving DecidableEq

/-- `manageCategoriesData.filter(cat => !cat.system)`, the `userCategories` of
`renderManageCategoriesLists` and the `candidates` of
`prepareMergeModalContent`. -/
def userCategories (data : List Category) : List Category :=
  data.filter (fun cat => !cat.system.truthy)

/-- `renderManageCategoriesLists()`. -/
def renderManageCategoriesLists (s : CategoryDialogs) : CategoryDialogs :=
  if !s.hasUserList || !s.hasSystemList then s
  else { s with deleteButtons := (userCategories s.manageCategoriesData).map (fun c => c.id) }

/-- `updateMergeConfirmButton(confirmBtn)`. -/
def updateMergeConfirmButton (s : CategoryDialogs) : CategoryDialogs :=
  { s with
    confirmDisabled :=
      decide (s.mergeSourceCategoryIds.length = 0) || !s.mergeTargetCategoryId.truthy }

/-- `prepareMergeModalContent()`. -/
def prepareMergeModalContent (s : CategoryDialogs) : CategoryDialogs :=
  if !s.hasMergeControls then s
  else
    { s with
      mergeSourceCategoryIds := []
      mergeTargetCategoryId := JSVal.null
      confirmDisabled := true
      mergeButtons := (userCategories s.manageCategoriesData).map (fun c => c.id) }

/-- The part of `refreshManageCategories(forceReload)` before
`await loadCategories()`: the user list shows the loading text, so its buttons
are gone. -/
def refreshStart (s : CategoryDialogs) : CategoryDialogs :=
  if s.hasUserList then { s with deleteButtons := [] } else s

/-- The part of `refreshManageCategories` after `loadCategories()` has
resolved with the given array (the empty array after a failed request). -/
def refreshLoaded (s : CategoryDialogs) (categories : List Category) : CategoryDialogs :=
  prepareMergeModalContent (renderManageCategoriesLists { s with manageCategoriesData := categories })

/-- `window.openDeleteCategoryModal(categoryId)`. -/
def openDeleteCategoryModal (s : CategoryDialogs) (categoryId : JSVal) : CategoryDialogs :=
  { s with deleteCategoryId := categoryId }

/-- `window.closeDeleteCategoryModal()`. -/
def closeDeleteCategoryModal (s : CategoryDialogs) : CategoryDialogs :=
  { s with deleteCategoryId := JSVal.null }

/-- `window.closeMergeCategoriesModal()`. -/
def closeMergeCategoriesModal (s : CategoryDialogs) : CategoryDialogs :=
  { s with mergeSourceCategoryIds := [], mergeTargetCategoryId := JSVal.null }

/-- The click handler of the source button of the category with this id. -/
def sourceClick (s : CategoryDialogs) (id : JSVal) : CategoryDialogs :=
  let sources :=
    if id ∈ s.mergeSourceCategoryIds then s.mergeSourceCategoryIds.filter (fun x => x ≠ id)
    else s.mergeSourceCategoryIds ++ [id]
  let target :=
    if s.mergeTargetCategoryId.truthy ∧ s.mergeTargetCategoryId ∈ sources then JSVal.null
    else s.mergeTargetCategoryId
  updateMergeConfirmButton { s with mergeSourceCategoryIds := sources, mergeTargetCategoryId := target }

/-- The click handler of the target button of the category with this id. -/
def targetClick (s : CategoryDialogs) (id : JSVal) : CategoryDialogs :=
  if id ∈ s.mergeSourceCategoryIds then s
  else updateMergeConfirmButton { s with mergeTargetCategoryId := id }

/-- What a handler does once the refresh it awaits has returned. -/
inductive AfterRefresh where
  | nothing : AfterRefresh
  | closeDelete : AfterRefresh
  | closeMerge : AfterRefresh
deriving DecidableEq

/-- A handler that is suspended at an `await`, with the local variables its
continuation reads: `confirmDeleteCategory` awaiting `getCategoryBudgets` or
`deleteCategory`, `confirmMergeCategories` awaiting the budget requests (with
`sourceIds`, copied from the selection before the `await`) or
`mergeCategories`, and `refreshManageCategories` awaiting `loadCategories`. -/
inductive PendingDialog where
  | deleteBudgets : PendingDialog
  | deleteRequest : PendingDialog
  | mergeBudgets (sourceIds : List JSVal) : PendingDialog
  | mergeRequest : PendingDialog
  | refresh (after : AfterRefresh) : PendingDialog
deriving DecidableEq

/-- The dialogs, the suspended handlers and the exchanges with the server so
far, the most recent first. -/
structure DialogRun where
  dialogs : CategoryDialogs
  pending : List PendingDialog
  log : List CategoryCall
deriving DecidableEq

/-- The state when the script has been loaded. -/
def initialRun (hasUserList hasSystemList hasMergeControls confirmDisabled : Bool) : DialogRun :=
  ⟨initialDialogs hasUserList hasSystemList hasMergeControls confirmDisabled, [], []⟩

/-- `window.confirmDeleteCategory()` up to `await getCategoryBudgets(...)`. -/
def confirmDeleteStart (r : DialogRun) : DialogRun :=
  if r.dialogs.deleteCategoryId = JSVal.null then r
  else { r with pending := r.pending ++ [PendingDialog.deleteBudgets] }

/-- `window.confirmMergeCategories()` up to the `await` of the budget
requests; `sourceIds` is `Array.from(mergeSourceCategoryIds)`. -/
def confirmMergeStart (r : DialogRun) : DialogRun :=
  if r.dialogs.mergeSourceCategoryIds.length = 0 ∨ r.dialogs.mergeTargetCategoryId.truthy = false
  then r
  else
    { r with
      pending := r.pending ++ [PendingDialog.mergeBudgets r.dialogs.mergeSourceCategoryIds] }

/-- The continuation of a confirm handler after its budget request: when the
request resolved and `confirm` is answered with OK, the handler sends
`deleteCategory(deleteCategoryId)` or
`mergeCategories(sourceIds, mergeTargetCategoryId, true)`, reading the module
variable as it is at that moment. -/
def budgetsAnswered (r : DialogRun) (index : ℕ) (resolved userConfirmed : Bool) : DialogRun :=
  match r.pending.get? index with
  | some PendingDialog.deleteBudgets =>
    if resolved && userConfirmed then
      ⟨r.dialogs, r.pending.eraseIdx index ++ [PendingDialog.deleteRequest],
        CategoryCall.deleteCategory r.dialogs.deleteCategoryId :: r.log⟩
    else { r with pending := r.pending.eraseIdx index }
  | some (PendingDialog.mergeBudgets sourceIds) =>
    if resolved && userConfirmed then
      ⟨r.dialogs, r.pending.eraseIdx index ++ [PendingDialog.mergeRequest],
        CategoryCall.mergeCategories sourceIds r.dialogs.mergeTargetCategoryId :: r.log⟩
    else { r with pending := r.pending.eraseIdx index }
  | _ => r

/-- The continuation of a confirm handler after `deleteCategory` or
`mergeCategories` has settled: when it resolved, the handler starts
`refreshManageCategories(true)`. -/
def requestAnswered (r : DialogRun) (index : ℕ) (resolved : Bool) : DialogRun :=
  match r.pending.get? index with
  | some PendingDialog.deleteRequest =>
    if resolved then
      ⟨refreshStart r.dialogs,
        r.pending.eraseIdx index ++ [PendingDialog.refresh AfterRefresh.closeDelete], r.log⟩
    else { r with pending := r.pending.eraseIdx index }
  | some PendingDialog.mergeRequest =>
    if resolved then
      ⟨refreshStart r.dialogs,
        r.pending.eraseIdx index ++ [PendingDialog.refresh AfterRefresh.closeMerge], r.log⟩
    else { r with pending := r.pending.eraseIdx index }
  | _ => r

/-- The continuation of `refreshManageCategories` after `loadCategories()`,
followed by what the handler that awaited the refresh does next. -/
def categoriesLoaded (r : DialogRun) (index : ℕ) (categories : List Category) : DialogRun :=
  match r.pending.get? index with
  | some (PendingDialog.refresh after) =>
    let s := refreshLoaded r.dialogs categories
    let s1 :=
      match after with
      | AfterRefresh.nothing => s
      | AfterRefresh.closeDelete => closeDeleteCategoryModal s
      | AfterRefresh.closeMerge => closeMergeCategoriesModal s
    ⟨s1, r.pending.eraseIdx index, CategoryCall.loaded categories :: r.log⟩
  | _ => r

/-- What can happen to the dialogs.  A refresh starts (the manage dialog is
opened, or the category form has saved); the user clicks a Delete button,
closes the delete dialog or clicks its confirm button, opens or closes the
merge dialog, clicks a source or target button or the confirm button of the
merge dialog; and the request a suspended handler awaits settles.  Buttons
and suspended handlers are named by their position. -/
inductive DialogEvent where
  | refreshStarted : DialogEvent
  | deleteClicked (index : ℕ) : DialogEvent
  | deleteClosed : DialogEvent
  | deleteConfirmClicked : DialogEvent
  | mergeOpened : DialogEvent
  | mergeClosed : DialogEvent
  | sourceClicked (index : ℕ) : DialogEvent
  | targetClicked (index : ℕ) : DialogEvent
  | mergeConfirmClicked : DialogEvent
  | budgetsAnswered (index : ℕ) (resolved userConfirmed : Bool) : DialogEvent
  | requestAnswered (index : ℕ) (resolved : Bool) : DialogEvent
  | categoriesLoaded (index : ℕ) (categories : List Category) : DialogEvent
deriving DecidableEq

/-- The handler or continuation an event runs; a click on a button that does
not exist, and a settlement for which no handler of its kind is suspended at
the position, do nothing. -/
def dialogStep (r : DialogRun) : DialogEvent → DialogRun
  | DialogEvent.refreshStarted =>
    ⟨refreshStart r.dialogs, r.pending ++ [PendingDialog.refresh AfterRefresh.nothing], r.log⟩
  | DialogEvent.deleteClicked index =>
    match r.dialogs.deleteButtons.get? index with
    | some id => { r with dialogs := openDeleteCategoryModal r.dialogs id }
    | none => r
  | DialogEvent.deleteClosed => { r with dialogs := closeDeleteCategoryModal r.dialogs }
  | DialogEvent.deleteConfirmClicked => confirmDeleteStart r
  | DialogEvent.mergeOpened => { r with dialogs := prepareMergeModalContent r.dialogs }
  | DialogEvent.mergeClosed => { r with dialogs := closeMergeCategoriesModal r.dialogs }
  | DialogEvent.sourceClicked index =>
    match r.dialogs.mergeButtons.get? index with
    | some id => { r with dialogs := sourceClick r.dialogs id }
    | none => r
  | DialogEvent.targetClicked index =>
    match r.dialogs.mergeButtons.get? index with
    | some id => { r with dialogs := targetClick r.dialogs id }
    | none => r
  | DialogEvent.mergeConfirmClicked => confirmMergeStart r
  | DialogEvent.budgetsAnswered index resolved userConfirmed =>
    budgetsAnswered r index resolved userConfirmed
  | DialogEvent.requestAnswered index resolved => requestAnswered r index resolved
  | DialogEvent.categoriesLoaded index categories => categoriesLoaded r index categories

/-- The state after a sequence of events. -/
def runDialogs (r : DialogRun) (events : List DialogEvent) : DialogRun :=
  events.foldl dialogStep r

/-- An id that belongs to a category of the list that is not a system
category. -/
def userCategoryId (data : List Category) (id : JSVal) : Prop :=
  ∃ c ∈ data, c.id = id ∧ c.system.truthy = false

/-- An id that belongs to a non-system category of a list received in one of
the exchanges. -/
def knownUserId (log : List CategoryCall) (id : JSVal) : Prop :=
  ∃ categories, CategoryCall.loaded categories ∈ log ∧ userCategoryId categories id

/-- Every request that removes categories names only ids that belong to
non-system categories of a list received before the request. -/
def callsSpareSystem : List CategoryCall → Prop
  | [] => True
  | CategoryCall.loaded _ :: older => callsSpareSystem older
  | CategoryCall.deleteCategory id :: older => knownUserId older id ∧ callsSpareSystem older
  | CategoryCall.mergeCategories sourceIds targetId :: older =>
    (∀ id ∈ targetId :: sourceIds, knownUserId older id) ∧ callsSpareSystem older

/-- Every value sent with a request that removes categories is `null` or the
id of a non-system category of a list received before the request; the
sources of a merge are such ids. -/
def callsNameNoSystem : List CategoryCall → Prop
  | [] => True
  | CategoryCall.loaded _ :: older => callsNameNoSystem older
  | CategoryCall.deleteCategory id :: older =>
    (id = JSVal.null ∨ knownUserId older id) ∧ callsNameNoSystem older
  | CategoryCall.mergeCategories sourceIds targetId :: older =>
    ((targetId = JSVal.null ∨ knownUserId older targetId) ∧
      ∀ id ∈ sourceIds, knownUserId older id) ∧ callsNameNoSystem older

/-- What holds of the dialogs at every moment: the buttons hold ids of
non-system categories of the current list, there are no buttons without their
containers, the current list was received (or is still the initial empty
one), what is selected or copied by a suspended handler was taken from such
buttons, and the requests so far name no system category. -/
structure DialogInvariant (r : DialogRun) : Prop where
  deleteButtons : ∀ id ∈ r.dialogs.deleteButtons, userCategoryId r.dialogs.manageCategoriesData id
  mergeButtons : ∀ id ∈ r.dialogs.mergeButtons, userCategoryId r.dialogs.manageCategoriesData id
  noLists : r.dialogs.hasUserList = false ∨ r.dialogs.hasSystemList = false →
    r.dialogs.deleteButtons = []
  noMergeControls : r.dialogs.hasMergeControls = false → r.dialogs.mergeButtons = []
  data : r.dialogs.manageCategoriesData = [] ∨
    CategoryCall.loaded r.dialogs.manageCategoriesData ∈ r.log
  deleteId : r.dialogs.deleteCategoryId ≠ JSVal.null → knownUserId r.log r.dialogs.deleteCategoryId
  sources : ∀ id ∈ r.dialogs.mergeSourceCategoryIds, knownUserId r.log id
  target : r.dialogs.mergeTargetCategoryId ≠ JSVal.null →
    knownUserId r.log r.dialogs.mergeTargetCategoryId
  copied : ∀ sourceIds, PendingDialog.mergeBudgets sourceIds ∈ r.pending →
    ∀ id ∈ sourceIds, knownUserId r.log id
  calls : callsNameNoSystem r.log

/-- A list for worked examples: the system category 1 and the user categories
2, 3 and 4. -/
def sampleCategories : List Category :=
  [⟨JSVal.num (jsn 1), JSVal.str "Food".toList, JSVal.bool true⟩,
   ⟨JSVal.num (jsn 2), JSVal.str "Pets".toList, JSVal.bool false⟩,
   ⟨JSVal.num (jsn 3), JSVal.str "Books".toList, JSVal.bool false⟩,
   ⟨JSVal.num (jsn 4), JSVal.str "Reading".toList, JSVal.undefined⟩]

/-- Whether an event is a click on a source or target button of the merge
dialog. -/
def DialogEvent.isMergeClick : DialogEvent → Bool
  | DialogEvent.sourceClicked _ => true
  | DialogEvent.targetClicked _ => true
  | _ => false

/-- What holds of the merge selection at every moment: a target that counts
as selected (a truthy id) is not among the sources, a suspended merge has
copied at least one source, and every merge request sent so far names at
least one source. -/
structure MergeInvariant (r : DialogRun) : Prop where
  target : r.dialogs.mergeTargetCategoryId.truthy = true →
    r.dialogs.mergeTargetCategoryId ∉ r.dialogs.mergeSourceCategoryIds
  copied : ∀ sourceIds, PendingDialog.mergeBudgets sourceIds ∈ r.pending → sourceIds ≠ []
  calls : ∀ sourceIds targetId, CategoryCall.mergeCategories sourceIds targetId ∈ r.log →
    sourceIds ≠ []

/-- A list for worked examples in which a user category has the id 0. -/
def sampleCategoriesZero : List Category :=
  [⟨JSVal.num (jsn 0), JSVal.str "Misc".toList, JSVal.bool false⟩,
   ⟨JSVal.num (jsn 5), JSVal.str "Pets".toList, JSVal.bool false⟩]

/-- The state of the confirm button agrees with the selection: it is disabled
exactly when no source is selected or the target is a falsy value. -/
def confirmAgrees (s : CategoryDialogs) : Prop :=
  s.confirmDisabled =
    (decide (s.mergeSourceCategoryIds.length = 0) || !s.mergeTargetCategoryId.truthy)

/-! ## goals.js and dashboard.js: `escapeHtml`

Both files define the same chain of five global replacements; they differ in
what they return for a value that is no string. -/

/-- The character `"`. -/
def doubleQuote : Char := Char.ofNat 34

/-- The character of code 39, the single quote. -/
def singleQuote : Char := Char.ofNat 39

/-- `s.replace(/c/g, r)` for a single character `c`. -/
def replaceAllChar (c : Char) (r : Str) : Str → Str
  | [] => []
  | x :: xs => if x = c then r ++ replaceAllChar c r xs else x :: replaceAllChar c r xs

/-- The chain of replacements both definitions of `escapeHtml` apply to a
string. -/
def escapeString (value : Str) : Str :=
  replaceAllChar singleQuote "&#39;".toList
    (replaceAllChar doubleQuote "&quot;".toList
      (replaceAllChar '>' "&gt;".toList
        (replaceAllChar '<' "&lt;".toList
          (replaceAllChar '&' "&amp;".toList value))))

/-- `escapeHtml(value)` of goals.js: the empty string for a value that is no
string. -/
def escapeHtml (value : JSVal) : Str :=
  match value with
  | JSVal.str s => escapeString s
  | _ => []

/-- `escapeHtml(str)` of dashboard.js: a value that is no string is returned
as it is. -/
def dashboardEscapeHtml (str : JSVal) : JSVal :=
  match str with
  | JSVal.str s => JSVal.str (escapeString s)
  | v => v

/-- The five entities `escapeHtml` writes, each with the character it stands
for. -/
def htmlEntities : List (Str × Char) :=
  [("&amp;".toList, '&'), ("&lt;".toList, '<'), ("&gt;".toList, '>'),
   ("&quot;".toList, doubleQuote), ("&#39;".toList, singleQuote)]

/-- What the chain of replacements makes of one character. -/
def escapeChar (c : Char) : Str :=
  if c = '&' then "&amp;".toList
  else if c = '<' then "&lt;".toList
  else if c = '>' then "&gt;".toList
  else if c = doubleQuote then "&quot;".toList
  else if c = singleQuote then "&#39;".toList
  else [c]

/-- Decoding of the five entities, from left to right: the first argument
counts the characters still to be passed over, those of an entity just
decoded; any text that is no entity is kept. -/
def decodeFrom : ℕ → Str → Str
  | _, [] => []
  | skip + 1, _ :: rest => decodeFrom skip rest
  | 0, c :: rest =>
    if c = '&' then
      if "amp;".toList.isPrefixOf rest then '&' :: decodeFrom 4 rest
      else if "lt;".toList.isPrefixOf rest then '<' :: decodeFrom 3 rest
      else if "gt;".toList.isPrefixOf rest then '>' :: decodeFrom 3 rest
      else if "quot;".toList.isPrefixOf rest then doubleQuote :: decodeFrom 5 rest
      else if "#39;".toList.isPrefixOf rest then singleQuote :: decodeFrom 4 rest
      else c :: decodeFrom 0 rest
    else c :: decodeFrom 0 rest

/-- Decoding of the five entities in a text. -/
def decodeEntities (s : Str) : Str := decodeFrom 0 s

/-! ## expense-service.js

`expenseService.validateExpenseData`. -/

/-- The object handed to `validateExpenseData` and `addExpense`. -/
structure ExpenseData where
  amount : JSVal
  description : JSVal
  categoryId : JSVal
  accountId : JSVal
  occurredAt : JSVal

/-- The test `!v || v.trim() === ''`; `none` stands for the TypeError raised
when a truthy value that is no string is asked for `trim`. -/
def isBlankText (v : JSVal) : Option Bool :=
  if !v.truthy then some true
  else
    match v with
    | JSVal.str s => some (decide (trim s = []))
    | _ => none

/-- `expenseService.validateExpenseData(expenseData)`; `none` stands for a
TypeError. -/
def validateExpenseData (host : Host) (expenseData : ExpenseData) : Option Validation :=
  let errors0 : List String := []
  let errors1 : List String :=
    if !expenseData.amount.truthy || expenseData.amount.parseFloat.le (jsn 0) then
      errors0 ++ ["Amount must be greater than 0"]
    else errors0
  match isBlankText expenseData.description with
  | none => none
  | some blank =>
    let errors2 : List String :=
      if blank then errors1 ++ ["Description is required"] else errors1
    let errors3 : List String :=
      if !expenseData.occurredAt.truthy then errors2 ++ ["Date is required"]
      else
        let expenseDate := dateOfValue host expenseData.occurredAt
        let today : JSDate := some host.now
        if (dateValue expenseDate).gt (dateValue today) then
          errors2 ++ ["Date cannot be in the future"]
        else errors2
    let errors4 : List String :=
      if !expenseData.accountId.truthy then errors3 ++ ["Account is required"] else errors3
    some ⟨errors4.length == 0, errors4⟩

/-! ## goals.js: the contribution dialog

`openContributeModal` and the percentage the submit handler compares with the
milestones. -/

/-- `x.toFixed(1)`, as the number its text denotes: the nearest multiple of
one tenth, a tie going away from zero; NaN and the infinities are shown as
they are. -/
def toFixed1 : JSNum → JSNum
  | JSNum.num q =>
    JSNum.num
      (if 0 ≤ q then ((⌊q * 10 + 1 / 2⌋ : ℤ) : ℚ) / 10
       else -(((⌊-q * 10 + 1 / 2⌋ : ℤ) : ℚ) / 10))
  | x => x

/-- The two figures of the contribution summary: `percentage` (the number
its text denotes) and `remaining`. -/
structure ContributionSummary where
  percentage : JSNum
  remaining : JSNum
deriving DecidableEq

/-- `openContributeModal(goalName, current, target, goalId)`: the module
variables afterwards and the figures written into `#contribution-summary`.
`account` is how `goalService.getPrimaryContributionAccount()` settles.  The
difference, the quotient and the product are binary64 operations; `toFixed`
rounds the exact value of the binary64 product. -/
def openContributeModal (goalName : Str) (current target : JSNum) (goalId : JSVal)
    (account : Reply (Option Account)) : GoalsPage × ContributionSummary :=
  let currentGoal : Goal := ⟨goalName, current, target, goalId⟩
  let remaining := JSNum.fsub target current
  let percentage := toFixed1 (JSNum.fmul (JSNum.fdiv current target) (jsn 100))
  let contributionAccount : Option Account :=
    match account with
    | Reply.resolved (some a) => some a
    | _ => none
  (⟨some currentGoal, contributionAccount⟩, ⟨percentage, remaining⟩)

/-- The expression `(currentGoal.current / currentGoal.target) * 100` with
which the submit handler computes `oldPercentage`, in binary64 arithmetic. -/
def goalPercentage (goal : Goal) : JSNum :=
  JSNum.fmul (JSNum.fdiv goal.current goal.target) (jsn 100)

/-! ## dashboard.js: the top expense categories

The computation inside `loadTopExpenseCategories`: the object `totals`, its
entries, their sort and the slice. -/

/-- An element of the array `expenseService.getAllExpenses()` resolves with,
by the two properties the loop reads.  `categoryName` is a string, or `none`
for `null` or a missing property. -/
structure ExpenseRecord where
  categoryName : Option Str
  amount : JSVal
deriving DecidableEq

/-- The value a property of `totals` holds: a number, or the string binary
`+` makes of a value inherited from `Object.prototype`, namely the text of
that value followed by the decimal renderings of the amounts added since. -/
inductive Total where
  | number (n : JSNum) : Total
  | text (inherited : Str) (amounts : List JSNum) : Total
deriving DecidableEq

/-- The text of a built-in function, as engines print it. -/
def nativeFunctionText (name : Str) : Str :=
  "function ".toList ++ name ++ "() \x7b [native code] \x7d".toList

/-- The methods an object literal inherits from `Object.prototype`. -/
def objectPrototypeMethods : List Str :=
  ["__defineGetter__".toList, "__defineSetter__".toList, "hasOwnProperty".toList,
   "__lookupGetter__".toList, "__lookupSetter__".toList, "isPrototypeOf".toList,
   "propertyIsEnumerable".toList, "toString".toList, "valueOf".toList,
   "toLocaleString".toList]

/-- The string binary `+` makes of the value an object literal inherits under
a name: the function `Object` under `constructor`, the object
`Object.prototype` under `__proto__`, a method under its name; `none` for a
name under which nothing is inherited. -/
def prototypeText (key : Str) : Option Str :=
  if key = "constructor".toList then some (nativeFunctionText "Object".toList)
  else if key = "__proto__".toList then some "[object Object]".toList
  else if key ∈ objectPrototypeMethods then some (nativeFunctionText key)
  else none

/-- The assignment `obj[key] = value` on an object held as the list of its
own properties in creation order. -/
def setProperty {α : Type} (obj : List (Str × α)) (key : Str) (value : α) : List (Str × α) :=
  match obj with
  | [] => [(key, value)]
  | (k, v) :: rest =>
    if k = key then (k, value) :: rest else (k, v) :: setProperty rest key value

/-- The category of an expense, `tx.categoryName || 'Uncategorized'`. -/
def categoryOf (tx : ExpenseRecord) : Str :=
  match tx.categoryName with
  | some (c :: cs) => c :: cs
  | _ => "Uncategorized".toList

/-- The amount of an expense, `parseFloat(tx.amount) || 0`. -/
def amountOf (tx : ExpenseRecord) : JSNum :=
  if tx.amount.parseFloat.truthy then tx.amount.parseFloat else jsn 0

/-- One pass of the loop, `totals[cat] = (totals[cat] || 0) + amt`.  The read
finds an own property, else an inherited value, else `undefined`; the write
creates or updates an own property, except under `__proto__`, where the
setter ignores a primitive. -/
def addToTotals (totals : List (Str × Total)) (cat : Str) (amt : JSNum) : List (Str × Total) :=
  let current : Option Total :=
    match totals.lookup cat with
    | some t => some t
    | none => (prototypeText cat).map (fun inherited => Total.text inherited [])
  let sum : Total :=
    match current with
    | some (Total.number n) => Total.number (JSNum.add (if n.truthy then n else jsn 0) amt)
    | some (Total.text inherited amounts) => Total.text inherited (amounts ++ [amt])
    | none => Total.number (JSNum.add (jsn 0) amt)
  if cat = "__proto__".toList then totals else setProperty totals cat sum

/-- The object `totals` after the loop. -/
def categoryTotals (expenses : List ExpenseRecord) : List (Str × Total) :=
  expenses.foldl (fun totals tx => addToTotals totals (categoryOf tx) (amountOf tx)) []

/-- The number a property name denotes when it is an array index: a canonical
decimal numeral below 2^32 - 1. -/
def arrayIndex (key : Str) : Option ℕ :=
  if key ≠ [] ∧ key.all isDigit = true ∧ (key = ['0'] ∨ key.head? ≠ some '0') ∧
      digitsValue key < 2 ^ 32 - 1 then
    some (digitsValue key)
  else none

/-- The order of two properties whose names are array indices. -/
def indexLe {α : Type} (a b : Str × α) : Prop :=
  (arrayIndex a.1).getD 0 ≤ (arrayIndex b.1).getD 0

instance {α : Type} : DecidableRel (indexLe : Str × α → Str × α → Prop) :=
  fun a b => inferInstanceAs (Decidable ((arrayIndex a.1).getD 0 ≤ (arrayIndex b.1).getD 0))

/-- `Object.entries(obj)`: the properties whose names are array indices, in
ascending numeric order, then the others in creation order. -/
def objectEntries {α : Type} (obj : List (Str × α)) : List (Str × α) :=
  (obj.filter (fun p => (arrayIndex p.1).isSome)).insertionSort indexLe ++
    obj.filter (fun p => !(arrayIndex p.1).isSome)

/-- `ToNumber` of a total, as the operator `-` applies it: the strings in
question are not numerals. -/
def Total.toNumber : Total → JSNum
  | Total.number n => n
  | Total.text _ _ => JSNum.nan

/-- The comparator `(a, b) => b[1] - a[1]`. -/
def compareTotals (a b : Str × Total) : JSNum :=
  JSNum.sub b.2.toNumber a.2.toNumber

/-- `array.slice(0, limit)` for an integer `limit`; a negative one counts
from the end. -/
def sliceFromStart {α : Type} (xs : List α) (limit : ℤ) : List α :=
  if limit < 0 then xs.take (xs.length - limit.natAbs) else xs.take limit.toNat

/-- The array `topCategories` of `loadTopExpenseCategories(limit)` for a
non-empty array of expenses.  (The sort is the stable insertion sort; on
totals that are all numbers every conforming engine returns this array.) -/
def topCategories (limit : ℤ) (expenses : List ExpenseRecord) : List (Str × Total) :=
  sliceFromStart (jsSort compareTotals (objectEntries (categoryTotals expenses))) limit

/-! ### Notions used to state the properties of the computation -/

/-- The sum of the amounts of the expenses of one category. -/
def categorySum (expenses : List ExpenseRecord) (cat : Str) : ℚ :=
  ((expenses.filter (fun tx => decide (categoryOf tx = cat))).map
    (fun tx => (amountOf tx).toRat)).sum

/-- Expenses for worked examples: two in `Food`, one without category, one
in `Rent`, one in `Pets` with an unreadable amount. -/
def sampleExpenses : List ExpenseRecord :=
  [⟨some "Food".toList, JSVal.num (jsn 12)⟩,
   ⟨none, JSVal.num (jsn 30)⟩,
   ⟨some "Rent".toList, JSVal.str "900.50".toList⟩,
   ⟨some "Food".toList, JSVal.num (jsn (7 / 2))⟩,
   ⟨some "Pets".toList, JSVal.str "n/a".toList⟩]

/-- What holds of `totals` during the loop, for the expenses seen so far:
no name occurs twice, and a name is a property exactly when it is the
category of an expense seen, with the sum of their amounts as its value. -/
def TotalsInvariant (totals : List (Str × Total)) (seen : List ExpenseRecord) : Prop :=
  (totals.map Prod.fst).Nodup ∧
  ∀ c, totals.lookup c =
    if c ∈ seen.map categoryOf then some (Total.number (JSNum.num (categorySum seen c)))
    else none

/-- Whether a number is finite: neither NaN nor an infinity. -/
def JSNum.isFinite : JSNum → Bool
  | JSNum.num _ => true
  | _ => false

/-! ## Binary64 rounding -/

theorem log2Up_spec (fuel : ℕ) (a : ℚ) (e : ℤ) (hlo : (2 : ℚ) ^ e ≤ a)
    (hhi : a < (2 : ℚ) ^ (e + fuel)) :
    (2 : ℚ) ^ log2Up fuel a e ≤ a ∧ a < (2 : ℚ) ^ (log2Up fuel a e + 1) := by
  induction fuel generalizing e with
  | zero =>
    rw [Nat.cast_zero, add_zero] at hhi
    exact absurd hlo (not_le.mpr hhi)
  | succ n ih =>
    unfold log2Up
    by_cases h : a < (2 : ℚ) ^ (e + 1)
    · rw [if_pos h]
      exact ⟨hlo, h⟩
    · rw [if_neg h]
      apply ih (e + 1) (not_lt.mp h)
      have : e + 1 + (n : ℤ) = e + ((n + 1 : ℕ) : ℤ) := by push_cast; ring
      rw [this]
      exact hhi

theorem log2Down_spec (fuel : ℕ) (a : ℚ) (e : ℤ) (hhi : a < (2 : ℚ) ^ (e + 1))
    (hlo : (2 : ℚ) ^ (e + 1 - fuel) ≤ a) :
    (2 : ℚ) ^ log2Down fuel a e ≤ a ∧ a < (2 : ℚ) ^ (log2Down fuel a e + 1) := by
  induction fuel generalizing e with
  | zero =>
    rw [Nat.cast_zero, sub_zero] at hlo
    exact absurd hlo (not_le.mpr hhi)
  | succ n ih =>
    unfold log2Down
    by_cases h : (2 : ℚ) ^ e ≤ a
    · rw [if_pos h]
      exact ⟨h, hhi⟩
    · rw [if_neg h]
      apply ih (e - 1)
      · rw [sub_add_cancel]
        exact not_le.mp h
      · have : e - 1 + 1 - (n : ℤ) = e + 1 - ((n + 1 : ℕ) : ℤ) := by push_cast; ring
        rw [this]
        exact hlo

theorem natCast_lt_two_pow (n : ℕ) : (n : ℚ) < (2 : ℚ) ^ n := by
  have h : n < 2 ^ n := Nat.lt_two_pow n
  exact_mod_cast h

/-- The binary exponent brackets its argument. -/
theorem binaryExponent_spec (a : ℚ) (ha : 0 < a) :
    (2 : ℚ) ^ binaryExponent a ≤ a ∧ a < (2 : ℚ) ^ (binaryExponent a + 1) := by
  unfold binaryExponent
  have hnum : 0 < a.num := Rat.num_pos.mpr ha
  have hden : (0 : ℚ) < (a.den : ℚ) := by exact_mod_cast a.den_pos
  have hden1 : (1 : ℚ) ≤ (a.den : ℚ) := by exact_mod_cast a.den_pos
  have hmul : a * (a.den : ℚ) = (a.num : ℚ) := Rat.mul_den_eq_num a
  by_cases h1 : 1 ≤ a
  · rw [if_pos h1]
    apply log2Up_spec
    · rw [zpow_zero]
      exact h1
    · rw [zero_add, zpow_natCast]
      have hle : a ≤ (a.num.natAbs : ℚ) := by
        have : (a.num.natAbs : ℚ) = (a.num : ℚ) := by
          rw [Nat.cast_natAbs, abs_of_pos hnum]
        rw [this, ← hmul]
        nlinarith
      exact lt_of_le_of_lt hle (natCast_lt_two_pow _)
  · rw [if_neg h1]
    have h1' : a < 1 := not_le.mp h1
    apply log2Down_spec
    · norm_num
      exact h1'
    · have hge : (1 : ℚ) / (a.den : ℚ) ≤ a := by
        rw [div_le_iff₀ hden, hmul]
        exact_mod_cast hnum
      have hp : (2 : ℚ) ^ (-1 + 1 - (a.den : ℤ)) = 1 / (2 : ℚ) ^ a.den := by
        rw [show (-1 + 1 - (a.den : ℤ)) = -(a.den : ℤ) by ring, zpow_neg, zpow_natCast,
          one_div]
      rw [hp]
      refine le_trans ?_ hge
      apply one_div_le_one_div_of_le hden
      exact (natCast_lt_two_pow _).le

theorem roundHalfEven_close (m : ℚ) : |((roundHalfEven m : ℤ) : ℚ) - m| ≤ 1 / 2 := by
  have h1 : ((⌊m⌋ : ℤ) : ℚ) ≤ m := Int.floor_le m
  have h2 : m < ((⌊m⌋ : ℤ) : ℚ) + 1 := Int.lt_floor_add_one m
  unfold roundHalfEven
  by_cases ha : m - ⌊m⌋ < 1 / 2
  · rw [if_pos ha, abs_le]
    constructor <;> linarith
  · rw [if_neg ha]
    by_cases hb : 1 / 2 < m - ⌊m⌋
    · rw [if_pos hb, abs_le]
      push_cast
      constructor <;> linarith
    · rw [if_neg hb]
      have he : m - ⌊m⌋ = 1 / 2 := le_antisymm (not_lt.mp hb) (not_lt.mp ha)
      by_cases hc : ⌊m⌋ % 2 = 0
      · rw [if_pos hc, abs_le]
        constructor <;> linarith
      · rw [if_neg hc, abs_le]
        push_cast
        constructor <;> linarith

theorem roundHalfEven_nonneg (m : ℚ) (hm : 0 ≤ m) : 0 ≤ roundHalfEven m := by
  have h0 : 0 ≤ ⌊m⌋ := Int.floor_nonneg.mpr hm
  unfold roundHalfEven
  split_ifs <;> omega

theorem ulpOf_pos (a : ℚ) : 0 < ulpOf a := by
  unfold ulpOf
  exact zpow_pos (by norm_num) _

theorem minSubnormal_pos : 0 < minSubnormal := by
  unfold minSubnormal
  positivity

theorem ulpOf_le (a : ℚ) (ha : 0 < a) : ulpOf a ≤ a / 2 ^ 52 + minSubnormal := by
  have hs := (binaryExponent_spec a ha).1
  have hm := minSubnormal_pos
  unfold ulpOf
  by_cases he : -1022 ≤ binaryExponent a
  · rw [max_eq_left he]
    have : (2 : ℚ) ^ (binaryExponent a - 52) = (2 : ℚ) ^ binaryExponent a / 2 ^ 52 := by
      rw [zpow_sub₀ (by norm_num : (2 : ℚ) ≠ 0)]
      norm_cast
    rw [this]
    have h52 : (0 : ℚ) < 2 ^ 52 := by positivity
    have : (2 : ℚ) ^ binaryExponent a / 2 ^ 52 ≤ a / 2 ^ 52 :=
      div_le_div_of_nonneg_right hs h52.le
    linarith
  · rw [max_eq_right (not_le.mp he).le]
    have : (2 : ℚ) ^ ((-1022 : ℤ) - 52) = minSubnormal := by
      unfold minSubnormal
      rw [show ((-1022 : ℤ) - 52) = -((1074 : ℕ) : ℤ) by norm_num, zpow_neg, zpow_natCast,
        one_div]
    rw [this]
    have : 0 ≤ a / 2 ^ 52 := by positivity
    linarith

theorem nearestBinary64_close (a : ℚ) (ha : 0 < a) :
    |nearestBinary64 a - a| ≤ a / 2 ^ 53 + minSubnormal / 2 := by
  have hu := ulpOf_pos a
  have hle := ulpOf_le a ha
  have hr := roundHalfEven_close (a / ulpOf a)
  have hkey : nearestBinary64 a - a = (((roundHalfEven (a / ulpOf a) : ℤ) : ℚ) - a / ulpOf a) *
      ulpOf a := by
    unfold nearestBinary64
    field_simp
  rw [hkey, abs_mul, abs_of_pos hu]
  have h1 : |((roundHalfEven (a / ulpOf a) : ℤ) : ℚ) - a / ulpOf a| * ulpOf a ≤
      1 / 2 * ulpOf a := mul_le_mul_of_nonneg_right hr hu.le
  have h2 : a / 2 ^ 53 = a / 2 ^ 52 / 2 := by
    rw [div_div]
    norm_num
  rw [h2]
  linarith

theorem nearestBinary64_nonneg (a : ℚ) (ha : 0 < a) : 0 ≤ nearestBinary64 a := by
  unfold nearestBinary64
  have h1 : (0 : ℚ) ≤ ((roundHalfEven (a / ulpOf a) : ℤ) : ℚ) := by
    exact_mod_cast roundHalfEven_nonneg _ (div_nonneg ha.le (ulpOf_pos a).le)
  exact mul_nonneg h1 (ulpOf_pos a).le

theorem minSubnormal_le_one : minSubnormal ≤ 1 := by
  unfold minSubnormal
  rw [div_le_one (by positivity)]
  exact one_le_pow₀ (by norm_num)

theorem hundred_le_two_pow : (100 : ℚ) ≤ 2 ^ 1022 := by
  have h : (2 : ℚ) ^ 7 ≤ 2 ^ 1022 := pow_le_pow_right₀ (by norm_num) (by norm_num)
  have h7 : (2 : ℚ) ^ 7 = 128 := by norm_num
  linarith

theorem two_pow_1024 : (2 : ℚ) ^ 1024 = 4 * 2 ^ 1022 := by
  rw [show (1024 : ℕ) = 1022 + 2 by norm_num, pow_add]
  ring

theorem two_pow_1023 : (2 : ℚ) ^ 1023 = 2 * 2 ^ 1022 := by
  rw [show (1023 : ℕ) = 1022 + 1 by norm_num, pow_add]
  ring

/-- Below the overflow range the Number value for a positive rational is
finite and lies within half a unit in the last place. -/
theorem toDouble_pos_close (a : ℚ) (ha : 0 < a) (h : a < 3 * 2 ^ 1022) :
    toDouble a = JSNum.num (nearestBinary64 a) ∧
    |nearestBinary64 a - a| ≤ a / 2 ^ 53 + minSubnormal / 2 := by
  have hc := nearestBinary64_close a ha
  have hM := hundred_le_two_pow
  have hms := minSubnormal_le_one
  have hms0 := minSubnormal_pos
  have h53 : a / 2 ^ 53 ≤ a / 4 := by
    apply div_le_div_of_nonneg_left ha.le (by norm_num)
    have : (2 : ℚ) ^ 2 ≤ 2 ^ 53 := pow_le_pow_right₀ (by norm_num) (by norm_num)
    linarith
  have hfin : ¬ (2 : ℚ) ^ (1024 : ℕ) ≤ nearestBinary64 a := by
    rw [two_pow_1024, not_le]
    have := (abs_le.mp hc).2
    linarith
  refine ⟨?_, hc⟩
  unfold toDouble
  rw [if_neg (ne_of_gt ha), if_pos ha, if_neg hfin]

theorem toDouble_neg (q : ℚ) (hq : q < 0) (h : -q < 3 * 2 ^ 1022) :
    toDouble q = JSNum.num (-nearestBinary64 (-q)) := by
  have ha : 0 < -q := neg_pos.mpr hq
  have hc := nearestBinary64_close (-q) ha
  have hM := hundred_le_two_pow
  have hms := minSubnormal_le_one
  have hms0 := minSubnormal_pos
  have h53 : -q / 2 ^ 53 ≤ -q / 4 := by
    apply div_le_div_of_nonneg_left ha.le (by norm_num)
    have : (2 : ℚ) ^ 2 ≤ 2 ^ 53 := pow_le_pow_right₀ (by norm_num) (by norm_num)
    linarith
  have hfin : ¬ (2 : ℚ) ^ (1024 : ℕ) ≤ nearestBinary64 (-q) := by
    rw [two_pow_1024, not_le]
    have := (abs_le.mp hc).2
    linarith
  unfold toDouble
  rw [if_neg (ne_of_lt hq), if_neg (not_lt.mpr hq.le), if_neg hfin]

/-- Below the overflow range the Number value for a rational is finite, has
the sign of the rational and lies within half a unit in the last place. -/
theorem toDouble_close (q : ℚ) (h : |q| < 3 * 2 ^ 1022) :
    ∃ r : ℚ, toDouble q = JSNum.num r ∧ |r - q| ≤ |q| / 2 ^ 53 + minSubnormal / 2 ∧
      (0 ≤ q → 0 ≤ r) ∧ (q ≤ 0 → r ≤ 0) := by
  rcases lt_trichotomy q 0 with hq | hq | hq
  · have ha : 0 < -q := neg_pos.mpr hq
    rw [abs_of_neg hq] at h ⊢
    refine ⟨-nearestBinary64 (-q), toDouble_neg q hq h, ?_, ?_, ?_⟩
    · have hc := nearestBinary64_close (-q) ha
      have : -nearestBinary64 (-q) - q = -(nearestBinary64 (-q) - -q) := by ring
      rw [this, abs_neg]
      exact hc
    · intro h0
      exact absurd hq (not_lt.mpr h0)
    · intro _
      have := nearestBinary64_nonneg (-q) ha
      linarith
  · subst hq
    refine ⟨0, ?_, ?_, fun _ => le_refl _, fun _ => le_refl _⟩
    · unfold toDouble
      rw [if_pos rfl]
    · have := minSubnormal_pos
      simp only [sub_self, abs_zero, zero_div, zero_add]
      linarith
  · rw [abs_of_pos hq] at h ⊢
    obtain ⟨h1, h2⟩ := toDouble_pos_close q hq h
    refine ⟨nearestBinary64 q, h1, h2, fun _ => nearestBinary64_nonneg q hq, ?_⟩
    intro h0
    exact absurd hq (not_lt.mpr h0)

/-- The expression `q * 100` on the Number value for `q`: below the overflow
range the result is finite and within a relative error of 2^-51 (and 51 times
the smallest subnormal) of the exact product. -/
theorem percent_close (q : ℚ) (h : |q * 100| < 2 ^ 1023) :
    ∃ x : ℚ, JSNum.fmul (toDouble q) (jsn 100) = JSNum.num x ∧
      |x - q * 100| ≤ |q * 100| / 2 ^ 51 + 51 * minSubnormal ∧
      (0 ≤ q → 0 ≤ x) ∧ (q ≤ 0 → x ≤ 0) := by
  have hM := hundred_le_two_pow
  have hms := minSubnormal_le_one
  have hms0 := minSubnormal_pos
  have hA : |q * 100| = |q| * 100 := by rw [abs_mul]; norm_num
  have hq0 : 0 ≤ |q| := abs_nonneg q
  rw [two_pow_1023] at h
  obtain ⟨r, hr, hrc, hrp, hrn⟩ := toDouble_close q (by rw [hA] at h; linarith)
  have h53 : (0 : ℚ) < 2 ^ 53 := by positivity
  have hd1 : |r * 100 - q * 100| ≤ |q * 100| / 2 ^ 53 + 50 * minSubnormal := by
    have : r * 100 - q * 100 = (r - q) * 100 := by ring
    rw [this, abs_mul, hA]
    have h100 : |(100 : ℚ)| = 100 := by norm_num
    rw [h100]
    have := mul_le_mul_of_nonneg_right hrc (by norm_num : (0 : ℚ) ≤ 100)
    calc |r - q| * 100 ≤ (|q| / 2 ^ 53 + minSubnormal / 2) * 100 := this
      _ = |q| * 100 / 2 ^ 53 + 50 * minSubnormal := by ring
  have hB : |r * 100| ≤ |q * 100| + (|q * 100| / 2 ^ 53 + 50 * minSubnormal) := by
    have : r * 100 = (r * 100 - q * 100) + q * 100 := by ring
    calc |r * 100| = |(r * 100 - q * 100) + q * 100| := by rw [← this]
      _ ≤ |r * 100 - q * 100| + |q * 100| := abs_add _ _
      _ ≤ |q * 100| + (|q * 100| / 2 ^ 53 + 50 * minSubnormal) := by linarith
  have hA0 : 0 ≤ |q * 100| := abs_nonneg _
  have hA53 : |q * 100| / 2 ^ 53 ≤ |q * 100| / 4 := by
    apply div_le_div_of_nonneg_left hA0 (by norm_num)
    have : (2 : ℚ) ^ 2 ≤ 2 ^ 53 := pow_le_pow_right₀ (by norm_num) (by norm_num)
    linarith
  obtain ⟨x, hx, hxc, hxp, hxn⟩ := toDouble_close (r * 100) (by linarith)
  refine ⟨x, ?_, ?_, ?_, ?_⟩
  · unfold JSNum.fmul
    rw [hr]
    simp only [JSNum.mul, jsn, JSNum.toBinary64]
    exact hx
  · have hsum : x - q * 100 = (x - r * 100) + (r * 100 - q * 100) := by ring
    have h1 : |x - q * 100| ≤ |x - r * 100| + |r * 100 - q * 100| := by
      rw [hsum]
      exact abs_add _ _
    have hB53 : |r * 100| / 2 ^ 53 ≤
        (|q * 100| + (|q * 100| / 2 ^ 53 + 50 * minSubnormal)) / 2 ^ 53 :=
      div_le_div_of_nonneg_right hB h53.le
    have e53 : (2 : ℚ) ^ 53 = 9007199254740992 := by norm_num
    have e51 : (2 : ℚ) ^ 51 = 2251799813685248 := by norm_num
    rw [e53] at hd1 hxc hB53
    rw [e51]
    have hxc2 := le_trans hxc (add_le_add_right hB53 _)
    linarith
  · intro h0
    exact hxp (mul_nonneg (hrp h0) (by norm_num))
  · intro h0
    apply hxn
    have := hrn h0
    nlinarith
theorem roundHalfEven_intCast (n : ℤ) : roundHalfEven (n : ℚ) = n := by
  unfold roundHalfEven
  rw [Int.floor_intCast]
  simp

/-- The binary64 value nearest to a positive integer is a natural number. -/
theorem nearestBinary64_intCast (z : ℤ) (hz : 0 < z) :
    ∃ k : ℕ, nearestBinary64 (z : ℚ) = (k : ℚ) := by
  have ha : (0 : ℚ) < (z : ℚ) := by exact_mod_cast hz
  unfold nearestBinary64 ulpOf
  generalize max (binaryExponent (z : ℚ)) (-1022) - 52 = e
  rcases le_or_lt 0 e with he | he
  · obtain ⟨n, rfl⟩ := Int.eq_ofNat_of_zero_le he
    rw [zpow_natCast]
    have hr0 : 0 ≤ roundHalfEven ((z : ℚ) / 2 ^ n) :=
      roundHalfEven_nonneg _ (by positivity)
    refine ⟨(roundHalfEven ((z : ℚ) / 2 ^ n)).toNat * 2 ^ n, ?_⟩
    have h1 : (((roundHalfEven ((z : ℚ) / 2 ^ n)).toNat : ℤ) : ℚ) =
        ((roundHalfEven ((z : ℚ) / 2 ^ n) : ℤ) : ℚ) := by
      rw [Int.toNat_of_nonneg hr0]
    rw [← h1]
    push_cast
    rfl
  · obtain ⟨n, hn⟩ : ∃ n : ℕ, e = -(n : ℤ) :=
      ⟨(-e).toNat, by rw [Int.toNat_of_nonneg (by omega)]; ring⟩
    subst hn
    rw [zpow_neg, zpow_natCast]
    have h1 : (z : ℚ) / ((2 : ℚ) ^ n)⁻¹ = ((z * 2 ^ n : ℤ) : ℚ) := by
      push_cast
      field_simp
    rw [h1, roundHalfEven_intCast]
    refine ⟨z.toNat, ?_⟩
    have h2 : ((z.toNat : ℤ) : ℚ) = (z : ℚ) := by rw [Int.toNat_of_nonneg hz.le]
    have h3 : ((z.toNat : ℕ) : ℚ) = ((z.toNat : ℤ) : ℚ) := by norm_cast
    rw [h3, h2]
    push_cast
    field_simp

/-- The Number value for a non-negative integer is a non-negative integer,
or the infinity. -/
theorem toDouble_intCast (z : ℤ) (hz : 0 ≤ z) :
    (∃ k : ℕ, toDouble (z : ℚ) = JSNum.num (k : ℚ)) ∨ toDouble (z : ℚ) = JSNum.pinf := by
  rcases hz.lt_or_eq with h | h
  · have ha : (0 : ℚ) < (z : ℚ) := by exact_mod_cast h
    obtain ⟨k, hk⟩ := nearestBinary64_intCast z h
    unfold toDouble
    rw [if_neg (ne_of_gt ha), if_pos ha]
    split_ifs
    · exact Or.inr rfl
    · exact Or.inl ⟨k, by rw [hk]⟩
  · subst h
    left
    refine ⟨0, ?_⟩
    unfold toDouble
    simp

/-! # Theorems -/

/-! ## Numbers and values -/

theorem parseFloatStr_nil : parseFloatStr [] = JSNum.nan := by
  decide

theorem JSVal.isEmptyString_of_truthy (v : JSVal) (h : v.truthy = true) :
    v.isEmptyString = false := by
  cases v <;> simp_all [JSVal.truthy, JSVal.isEmptyString]

/-! ## Budget validation -/

/-- The outcome of `validateBudgetData` in terms of its two guards. -/
theorem validateBudgetData_isValid_eq (budgetData : BudgetData) :
    (validateBudgetData budgetData).isValid =
      ((budgetData.categoryId.truthy && !budgetData.categoryId.isEmptyString) &&
       (budgetData.amount.truthy && !budgetData.amount.isEmptyString) &&
       (!budgetData.amount.parseFloat.isNaN && !budgetData.amount.parseFloat.le (jsn 0) &&
        !budgetData.amount.parseFloat.gt (jsn maxBudgetAmount))) := by
  unfold validateBudgetData
  dsimp only
  cases budgetData.categoryId.truthy <;> cases budgetData.categoryId.isEmptyString <;>
    cases budgetData.amount.truthy <;> cases budgetData.amount.isEmptyString <;>
    cases budgetData.amount.parseFloat.isNaN <;>
    cases budgetData.amount.parseFloat.le (jsn 0) <;>
    cases budgetData.amount.parseFloat.gt (jsn maxBudgetAmount) <;> simp

/-- The range test of `validateBudgetData` on a number that is not NaN. -/
theorem amount_in_range_iff (x : JSNum) (hx : x.isNaN = false) :
    (!x.isNaN && !x.le (jsn 0) && !x.gt (jsn maxBudgetAmount)) = true ↔
      ∃ q : ℚ, x = JSNum.num q ∧ 0 < q ∧ q ≤ 999999.99 := by
  cases x with
  | nan => simp [JSNum.isNaN] at hx
  | num q =>
    simp only [JSNum.isNaN, JSNum.le, JSNum.gt, JSNum.lt, jsn, maxBudgetAmount, Bool.not_false,
      Bool.true_and, Bool.and_eq_true, Bool.not_eq_true', decide_eq_false_iff_not, not_le, not_lt,
      JSNum.num.injEq, exists_eq_left']
  | pinf => simp [JSNum.isNaN, JSNum.le, JSNum.gt, JSNum.lt, jsn]
  | ninf => simp [JSNum.isNaN, JSNum.le, JSNum.gt, JSNum.lt, jsn]

/-- A value that parses to a positive number is truthy and is not the empty
string. -/
theorem truthy_of_parseFloat_pos (v : JSVal) (q : ℚ) (hv : v.parseFloat = JSNum.num q)
    (hq : 0 < q) : v.truthy = true ∧ v.isEmptyString = false := by
  cases v with
  | undefined => simp [JSVal.parseFloat] at hv
  | null => simp [JSVal.parseFloat] at hv
  | bool b => simp [JSVal.parseFloat] at hv
  | num n =>
    simp only [JSVal.parseFloat] at hv
    subst hv
    simp [JSVal.truthy, JSNum.truthy, JSVal.isEmptyString, ne_of_gt hq]
  | str s =>
    cases s with
    | nil => simp [JSVal.parseFloat, parseFloatStr_nil] at hv
    | cons c t => simp [JSVal.truthy, JSVal.isEmptyString]

/-- C1: for a budget payload whose category id is non-empty and whose amount
parses to the number `a`, `validateBudgetData` answers `isValid = true` exactly
when `a` is finite with `0 < a ≤ 999999.99`. -/
theorem validateBudgetData_isValid_iff (budgetData : BudgetData) (a : JSNum)
    (hcat : budgetData.categoryId.truthy = true)
    (hparse : budgetData.amount.parseFloat = a) (hnum : a.isNaN = false) :
    (validateBudgetData budgetData).isValid = true ↔
      ∃ q : ℚ, a = JSNum.num q ∧ 0 < q ∧ q ≤ 999999.99 := by
  have hcat2 := JSVal.isEmptyString_of_truthy _ hcat
  rw [validateBudgetData_isValid_eq, hcat, hcat2, hparse]
  constructor
  · intro h
    simp only [Bool.and_eq_true] at h
    exact (amount_in_range_iff a hnum).mp (by simpa using h.2)
  · intro h
    have hr := (amount_in_range_iff a hnum).mpr h
    obtain ⟨q, hq, hpos, -⟩ := h
    obtain ⟨ht, he⟩ := truthy_of_parseFloat_pos budgetData.amount q (hparse.trans hq) hpos
    simp only [ht, he]
    simpa using hr

/-- Witness for C1: the inclusive boundary `999999.99` is accepted. -/
theorem validateBudgetData_isValid_iff_witness :
    (validateBudgetData
      ⟨JSVal.str "7".toList, JSVal.str "999999.99".toList, JSVal.null⟩).isValid = true :=
  (validateBudgetData_isValid_iff
    ⟨JSVal.str "7".toList, JSVal.str "999999.99".toList, JSVal.null⟩ (JSNum.num (99999999 / 100))
    (by decide) (by decide!) (by decide)).mpr ⟨99999999 / 100, rfl, by norm_num, by norm_num⟩

/-! ## Budget percentage and banding -/

/-- The operand `summary.spent || 0` on a finite number. -/
theorem or_zero_num (s : ℚ) :
    (JSVal.num (jsn s)).or (JSVal.num (jsn 0)) = JSVal.num (jsn s) := by
  by_cases hs : s = 0
  · subst hs
    simp [JSVal.or, JSVal.truthy, JSNum.truthy, jsn]
  · simp [JSVal.or, JSVal.truthy, JSNum.truthy, jsn, hs]

/-- The shared percentage expression for a positive budget. -/
theorem percentageExpr_pos (s b : ℚ) (hb : 0 < b) :
    percentageExpr (JSVal.num (jsn s)) (JSVal.num (jsn b)) =
      JSNum.round (JSNum.fmul (toDouble (s / b)) (jsn 100)) := by
  have hb0 : b ≠ 0 := ne_of_gt hb
  unfold percentageExpr
  simp only [JSVal.toNumber, JSNum.gt, JSNum.lt, jsn, hb, decide_True, if_true, JSNum.fdiv,
    JSNum.div, hb0, if_false, JSNum.toBinary64]

/-- The shared percentage expression for a budget that is not positive. -/
theorem percentageExpr_nonpos (s b : ℚ) (hb : ¬ 0 < b) :
    percentageExpr (JSVal.num (jsn s)) (JSVal.num (jsn b)) = jsn 0 := by
  unfold percentageExpr
  simp [JSVal.toNumber, JSNum.gt, JSNum.lt, jsn, hb]

/-- C2, the code against the claim: with 29 spent of a budget of 200 the
three functions compute 14, because the binary64 quotient 0.145 times 100 is
14.499999999999998; the exact value 14.5 rounds to 15. -/
theorem budget_percentage_counterexample :
    (renderBudgetItem
        ⟨JSVal.str "Food".toList, JSVal.num (jsn 1),
          some ⟨JSVal.num (jsn 29), JSVal.num (jsn 200), JSVal.null⟩⟩).map
        (fun v => v.percentage) = some (jsn 14) ∧
    alertPercentage ⟨JSVal.num (jsn 29), JSVal.num (jsn 200), JSVal.null⟩ = jsn 14 ∧
    (renderBudgetStatusItem
        ⟨JSVal.str "Food".toList, JSVal.num (jsn 1),
          some ⟨JSVal.num (jsn 29), JSVal.num (jsn 200), JSVal.null⟩⟩).percentage = jsn 14 ∧
    JSNum.fmul (JSNum.fdiv (jsn 29) (jsn 200)) (jsn 100) =
      jsn (8162774324609023 / 562949953421312) ∧
    round ((29 : ℚ) / 200 * 100) = 15 := by
  refine ⟨by decide!, by decide!, by decide!, by decide!, ?_⟩
  rw [round_eq]
  norm_num

/-- C2, as the code has it.  For a summary with spent `s` and budget `b` the
three functions compute the same percentage.  It is 0 when `b` is not
positive.  When `b > 0` (and `s / b * 100` is below the overflow range) it is
an integer within one half plus the binary64 rounding error of
`s / b * 100`, and it equals `round (s / b * 100)` whenever `s / b * 100` is
farther than that error from every half-integer. -/
theorem budget_percentage_close (s b : ℚ) (name categoryId customName : JSVal) :
    (renderBudgetItem
        ⟨name, categoryId, some ⟨JSVal.num (jsn s), JSVal.num (jsn b), customName⟩⟩).map
        (fun v => v.percentage)
      = some (percentageExpr (JSVal.num (jsn s)) (JSVal.num (jsn b))) ∧
    alertPercentage ⟨JSVal.num (jsn s), JSVal.num (jsn b), customName⟩
      = percentageExpr (JSVal.num (jsn s)) (JSVal.num (jsn b)) ∧
    (renderBudgetStatusItem
        ⟨name, categoryId, some ⟨JSVal.num (jsn s), JSVal.num (jsn b), customName⟩⟩).percentage
      = percentageExpr (JSVal.num (jsn s)) (JSVal.num (jsn b)) ∧
    (¬ 0 < b → percentageExpr (JSVal.num (jsn s)) (JSVal.num (jsn b)) = jsn 0) ∧
    (0 < b → |s / b * 100| < 2 ^ 1023 →
      ∃ P : ℤ, percentageExpr (JSVal.num (jsn s)) (JSVal.num (jsn b)) = jsn (P : ℚ) ∧
        |(P : ℚ) - s / b * 100| ≤ 1 / 2 + (|s / b * 100| / 2 ^ 51 + 51 * minSubnormal) ∧
        ((∀ k : ℤ, |s / b * 100| / 2 ^ 51 + 51 * minSubnormal <
            |s / b * 100 - ((k : ℚ) + 1 / 2)|) →
          P = round (s / b * 100))) := by
  refine ⟨?_, ?_, ?_, percentageExpr_nonpos s b, ?_⟩
  · simp only [renderBudgetItem, Option.map_some', or_zero_num]
  · simp only [alertPercentage, or_zero_num]
  · simp only [renderBudgetStatusItem, Option.getD_some, defaultZero, jsn]
  · intro hb hfin
    obtain ⟨x, hx, hxc, -, -⟩ := percent_close (s / b) hfin
    have hf1 : ((⌊x + 1 / 2⌋ : ℤ) : ℚ) ≤ x + 1 / 2 := Int.floor_le _
    have hf2 : x + 1 / 2 < ((⌊x + 1 / 2⌋ : ℤ) : ℚ) + 1 := Int.lt_floor_add_one _
    have hx1 := (abs_le.mp hxc).1
    have hx2 := (abs_le.mp hxc).2
    refine ⟨⌊x + 1 / 2⌋, ?_, ?_, ?_⟩
    · rw [percentageExpr_pos s b hb, hx]
      rfl
    · rw [abs_le]
      constructor <;> linarith
    · intro hfar
      rw [round_eq]
      symm
      rw [Int.floor_eq_iff]
      have hk1 := hfar (⌊x + 1 / 2⌋ - 1)
      have hk2 := hfar ⌊x + 1 / 2⌋
      rw [lt_abs] at hk1 hk2
      push_cast at hk1 hk2
      constructor
      · rcases hk1 with h | h
        · linarith
        · linarith
      · rcases hk2 with h | h
        · linarith
        · linarith

/-- C2, an instance: 80 spent of a budget of 100 is 80 per cent. -/
theorem budget_percentage_close_witness :
    percentageExpr (JSVal.num (jsn 80)) (JSVal.num (jsn 100)) = jsn 80 ∧
    ∃ P : ℤ, percentageExpr (JSVal.num (jsn 80)) (JSVal.num (jsn 100)) = jsn (P : ℚ) ∧
      |(P : ℚ) - (80 : ℚ) / 100 * 100| ≤
        1 / 2 + (|(80 : ℚ) / 100 * 100| / 2 ^ 51 + 51 * minSubnormal) ∧
      ((∀ k : ℤ, |(80 : ℚ) / 100 * 100| / 2 ^ 51 + 51 * minSubnormal <
          |(80 : ℚ) / 100 * 100 - ((k : ℚ) + 1 / 2)|) →
        P = round ((80 : ℚ) / 100 * 100)) :=
  ⟨by decide!,
   (budget_percentage_close 80 100 JSVal.null JSVal.null JSVal.null).2.2.2.2 (by norm_num)
     (by
       rw [abs_of_pos (by norm_num)]
       have h : (2 : ℚ) ^ 7 ≤ 2 ^ 1023 := pow_le_pow_right₀ (by norm_num) (by norm_num)
       have h7 : (2 : ℚ) ^ 7 = 128 := by norm_num
       have e : (80 : ℚ) / 100 * 100 = 80 := by norm_num
       rw [e]
       linarith)⟩

/-- The three worked percentages of the specification. -/
theorem budget_percentage_examples :
    percentageExpr (JSVal.num (jsn 0)) (JSVal.num (jsn 100)) = jsn 0 ∧
    percentageExpr (JSVal.num (jsn 80)) (JSVal.num (jsn 100)) = jsn 80 ∧
    percentageExpr (JSVal.num (jsn 100)) (JSVal.num (jsn 100)) = jsn 100 := by
  refine ⟨?_, ?_, ?_⟩ <;> decide!

/-- C3: for every percentage `p` the two renderers pick the same progress
class: `danger` from 90 up, `warning` from 80 up to 90, `safe` below 80; and
`renderBudgetItem` shows the over-budget copy exactly from 100 up. -/
theorem progress_class_bands (p : JSNum) (name categoryId : JSVal) (summary : BudgetSummary) :
    (budgetItemBand p).1 = (budgetStatusBand p).1 ∧
    (p.ge (jsn 90) = true → (budgetItemBand p).1 = "danger") ∧
    (p.ge (jsn 80) = true → p.lt (jsn 90) = true → (budgetItemBand p).1 = "warning") ∧
    (p.lt (jsn 80) = true → (budgetItemBand p).1 = "safe") ∧
    ((budgetItemBand p).2 = "🔥 Over budget!" ↔ p.ge (jsn 100) = true) ∧
    (renderBudgetItem ⟨name, categoryId, some summary⟩).map
        (fun v => (v.progressClass, v.warningText))
      = some (budgetItemBand
          (percentageExpr (summary.spent.or (JSVal.num (jsn 0))) summary.budget)) ∧
    (renderBudgetStatusItem ⟨name, categoryId, some summary⟩).progressClass
      = (budgetStatusBand
          (percentageExpr (defaultZero summary.spent) (defaultZero summary.budget))).1 := by
  have h100 : p.ge (jsn 100) = true → p.ge (jsn 90) = true := by
    cases p <;> simp [JSNum.ge, JSNum.le, jsn]
    intro h; linarith
  have h90 : p.ge (jsn 90) = true → p.ge (jsn 80) = true := by
    cases p <;> simp [JSNum.ge, JSNum.le, jsn]
    intro h; linarith
  have hlt90 : p.lt (jsn 90) = true → p.ge (jsn 90) = false := by
    cases p <;> simp [JSNum.ge, JSNum.le, JSNum.lt, jsn]
  have hlt80 : p.lt (jsn 80) = true → p.ge (jsn 80) = false := by
    cases p <;> simp [JSNum.ge, JSNum.le, JSNum.lt, jsn]
  refine ⟨?_, ?_, ?_, ?_, ?_, rfl, rfl⟩
  · unfold budgetItemBand budgetStatusBand
    split_ifs <;> rfl
  · intro h
    unfold budgetItemBand
    split_ifs <;> simp_all
  · intro h8 h9
    have := hlt90 h9
    unfold budgetItemBand
    split_ifs with h1 h2 <;> simp_all
  · intro h8
    have h8' := hlt80 h8
    unfold budgetItemBand
    split_ifs with h1 h2 h3 <;> simp_all
  · unfold budgetItemBand
    split_ifs with h1 h2 h3 <;> simp_all

/-! ## Coin redemption -/

/-- C4: a redemption request that names an item and costs more than the
current balance is refused: `spendCoins` returns `false`, performs no network
request and leaves the balance (and its cached copy) as they were. -/
theorem spendCoins_insufficient_funds (self : CoinSystem) (session : SessionLookup)
    (reply : RedeemReply) (itemId amount : JSVal)
    (hitem : itemId.truthy = true)
    (hcost : self.currentBalance.lt (amount.coalesce (JSVal.num (jsn 0))).toNumber = true) :
    (spendCoins self session reply (SpendPayload.object itemId amount)).1 = SpendResult.refused ∧
    (spendCoins self session reply (SpendPayload.object itemId amount)).2.1 = self ∧
    ∀ e ∈ (spendCoins self session reply (SpendPayload.object itemId amount)).2.2,
      e.isRequest = false := by
  simp [spendCoins, spendRequest, hitem, hcost, CoinEffect.isRequest]

/-- Witness for C4: balance 100, cost 150, with a live session and a server
that would have accepted. -/
theorem spendCoins_insufficient_funds_witness :
    (spendCoins ⟨jsn 100, some (jsn 100)⟩ (SessionLookup.found true true)
        (RedeemReply.ok (JSVal.num (jsn 0)))
        (SpendPayload.object (JSVal.num (jsn 12)) (JSVal.num (jsn 150)))).1 = SpendResult.refused ∧
    (spendCoins ⟨jsn 100, some (jsn 100)⟩ (SessionLookup.found true true)
        (RedeemReply.ok (JSVal.num (jsn 0)))
        (SpendPayload.object (JSVal.num (jsn 12)) (JSVal.num (jsn 150)))).2.1
      = ⟨jsn 100, some (jsn 100)⟩ ∧
    ∀ e ∈ (spendCoins ⟨jsn 100, some (jsn 100)⟩ (SessionLookup.found true true)
        (RedeemReply.ok (JSVal.num (jsn 0)))
        (SpendPayload.object (JSVal.num (jsn 12)) (JSVal.num (jsn 150)))).2.2,
      e.isRequest = false :=
  spendCoins_insufficient_funds ⟨jsn 100, some (jsn 100)⟩ (SessionLookup.found true true)
    (RedeemReply.ok (JSVal.num (jsn 0))) (JSVal.num (jsn 12)) (JSVal.num (jsn 150))
    (by decide!) (by decide!)

/-! ## Goal milestones -/

/-- The milestone block announces exactly one outcome, the one the
specification prescribes for the two percentages. -/
theorem milestoneEffects_outcome_num (coin : Bool) (old new : JSNum) :
    (milestoneEffects coin old new).filterMap GoalEffect.outcome?
      = [expectedOutcomeNum old new] := by
  unfold milestoneEffects expectedOutcomeNum
  cases h100 : new.ge (jsn 100)
  · cases h75 : new.ge (jsn 75) <;> cases o75 : old.lt (jsn 75) <;>
      cases h50 : new.ge (jsn 50) <;> cases o50 : old.lt (jsn 50) <;>
      cases h25 : new.ge (jsn 25) <;> cases o25 : old.lt (jsn 25) <;>
      cases coin <;>
      simp [h75, o75, h50, o50, h25, o25, GoalEffect.outcome?, List.find?]
  · cases coin <;> simp [GoalEffect.outcome?]

/-- The milestone block on two finite percentages. -/
theorem milestoneEffects_outcome (coin : Bool) (old new : ℚ) :
    (milestoneEffects coin (jsn old) (jsn new)).filterMap GoalEffect.outcome?
      = [expectedOutcome old new] := by
  unfold milestoneEffects expectedOutcome
  simp only [JSNum.ge, JSNum.le, JSNum.lt, jsn, Bool.and_eq_true, decide_eq_true_eq]
  by_cases h100 : (100 : ℚ) ≤ new
  · cases coin <;> simp [h100, GoalEffect.outcome?]
  · by_cases h75 : (75 : ℚ) ≤ new ∧ old < 75
    · cases coin <;> simp [h100, h75, GoalEffect.outcome?, List.find?]
    · by_cases h50 : (50 : ℚ) ≤ new ∧ old < 50
      · have h75' : ¬ (old < 75 ∧ (75 : ℚ) ≤ new) := fun h => h75 ⟨h.2, h.1⟩
        cases coin <;> simp [h100, h75, h75', h50, GoalEffect.outcome?, List.find?]
      · have h75' : ¬ (old < 75 ∧ (75 : ℚ) ≤ new) := fun h => h75 ⟨h.2, h.1⟩
        have h50' : ¬ (old < 50 ∧ (50 : ℚ) ≤ new) := fun h => h50 ⟨h.2, h.1⟩
        by_cases h25 : (25 : ℚ) ≤ new ∧ old < 25
        · cases coin <;> simp [h100, h75, h75', h50, h50', h25, GoalEffect.outcome?, List.find?]
        · have h25' : ¬ (old < 25 ∧ (25 : ℚ) ≤ new) := fun h => h25 ⟨h.2, h.1⟩
          cases coin <;>
            simp [h100, h75, h75', h50, h50', h25, h25', GoalEffect.outcome?, List.find?]

/-- C5, the code against the claim.  A goal of 1000.07 with 199.40 saved
receives 800.67: the amounts add up to the target, so `new` is 100 and the
claim has the goal completed, but the handler computes 99.99999999999999 in
binary64 arithmetic and announces the 75% milestone.  A goal of 24.76 with
18.57 saved receives 4.28: on the very binary64 values the goal holds, `old`
lies below 75 and `new` above, so the claim has the 75% milestone, but the
handler computes `old` as 75 and announces the plain success. -/
theorem contribution_outcome_counterexample :
    (contributeSubmit ⟨true, Reply.rejected, Reply.resolved JSVal.undefined, true⟩
        ⟨some ⟨"car".toList, toDouble (997 / 5), toDouble (100007 / 100), JSVal.num (jsn 1)⟩,
         some ⟨JSVal.num (jsn 2), JSVal.str "Cash".toList, JSVal.num (jsn 5000)⟩⟩
        "800.67".toList).map (fun r => r.2.filterMap GoalEffect.outcome?)
      = some [GoalOutcome.milestone75] ∧
    JSNum.fmul (JSNum.fdiv (JSNum.fadd (toDouble (997 / 5)) (parseFloatNumber "800.67".toList))
        (toDouble (100007 / 100))) (jsn 100) = jsn (7036874417766399 / 70368744177664) ∧
    expectedOutcome ((997 / 5 : ℚ) / (100007 / 100) * 100)
        (((997 / 5 : ℚ) + 80067 / 100) / (100007 / 100) * 100) = GoalOutcome.goalCompleted ∧
    (contributeSubmit ⟨true, Reply.rejected, Reply.resolved JSVal.undefined, true⟩
        ⟨some ⟨"car".toList, toDouble (1857 / 100), toDouble (619 / 25), JSVal.num (jsn 1)⟩,
         some ⟨JSVal.num (jsn 2), JSVal.str "Cash".toList, JSVal.num (jsn 5000)⟩⟩
        "4.28".toList).map (fun r => r.2.filterMap GoalEffect.outcome?)
      = some [GoalOutcome.plainSuccess] ∧
    toDouble (1857 / 100) = jsn (2613495158758441 / 140737488355328) ∧
    toDouble (619 / 25) = jsn (6969320423355843 / 281474976710656) ∧
    parseFloatNumber "4.28".toList = jsn (4818851601286431 / 1125899906842624) ∧
    expectedOutcome
        ((2613495158758441 / 140737488355328 : ℚ) / (6969320423355843 / 281474976710656) * 100)
        (((2613495158758441 / 140737488355328 : ℚ) + 4818851601286431 / 1125899906842624) /
          (6969320423355843 / 281474976710656) * 100) = GoalOutcome.milestone75 := by
  refine ⟨by decide!, by decide!, by decide!, by decide!, by decide!, by decide!, by decide!,
    by decide!⟩

/-- C5, as the code has it.  An accepted contribution ends with exactly one
of the five notifications, the one prescribed for the two percentages the
handler computes in binary64 arithmetic, `old = (current / target) * 100` and
`new = ((current + amount) / target) * 100`: completion when `new >= 100`,
else the highest threshold of 75, 50, 25 with `old < T <= new`, else the
plain success message. -/
theorem contribution_fires_one_outcome (host : ContributeHost) (page : GoalsPage)
    (amountInput : Str) (goal : Goal) (account : Account) (cash : JSVal)
    (hgoal : page.currentGoal = some goal)
    (hamt : (!(parseFloatNumber amountInput).truthy ||
      (parseFloatNumber amountInput).le (jsn 0)) = false)
    (hconfirm : (parseFloatNumber amountInput).gt (JSNum.fsub goal.target goal.current) = true →
      host.confirmAnswer = true)
    (hacct : page.contributionAccount = some account ∨
      (page.contributionAccount = none ∧ host.primaryAccount = Reply.resolved (some account)))
    (hbal : (parseFloatNumber amountInput).gt
      (account.balance.or (JSVal.num (jsn 0))).toNumber = false)
    (hreply : host.contributeReply = Reply.resolved cash) :
    ∃ page' effects, contributeSubmit host page amountInput = some (page', effects) ∧
      effects.filterMap GoalEffect.outcome?
        = [expectedOutcomeNum
            (JSNum.fmul (JSNum.fdiv goal.current goal.target) (jsn 100))
            (JSNum.fmul (JSNum.fdiv (JSNum.fadd goal.current (parseFloatNumber amountInput))
              goal.target) (jsn 100))] := by
  have hwith : ∀ before : List GoalEffect, before.filterMap GoalEffect.outcome? = [] →
      ((contributeWithAccount host page goal (parseFloatNumber amountInput)
        (JSNum.fmul (JSNum.fdiv goal.current goal.target) (jsn 100)) account before).2).filterMap
        GoalEffect.outcome? = [expectedOutcomeNum
            (JSNum.fmul (JSNum.fdiv goal.current goal.target) (jsn 100))
            (JSNum.fmul (JSNum.fdiv (JSNum.fadd goal.current (parseFloatNumber amountInput))
              goal.target) (jsn 100))] := by
    intro before hb
    simp only [contributeWithAccount, hbal, hreply, Bool.false_eq_true, if_false,
      List.filterMap_append, hb, milestoneEffects_outcome_num]
    simp [GoalEffect.outcome?]
  have hasked : (if (parseFloatNumber amountInput).gt (JSNum.fsub goal.target goal.current) = true
      then [GoalEffect.confirmPrompt] else []).filterMap GoalEffect.outcome? = [] := by
    split_ifs <;> simp [GoalEffect.outcome?]
  have hproceed : ((parseFloatNumber amountInput).gt (JSNum.fsub goal.target goal.current) &&
      !host.confirmAnswer) = false := by
    cases h : (parseFloatNumber amountInput).gt (JSNum.fsub goal.target goal.current)
    · rfl
    · rw [hconfirm h]
      rfl
  rcases hacct with hacc | ⟨hacc, hprim⟩
  · refine ⟨(contributeWithAccount host page goal (parseFloatNumber amountInput)
        (JSNum.fmul (JSNum.fdiv goal.current goal.target) (jsn 100)) account
        (if (parseFloatNumber amountInput).gt (JSNum.fsub goal.target goal.current) = true
          then [GoalEffect.confirmPrompt] else [])).1,
      (contributeWithAccount host page goal (parseFloatNumber amountInput)
        (JSNum.fmul (JSNum.fdiv goal.current goal.target) (jsn 100)) account
        (if (parseFloatNumber amountInput).gt (JSNum.fsub goal.target goal.current) = true
          then [GoalEffect.confirmPrompt] else [])).2, ?_, hwith _ hasked⟩
    simp only [contributeSubmit, hamt, hgoal, hproceed, hacc, Bool.false_eq_true, if_false]
  · refine ⟨(contributeWithAccount host page goal (parseFloatNumber amountInput)
        (JSNum.fmul (JSNum.fdiv goal.current goal.target) (jsn 100)) account
        ((if (parseFloatNumber amountInput).gt (JSNum.fsub goal.target goal.current) = true
          then [GoalEffect.confirmPrompt] else []) ++ [GoalEffect.accountRequest])).1,
      (contributeWithAccount host page goal (parseFloatNumber amountInput)
        (JSNum.fmul (JSNum.fdiv goal.current goal.target) (jsn 100)) account
        ((if (parseFloatNumber amountInput).gt (JSNum.fsub goal.target goal.current) = true
          then [GoalEffect.confirmPrompt] else []) ++ [GoalEffect.accountRequest])).2, ?_,
      hwith _ ?_⟩
    · simp only [contributeSubmit, hamt, hgoal, hproceed, hacc, hprim, Bool.false_eq_true,
        if_false]
    · rw [List.filterMap_append, hasked]
      simp [GoalEffect.outcome?]

/-- Witness for C5: current 40, target 100, contribution 15 fires the 50%
milestone only. -/
theorem contribution_fires_one_outcome_witness :
    ∃ page' effects,
      contributeSubmit ⟨true, Reply.rejected, Reply.resolved JSVal.undefined, true⟩
        ⟨some ⟨"car".toList, jsn 40, jsn 100, JSVal.num (jsn 1)⟩,
         some ⟨JSVal.num (jsn 2), JSVal.str "Cash".toList, JSVal.num (jsn 500)⟩⟩
        "15".toList = some (page', effects) ∧
      effects.filterMap GoalEffect.outcome? = [GoalOutcome.milestone50] := by
  have h := contribution_fires_one_outcome
    ⟨true, Reply.rejected, Reply.resolved JSVal.undefined, true⟩
    ⟨some ⟨"car".toList, jsn 40, jsn 100, JSVal.num (jsn 1)⟩,
     some ⟨JSVal.num (jsn 2), JSVal.str "Cash".toList, JSVal.num (jsn 500)⟩⟩
    "15".toList ⟨"car".toList, jsn 40, jsn 100, JSVal.num (jsn 1)⟩
    ⟨JSVal.num (jsn 2), JSVal.str "Cash".toList, JSVal.num (jsn 500)⟩ JSVal.undefined
    rfl (by decide!) (fun _ => rfl) (Or.inl rfl) (by decide!) rfl
  have he : expectedOutcomeNum
      (JSNum.fmul (JSNum.fdiv (jsn 40) (jsn 100)) (jsn 100))
      (JSNum.fmul (JSNum.fdiv (JSNum.fadd (jsn 40) (parseFloatNumber "15".toList))
        (jsn 100)) (jsn 100)) = GoalOutcome.milestone50 := by decide!
  rw [he] at h
  exact h

/-! ## CSV import -/

theorem rowObject_keys (headers cols : List Str) :
    (rowObject headers cols).map Prod.fst = headers := by
  unfold rowObject
  rw [List.map_map]
  have : (Prod.fst ∘ fun p : ℕ × Str => (p.2, ((cols.get? p.1).map trim).getD [])) = Prod.snd := by
    funext p; rfl
  rw [this]
  exact List.enum_map_snd headers

theorem objGet_isSome_of_mem (headers cols : List Str) (key : Str) (h : key ∈ headers) :
    ∃ v, objGet (rowObject headers cols) key = some v := by
  have hk : key ∈ (rowObject headers cols).map Prod.fst := by rw [rowObject_keys]; exact h
  obtain ⟨p, hp, hpk⟩ := List.mem_map.mp hk
  have hsome : ((rowObject headers cols).reverse.find? (fun p => p.1 == key)).isSome = true := by
    rw [List.find?_isSome]
    exact ⟨p, List.mem_reverse.mpr hp, by simp [hpk]⟩
  obtain ⟨q, hq⟩ := Option.isSome_iff_exists.mp hsome
  exact ⟨q.2, by simp [objGet, hq]⟩

/-- The row loop appends what each row yields, in order. -/
theorem importRows_cons (dateParse : Str → Option ℤ) (headers : List Str) (row : Str)
    (rest : List Str) (acc : List ImportedTransaction) :
    importRows dateParse headers (row :: rest) acc =
      match importRow dateParse headers row with
      | RowResult.skipped => importRows dateParse headers rest acc
      | RowResult.record tx => importRows dateParse headers rest (acc ++ [tx])
      | RowResult.threw => ⟨acc, true⟩ := by
  rw [importRows]

/-- A skipped row can be taken out of the loop's input. -/
theorem importRows_skip_middle (dateParse : Str → Option ℤ) (headers : List Str)
    (bad : Str) (hbad : importRow dateParse headers bad = RowResult.skipped)
    (pre post : List Str) (acc : List ImportedTransaction) :
    importRows dateParse headers (pre ++ bad :: post) acc =
      importRows dateParse headers (pre ++ post) acc := by
  induction pre generalizing acc with
  | nil => simp [importRows_cons, hbad]
  | cons r rs ih =>
    simp only [List.cons_append, importRows_cons]
    cases importRow dateParse headers r with
    | skipped => exact ih acc
    | record tx => exact ih (acc ++ [tx])
    | threw => rfl

/-- C6 as stated fails: the row `2024-01-01 10:00,,4.50,expense` meets every
premise (four fields, a numeric amount, the type `expense`, a readable date)
and yields one record, but its description is the default text and not the
(empty) trimmed description. -/
theorem importRow_description_counterexample :
    ∃ tx, importRow sampleDateParse (csvHeaders "datetime,description,amount,type".toList)
        "2024-01-01 10:00,,4.50,expense".toList = RowResult.record tx ∧
      rowField (csvHeaders "datetime,description,amount,type".toList)
        "2024-01-01 10:00,,4.50,expense".toList "description".toList = some [] ∧
      tx.description = "Imported transaction".toList ∧
      tx.description ≠ [] := by
  refine ⟨⟨"Imported transaction".toList, jsn (9 / 2), 1704103200000, "expense".toList, none⟩,
    ?_, ?_, rfl, ?_⟩
  · decide!
  · decide!
  · decide

/-- C6, amended: a data row with at least as many fields as the header, an
amount that parses to a number, a type that is `income` or `expense` up to
case and a readable date yields exactly one record, which carries the parsed
amount, the lower-cased type, the trimmed description (the text
`Imported transaction` when that is empty) and the category field (`null`
when absent or empty). -/
theorem importRow_valid_row (dateParse : Str → Option ℤ) (headers : List Str) (row : Str)
    (rawAmount rawType : Str) (t : ℤ) (rest : List Str) (acc : List ImportedTransaction)
    (hcols : headers.length ≤ (splitOnChar ',' row).length)
    (hamount : rowField headers row "amount".toList = some rawAmount)
    (hnum : (parseFloatStr rawAmount).isNaN = false)
    (htype : rowField headers row "type".toList = some rawType)
    (hkind : toLowerCase rawType = "income".toList ∨ toLowerCase rawType = "expense".toList)
    (hdate : dateOfString dateParse (normalizeDateString
        (firstNonEmpty (rowField headers row "datetime".toList)
          (rowField headers row "date".toList))) = some t) :
    importRow dateParse headers row = RowResult.record
      ⟨(match rowField headers row "description".toList with
        | some (c :: cs) => c :: cs
        | _ => "Imported transaction".toList),
       parseFloatStr rawAmount, t, toLowerCase rawType,
       (match rowField headers row "category".toList with
        | some (c :: cs) => some (c :: cs)
        | _ => none)⟩ ∧
    importRows dateParse headers (row :: rest) acc =
      importRows dateParse headers rest (acc ++
        [⟨(match rowField headers row "description".toList with
           | some (c :: cs) => c :: cs
           | _ => "Imported transaction".toList),
          parseFloatStr rawAmount, t, toLowerCase rawType,
          (match rowField headers row "category".toList with
           | some (c :: cs) => some (c :: cs)
           | _ => none)⟩]) := by
  have hrow : importRow dateParse headers row = RowResult.record
      ⟨(match rowField headers row "description".toList with
        | some (c :: cs) => c :: cs
        | _ => "Imported transaction".toList),
       parseFloatStr rawAmount, t, toLowerCase rawType,
       (match rowField headers row "category".toList with
        | some (c :: cs) => some (c :: cs)
        | _ => none)⟩ := by
    unfold rowField at hamount htype hdate ⊢
    have hlen : ¬ (splitOnChar ',' row).length < headers.length := not_lt.mpr hcols
    have hk : (toLowerCase rawType != "income".toList && toLowerCase rawType != "expense".toList)
        = false := by
      rcases hkind with h | h <;> rw [h] <;> decide
    simp only [importRow, hlen, if_false, hamount, htype, hnum, hk, Bool.or_false,
      Bool.false_eq_true, hdate]
  exact ⟨hrow, by rw [importRows_cons, hrow]⟩

/-- Witness for C6: the row `2024-01-01 10:00,Coffee,4.50,expense` yields one
expense record with amount 4.50. -/
theorem importRow_valid_row_witness :
    importRow sampleDateParse (csvHeaders "datetime,description,amount,type".toList)
      "2024-01-01 10:00,Coffee,4.50,expense".toList
      = RowResult.record
          ⟨"Coffee".toList, jsn (9 / 2), 1704103200000, "expense".toList, none⟩ := by
  have h := (importRow_valid_row sampleDateParse
    (csvHeaders "datetime,description,amount,type".toList)
    "2024-01-01 10:00,Coffee,4.50,expense".toList "4.50".toList "expense".toList 1704103200000
    [] [] (by decide) (by decide) (by decide!) (by decide) (Or.inr (by decide)) (by decide!)).1
  rw [h]
  decide!

/-- A row whose amount is not a number or whose type is neither `income` nor
`expense` is skipped, under a header that has a `type` column. -/
theorem importRow_bad_row_skipped (dateParse : Str → Option ℤ) (headers : List Str) (bad : Str)
    (htypecol : "type".toList ∈ headers)
    (hbad : (∀ rawAmount, rowField headers bad "amount".toList = some rawAmount →
          (parseFloatStr rawAmount).isNaN = true) ∨
        (∀ rawType, rowField headers bad "type".toList = some rawType →
          toLowerCase rawType ≠ "income".toList ∧ toLowerCase rawType ≠ "expense".toList)) :
    importRow dateParse headers bad = RowResult.skipped := by
  unfold importRow
  by_cases hlen : (splitOnChar ',' bad).length < headers.length
  · simp [hlen]
  · obtain ⟨rawType, hty⟩ := objGet_isSome_of_mem headers (splitOnChar ',' bad) _ htypecol
    simp only [hlen, if_false, hty]
    unfold rowField at hbad
    rcases hbad with h | h
    · cases ha : objGet (rowObject headers (splitOnChar ',' bad)) "amount".toList with
      | none => simp [JSNum.isNaN]
      | some rawAmount => simp [h rawAmount ha]
    · obtain ⟨h1, h2⟩ := h rawType hty
      have hk : (toLowerCase rawType != "income".toList &&
          toLowerCase rawType != "expense".toList) = true := by
        simp only [Bool.and_eq_true, bne_iff_ne, ne_eq]
        exact ⟨h1, h2⟩
      simp only [hk, Bool.or_true, if_true]

/-- C7: under a header that passes the check, a data row whose amount does not
parse to a number or whose type is neither `income` nor `expense` is skipped:
the records are those the loop produces from the other rows, and they equal
the records of the same file without that row. -/
theorem import_skips_bad_row (dateParse : Str → Option ℤ)
    (previous : List ImportedTransaction) (headerRow bad : Str) (pre post : List Str)
    (hheader : ∀ req ∈ requiredColumns, req ∈ csvHeaders headerRow)
    (hbad : (∀ rawAmount, rowField (csvHeaders headerRow) bad "amount".toList = some rawAmount →
          (parseFloatStr rawAmount).isNaN = true) ∨
        (∀ rawType, rowField (csvHeaders headerRow) bad "type".toList = some rawType →
          toLowerCase rawType ≠ "income".toList ∧ toLowerCase rawType ≠ "expense".toList)) :
    importRow dateParse (csvHeaders headerRow) bad = RowResult.skipped ∧
    (handleImportRows dateParse previous (headerRow :: (pre ++ bad :: post))).importedTransactions
      = (importRows dateParse (csvHeaders headerRow) (pre ++ post) []).records ∧
    (pre ++ post ≠ [] →
      handleImportRows dateParse previous (headerRow :: (pre ++ bad :: post))
        = handleImportRows dateParse previous (headerRow :: (pre ++ post))) := by
  have htype : "type".toList ∈ csvHeaders headerRow := hheader _ (by decide)
  have hskip := importRow_bad_row_skipped dateParse (csvHeaders headerRow) bad htype hbad
  have hfind : requiredColumns.find? (fun req => !(csvHeaders headerRow).contains req) = none := by
    rw [List.find?_eq_none]
    intro req hreq
    simp [hheader req hreq]
  have hloop := importRows_skip_middle dateParse (csvHeaders headerRow) bad hskip pre post []
  have hlen : ¬ (headerRow :: (pre ++ bad :: post)).length < 2 := by
    simp only [List.length_cons, List.length_append]
    omega
  have hwith : handleImportRows dateParse previous (headerRow :: (pre ++ bad :: post)) =
      (let run := importRows dateParse (csvHeaders headerRow) (pre ++ post) []
       if run.threw then ⟨run.records, ImportEnd.threw⟩
       else if run.records.length == 0 then ⟨run.records, ImportEnd.noValidTransactions⟩
       else ⟨run.records, ImportEnd.preview⟩) := by
    simp only [handleImportRows, hlen, if_false, hfind, hloop]
  refine ⟨hskip, ?_, ?_⟩
  · rw [hwith]
    dsimp only
    split_ifs <;> rfl
  · intro hne
    have hlen2 : ¬ (headerRow :: (pre ++ post)).length < 2 := by
      have : 0 < (pre ++ post).length := List.length_pos.mpr hne
      simp only [List.length_cons]
      omega
    rw [hwith]
    simp only [handleImportRows, hlen2, if_false, hfind]

/-- Witness for C7: a file with a good row, a row with the amount `abc`, and a
row of type `transfer`. -/
theorem import_skips_bad_row_witness :
    importRow sampleDateParse (csvHeaders "datetime,description,amount,type".toList)
        "2024-01-02 09:00,Tea,abc,expense".toList = RowResult.skipped ∧
    (handleImportRows sampleDateParse [] ("datetime,description,amount,type".toList ::
        (["2024-01-01 10:00,Coffee,4.50,expense".toList] ++
          "2024-01-02 09:00,Tea,abc,expense".toList ::
          ["2024-01-03 09:00,Move,5,transfer".toList]))).importedTransactions
      = (importRows sampleDateParse (csvHeaders "datetime,description,amount,type".toList)
          (["2024-01-01 10:00,Coffee,4.50,expense".toList] ++
            ["2024-01-03 09:00,Move,5,transfer".toList]) []).records ∧
    (["2024-01-01 10:00,Coffee,4.50,expense".toList] ++
        ["2024-01-03 09:00,Move,5,transfer".toList] ≠ [] →
      handleImportRows sampleDateParse [] ("datetime,description,amount,type".toList ::
        (["2024-01-01 10:00,Coffee,4.50,expense".toList] ++
          "2024-01-02 09:00,Tea,abc,expense".toList ::
          ["2024-01-03 09:00,Move,5,transfer".toList]))
      = handleImportRows sampleDateParse [] ("datetime,description,amount,type".toList ::
        (["2024-01-01 10:00,Coffee,4.50,expense".toList] ++
          ["2024-01-03 09:00,Move,5,transfer".toList]))) :=
  import_skips_bad_row sampleDateParse [] "datetime,description,amount,type".toList
    "2024-01-02 09:00,Tea,abc,expense".toList ["2024-01-01 10:00,Coffee,4.50,expense".toList]
    ["2024-01-03 09:00,Move,5,transfer".toList] (by decide)
    (Or.inl (fun rawAmount h => by
      have h2 : rawAmount = "abc".toList := by
        have h3 : rowField (csvHeaders "datetime,description,amount,type".toList)
            "2024-01-02 09:00,Tea,abc,expense".toList "amount".toList = some "abc".toList := by
          decide
        rw [h3] at h
        exact (Option.some.inj h).symm
      rw [h2]
      decide))

/-- C8: when the header row, its names trimmed and lower-cased, lacks one of
`datetime`, `description`, `amount`, `type`, the import stops at the header
check: no data row is read and `importedTransactions` keeps its value.  When
the four names are present the header check passes, whether or not there is a
`category` column. -/
theorem import_header_check (dateParse : Str → Option ℤ) (previous : List ImportedTransaction)
    (headerRow : Str) (dataRows : List Str) :
    ((∃ req ∈ requiredColumns, req ∉ csvHeaders headerRow) →
      ∃ req ∈ requiredColumns, req ∉ csvHeaders headerRow ∧
        handleImportRows dateParse previous (headerRow :: dataRows)
          = ⟨previous, if dataRows = [] then ImportEnd.emptyFile
                       else ImportEnd.missingColumn req⟩) ∧
    ((∀ req ∈ requiredColumns, req ∈ csvHeaders headerRow) → dataRows ≠ [] →
      (∀ column, (handleImportRows dateParse previous (headerRow :: dataRows)).ending
          ≠ ImportEnd.missingColumn column) ∧
      (handleImportRows dateParse previous (headerRow :: dataRows)).importedTransactions
        = (importRows dateParse (csvHeaders headerRow) dataRows []).records) := by
  constructor
  · rintro ⟨req, hreq, hmiss⟩
    have hsome : (requiredColumns.find?
        (fun req => !(csvHeaders headerRow).contains req)).isSome = true := by
      rw [List.find?_isSome]
      exact ⟨req, hreq, by simp [hmiss]⟩
    obtain ⟨r, hr⟩ := Option.isSome_iff_exists.mp hsome
    have hrmem := List.mem_of_find?_eq_some hr
    have hrp := List.find?_some hr
    refine ⟨r, hrmem, by simpa using hrp, ?_⟩
    cases dataRows with
    | nil => simp [handleImportRows]
    | cons d ds =>
      have hlen : ¬ (headerRow :: d :: ds).length < 2 := by
        simp only [List.length_cons]
        omega
      simp only [handleImportRows, hlen, if_false, hr]
      simp
  · intro hall hne
    have hfind : requiredColumns.find? (fun req => !(csvHeaders headerRow).contains req)
        = none := by
      rw [List.find?_eq_none]
      intro req hreq
      simp [hall req hreq]
    have hlen : ¬ (headerRow :: dataRows).length < 2 := by
      have : 0 < dataRows.length := List.length_pos.mpr hne
      simp only [List.length_cons]
      omega
    constructor
    · intro column
      simp only [handleImportRows, hlen, if_false, hfind]
      split_ifs <;> simp
    · simp only [handleImportRows, hlen, if_false, hfind]
      split_ifs <;> rfl

/-- Witness for C8: a header without `amount` stops the import and keeps the
earlier records; a header with the four names and no `category` passes. -/
theorem import_header_check_witness :
    (∃ req ∈ requiredColumns, req ∉ csvHeaders "datetime,description,type,category".toList ∧
      handleImportRows sampleDateParse
          [⟨"old".toList, jsn 1, 0, "income".toList, none⟩]
          ("datetime,description,type,category".toList ::
            ["2024-01-01 10:00,Coffee,expense,Food".toList])
        = ⟨[⟨"old".toList, jsn 1, 0, "income".toList, none⟩],
           if ["2024-01-01 10:00,Coffee,expense,Food".toList] = [] then ImportEnd.emptyFile
           else ImportEnd.missingColumn req⟩) ∧
    ((∀ column, (handleImportRows sampleDateParse []
          (" DateTime ,Description,AMOUNT,type".toList ::
            ["2024-01-01 10:00,Coffee,4.50,expense".toList])).ending
          ≠ ImportEnd.missingColumn column) ∧
      (handleImportRows sampleDateParse []
          (" DateTime ,Description,AMOUNT,type".toList ::
            ["2024-01-01 10:00,Coffee,4.50,expense".toList])).importedTransactions
        = (importRows sampleDateParse (csvHeaders " DateTime ,Description,AMOUNT,type".toList)
            ["2024-01-01 10:00,Coffee,4.50,expense".toList] []).records) :=
  ⟨(import_header_check sampleDateParse [⟨"old".toList, jsn 1, 0, "income".toList, none⟩]
      "datetime,description,type,category".toList
      ["2024-01-01 10:00,Coffee,expense,Food".toList]).1
      ⟨"amount".toList, by decide, by decide⟩,
   (import_header_check sampleDateParse [] " DateTime ,Description,AMOUNT,type".toList
      ["2024-01-01 10:00,Coffee,4.50,expense".toList]).2 (by decide) (by decide)⟩

/-! ## The calendar -/

theorem dayFromYear_cycle (a g i j : ℤ) (hg : 0 ≤ g) (hg3 : g ≤ 3) (hi : 0 ≤ i) (hi2 : i ≤ 24)
    (hj : 0 ≤ j) (hj3 : j ≤ 3) :
    dayFromYear (1601 + 400 * a + 100 * g + 4 * i + j)
      = 146097 * a + 36524 * g + 1461 * i + 365 * j - 134774 := by
  unfold dayFromYear
  omega

theorem dayFromYear_succ (y : ℤ) :
    dayFromYear (y + 1) = dayFromYear y + 365 + (if isLeapYear y = true then 1 else 0) := by
  unfold dayFromYear isLeapYear
  simp only [decide_eq_true_eq]
  split_ifs <;> omega

theorem dayFromYear_strictMono (y y' : ℤ) (h : y < y') : dayFromYear y < dayFromYear y' := by
  unfold dayFromYear
  omega

/-- The year found by `yearFromDay` is the one whose days contain `d`, which
is how ECMAScript defines `YearFromTime`. -/
theorem yearFromDay_spec (d : ℤ) :
    dayFromYear (yearFromDay d) ≤ d ∧ d < dayFromYear (yearFromDay d + 1) := by
  have key : ∀ a g i j : ℤ, 0 ≤ g → g ≤ 3 → 0 ≤ i → i ≤ 24 → 0 ≤ j → j ≤ 3 →
      1601 + 400 * a + 100 * g + 4 * i + j = yearFromDay d →
      (146097 * a + 36524 * g + 1461 * i + 365 * j - 134774 ≤ d ∧
      d < 146097 * a + 36524 * g + 1461 * i + 365 * j - 134774 + 365 +
        (if j = 3 ∧ (i ≠ 24 ∨ g = 3) then 1 else 0)) →
      dayFromYear (yearFromDay d) ≤ d ∧ d < dayFromYear (yearFromDay d + 1) := by
    intro a g i j hg hg3 hi hi2 hj hj3 hy h
    rw [dayFromYear_succ, ← hy, dayFromYear_cycle a g i j hg hg3 hi hi2 hj hj3]
    unfold isLeapYear
    simp only [decide_eq_true_eq]
    split_ifs at h ⊢ <;> omega
  apply key ((d + 134774) / 146097) (min ((d + 134774) % 146097 / 36524) 3)
    (min (((d + 134774) % 146097 - 36524 * (min ((d + 134774) % 146097 / 36524) 3)) / 1461) 24)
    (min ((((d + 134774) % 146097 - 36524 * (min ((d + 134774) % 146097 / 36524) 3)) -
      1461 * (min (((d + 134774) % 146097 -
        36524 * (min ((d + 134774) % 146097 / 36524) 3)) / 1461) 24)) / 365) 3)
  all_goals first | rfl | (split_ifs <;> omega) | omega

/-- The year of a day is the only year whose days contain it. -/
theorem yearFromDay_unique (d y : ℤ) (h1 : dayFromYear y ≤ d) (h2 : d < dayFromYear (y + 1)) :
    yearFromDay d = y := by
  obtain ⟨h3, h4⟩ := yearFromDay_spec d
  by_contra hne
  rcases lt_or_gt_of_ne hne with h | h
  · have : yearFromDay d + 1 ≤ y := h
    rcases eq_or_lt_of_le this with e | l
    · rw [e] at h4; omega
    · have := dayFromYear_strictMono _ _ l; omega
  · have : y + 1 ≤ yearFromDay d := h
    rcases eq_or_lt_of_le this with e | l
    · rw [← e] at h3; omega
    · have := dayFromYear_strictMono _ _ l; omega

theorem dayWithinYear_bounds (d : ℤ) :
    0 ≤ dayWithinYear d ∧
      dayWithinYear d < 365 + (if isLeapYear (yearFromDay d) = true then 1 else 0) := by
  obtain ⟨h1, h2⟩ := yearFromDay_spec d
  rw [dayFromYear_succ] at h2
  unfold dayWithinYear
  constructor <;> omega

/-- The month table: the month found for a day of the year is in range and
its first day is at most 30 days before that day. -/
theorem monthOfYearDay_spec (leap : Bool) (dwy : ℤ) (h0 : 0 ≤ dwy)
    (h1 : dwy < 365 + (if leap = true then 1 else 0)) :
    0 ≤ monthOfYearDay leap dwy ∧ monthOfYearDay leap dwy ≤ 11 ∧
      monthStart leap (monthOfYearDay leap dwy) ≤ dwy ∧
      dwy < monthStart leap (monthOfYearDay leap dwy) + 31 := by
  have hl : (if leap = true then (1 : ℤ) else 0) = 0 ∨
      (if leap = true then (1 : ℤ) else 0) = 1 := by
    cases leap <;> simp
  unfold monthOfYearDay monthStart
  generalize (if leap = true then (1 : ℤ) else 0) = l at h1 hl
  simp only []
  by_cases c0 : dwy < 31
  · rw [if_pos c0]
    norm_num
    omega
  rw [if_neg c0]
  by_cases c1 : dwy < 59 + l
  · rw [if_pos c1]
    norm_num
    omega
  rw [if_neg c1]
  by_cases c2 : dwy < 90 + l
  · rw [if_pos c2]
    norm_num
    omega
  rw [if_neg c2]
  by_cases c3 : dwy < 120 + l
  · rw [if_pos c3]
    norm_num
    omega
  rw [if_neg c3]
  by_cases c4 : dwy < 151 + l
  · rw [if_pos c4]
    norm_num
    omega
  rw [if_neg c4]
  by_cases c5 : dwy < 181 + l
  · rw [if_pos c5]
    norm_num
    omega
  rw [if_neg c5]
  by_cases c6 : dwy < 212 + l
  · rw [if_pos c6]
    norm_num
    omega
  rw [if_neg c6]
  by_cases c7 : dwy < 243 + l
  · rw [if_pos c7]
    norm_num
    omega
  rw [if_neg c7]
  by_cases c8 : dwy < 273 + l
  · rw [if_pos c8]
    norm_num
    omega
  rw [if_neg c8]
  by_cases c9 : dwy < 304 + l
  · rw [if_pos c9]
    norm_num
    omega
  rw [if_neg c9]
  by_cases c10 : dwy < 334 + l
  · rw [if_pos c10]
    norm_num
    omega
  rw [if_neg c10]
  norm_num
  omega

theorem monthFromDay_range (d : ℤ) : 0 ≤ monthFromDay d ∧ monthFromDay d ≤ 11 := by
  obtain ⟨h0, h1⟩ := dayWithinYear_bounds d
  obtain ⟨h2, h3, -, -⟩ := monthOfYearDay_spec _ _ h0 h1
  exact ⟨h2, h3⟩

/-- The day of the month lies between 1 and 31. -/
theorem dateFromDay_range (d : ℤ) : 1 ≤ dateFromDay d ∧ dateFromDay d ≤ 31 := by
  obtain ⟨h0, h1⟩ := dayWithinYear_bounds d
  obtain ⟨-, -, h4, h5⟩ := monthOfYearDay_spec _ _ h0 h1
  unfold dateFromDay monthFromDay
  constructor <;> omega

/-- `MakeDay` inverts the three calendar fields of a day. -/
theorem makeDay_fields (d : ℤ) :
    makeDay (yearFromDay d) (monthFromDay d) (dateFromDay d) = d := by
  obtain ⟨hm0, hm11⟩ := monthFromDay_range d
  have hdiv : monthFromDay d / 12 = 0 := by omega
  have hmod : monthFromDay d % 12 = monthFromDay d := by omega
  unfold makeDay
  simp only [hdiv, hmod, add_zero]
  unfold dateFromDay dayWithinYear
  omega

/-! ## Digits and keys -/

theorem digitChar_toNat (d : ℕ) (h : d < 10) : (digitChar d).toNat = 48 + d := by
  interval_cases d <;> rfl

theorem digitChar_isDigit (d : ℕ) (h : d < 10) : isDigit (digitChar d) = true := by
  interval_cases d <;> rfl

theorem digitsValue_append (s t : Str) (n : ℕ) :
    List.foldl (fun n c => 10 * n + (c.toNat - 48)) n (s ++ t)
      = List.foldl (fun n c => 10 * n + (c.toNat - 48))
          (List.foldl (fun n c => 10 * n + (c.toNat - 48)) n s) t := by
  rw [List.foldl_append]

theorem digitsValue_snoc (s : Str) (c : Char) :
    digitsValue (s ++ [c]) = 10 * digitsValue s + (c.toNat - 48) := by
  simp [digitsValue, List.foldl_append]

/-- The digits `natToStrAux` puts in front of `acc` are decimal digits whose
value is `n`. -/
theorem natToStrAux_spec (fuel n : ℕ) (acc : Str) (h : n < fuel) :
    ∃ ds : Str, natToStrAux fuel n acc = ds ++ acc ∧ ds ≠ [] ∧
      (∀ c ∈ ds, isDigit c = true) ∧ digitsValue ds = n := by
  induction fuel generalizing n acc with
  | zero => omega
  | succ k ih =>
    unfold natToStrAux
    by_cases hn : n < 10
    · refine ⟨[digitChar n], by simp [hn], by simp, ?_, ?_⟩
      · intro c hc
        rw [List.mem_singleton.mp hc]
        exact digitChar_isDigit n hn
      · simp [digitsValue, digitChar_toNat n hn]
    · have hk : n / 10 < k := by omega
      obtain ⟨ds, h1, h2, h3, h4⟩ := ih (n / 10) (digitChar (n % 10) :: acc) hk
      have hm : n % 10 < 10 := Nat.mod_lt _ (by norm_num)
      refine ⟨ds ++ [digitChar (n % 10)], by simp [hn, h1], by simp, ?_, ?_⟩
      · intro c hc
        rcases List.mem_append.mp hc with hc | hc
        · exact h3 c hc
        · rw [List.mem_singleton.mp hc]
          exact digitChar_isDigit _ hm
      · rw [digitsValue_snoc, h4, digitChar_toNat _ hm]
        omega

theorem natToStr_spec (n : ℕ) :
    natToStr n ≠ [] ∧ (∀ c ∈ natToStr n, isDigit c = true) ∧ digitsValue (natToStr n) = n := by
  obtain ⟨ds, h1, h2, h3, h4⟩ := natToStrAux_spec (n + 1) n [] (Nat.lt_succ_self n)
  have : natToStr n = ds := by simp [natToStr, h1]
  rw [this]
  exact ⟨h2, h3, h4⟩
theorem isDigit_not_whiteSpace (c : Char) (h : isDigit c = true) : isWhiteSpace c = false := by
  simp only [isDigit, Bool.and_eq_true, decide_eq_true_eq] at h
  simp only [isWhiteSpace, Bool.or_eq_false_iff, decide_eq_false_iff_not, Bool.and_eq_false_imp,
    decide_eq_true_eq]
  omega

theorem takeWhile_all {α : Type} (p : α → Bool) (l : List α) (h : ∀ x ∈ l, p x = true) :
    l.takeWhile p = l := by
  induction l with
  | nil => rfl
  | cons a t ih =>
    simp only [List.takeWhile_cons, h a (List.mem_cons_self _ _), if_true]
    rw [ih (fun x hx => h x (List.mem_cons_of_mem _ hx))]

theorem dropWhile_all {α : Type} (p : α → Bool) (l : List α) (h : ∀ x ∈ l, p x = true) :
    l.dropWhile p = [] := by
  induction l with
  | nil => rfl
  | cons a t ih =>
    simp only [List.dropWhile_cons, h a (List.mem_cons_self _ _), if_true]
    exact ih (fun x hx => h x (List.mem_cons_of_mem _ hx))

theorem trim_digits (s : Str) (hne : s ≠ []) (h : ∀ c ∈ s, isDigit c = true) : trim s = s := by
  have hstart : trimStart s = s := by
    cases s with
    | nil => exact absurd rfl hne
    | cons a t =>
      simp [trimStart, List.dropWhile_cons,
        isDigit_not_whiteSpace a (h a (List.mem_cons_self _ _))]
  have hend : trimEnd s = s := by
    unfold trimEnd
    have hr : s.reverse ≠ [] := by simpa using hne
    cases hrev : s.reverse with
    | nil => exact absurd hrev hr
    | cons a t =>
      have ha : a ∈ s := by
        have : a ∈ s.reverse := by rw [hrev]; exact List.mem_cons_self _ _
        exact List.mem_reverse.mp this
      simp only [List.dropWhile_cons, isDigit_not_whiteSpace a (h a ha), Bool.false_eq_true,
        if_false]
      rw [← hrev, List.reverse_reverse]
  unfold trim
  rw [hstart, hend]

theorem scanDecimal_digits (s : Str) (hne : s ≠ []) (h : ∀ c ∈ s, isDigit c = true) :
    scanDecimal s = some (JSNum.num (digitsValue s : ℚ), []) := by
  cases s with
  | nil => exact absurd rfl hne
  | cons a t =>
    have ha : isDigit a = true := h a (List.mem_cons_self _ _)
    have hminus : a ≠ '-' := by rintro rfl; simp [isDigit] at ha
    have hplus : a ≠ '+' := by rintro rfl; simp [isDigit] at ha
    have hI : a ≠ 'I' := by rintro rfl; simp [isDigit] at ha
    have hsd : scanDecimal (a :: t) = scanUnsignedDecimal (a :: t) := by
      unfold scanDecimal
      split
      · rename_i heq; exact absurd (List.cons.inj heq).1 hminus
      · rename_i heq; exact absurd (List.cons.inj heq).1 hplus
      · rfl
    rw [hsd]
    have hpre : "Infinity".toList.isPrefixOf (a :: t) = false := by
      simp [String.toList, List.isPrefixOf, hI]
      intro h; exact absurd h.symm hI
    unfold scanUnsignedDecimal
    simp only [hpre, Bool.false_eq_true, if_false, takeWhile_all isDigit (a :: t) h,
      dropWhile_all isDigit (a :: t) h]
    simp [scanExponent, pow10]
/-- `Number(s)` on a non-empty run of decimal digits is its value. -/
theorem stringToNumber_digits (s : Str) (hne : s ≠ []) (h : ∀ c ∈ s, isDigit c = true) :
    stringToNumber s = JSNum.num (digitsValue s : ℚ) := by
  have hempty : s.isEmpty = false := by
    cases s with
    | nil => exact absurd rfl hne
    | cons a t => rfl
  simp only [stringToNumber, trim_digits s hne h, hempty, Bool.false_eq_true, if_false]
  split
  · exact absurd (h 'x' (by simp)) (by decide)
  · exact absurd (h 'X' (by simp)) (by decide)
  · exact absurd (h 'o' (by simp)) (by decide)
  · exact absurd (h 'O' (by simp)) (by decide)
  · exact absurd (h 'b' (by simp)) (by decide)
  · exact absurd (h 'B' (by simp)) (by decide)
  · rw [scanDecimal_digits s hne h]

theorem digitsValue_zero_cons (s : Str) : digitsValue ('0' :: s) = digitsValue s := by
  simp [digitsValue]

/-- A padded rendering of a natural number: decimal digits with the number as
value. -/
theorem padStart2_natToStr (n : ℕ) :
    padStart2 (natToStr n) ≠ [] ∧ (∀ c ∈ padStart2 (natToStr n), isDigit c = true) ∧
      digitsValue (padStart2 (natToStr n)) = n := by
  obtain ⟨h1, h2, h3⟩ := natToStr_spec n
  unfold padStart2
  by_cases hl : (natToStr n).length < 2
  · have hlen : (natToStr n).length = 1 := by
      have : 0 < (natToStr n).length := List.length_pos.mpr h1
      omega
    rw [if_pos hl, hlen]
    have hrep : List.replicate (2 - 1) '0' ++ natToStr n = '0' :: natToStr n := rfl
    rw [hrep]
    refine ⟨by simp, ?_, ?_⟩
    · intro c hc
      rcases List.mem_cons.mp hc with e | hc
      · rw [e]; rfl
      · exact h2 c hc
    · rw [digitsValue_zero_cons, h3]
  · rw [if_neg hl]
    exact ⟨h1, h2, h3⟩

theorem intToStr_nonneg (i : ℤ) (h : 0 ≤ i) : intToStr i = natToStr i.toNat := by
  simp [intToStr, not_lt.mpr h]

/-- `split('-')` on a text without a hyphen, followed by a hyphen and more. -/
theorem splitOnChar_append (sep : Char) (a b : Str) (ha : sep ∉ a) :
    splitOnChar sep (a ++ sep :: b) = a :: splitOnChar sep b := by
  induction a with
  | nil =>
    simp only [List.nil_append, splitOnChar]
    cases hb : splitOnChar sep b with
    | nil => simp [hb]
    | cons w ws => simp [hb]
  | cons c cs ih =>
    have hc : c ≠ sep := fun e => ha (by rw [e]; exact List.mem_cons_self _ _)
    have hcs : sep ∉ cs := fun m => ha (List.mem_cons_of_mem _ m)
    rw [List.cons_append, splitOnChar, ih hcs]
    simp [hc]

theorem splitOnChar_none (sep : Char) (a : Str) (ha : sep ∉ a) : splitOnChar sep a = [a] := by
  induction a with
  | nil => rfl
  | cons c cs ih =>
    have hc : c ≠ sep := fun e => ha (by rw [e]; exact List.mem_cons_self _ _)
    have hcs : sep ∉ cs := fun m => ha (List.mem_cons_of_mem _ m)
    rw [splitOnChar, ih hcs]
    simp [hc]

theorem not_mem_of_digits (s : Str) (c : Char) (hc : isDigit c = false)
    (h : ∀ x ∈ s, isDigit x = true) : c ∉ s := by
  intro hm
  rw [h c hm] at hc
  exact absurd hc (by decide)

/-! ## Sorting -/

theorem sortInsert_perm {α : Type} (cmp : α → α → JSNum) (x : α) (l : List α) :
    (sortInsert cmp x l).Perm (x :: l) := by
  induction l with
  | nil => exact List.Perm.refl _
  | cons y ys ih =>
    unfold sortInsert
    split_ifs
    · exact ((List.Perm.cons y ih).trans (List.Perm.swap x y ys))
    · exact List.Perm.refl _

theorem jsSort_perm {α : Type} (cmp : α → α → JSNum) (l : List α) : (jsSort cmp l).Perm l := by
  induction l with
  | nil => exact List.Perm.refl _
  | cons x xs ih =>
    unfold jsSort
    exact (sortInsert_perm cmp x _).trans (List.Perm.cons x ih)

theorem mem_jsSort {α : Type} (cmp : α → α → JSNum) (l : List α) (x : α) :
    x ∈ jsSort cmp l ↔ x ∈ l :=
  (jsSort_perm cmp l).mem_iff

theorem sortInsert_sorted {α : Type} (cmp : α → α → JSNum) (f : α → ℤ) (x : α) (l : List α)
    (hx : ∀ b ∈ l, ((cmp x b).gt (jsn 0) = true ↔ f x < f b))
    (hl : l.Pairwise (fun a b => f b ≤ f a)) :
    (sortInsert cmp x l).Pairwise (fun a b => f b ≤ f a) := by
  induction l with
  | nil => simp [sortInsert]
  | cons y ys ih =>
    have hy := hx y (List.mem_cons_self _ _)
    obtain ⟨hyall, hys⟩ := List.pairwise_cons.mp hl
    unfold sortInsert
    by_cases hc : (cmp x y).gt (jsn 0) = true
    · rw [if_pos hc]
      have hxy : f x < f y := hy.mp hc
      refine List.pairwise_cons.mpr ⟨?_, ih (fun b hb => hx b (List.mem_cons_of_mem _ hb)) hys⟩
      intro b hb
      rcases List.mem_cons.mp ((sortInsert_perm cmp x ys).mem_iff.mp hb) with e | hb'
      · rw [e]; exact le_of_lt hxy
      · exact hyall b hb'
    · rw [if_neg hc]
      have hxy : f y ≤ f x := not_lt.mp (fun h => hc (hy.mpr h))
      refine List.pairwise_cons.mpr ⟨?_, hl⟩
      intro b hb
      rcases List.mem_cons.mp hb with e | hb'
      · rw [e]; exact hxy
      · exact le_trans (hyall b hb') hxy

/-- A sort whose comparator agrees, on the elements of the array, with the
order of an integer measure leaves the array with the measure
non-increasing. -/
theorem jsSort_sorted {α : Type} (cmp : α → α → JSNum) (f : α → ℤ) (l : List α)
    (h : ∀ a ∈ l, ∀ b ∈ l, ((cmp a b).gt (jsn 0) = true ↔ f a < f b)) :
    (jsSort cmp l).Pairwise (fun a b => f b ≤ f a) := by
  induction l with
  | nil => simp [jsSort]
  | cons x xs ih =>
    unfold jsSort
    apply sortInsert_sorted
    · intro b hb
      exact h x (List.mem_cons_self _ _) b
        (List.mem_cons_of_mem _ ((mem_jsSort cmp xs b).mp hb))
    · exact ih (fun a ha b hb => h a (List.mem_cons_of_mem _ ha) b (List.mem_cons_of_mem _ hb))

/-! ## Grouping -/

theorem groupPush_keys (grouped : List (Str × List Transaction)) (key : Str)
    (tx : Transaction) :
    (groupPush grouped key tx).map Prod.fst =
      if key ∈ grouped.map Prod.fst then grouped.map Prod.fst
      else grouped.map Prod.fst ++ [key] := by
  induction grouped with
  | nil => simp [groupPush]
  | cons p rest ih =>
    obtain ⟨k, txs⟩ := p
    unfold groupPush
    by_cases hk : k = key
    · simp [hk]
    · have hk' : ¬ key = k := fun e => hk e.symm
      simp only [hk, if_false, List.map_cons, ih, List.mem_cons, hk', false_or]
      split_ifs <;> simp

theorem groupPush_lookup (grouped : List (Str × List Transaction)) (key : Str)
    (tx : Transaction) (k' : Str) :
    ((groupPush grouped key tx).lookup k').getD [] =
      if k' = key then (grouped.lookup key).getD [] ++ [tx] else (grouped.lookup k').getD [] := by
  induction grouped with
  | nil =>
    by_cases h : k' = key
    · simp [groupPush, List.lookup, h]
    · have hb : (k' == key) = false := by simpa using h
      simp [groupPush, List.lookup, h, hb]
  | cons p rest ih =>
    obtain ⟨k, txs⟩ := p
    unfold groupPush
    by_cases hk : k = key
    · subst hk
      by_cases h : k' = k
      · subst h
        simp [List.lookup]
      · have hb : (k' == k) = false := by simpa using h
        simp [List.lookup, h, hb]
    · simp only [hk, if_false]
      by_cases h1 : k' = k
      · subst h1
        simp [List.lookup, hk]
      · have hb : (k' == k) = false := by simpa using h1
        simp only [List.lookup, hb, ih]
        by_cases h2 : k' = key
        · subst h2
          have hb2 : (k' == k) = false := hb
          simp [List.lookup, hb2]
        · simp [h2]

theorem lookup_eq_nil_of_not_mem (grouped : List (Str × List Transaction)) (key : Str)
    (h : key ∉ grouped.map Prod.fst) : (grouped.lookup key).getD [] = [] := by
  induction grouped with
  | nil => rfl
  | cons p rest ih =>
    obtain ⟨k, txs⟩ := p
    have hk : key ≠ k := fun e => h (by simp [e])
    have hrest : key ∉ rest.map Prod.fst := fun m => h (by simp [List.mem_map] at m ⊢; exact Or.inr m)
    have hb : (key == k) = false := by simpa using hk
    simp only [List.lookup, hb]
    exact ih hrest

theorem groupFold_keys_nodup (host : Host) (txs : List Transaction)
    (g : List (Str × List Transaction)) (hg : (g.map Prod.fst).Nodup) :
    ((txs.foldl (fun grouped transaction =>
        groupPush grouped (getDateKey host (parseTransactionDate host transaction.date))
          (transaction.withDate (parseTransactionDate host transaction.date))) g).map
      Prod.fst).Nodup := by
  induction txs generalizing g with
  | nil => exact hg
  | cons tx rest ih =>
    rw [List.foldl_cons]
    apply ih
    rw [groupPush_keys]
    split_ifs with hmem
    · exact hg
    · exact List.Nodup.append hg (List.nodup_singleton _)
        (by
          intro a ha hb
          rw [List.mem_singleton.mp hb] at ha
          exact hmem ha)

theorem groupFold_mem_keys (host : Host) (txs : List Transaction)
    (g : List (Str × List Transaction)) (k : Str) :
    k ∈ (txs.foldl (fun grouped transaction =>
        groupPush grouped (getDateKey host (parseTransactionDate host transaction.date))
          (transaction.withDate (parseTransactionDate host transaction.date))) g).map Prod.fst ↔
      k ∈ g.map Prod.fst ∨
        ∃ tx ∈ txs, k = getDateKey host (parseTransactionDate host tx.date) := by
  induction txs generalizing g with
  | nil => simp
  | cons tx rest ih =>
    rw [List.foldl_cons, ih, groupPush_keys]
    constructor
    · rintro (h | ⟨tx', h1, h2⟩)
      · split_ifs at h with hmem
        · exact Or.inl h
        · rcases List.mem_append.mp h with h | h
          · exact Or.inl h
          · exact Or.inr ⟨tx, List.mem_cons_self _ _, List.mem_singleton.mp h⟩
      · exact Or.inr ⟨tx', List.mem_cons_of_mem _ h1, h2⟩
    · rintro (h | ⟨tx', h1, h2⟩)
      · left
        split_ifs
        · exact h
        · exact List.mem_append_left _ h
      · rcases List.mem_cons.mp h1 with e | h1
        · left
          subst e
          split_ifs with hmem
          · rw [h2]; exact hmem
          · rw [h2]; exact List.mem_append_right _ (List.mem_singleton_self _)
        · exact Or.inr ⟨tx', h1, h2⟩

theorem groupFold_members (host : Host) (txs : List Transaction)
    (g : List (Str × List Transaction)) (k : Str) (x : Transaction) :
    x ∈ ((txs.foldl (fun grouped transaction =>
        groupPush grouped (getDateKey host (parseTransactionDate host transaction.date))
          (transaction.withDate (parseTransactionDate host transaction.date))) g).lookup k).getD
        [] ↔
      x ∈ (g.lookup k).getD [] ∨
        ∃ tx ∈ txs, x = tx.withDate (parseTransactionDate host tx.date) ∧
          k = getDateKey host (parseTransactionDate host tx.date) := by
  induction txs generalizing g with
  | nil => simp
  | cons tx rest ih =>
    rw [List.foldl_cons, ih, groupPush_lookup]
    constructor
    · rintro (h | ⟨tx', h1, h2⟩)
      · split_ifs at h with hk
        · rcases List.mem_append.mp h with h | h
          · left; rw [hk]; exact h
          · exact Or.inr ⟨tx, List.mem_cons_self _ _, List.mem_singleton.mp h, hk⟩
        · exact Or.inl h
      · exact Or.inr ⟨tx', List.mem_cons_of_mem _ h1, h2⟩
    · rintro (h | ⟨tx', h1, h2, h3⟩)
      · left
        split_ifs with hk
        · rw [← hk]; exact List.mem_append_left _ h
        · exact h
      · rcases List.mem_cons.mp h1 with e | h1
        · left
          subst e
          rw [if_pos h3, h2]
          exact List.mem_append_right _ (List.mem_singleton_self _)
        · exact Or.inr ⟨tx', h1, h2, h3⟩

/-- The keys of `grouped` are pairwise distinct. -/
theorem groupByKey_keys_nodup (host : Host) (txs : List Transaction) :
    ((groupByKey host txs).map Prod.fst).Nodup :=
  groupFold_keys_nodup host txs [] List.nodup_nil

/-- The keys of `grouped` are the date keys of the transactions. -/
theorem groupByKey_mem_keys (host : Host) (txs : List Transaction) (k : Str) :
    k ∈ (groupByKey host txs).map Prod.fst ↔
      ∃ tx ∈ txs, k = getDateKey host (parseTransactionDate host tx.date) := by
  have h := groupFold_mem_keys host txs [] k
  simp only [List.map_nil, List.not_mem_nil, false_or] at h
  exact h

/-- The array under a key of `grouped` holds the transactions with that date
key, each with its date parsed. -/
theorem groupByKey_members (host : Host) (txs : List Transaction) (k : Str) (x : Transaction) :
    x ∈ ((groupByKey host txs).lookup k).getD [] ↔
      ∃ tx ∈ txs, x = tx.withDate (parseTransactionDate host tx.date) ∧
        k = getDateKey host (parseTransactionDate host tx.date) := by
  have h := groupFold_members host txs [] k x
  simp only [List.lookup, Option.getD_none, List.not_mem_nil, false_or] at h
  exact h

/-- The groups returned: their keys are the sorted keys, and a transaction is
in the group of a key exactly when it is in the array under that key. -/
theorem mem_groupTransactionsByDate (host : Host) (txs : List Transaction)
    (g : Str × List Transaction) :
    g ∈ groupTransactionsByDate host txs ↔
      (∃ tx ∈ txs, g.1 = getDateKey host (parseTransactionDate host tx.date)) ∧
        g.2 = jsSort compareByDate (((groupByKey host txs).lookup g.1).getD []) := by
  unfold groupTransactionsByDate
  simp only [List.mem_map, mem_jsSort]
  constructor
  · rintro ⟨k, ⟨p, hp, hpk⟩, rfl⟩
    exact ⟨(groupByKey_mem_keys host txs k).mp (List.mem_map.mpr ⟨p, hp, hpk⟩), rfl⟩
  · rintro ⟨hk, h2⟩
    obtain ⟨p, hp, hpk⟩ := List.mem_map.mp ((groupByKey_mem_keys host txs g.1).mpr hk)
    exact ⟨g.1, ⟨p, hp, hpk⟩, by rw [← h2]⟩

theorem groupTransactionsByDate_keys (host : Host) (txs : List Transaction) :
    (groupTransactionsByDate host txs).map Prod.fst
      = jsSort (compareKeys host) ((groupByKey host txs).map Prod.fst) := by
  unfold groupTransactionsByDate
  simp only [List.map_map]
  exact List.map_id'' (fun _ => rfl) _

theorem groupTransactionsByDate_keys_nodup (host : Host) (txs : List Transaction) :
    ((groupTransactionsByDate host txs).map Prod.fst).Nodup := by
  rw [groupTransactionsByDate_keys]
  exact (jsSort_perm _ _).nodup_iff.mpr (groupByKey_keys_nodup host txs)

/-! ## Date keys -/

theorem append_sep_inj_left (c : Char) (a a' b b' : Str) (ha : c ∉ a) (ha' : c ∉ a')
    (h : a ++ c :: b = a' ++ c :: b') : a = a' ∧ b = b' := by
  induction a generalizing a' with
  | nil =>
    cases a' with
    | nil => exact ⟨rfl, (List.cons.inj h).2⟩
    | cons x xs =>
      have hx : c = x := (List.cons.inj h).1
      exact absurd (by rw [hx]; exact List.mem_cons_self _ _) ha'
  | cons y ys ih =>
    cases a' with
    | nil =>
      have hy : y = c := (List.cons.inj h).1
      exact absurd (by rw [hy]; exact List.mem_cons_self _ _) ha
    | cons x xs =>
      obtain ⟨h1, h2⟩ := List.cons.inj h
      obtain ⟨h3, h4⟩ := ih xs (fun m => ha (List.mem_cons_of_mem _ m))
        (fun m => ha' (List.mem_cons_of_mem _ m)) h2
      exact ⟨by rw [h1, h3], h4⟩

theorem append_sep_inj_right (c : Char) (a a' b b' : Str) (hb : c ∉ b) (hb' : c ∉ b')
    (h : a ++ c :: b = a' ++ c :: b') : a = a' ∧ b = b' := by
  have hr : b.reverse ++ c :: a.reverse = b'.reverse ++ c :: a'.reverse := by
    have := congrArg List.reverse h
    simpa using this
  obtain ⟨h1, h2⟩ := append_sep_inj_left c b.reverse b'.reverse a.reverse a'.reverse
    (by simpa using hb) (by simpa using hb') hr
  exact ⟨List.reverse_injective h2, List.reverse_injective h1⟩

theorem natToStr_injective (m n : ℕ) (h : natToStr m = natToStr n) : m = n := by
  have h1 := (natToStr_spec m).2.2
  have h2 := (natToStr_spec n).2.2
  rw [h] at h1
  omega

theorem intToStr_injective (i j : ℤ) (h : intToStr i = intToStr j) : i = j := by
  unfold intToStr at h
  by_cases hi : i < 0 <;> by_cases hj : j < 0
  · simp only [hi, hj, if_true] at h
    have := natToStr_injective _ _ (List.cons.inj h).2
    omega
  · simp only [hi, hj, if_true, if_false] at h
    have hd := (natToStr_spec j.toNat).2.1 '-' (by rw [← h]; exact List.mem_cons_self _ _)
    exact absurd hd (by decide)
  · simp only [hi, hj, if_true, if_false] at h
    have hd := (natToStr_spec i.toNat).2.1 '-' (by rw [h]; exact List.mem_cons_self _ _)
    exact absurd hd (by decide)
  · simp only [hi, hj, if_false] at h
    have := natToStr_injective _ _ h
    omega

/-- The padded rendering of a getter's result that is NaN or not negative: it
holds no hyphen, and it is `NaN` or a run of digits with the result as
value. -/
theorem padded_field (v : Option ℤ) (hv : ∀ i, v = some i → 0 ≤ i) :
    '-' ∉ padStart2 (numberToStr v) ∧
      (v = none → padStart2 (numberToStr v) = "NaN".toList) ∧
      (∀ i, v = some i → padStart2 (numberToStr v) ≠ [] ∧
        (∀ c ∈ padStart2 (numberToStr v), isDigit c = true) ∧
        digitsValue (padStart2 (numberToStr v)) = i.toNat) := by
  cases v with
  | none =>
    refine ⟨by decide, fun _ => by decide, fun i h => Option.noConfusion h⟩
  | some i =>
    have hi : 0 ≤ i := hv i rfl
    have hs : numberToStr (some i) = natToStr i.toNat := by
      simp [numberToStr, intToStr_nonneg i hi]
    obtain ⟨h1, h2, h3⟩ := padStart2_natToStr i.toNat
    rw [hs]
    refine ⟨not_mem_of_digits _ '-' (by decide) h2, fun h => Option.noConfusion h, ?_⟩
    intro j hj
    rw [← Option.some.inj hj]
    exact ⟨h1, h2, h3⟩

theorem padded_field_injective (v w : Option ℤ) (hv : ∀ i, v = some i → 0 ≤ i)
    (hw : ∀ i, w = some i → 0 ≤ i)
    (h : padStart2 (numberToStr v) = padStart2 (numberToStr w)) : v = w := by
  obtain ⟨-, hvn, hvs⟩ := padded_field v hv
  obtain ⟨-, hwn, hws⟩ := padded_field w hw
  cases v with
  | none =>
    cases w with
    | none => rfl
    | some j =>
      have hd := (hws j rfl).2.1 'N' (by rw [← h, hvn rfl]; decide)
      exact absurd hd (by decide)
  | some i =>
    cases w with
    | none =>
      have hd := (hvs i rfl).2.1 'N' (by rw [h, hwn rfl]; decide)
      exact absurd hd (by decide)
    | some j =>
      have h1 := (hvs i rfl).2.2
      have h2 := (hws j rfl).2.2
      rw [h] at h1
      have hi := hv i rfl
      have hj := hw j rfl
      have : i = j := by omega
      rw [this]

theorem numberToStr_injective (v w : Option ℤ) (h : numberToStr v = numberToStr w) : v = w := by
  cases v with
  | none =>
    cases w with
    | none => rfl
    | some j =>
      exfalso
      simp only [numberToStr, intToStr] at h
      by_cases hj : j < 0
      · rw [if_pos hj] at h
        exact absurd (List.cons.inj h).1 (by decide)
      · rw [if_neg hj] at h
        have hd := (natToStr_spec j.toNat).2.1 'N' (by rw [← h]; decide)
        exact absurd hd (by decide)
  | some i =>
    cases w with
    | none =>
      exfalso
      simp only [numberToStr, intToStr] at h
      by_cases hi : i < 0
      · rw [if_pos hi] at h
        exact absurd (List.cons.inj h).1 (by decide)
      · rw [if_neg hi] at h
        have hd := (natToStr_spec i.toNat).2.1 'N' (by rw [h]; decide)
        exact absurd hd (by decide)
    | some j =>
      simp only [numberToStr] at h
      rw [intToStr_injective i j h]

theorem getMonth_succ_nonneg (host : Host) (date : JSDate) :
    ∀ i, (getMonth host date).map (fun m => m + 1) = some i → 0 ≤ i := by
  intro i hi
  cases date with
  | none => simp [getMonth] at hi
  | some t =>
    simp only [getMonth, Option.map_some', Option.some.injEq] at hi
    have := (monthFromDay_range (localDay host t)).1
    omega

theorem getDate_nonneg (host : Host) (date : JSDate) :
    ∀ i, getDate host date = some i → 0 ≤ i := by
  intro i hi
  cases date with
  | none => simp [getDate] at hi
  | some t =>
    simp only [getDate, Option.map_some', Option.some.injEq] at hi
    have := (dateFromDay_range (localDay host t)).1
    omega

/-- Two dates have the same key exactly when the three local calendar getters
agree on them. -/
theorem getDateKey_eq_iff (host : Host) (d1 d2 : JSDate) :
    getDateKey host d1 = getDateKey host d2 ↔
      (getFullYear host d1 = getFullYear host d2 ∧ getMonth host d1 = getMonth host d2 ∧
        getDate host d1 = getDate host d2) := by
  constructor
  · intro h
    unfold getDateKey at h
    simp only [] at h
    have hm1 := getMonth_succ_nonneg host d1
    have hm2 := getMonth_succ_nonneg host d2
    have hd1 := getDate_nonneg host d1
    have hd2 := getDate_nonneg host d2
    have e1 : ∀ (y m d : Str), y ++ '-' :: (m ++ '-' :: d) = (y ++ '-' :: m) ++ '-' :: d := by
      intro y m d; simp
    rw [e1, e1] at h
    obtain ⟨h1, h2⟩ := append_sep_inj_right '-' _ _ _ _ (padded_field _ hd1).1
      (padded_field _ hd2).1 h
    obtain ⟨h3, h4⟩ := append_sep_inj_right '-' _ _ _ _ (padded_field _ hm1).1
      (padded_field _ hm2).1 h1
    refine ⟨numberToStr_injective _ _ h3, ?_, padded_field_injective _ _ hd1 hd2 h2⟩
    have hmm := padded_field_injective _ _ hm1 hm2 h4
    cases d1 <;> cases d2 <;> simp_all [getMonth]
  · rintro ⟨h1, h2, h3⟩
    unfold getDateKey
    rw [h1, h2, h3]

/-! ## Grouping by calendar day -/

theorem withDate_date (tx : Transaction) (d : JSDate) : (tx.withDate d).date = DateInput.date d :=
  rfl

/-- A transaction of the input, with its date parsed, lies in a returned group
exactly when the group's key is the date key of its parsed date. -/
theorem mem_group_iff (host : Host) (txs : List Transaction) (tx : Transaction) (htx : tx ∈ txs)
    (g : Str × List Transaction) (hg : g ∈ groupTransactionsByDate host txs) :
    tx.withDate (parseTransactionDate host tx.date) ∈ g.2 ↔
      g.1 = getDateKey host (parseTransactionDate host tx.date) := by
  obtain ⟨-, hg2⟩ := (mem_groupTransactionsByDate host txs g).mp hg
  rw [hg2, mem_jsSort, groupByKey_members]
  constructor
  · rintro ⟨tx', -, hx, hk⟩
    have hd : DateInput.date (parseTransactionDate host tx.date)
        = DateInput.date (parseTransactionDate host tx'.date) := by
      have := congrArg Transaction.date hx
      simpa [withDate_date] using this
    rw [DateInput.date.inj hd]
    exact hk
  · intro hk
    exact ⟨tx, htx, rfl, hk⟩

/-- C9: two transactions of a list are placed in the same group exactly when
the local calendar getters (year, month, day of month) agree on their parsed
dates, whatever the time of day; the key of that group is the `getDateKey` of
the date, and every transaction is placed in a group.  (On an invalid date the
three getters give NaN; such transactions share the group `NaN-NaN-NaN`.) -/
theorem same_group_iff_same_day (host : Host) (txs : List Transaction) (tx1 tx2 : Transaction)
    (h1 : tx1 ∈ txs) (h2 : tx2 ∈ txs) :
    ((∃ g ∈ groupTransactionsByDate host txs,
        tx1.withDate (parseTransactionDate host tx1.date) ∈ g.2 ∧
        tx2.withDate (parseTransactionDate host tx2.date) ∈ g.2) ↔
      (getFullYear host (parseTransactionDate host tx1.date)
          = getFullYear host (parseTransactionDate host tx2.date) ∧
        getMonth host (parseTransactionDate host tx1.date)
          = getMonth host (parseTransactionDate host tx2.date) ∧
        getDate host (parseTransactionDate host tx1.date)
          = getDate host (parseTransactionDate host tx2.date))) ∧
    (∀ g ∈ groupTransactionsByDate host txs,
      tx1.withDate (parseTransactionDate host tx1.date) ∈ g.2 →
        g.1 = getDateKey host (parseTransactionDate host tx1.date)) ∧
    (∃ g ∈ groupTransactionsByDate host txs,
      tx1.withDate (parseTransactionDate host tx1.date) ∈ g.2) ∧
    ((groupTransactionsByDate host txs).map Prod.fst).Nodup := by
  have hex : ∀ tx ∈ txs, ∃ g ∈ groupTransactionsByDate host txs,
      g.1 = getDateKey host (parseTransactionDate host tx.date) := by
    intro tx htx
    refine ⟨(getDateKey host (parseTransactionDate host tx.date),
      jsSort compareByDate (((groupByKey host txs).lookup
        (getDateKey host (parseTransactionDate host tx.date))).getD [])), ?_, rfl⟩
    exact (mem_groupTransactionsByDate host txs _).mpr ⟨⟨tx, htx, rfl⟩, rfl⟩
  refine ⟨?_, ?_, ?_, groupTransactionsByDate_keys_nodup host txs⟩
  · rw [← getDateKey_eq_iff]
    constructor
    · rintro ⟨g, hg, hm1, hm2⟩
      rw [← (mem_group_iff host txs tx1 h1 g hg).mp hm1,
        ← (mem_group_iff host txs tx2 h2 g hg).mp hm2]
    · intro hk
      obtain ⟨g, hg, hgk⟩ := hex tx1 h1
      exact ⟨g, hg, (mem_group_iff host txs tx1 h1 g hg).mpr hgk,
        (mem_group_iff host txs tx2 h2 g hg).mpr (hgk.trans hk)⟩
  · intro g hg hm
    exact (mem_group_iff host txs tx1 h1 g hg).mp hm
  · obtain ⟨g, hg, hgk⟩ := hex tx1 h1
    exact ⟨g, hg, (mem_group_iff host txs tx1 h1 g hg).mpr hgk⟩
/-- Witness for C9: on a host ten hours east of Greenwich, 10:00Z and 01:00Z
of 1 January 2024 are the same local day and share a group. -/
theorem same_group_iff_same_day_witness :
    ∃ g ∈ groupTransactionsByDate sampleHost
        [sampleTransaction "a".toList (DateInput.prim (JSVal.str "2024-01-01T10:00:00Z".toList)),
         sampleTransaction "b".toList (DateInput.prim (JSVal.str "2024-01-01T15:00:00Z".toList)),
         sampleTransaction "c".toList (DateInput.prim (JSVal.str "2024-01-01 01:00:00".toList))],
      (sampleTransaction "a".toList
          (DateInput.prim (JSVal.str "2024-01-01T10:00:00Z".toList))).withDate
        (some 1704103200000) ∈ g.2 ∧
      (sampleTransaction "c".toList
          (DateInput.prim (JSVal.str "2024-01-01 01:00:00".toList))).withDate
        (some 1704070800000) ∈ g.2 := by
  have h := (same_group_iff_same_day sampleHost
    [sampleTransaction "a".toList (DateInput.prim (JSVal.str "2024-01-01T10:00:00Z".toList)),
     sampleTransaction "b".toList (DateInput.prim (JSVal.str "2024-01-01T15:00:00Z".toList)),
     sampleTransaction "c".toList (DateInput.prim (JSVal.str "2024-01-01 01:00:00".toList))]
    (sampleTransaction "a".toList (DateInput.prim (JSVal.str "2024-01-01T10:00:00Z".toList)))
    (sampleTransaction "c".toList (DateInput.prim (JSVal.str "2024-01-01 01:00:00".toList)))
    (by simp) (by simp)).1.mpr ⟨by decide!, by decide!, by decide!⟩
  have e1 : parseTransactionDate sampleHost
      (sampleTransaction "a".toList
        (DateInput.prim (JSVal.str "2024-01-01T10:00:00Z".toList))).date
      = some 1704103200000 := by decide!
  have e2 : parseTransactionDate sampleHost
      (sampleTransaction "c".toList
        (DateInput.prim (JSVal.str "2024-01-01 01:00:00".toList))).date
      = some 1704070800000 := by decide!
  rw [e1, e2] at h
  exact h

theorem groups_example :
    (groupTransactionsByDate sampleHost
        [sampleTransaction "a".toList (DateInput.prim (JSVal.str "2024-01-01T10:00:00Z".toList)),
         sampleTransaction "b".toList (DateInput.prim (JSVal.str "2024-01-01T15:00:00Z".toList)),
         sampleTransaction "c".toList (DateInput.prim (JSVal.str "2024-01-01 01:00:00".toList))]).map
      (fun g => (g.1, g.2.map (fun x => x.id)))
    = [("2024-01-02".toList, ["b".toList]), ("2024-01-01".toList, ["a".toList, "c".toList])] := by
  decide!

/-! ## Reading a key back -/

theorem floor_natCast_rat (n : ℕ) : JSNum.toInteger (JSNum.num (n : ℚ)) = some (n : ℤ) := by
  simp [JSNum.toInteger]

theorem timeClip_of_bounds (t : ℤ) (h1 : -maxTime ≤ t) (h2 : t ≤ maxTime) :
    timeClip t = some t := by
  unfold timeClip
  rw [if_neg]
  omega

theorem bounds_of_timeClip (t u : ℤ) (h : timeClip t = some u) :
    u = t ∧ -maxTime ≤ t ∧ t ≤ maxTime := by
  unfold timeClip at h
  split_ifs at h with hc
  refine ⟨(Option.some.inj h).symm, ?_, ?_⟩ <;> omega

/-- The key of a valid date in local year 100 or later. -/
theorem getDateKey_some (host : Host) (t : ℤ) (hy : 100 ≤ yearFromDay (localDay host t)) :
    getDateKey host (some t) =
      natToStr (yearFromDay (localDay host t)).toNat ++ '-' ::
        (padStart2 (natToStr (monthFromDay (localDay host t) + 1).toNat) ++ '-' ::
          padStart2 (natToStr (dateFromDay (localDay host t)).toNat)) := by
  have hm := (monthFromDay_range (localDay host t)).1
  have hd := (dateFromDay_range (localDay host t)).1
  simp only [getDateKey, getFullYear, getMonth, getDate, Option.map_some', numberToStr]
  rw [intToStr_nonneg _ (by omega), intToStr_nonneg _ (by omega), intToStr_nonneg _ (by omega)]

/-- `parseDateKey` on the key of a valid date in local year 100 or later gives
local midnight of that date's day. -/
theorem parseDateKey_getDateKey (host : Host) (t : ℤ)
    (hzone : -msPerDay ≤ host.tzOffset ∧ host.tzOffset ≤ msPerDay)
    (ht : -maxTime ≤ t ∧ t ≤ maxTime) (hy : 100 ≤ yearFromDay (localDay host t)) :
    parseDateKey host (DateInput.prim (JSVal.str (getDateKey host (some t))))
      = some (localDay host t * msPerDay - host.tzOffset) := by
  have hm := monthFromDay_range (localDay host t)
  have hd := dateFromDay_range (localDay host t)
  obtain ⟨y1, y2, y3⟩ := natToStr_spec (yearFromDay (localDay host t)).toNat
  obtain ⟨m1, m2, m3⟩ := padStart2_natToStr (monthFromDay (localDay host t) + 1).toNat
  obtain ⟨d1, d2, d3⟩ := padStart2_natToStr (dateFromDay (localDay host t)).toNat
  have hsplit : splitOnChar '-' (getDateKey host (some t)) =
      [natToStr (yearFromDay (localDay host t)).toNat,
       padStart2 (natToStr (monthFromDay (localDay host t) + 1).toNat),
       padStart2 (natToStr (dateFromDay (localDay host t)).toNat)] := by
    rw [getDateKey_some host t hy,
      splitOnChar_append '-' _ _ (not_mem_of_digits _ '-' (by decide) y2),
      splitOnChar_append '-' _ _ (not_mem_of_digits _ '-' (by decide) m2),
      splitOnChar_none '-' _ (not_mem_of_digits _ '-' (by decide) d2)]
  have hyear : ((yearFromDay (localDay host t)).toNat : ℤ) = yearFromDay (localDay host t) :=
    Int.toNat_of_nonneg (by omega)
  have hmonth : ((monthFromDay (localDay host t) + 1).toNat : ℤ)
      = monthFromDay (localDay host t) + 1 := Int.toNat_of_nonneg (by omega)
  have hdate : ((dateFromDay (localDay host t)).toNat : ℤ) = dateFromDay (localDay host t) :=
    Int.toNat_of_nonneg (by omega)
  have hmq : JSNum.sub (JSNum.num ((monthFromDay (localDay host t) + 1).toNat : ℚ)) (jsn 1)
      = JSNum.num (((monthFromDay (localDay host t) : ℤ) : ℚ)) := by
    have h1 : (((monthFromDay (localDay host t) + 1).toNat : ℕ) : ℚ)
        = (((monthFromDay (localDay host t) + 1).toNat : ℤ) : ℚ) := (Int.cast_natCast _).symm
    rw [h1, hmonth]
    simp only [JSNum.sub, JSNum.neg, JSNum.add, jsn]
    push_cast
    ring_nf
  have hmi : JSNum.toInteger (JSNum.num (((monthFromDay (localDay host t) : ℤ) : ℚ)))
      = some (monthFromDay (localDay host t)) := by
    have h0 : (0 : ℚ) ≤ ((monthFromDay (localDay host t) : ℤ) : ℚ) := by exact_mod_cast hm.1
    simp [JSNum.toInteger, h0]
  have hzero : JSNum.toInteger (jsn 0) = some 0 := by simp [JSNum.toInteger, jsn]
  have hyr : ¬ (0 ≤ yearFromDay (localDay host t) ∧ yearFromDay (localDay host t) ≤ 99) := by
    omega
  have hday : makeDay (yearFromDay (localDay host t)) (monthFromDay (localDay host t))
      (dateFromDay (localDay host t)) = localDay host t := makeDay_fields _
  have hlow : dayFromYear 100 ≤ localDay host t :=
    le_trans (by
      rcases eq_or_lt_of_le hy with e | l
      · rw [← e]
      · exact le_of_lt (dayFromYear_strictMono _ _ l)) (yearFromDay_spec (localDay host t)).1
  have h100 : dayFromYear 100 = -683003 := by decide
  have hfloor : localDay host t * msPerDay ≤ t + host.tzOffset := by
    unfold localDay msPerDay
    omega
  have hclip : timeClip (localDay host t * msPerDay - host.tzOffset)
      = some (localDay host t * msPerDay - host.tzOffset) := by
    apply timeClip_of_bounds
    · unfold msPerDay maxTime at *
      omega
    · unfold msPerDay maxTime at *
      omega
  unfold parseDateKey
  simp only [hsplit, List.map_cons, List.map_nil, stringToNumber_digits _ y1 y2,
    stringToNumber_digits _ m1 m2, stringToNumber_digits _ d1 d2, y3, m3, d3, JSNum.isNaN,
    Bool.not_false, Bool.and_self, if_true, hmq]
  unfold dateFromParts
  simp only [floor_natCast_rat, hmi, hzero, hyear, hdate, hyr, if_false, hday]
  rw [← hclip]
  congr 1
  ring

theorem dateOfNumber_bounds (n : JSNum) (t : ℤ) (h : dateOfNumber n = some t) :
    -maxTime ≤ t ∧ t ≤ maxTime := by
  cases n with
  | nan => simp [dateOfNumber] at h
  | pinf => simp [dateOfNumber] at h
  | ninf => simp [dateOfNumber] at h
  | num q =>
    simp only [dateOfNumber] at h
    have hmax : (0 : ℤ) ≤ maxTime := by decide
    split_ifs at h with hc h0
    · have hc' := not_or.mp hc
      have h1 : q ≤ (maxTime : ℚ) := not_lt.mp hc'.1
      rw [← Option.some.inj h]
      constructor
      · have : (0 : ℤ) ≤ ⌊q⌋ := Int.floor_nonneg.mpr h0
        omega
      · have h3 : ((⌊q⌋ : ℤ) : ℚ) ≤ q := Int.floor_le q
        exact_mod_cast le_trans h3 h1
    · have hc' := not_or.mp hc
      have h2 : -(maxTime : ℚ) ≤ q := not_lt.mp hc'.2
      rw [← Option.some.inj h]
      constructor
      · have h3 : q ≤ ((⌈q⌉ : ℤ) : ℚ) := Int.le_ceil q
        have h4 : ((-maxTime : ℤ) : ℚ) ≤ ((⌈q⌉ : ℤ) : ℚ) := by
          push_cast
          exact le_trans h2 h3
        exact_mod_cast h4
      · have : ⌈q⌉ ≤ 0 := Int.ceil_le.mpr (by push_cast; exact le_of_lt (not_le.mp h0))
        omega

theorem dateOfString_bounds (dateParse : Str → Option ℤ) (s : Str) (t : ℤ)
    (h : dateOfString dateParse s = some t) : -maxTime ≤ t ∧ t ≤ maxTime := by
  unfold dateOfString at h
  cases hp : dateParse s with
  | none => simp [hp] at h
  | some u =>
    simp only [hp, Option.some_bind] at h
    obtain ⟨e, h1, h2⟩ := bounds_of_timeClip u t h
    rw [e]
    exact ⟨h1, h2⟩

theorem dateFromParts_bounds (host : Host) (y m d h mi s : JSNum) (t : ℤ)
    (ht : dateFromParts host y m d h mi s = some t) : -maxTime ≤ t ∧ t ≤ maxTime := by
  unfold dateFromParts at ht
  split at ht
  · obtain ⟨e, h1, h2⟩ := bounds_of_timeClip _ t ht
    rw [e]
    exact ⟨h1, h2⟩
  · exact Option.noConfusion ht

/-- Every date `parseTransactionDate` returns is NaN or a time value in the
range of `Date`. -/
theorem parseTransactionDate_bounds (host : Host) (hs : host.sane) (v : DateInput) (t : ℤ)
    (h : parseTransactionDate host v = some t) : -maxTime ≤ t ∧ t ≤ maxTime := by
  unfold parseTransactionDate at h
  cases v with
  | date d =>
    cases d with
    | none => simp at h
    | some u =>
      simp only [Option.some_bind] at h
      obtain ⟨e, h1, h2⟩ := bounds_of_timeClip u t h
      rw [e]
      exact ⟨h1, h2⟩
  | prim p =>
    simp only at h
    split_ifs at h with hf
    · rw [← Option.some.inj h]
      exact hs.2
    · cases p with
      | undefined => exact dateOfNumber_bounds _ t h
      | null => exact dateOfNumber_bounds _ t h
      | bool b => exact dateOfNumber_bounds _ t h
      | num n => exact dateOfNumber_bounds _ t h
      | str s =>
        simp only at h
        split_ifs at h with he
        · rw [← Option.some.inj h]
          exact hs.2
        · split at h
          · rename_i u hu
            rw [← Option.some.inj h]
            exact dateOfString_bounds _ _ u hu
          · exact dateFromParts_bounds _ _ _ _ _ _ _ t h

/-- The key of an invalid date is read back as a valid date (the date the
host makes of the key text or, failing that, the present moment). -/
theorem parseDateKey_nan (host : Host) :
    ∃ u, parseDateKey host (DateInput.prim (JSVal.str (getDateKey host none))) = some u := by
  have hkey : getDateKey host none = "NaN-NaN-NaN".toList := by
    simp only [getDateKey, getFullYear, getMonth, getDate, Option.map_none']
    decide
  have hparts : (splitOnChar '-' "NaN-NaN-NaN".toList).map stringToNumber
      = [JSNum.nan, JSNum.nan, JSNum.nan] := by decide
  rw [hkey]
  unfold parseDateKey
  simp only [hparts, JSNum.isNaN, Bool.not_true, Bool.false_and, Bool.false_eq_true, if_false]
  unfold parseDateKeyFallback
  simp only
  cases dateOfString host.dateParse "NaN-NaN-NaN".toList with
  | none => exact ⟨_, rfl⟩
  | some t => exact ⟨_, rfl⟩

/-! ## Order of the groups -/

theorem getDateKey_of_localDay (host : Host) (t u : ℤ) (h : localDay host t = localDay host u) :
    getDateKey host (some t) = getDateKey host (some u) := by
  simp only [getDateKey, getFullYear, getMonth, getDate, Option.map_some', h]

theorem compareKeys_gt (host : Host) (a b : Str) (ua ub : ℤ)
    (ha : parseDateKey host (DateInput.prim (JSVal.str a)) = some ua)
    (hb : parseDateKey host (DateInput.prim (JSVal.str b)) = some ub) :
    (compareKeys host a b).gt (jsn 0) = true ↔ ua < ub := by
  simp only [compareKeys, ha, hb, dateDiff, JSNum.gt, JSNum.lt, jsn, decide_eq_true_eq]
  constructor
  · intro h
    have : (0 : ℤ) < ub - ua := by exact_mod_cast h
    omega
  · intro h
    have : (0 : ℤ) < ub - ua := by omega
    exact_mod_cast this

theorem transactionTime_withDate (tx : Transaction) (d : JSDate) :
    transactionTime (tx.withDate d) = d := rfl

/-- In `grouped`, the key of an array that holds a transaction with a valid
date is read back by `parseDateKey` as local midnight of that date's day. -/
theorem group_key_midnight (host : Host) (txs : List Transaction) (hs : host.sane)
    (hyear : ∀ tx ∈ txs, ∀ t, parseTransactionDate host tx.date = some t →
      100 ≤ yearFromDay (localDay host t))
    (k : Str) (x : Transaction) (dx : ℤ)
    (hx : x ∈ ((groupByKey host txs).lookup k).getD [])
    (hdx : transactionDay host x = some dx) :
    parseDateKey host (DateInput.prim (JSVal.str k)) = some (dx * msPerDay - host.tzOffset) ∧
      ∃ t, localDay host t = dx ∧ k = getDateKey host (some t) := by
  obtain ⟨tx, htx, hxe, hk⟩ := (groupByKey_members host txs k x).mp hx
  rw [hxe] at hdx
  simp only [transactionDay, transactionTime_withDate] at hdx
  cases hp : parseTransactionDate host tx.date with
  | none => simp [hp] at hdx
  | some t =>
    simp only [hp, Option.map_some', Option.some.injEq] at hdx
    rw [hp] at hk
    refine ⟨?_, t, hdx, hk⟩
    rw [hk, parseDateKey_getDateKey host t hs.1 (parseTransactionDate_bounds host hs _ t hp)
      (hyear tx htx t hp), hdx]

/-- Every key of `grouped` is read back by `parseDateKey` as a valid date. -/
theorem group_key_parses (host : Host) (txs : List Transaction) (hs : host.sane)
    (hyear : ∀ tx ∈ txs, ∀ t, parseTransactionDate host tx.date = some t →
      100 ≤ yearFromDay (localDay host t))
    (k : Str) (hk : k ∈ (groupByKey host txs).map Prod.fst) :
    ∃ u, parseDateKey host (DateInput.prim (JSVal.str k)) = some u := by
  obtain ⟨tx, htx, hke⟩ := (groupByKey_mem_keys host txs k).mp hk
  cases hp : parseTransactionDate host tx.date with
  | none =>
    rw [hke, hp]
    exact parseDateKey_nan host
  | some t =>
    rw [hke, hp, parseDateKey_getDateKey host t hs.1
      (parseTransactionDate_bounds host hs _ t hp) (hyear tx htx t hp)]
    exact ⟨_, rfl⟩

/-- The transactions under one key have dates that are all valid or all
invalid, and the comparator of the inner sort orders them by time value. -/
theorem compareByDate_consistent (host : Host) (txs : List Transaction) (k : Str)
    (a b : Transaction)
    (ha : a ∈ ((groupByKey host txs).lookup k).getD [])
    (hb : b ∈ ((groupByKey host txs).lookup k).getD []) :
    (compareByDate a b).gt (jsn 0) = true ↔
      (transactionTime a).getD 0 < (transactionTime b).getD 0 := by
  obtain ⟨ta, -, hae, hka⟩ := (groupByKey_members host txs k a).mp ha
  obtain ⟨tb, -, hbe, hkb⟩ := (groupByKey_members host txs k b).mp hb
  have hkey := (getDateKey_eq_iff host _ _).mp (hka.symm.trans hkb)
  rw [hae, hbe]
  simp only [compareByDate, withDate_date, transactionTime_withDate]
  cases hpa : parseTransactionDate host ta.date with
  | none =>
    cases hpb : parseTransactionDate host tb.date with
    | none => simp [DateInput.toNumber, JSNum.sub, JSNum.add, JSNum.neg, JSNum.gt, JSNum.lt, jsn]
    | some u =>
      rw [hpa, hpb] at hkey
      simp [getFullYear] at hkey
  | some t =>
    cases hpb : parseTransactionDate host tb.date with
    | none =>
      rw [hpa, hpb] at hkey
      simp [getFullYear] at hkey
    | some u =>
      simp only [DateInput.toNumber, JSNum.sub, JSNum.add, JSNum.neg, JSNum.gt, JSNum.lt, jsn,
        Option.getD_some, decide_eq_true_eq]
      constructor
      · intro h
        have h' : ((0 : ℤ) : ℚ) < ((u - t : ℤ) : ℚ) := by push_cast; linarith
        have : (0 : ℤ) < u - t := by exact_mod_cast h'
        omega
      · intro h
        have : ((t : ℤ) : ℚ) < ((u : ℤ) : ℚ) := by exact_mod_cast h
        linarith

/-- C10 fails on dates before the year 100: with one transaction on 1 January
of the year 50 and one on 1 January 1900, the group of the year 50 is
enumerated first although its day is the older one, because `parseDateKey`
reads the key `50-01-01` through `new Date(50, 0, 1)`, which means 1950. -/
theorem groups_order_year50 :
    (groupTransactionsByDate sampleHost
        [sampleTransaction "a".toList (DateInput.prim (JSVal.str "0050-01-01T00:00:00Z".toList)),
         sampleTransaction "b".toList
           (DateInput.prim (JSVal.str "1900-01-01T00:00:00Z".toList))]).map
      (fun g => (g.1, g.2.map (fun x => (x.id, transactionDay sampleHost x))))
      = [("50-01-01".toList, [("a".toList, some (-701265))]),
         ("1900-01-01".toList, [("b".toList, some (-25567))])] ∧
    parseDateKey sampleHost (DateInput.prim (JSVal.str "50-01-01".toList))
      = some (-631188000000) ∧
    ¬ (groupTransactionsByDate sampleHost
        [sampleTransaction "a".toList (DateInput.prim (JSVal.str "0050-01-01T00:00:00Z".toList)),
         sampleTransaction "b".toList
           (DateInput.prim (JSVal.str "1900-01-01T00:00:00Z".toList))]).Pairwise
      (fun g h => ∀ x ∈ g.2, ∀ y ∈ h.2, ∀ dx dy, transactionDay sampleHost x = some dx →
        transactionDay sampleHost y = some dy → dy < dx) := by
  refine ⟨by decide!, by decide!, ?_⟩
  have hres : groupTransactionsByDate sampleHost
      [sampleTransaction "a".toList (DateInput.prim (JSVal.str "0050-01-01T00:00:00Z".toList)),
       sampleTransaction "b".toList (DateInput.prim (JSVal.str "1900-01-01T00:00:00Z".toList))]
      = [("50-01-01".toList,
          [(sampleTransaction "a".toList
            (DateInput.prim (JSVal.str "0050-01-01T00:00:00Z".toList))).withDate
              (some (-60589296000000))]),
         ("1900-01-01".toList,
          [(sampleTransaction "b".toList
            (DateInput.prim (JSVal.str "1900-01-01T00:00:00Z".toList))).withDate
              (some (-2208988800000))])] := by
    decide!
  rw [hres]
  intro h
  have h2 := (List.pairwise_cons.mp h).1 _ (List.mem_singleton_self _) _
    (List.mem_singleton_self _) _ (List.mem_singleton_self _) (-701265) (-25567)
    (by decide!) (by decide!)
  exact absurd h2 (by decide)

/-- On a list in which every valid date lies in local year 100 or later, the
groups of valid dates are enumerated strictly newest calendar day first, no
group is empty, and inside each group the transactions are ordered by time
value, non-increasing. -/
theorem groups_newest_first (host : Host) (txs : List Transaction) (hs : host.sane)
    (hyear : ∀ tx ∈ txs, ∀ t, parseTransactionDate host tx.date = some t →
      100 ≤ yearFromDay (localDay host t)) :
    (groupTransactionsByDate host txs).Pairwise (fun g h =>
      ∀ x ∈ g.2, ∀ y ∈ h.2, ∀ dx dy, transactionDay host x = some dx →
        transactionDay host y = some dy → dy < dx) ∧
    (∀ g ∈ groupTransactionsByDate host txs, g.2 ≠ [] ∧
      g.2.Pairwise (fun x y => ∀ tx ty, transactionTime x = some tx →
        transactionTime y = some ty → ty ≤ tx)) := by
  constructor
  · have hcons : ∀ a ∈ (groupByKey host txs).map Prod.fst,
        ∀ b ∈ (groupByKey host txs).map Prod.fst,
        ((compareKeys host a b).gt (jsn 0) = true ↔
          (parseDateKey host (DateInput.prim (JSVal.str a))).getD 0
            < (parseDateKey host (DateInput.prim (JSVal.str b))).getD 0) := by
      intro a ha b hb
      obtain ⟨ua, hua⟩ := group_key_parses host txs hs hyear a ha
      obtain ⟨ub, hub⟩ := group_key_parses host txs hs hyear b hb
      rw [compareKeys_gt host a b ua ub hua hub, hua, hub]
      rfl
    have hsorted := jsSort_sorted (compareKeys host)
      (fun k => (parseDateKey host (DateInput.prim (JSVal.str k))).getD 0) _ hcons
    have hnodup : (jsSort (compareKeys host) ((groupByKey host txs).map Prod.fst)).Pairwise
        (fun a b => a ≠ b) :=
      (jsSort_perm _ _).nodup_iff.mpr (groupByKey_keys_nodup host txs)
    unfold groupTransactionsByDate
    simp only []
    rw [List.pairwise_map]
    refine (hsorted.and hnodup).imp ?_
    rintro a b ⟨hle, hne⟩ x hx y hy dx dy hdx hdy
    simp only [mem_jsSort] at hx hy
    obtain ⟨hpa, ta, hta, hka⟩ := group_key_midnight host txs hs hyear a x dx hx hdx
    obtain ⟨hpb, tb, htb, hkb⟩ := group_key_midnight host txs hs hyear b y dy hy hdy
    simp only [hpa, hpb, Option.getD_some] at hle
    have hd : dx ≠ dy := by
      intro e
      apply hne
      rw [hka, hkb]
      exact getDateKey_of_localDay host ta tb (by rw [hta, htb, e])
    have hms : (0 : ℤ) < msPerDay := by decide
    have hle' : dy * msPerDay ≤ dx * msPerDay := by omega
    have : dy ≤ dx := le_of_mul_le_mul_right hle' hms
    omega
  · intro g hg
    obtain ⟨⟨tx, htx, hk⟩, hg2⟩ := (mem_groupTransactionsByDate host txs g).mp hg
    constructor
    · intro hnil
      have hmem : tx.withDate (parseTransactionDate host tx.date) ∈ g.2 :=
        (mem_group_iff host txs tx htx g hg).mpr hk
      rw [hnil] at hmem
      exact absurd hmem (List.not_mem_nil _)
    · rw [hg2]
      have hsorted := jsSort_sorted compareByDate (fun x => (transactionTime x).getD 0)
        (((groupByKey host txs).lookup g.1).getD [])
        (fun a ha b hb => compareByDate_consistent host txs g.1 a b ha hb)
      refine hsorted.imp ?_
      intro x y hxy tx' ty' hx hy
      simp only [hx, hy, Option.getD_some] at hxy
      exact hxy

/-- The order of the groups on three transactions of January 2024 on the
sample host. -/
theorem groups_newest_first_sample :
    (groupTransactionsByDate sampleHost
        [sampleTransaction "a".toList (DateInput.prim (JSVal.str "2024-01-01T10:00:00Z".toList)),
         sampleTransaction "b".toList (DateInput.prim (JSVal.str "2024-01-01T15:00:00Z".toList)),
         sampleTransaction "c".toList
           (DateInput.prim (JSVal.str "2024-01-01 01:00:00".toList))]).Pairwise
      (fun g h => ∀ x ∈ g.2, ∀ y ∈ h.2, ∀ dx dy, transactionDay sampleHost x = some dx →
        transactionDay sampleHost y = some dy → dy < dx) ∧
    (∀ g ∈ groupTransactionsByDate sampleHost
        [sampleTransaction "a".toList (DateInput.prim (JSVal.str "2024-01-01T10:00:00Z".toList)),
         sampleTransaction "b".toList (DateInput.prim (JSVal.str "2024-01-01T15:00:00Z".toList)),
         sampleTransaction "c".toList (DateInput.prim (JSVal.str "2024-01-01 01:00:00".toList))],
      g.2 ≠ [] ∧
      g.2.Pairwise (fun x y => ∀ tx ty, transactionTime x = some tx →
        transactionTime y = some ty → ty ≤ tx)) :=
  groups_newest_first sampleHost
    [sampleTransaction "a".toList (DateInput.prim (JSVal.str "2024-01-01T10:00:00Z".toList)),
     sampleTransaction "b".toList (DateInput.prim (JSVal.str "2024-01-01T15:00:00Z".toList)),
     sampleTransaction "c".toList (DateInput.prim (JSVal.str "2024-01-01 01:00:00".toList))]
    (by decide)
    (by
      intro tx htx t ht
      simp only [List.mem_cons, List.mem_singleton, List.not_mem_nil, or_false] at htx
      rcases htx with e | e | e
      · have hp : parseTransactionDate sampleHost tx.date = some 1704103200000 := by
          rw [e]; decide!
        rw [hp] at ht
        rw [← Option.some.inj ht]
        decide!
      · have hp : parseTransactionDate sampleHost tx.date = some 1704121200000 := by
          rw [e]; decide!
        rw [hp] at ht
        rw [← Option.some.inj ht]
        decide!
      · have hp : parseTransactionDate sampleHost tx.date = some 1704070800000 := by
          rw [e]; decide!
        rw [hp] at ht
        rw [← Option.some.inj ht]
        decide!)

/-! ## Validators of category names and goals -/

theorem utf16Length_eq_zero (s : Str) : utf16Length s = 0 ↔ s = [] := by
  cases s with
  | nil => simp [utf16Length]
  | cons c cs =>
    simp only [utf16Length, List.map_cons, List.sum_cons]
    constructor
    · intro h
      split_ifs at h <;> omega
    · intro h
      exact absurd h (List.cons_ne_nil _ _)

theorem isBlankName_str (s : Str) :
    isBlankName (JSVal.str s) = some (decide (trim s = [])) := by
  unfold isBlankName
  by_cases hs : s = []
  · subst hs
    simp [JSVal.truthy, trim, trimStart, trimEnd]
  · have ht : (JSVal.str s).truthy = true := by
      cases s with
      | nil => exact absurd rfl hs
      | cons c cs => simp [JSVal.truthy]
    simp only [ht, Bool.not_true, Bool.false_eq_true, if_false]
    congr 1
    by_cases h : trim s = []
    · simp [h, utf16Length]
    · have := (utf16Length_eq_zero (trim s)).not.mpr h
      simp [h, this]

theorem truthy_str_of_trim_ne (s : Str) (h : trim s ≠ []) : (JSVal.str s).truthy = true := by
  cases s with
  | nil => exact absurd (by simp [trim, trimStart, trimEnd]) h
  | cons c cs => simp [JSVal.truthy]

theorem validateCategoryName_str (s : Str) :
    validateCategoryName (JSVal.str s) =
      some ⟨decide (trim s ≠ [] ∧ utf16Length s ≤ 255),
        (if trim s = [] then ["Category name is required"] else []) ++
        (if (JSVal.str s).truthy = true ∧ 255 < utf16Length s then
          ["Category name must be less than 255 characters"] else [])⟩ := by
  unfold validateCategoryName
  rw [isBlankName_str]
  by_cases hb : trim s = []
  · by_cases hl : (JSVal.str s).truthy = true ∧ 255 < utf16Length s
    · simp [hb, hl, lengthOf]
    · simp only [not_and_or] at hl
      rcases hl with hl | hl
      · simp [hb, hl, lengthOf]
      · simp [hb, hl, lengthOf]
  · have ht := truthy_str_of_trim_ne s hb
    by_cases hl : 255 < utf16Length s
    · simp [hb, hl, ht, lengthOf]
    · simp only [not_lt] at hl
      simp [hb, hl, ht, lengthOf]

theorem utf16Length_replicate_a (n : ℕ) : utf16Length (List.replicate n 'a') = n := by
  induction n with
  | zero => rfl
  | succ k ih =>
    unfold utf16Length at ih ⊢
    rw [List.replicate_succ, List.map_cons, List.sum_cons, ih, if_pos (by decide)]
    omega

theorem trim_replicate_a (n : ℕ) : trim (List.replicate n 'a') = List.replicate n 'a' := by
  have hstart : ∀ k : ℕ, trimStart (List.replicate k 'a') = List.replicate k 'a' := by
    intro k
    cases k with
    | zero => rfl
    | succ k =>
      unfold trimStart
      rw [List.replicate_succ, List.dropWhile_cons, if_neg (by decide)]
  unfold trim trimEnd
  rw [hstart, List.reverse_replicate]
  have := hstart n
  unfold trimStart at this
  rw [this, List.reverse_replicate]

theorem replicate_ne_nil (n : ℕ) (c : Char) (h : 0 < n) : List.replicate n c ≠ [] := by
  intro he
  have := congrArg List.length he
  rw [List.length_replicate] at this
  simp only [List.length_nil] at this
  omega

/-- C17: `validateCategoryName` accepts a string name exactly when it is not
empty after trimming and has at most 255 UTF-16 code units; a missing name
(`undefined` or `null`) is rejected; a name of 255 characters is accepted and
one of 256 is rejected. -/
theorem validateCategoryName_isValid_iff (s : Str) :
    (∃ v, validateCategoryName (JSVal.str s) = some v ∧
      (v.isValid = true ↔ trim s ≠ [] ∧ utf16Length s ≤ 255)) ∧
    (validateCategoryName JSVal.undefined).map (fun v => v.isValid) = some false ∧
    (validateCategoryName JSVal.null).map (fun v => v.isValid) = some false ∧
    (validateCategoryName (JSVal.str (List.replicate 255 'a'))).map (fun v => v.isValid)
      = some true ∧
    (validateCategoryName (JSVal.str (List.replicate 256 'a'))).map (fun v => v.isValid)
      = some false := by
  refine ⟨⟨_, validateCategoryName_str s, by simp⟩, by decide, by decide, ?_, ?_⟩
  · rw [validateCategoryName_str, trim_replicate_a, utf16Length_replicate_a, Option.map_some']
    have h : List.replicate 255 'a' ≠ [] := replicate_ne_nil 255 'a' (by decide)
    simp only [h, ne_eq, not_false_eq_true, le_refl, and_self, decide_True]
  · rw [validateCategoryName_str, trim_replicate_a, utf16Length_replicate_a, Option.map_some']
    have h : ¬ (256 ≤ 255) := by decide
    simp only [h, and_false, decide_False]

theorem dateValue_lt_some (t t0 : ℤ) :
    (dateValue (some t)).lt (dateValue (some t0)) = decide (t < t0) := by
  simp [dateValue, JSNum.lt]

/-- C19.  A goal with a name, a positive target and a due date whose time
lies before the present moment, but not before local midnight of the current
day, is accepted: `validateGoalData` compares the due date with the start of
today, and only with `<`.  The claim, like the message `Due date must be in
the future` of the function itself, has such a goal rejected. -/
theorem validateGoalData_accepts_past_due (host : Host) (name : Str) (amount : ℚ)
    (dueDate description : JSVal) (t t0 : ℤ)
    (hname : trim name ≠ []) (hamount : 0 < amount) (hgiven : dueDate.truthy = true)
    (hdue : dateOfValue host dueDate = some t) (htoday : startOfToday host = some t0)
    (hday : t0 ≤ t) (hpast : t < host.now) :
    validateGoalData host ⟨JSVal.str name, JSVal.num (jsn amount), dueDate, description⟩
      = some ⟨true, []⟩ ∧
    (dateValue (dateOfValue host dueDate)).lt (dateValue (some host.now)) = true := by
  have h0 : amount ≠ 0 := ne_of_gt hamount
  have hle : ¬ amount ≤ 0 := not_le.mpr hamount
  have hlt : ¬ t < t0 := not_lt.mpr hday
  constructor
  · have hamt : (!(JSVal.num (jsn amount)).truthy ||
        (JSVal.num (jsn amount)).toNumber.le (jsn 0)) = false := by
      simp [JSVal.truthy, JSVal.toNumber, JSNum.truthy, JSNum.le, jsn, h0, hle]
    unfold validateGoalData
    simp only [isBlankName_str, hdue, htoday, dateValue_lt_some, hgiven, hamt]
    simp [hname, hlt]
  · rw [hdue, dateValue_lt_some]
    exact decide_eq_true hpast

/-- C19, an instance: on a host on UTC at 12:00 on 15 June 2024, a goal due
`2024-06-15` is accepted; the due date is midnight of that day, twelve hours
before the present moment. -/
theorem validateGoalData_accepts_past_due_witness :
    validateGoalData utcNoonHost
        ⟨JSVal.str "Car".toList, JSVal.num (jsn 1000), JSVal.str "2024-06-15".toList,
         JSVal.null⟩ = some ⟨true, []⟩ ∧
    (dateValue (dateOfValue utcNoonHost (JSVal.str "2024-06-15".toList))).lt
      (dateValue (some utcNoonHost.now)) = true :=
  validateGoalData_accepts_past_due utcNoonHost "Car".toList 1000
    (JSVal.str "2024-06-15".toList) JSVal.null 1718409600000 1718409600000
    (by decide) (by norm_num) (by decide) (by decide!) (by decide!) (le_refl _) (by decide)

/-- What `validateGoalData` checks, for every payload whose name is a string
or falsy: it accepts exactly when the name is not blank, the target amount is
truthy and not `<= 0`, the due date is given and the date made of it does not
compare less than local midnight of the current day (an invalid date never
compares less). -/
theorem validateGoalData_isValid_iff (host : Host) (goalData : GoalData) (blank : Bool)
    (hname : isBlankName goalData.name = some blank) :
    ∃ v, validateGoalData host goalData = some v ∧
      (v.isValid = true ↔
        blank = false ∧
        (goalData.targetAmount.truthy = true ∧
          goalData.targetAmount.toNumber.le (jsn 0) = false) ∧
        goalData.dueDate.truthy = true ∧
        (dateValue (dateOfValue host goalData.dueDate)).lt (dateValue (startOfToday host))
          = false) := by
  unfold validateGoalData
  rw [hname]
  refine ⟨_, rfl, ?_⟩
  cases blank <;> cases h1 : goalData.targetAmount.truthy <;>
    cases h2 : goalData.targetAmount.toNumber.le (jsn 0) <;>
    cases h3 : goalData.dueDate.truthy <;>
    cases h4 : (dateValue (dateOfValue host goalData.dueDate)).lt
      (dateValue (startOfToday host)) <;>
    simp [h1, h2, h3, h4]

theorem validateGoalData_isValid_iff_witness :
    ∃ v, validateGoalData sampleHost
        ⟨JSVal.str "Car".toList, JSVal.num (jsn 1000), JSVal.undefined, JSVal.null⟩ = some v ∧
      (v.isValid = true ↔
        false = false ∧
        ((JSVal.num (jsn 1000)).truthy = true ∧
          (JSVal.num (jsn 1000)).toNumber.le (jsn 0) = false) ∧
        JSVal.undefined.truthy = true ∧
        (dateValue (dateOfValue sampleHost JSVal.undefined)).lt
          (dateValue (startOfToday sampleHost)) = false) :=
  validateGoalData_isValid_iff sampleHost
    ⟨JSVal.str "Car".toList, JSVal.num (jsn 1000), JSVal.undefined, JSVal.null⟩ false
    (by decide)

/-! ## Coin balance across calls -/

theorem earnCoins_state_cases (self : CoinSystem) (session : SessionLookup) (reply : GrantReply)
    (amount : JSNum) :
    (earnCoins self session reply amount).2.1 = self ∨
    ∃ b, reply = GrantReply.ok b ∧ (!amount.truthy || amount.le (jsn 0)) = false ∧
      session.live = true ∧
      (earnCoins self session reply amount).2.1 =
        ⟨if b ≠ JSVal.undefined ∧ b ≠ JSVal.null then b.toNumber
          else JSNum.fadd self.currentBalance amount,
         some (if b ≠ JSVal.undefined ∧ b ≠ JSVal.null then b.toNumber
          else JSNum.fadd self.currentBalance amount)⟩ := by
  by_cases hg : (!amount.truthy || amount.le (jsn 0)) = true
  · left
    unfold earnCoins
    rw [if_pos hg]
  · cases session with
    | parseError =>
      left
      unfold earnCoins
      rw [if_neg hg]
    | found u t =>
      cases u <;> cases t <;> cases reply <;>
        first
        | (left; unfold earnCoins; rw [if_neg hg]; rfl)
        | (right; unfold earnCoins; rw [if_neg hg]
           exact ⟨_, rfl, by simpa using hg, rfl, rfl⟩)

theorem spendCoins_state_cases (self : CoinSystem) (session : SessionLookup) (reply : RedeemReply)
    (payload : SpendPayload) :
    (spendCoins self session reply payload).2.1 = self ∨
    ∃ b, reply = RedeemReply.ok b ∧ (spendRequest payload).1.truthy = true ∧
      session.live = true ∧
      self.currentBalance.lt ((spendRequest payload).2.coalesce (JSVal.num (jsn 0))).toNumber
        = false ∧
      (spendCoins self session reply payload).2.1 =
        ⟨if b ≠ JSVal.undefined ∧ b ≠ JSVal.null then b.toNumber
          else JSNum.fsub self.currentBalance
            ((spendRequest payload).2.coalesce (JSVal.num (jsn 0))).toNumber,
         some (if b ≠ JSVal.undefined ∧ b ≠ JSVal.null then b.toNumber
          else JSNum.fsub self.currentBalance
            ((spendRequest payload).2.coalesce (JSVal.num (jsn 0))).toNumber)⟩ := by
  by_cases hi : (!(spendRequest payload).1.truthy) = true
  · left
    unfold spendCoins
    simp only []
    rw [if_pos hi]
  · by_cases hl : self.currentBalance.lt
        ((spendRequest payload).2.coalesce (JSVal.num (jsn 0))).toNumber = true
    · left
      unfold spendCoins
      simp only []
      rw [if_neg hi, if_pos hl]
    · cases session with
      | parseError =>
        left
        unfold spendCoins
        simp only []
        rw [if_neg hi, if_neg hl]
      | found u t =>
        cases u <;> cases t <;> cases reply <;>
          first
          | (left; unfold spendCoins; simp only []; rw [if_neg hi, if_neg hl]; rfl)
          | (right; unfold spendCoins; simp only []; rw [if_neg hi, if_neg hl]
             exact ⟨_, rfl, by simpa using hi, rfl, by simpa using hl, rfl⟩)

theorem not_isCoinCount_neg (q : ℚ) (h : q < 0) : ¬ isCoinCount (JSNum.num q) := by
  rintro ⟨k, hk⟩
  have hq : q = (k : ℚ) := JSNum.num.inj hk
  have : (0 : ℚ) ≤ (k : ℚ) := Nat.cast_nonneg k
  linarith

theorem isCoinBalance_of_count (n : JSNum) (h : isCoinCount n) : isCoinBalance n := Or.inl h

/-- A grant of a positive integer added by the code keeps a balance a
non-negative integer, or leaves the infinity. -/
theorem fadd_coin (b : JSNum) (z : ℤ) (hz : 0 < z) (hb : isCoinBalance b) :
    isCoinBalance (JSNum.fadd b (JSNum.num (z : ℚ))) := by
  rcases hb with ⟨k, hk⟩ | hk
  · subst hk
    have h : JSNum.fadd (JSNum.num (k : ℚ)) (JSNum.num (z : ℚ)) =
        toDouble (((k + z : ℤ) : ℤ) : ℚ) := by
      simp only [JSNum.fadd, JSNum.add, JSNum.toBinary64]
      push_cast
      rfl
    rw [h]
    exact toDouble_intCast _ (by omega)
  · subst hk
    exact Or.inr rfl

/-- An integer cost the balance test lets through, subtracted by the code,
keeps a balance a non-negative integer, or leaves the infinity. -/
theorem fsub_coin (b : JSNum) (z : ℤ) (hb : isCoinBalance b)
    (hl : b.lt (JSNum.num (z : ℚ)) = false) :
    isCoinBalance (JSNum.fsub b (JSNum.num (z : ℚ))) := by
  rcases hb with ⟨k, hk⟩ | hk
  · subst hk
    simp only [JSNum.lt, decide_eq_false_iff_not, not_lt] at hl
    have hzk : z ≤ (k : ℤ) := by exact_mod_cast hl
    have h : JSNum.fsub (JSNum.num (k : ℚ)) (JSNum.num (z : ℚ)) =
        toDouble (((k - z : ℤ) : ℤ) : ℚ) := by
      simp only [JSNum.fsub, JSNum.sub, JSNum.neg, JSNum.add, JSNum.toBinary64]
      push_cast
      ring_nf
    rw [h]
    exact toDouble_intCast _ (by omega)
  · subst hk
    exact Or.inr rfl

theorem CoinCall.run_integral (self : CoinSystem) (c : CoinCall)
    (h0 : isCoinBalance self.currentBalance) (hc : c.integral) :
    isCoinBalance (c.run self).currentBalance := by
  cases c with
  | earn session reply amount =>
    rcases earnCoins_state_cases self session reply amount with h | ⟨b, hb, hg, _, h⟩
    · simp only [CoinCall.run, h]
      exact h0
    · subst hb
      simp only [CoinCall.run, h]
      simp only [CoinCall.integral] at hc
      by_cases hp : b ≠ JSVal.undefined ∧ b ≠ JSVal.null
      · rw [if_pos hp] at hc ⊢
        exact Or.inl hc
      · rw [if_neg hp] at hc ⊢
        obtain ⟨z, hz⟩ := hc
        subst hz
        simp only [Bool.or_eq_false_iff, JSNum.le, JSNum.truthy, jsn, decide_eq_false_iff_not,
          not_le] at hg
        have hz0 : (0 : ℤ) < z := by exact_mod_cast hg.2
        exact fadd_coin _ z hz0 h0
  | spend session reply payload =>
    rcases spendCoins_state_cases self session reply payload with h | ⟨b, hb, _, _, hl, h⟩
    · simp only [CoinCall.run, h]
      exact h0
    · subst hb
      simp only [CoinCall.run, h]
      simp only [CoinCall.integral] at hc
      by_cases hp : b ≠ JSVal.undefined ∧ b ≠ JSVal.null
      · rw [if_pos hp] at hc ⊢
        exact Or.inl hc
      · rw [if_neg hp] at hc ⊢
        obtain ⟨z, hz⟩ := hc
        rw [hz] at hl ⊢
        exact fsub_coin _ z h0 hl

theorem earnCoins_phases (self : CoinSystem) (session : SessionLookup) (reply : GrantReply)
    (amount : JSNum) :
    (earnCoins self session reply amount).2.1 =
      match earnCoinsStart session amount with
      | some (PendingCoinCall.grant a) => earnCoinsFinish self reply a
      | _ => self := by
  unfold earnCoins earnCoinsStart
  by_cases hg : (!amount.truthy || amount.le (jsn 0)) = true
  · rw [if_pos hg, if_pos hg]
  · rw [if_neg hg, if_neg hg]
    cases session with
    | parseError => rfl
    | found u t => cases u <;> cases t <;> cases reply <;> rfl

theorem spendCoins_phases (self : CoinSystem) (session : SessionLookup) (reply : RedeemReply)
    (payload : SpendPayload) :
    (spendCoins self session reply payload).2.1 =
      match spendCoinsStart self session payload with
      | some (PendingCoinCall.redeem a) => spendCoinsFinish self reply a
      | _ => self := by
  unfold spendCoins spendCoinsStart
  simp only []
  by_cases hi : (!(spendRequest payload).1.truthy) = true
  · rw [if_pos hi, if_pos hi]
  · rw [if_neg hi, if_neg hi]
    by_cases hl : self.currentBalance.lt
        ((spendRequest payload).2.coalesce (JSVal.num (jsn 0))).toNumber = true
    · rw [if_pos hl, if_pos hl]
    · rw [if_neg hl, if_neg hl]
      cases session with
      | parseError => rfl
      | found u t => cases u <;> cases t <;> cases reply <;> rfl

/-- A call that is awaited is the two events of its method, run one after
the other with nothing in between. -/
theorem coin_call_events_run (self : CoinSystem) (c : CoinCall) :
    runCoinEvents ⟨self, []⟩ c.events = ⟨c.run self, []⟩ := by
  cases c with
  | earn session reply amount =>
    simp only [CoinCall.events, runCoinEvents, List.foldl_cons, List.foldl_nil, coinStep,
      CoinCall.run, earnCoins_phases]
    cases h : earnCoinsStart session amount with
    | none => rfl
    | some p =>
      have hp : p = PendingCoinCall.grant amount := by
        unfold earnCoinsStart at h
        split_ifs at h
        cases session with
        | parseError => simp at h
        | found u t =>
          simp only at h
          split_ifs at h
          exact (Option.some.inj h).symm
      subst hp
      rfl
  | spend session reply payload =>
    simp only [CoinCall.events, runCoinEvents, List.foldl_cons, List.foldl_nil, coinStep,
      CoinCall.run, spendCoins_phases]
    cases h : spendCoinsStart self session payload with
    | none => rfl
    | some p =>
      have hp : ∃ a, p = PendingCoinCall.redeem a := by
        unfold spendCoinsStart at h
        simp only [] at h
        split_ifs at h
        cases session with
        | parseError => simp at h
        | found u t =>
          simp only at h
          split_ifs at h
          exact ⟨_, (Option.some.inj h).symm⟩
      obtain ⟨a, ha⟩ := hp
      subst ha
      rfl

theorem sequentialEvents_run (self : CoinSystem) (calls : List CoinCall) :
    runCoinEvents ⟨self, []⟩ (sequentialEvents calls) = ⟨calls.foldl CoinCall.run self, []⟩ := by
  induction calls generalizing self with
  | nil => rfl
  | cons c cs ih =>
    have h := coin_call_events_run self c
    unfold runCoinEvents at h ih ⊢
    unfold sequentialEvents at ih ⊢
    rw [List.flatMap_cons, List.foldl_append, h, List.foldl_cons]
    exact ih (c.run self)

theorem foldl_run_integral (self : CoinSystem) (calls : List CoinCall)
    (h0 : isCoinBalance self.currentBalance) (hcalls : ∀ c ∈ calls, c.integral) :
    isCoinBalance (calls.foldl CoinCall.run self).currentBalance := by
  induction calls generalizing self with
  | nil => exact h0
  | cons c cs ih =>
    rw [List.foldl_cons]
    exact ih (c.run self)
      (CoinCall.run_integral self c h0 (hcalls c (List.mem_cons_self _ _)))
      (fun d hd => hcalls d (List.mem_cons_of_mem _ hd))

theorem earnCoinsStart_integral (session : SessionLookup) (amount : JSNum) (p : PendingCoinCall)
    (hz : ∃ z : ℤ, amount = JSNum.num (z : ℚ)) (h : earnCoinsStart session amount = some p) :
    p.integral := by
  obtain ⟨z, hz⟩ := hz
  unfold earnCoinsStart at h
  by_cases hg : (!amount.truthy || amount.le (jsn 0)) = true
  · rw [if_pos hg] at h
    exact Option.noConfusion h
  · rw [if_neg hg] at h
    cases session with
    | parseError => exact Option.noConfusion h
    | found u t =>
      simp only at h
      split_ifs at h
      rw [← Option.some.inj h]
      subst hz
      have hg2 : (!(JSNum.num (z : ℚ)).truthy || (JSNum.num (z : ℚ)).le (jsn 0)) = false := by
        simpa using hg
      simp only [Bool.or_eq_false_iff, JSNum.le, JSNum.truthy, jsn, decide_eq_false_iff_not,
        not_le] at hg2
      exact ⟨z, by exact_mod_cast hg2.2, rfl⟩

theorem spendCoinsStart_integral (self : CoinSystem) (session : SessionLookup)
    (payload : SpendPayload) (p : PendingCoinCall)
    (h : spendCoinsStart self session payload = some p) : p.integral := by
  unfold spendCoinsStart at h
  simp only [] at h
  split_ifs at h
  cases session with
  | parseError => exact Option.noConfusion h
  | found u t =>
    simp only at h
    split_ifs at h
    rw [← Option.some.inj h]
    exact trivial

/-- What holds of a run when every event was integral: the balance is a
non-negative integer (or the infinity) and every pending grant has a positive
integer amount. -/
theorem coinStep_integral (r : CoinRun) (e : CoinEvent)
    (h0 : isCoinBalance r.system.currentBalance) (hp : ∀ p ∈ r.pending, p.integral)
    (he : e.integral) :
    isCoinBalance (coinStep r e).system.currentBalance ∧
      ∀ p ∈ (coinStep r e).pending, p.integral := by
  cases e with
  | earnCalled session amount =>
    simp only [coinStep]
    cases h : earnCoinsStart session amount with
    | none => exact ⟨h0, hp⟩
    | some p =>
      refine ⟨h0, ?_⟩
      intro q hq
      rcases List.mem_append.mp hq with hq | hq
      · exact hp q hq
      · rw [List.mem_singleton] at hq
        rw [hq]
        exact earnCoinsStart_integral session amount p he h
  | spendCalled session payload =>
    simp only [coinStep]
    cases h : spendCoinsStart r.system session payload with
    | none => exact ⟨h0, hp⟩
    | some p =>
      refine ⟨h0, ?_⟩
      intro q hq
      rcases List.mem_append.mp hq with hq | hq
      · exact hp q hq
      · rw [List.mem_singleton] at hq
        rw [hq]
        exact spendCoinsStart_integral r.system session payload p h
  | grantAnswered index reply =>
    simp only [coinStep]
    cases h : r.pending.get? index with
    | none => exact ⟨h0, hp⟩
    | some p =>
      cases p with
      | redeem a => exact ⟨h0, hp⟩
      | grant amount =>
        have hmem : PendingCoinCall.grant amount ∈ r.pending := List.get?_mem h
        obtain ⟨z, hz0, hz⟩ := hp _ hmem
        refine ⟨?_, fun q hq => hp q ((List.eraseIdx_sublist _ _).subset hq)⟩
        cases reply with
        | networkError => exact h0
        | httpError => exact h0
        | badBody => exact h0
        | ok b =>
          simp only [earnCoinsFinish]
          by_cases hb : b ≠ JSVal.undefined ∧ b ≠ JSVal.null
          · rw [if_pos hb]
            exact Or.inl (he hb)
          · rw [if_neg hb, hz]
            exact fadd_coin _ z hz0 h0
  | redeemAnswered index reply =>
    simp only [coinStep]
    cases h : r.pending.get? index with
    | none => exact ⟨h0, hp⟩
    | some p =>
      cases p with
      | grant a => exact ⟨h0, hp⟩
      | redeem spendAmount =>
        refine ⟨?_, fun q hq => hp q ((List.eraseIdx_sublist _ _).subset hq)⟩
        cases reply with
        | networkError => exact h0
        | httpError => exact h0
        | badBody => exact h0
        | ok b =>
          simp only [spendCoinsFinish]
          rw [if_pos he.1]
          exact Or.inl he.2

theorem runCoinEvents_integral (r : CoinRun) (events : List CoinEvent)
    (h0 : isCoinBalance r.system.currentBalance) (hp : ∀ p ∈ r.pending, p.integral)
    (he : ∀ e ∈ events, e.integral) :
    isCoinBalance (runCoinEvents r events).system.currentBalance := by
  induction events generalizing r with
  | nil => exact h0
  | cons e es ih =>
    unfold runCoinEvents
    rw [List.foldl_cons]
    obtain ⟨h1, h2⟩ := coinStep_integral r e h0 hp (he e (List.mem_cons_self _ _))
    exact ih (coinStep r e) h1 h2 (fun d hd => he d (List.mem_cons_of_mem _ hd))

/-- C14, the code against the claim.  From balance 100, a redemption the
server confirms with `balanceAfter: -5` leaves the balance at -5, and a grant
the server confirms with `balanceAfter: 2.5` leaves it at 2.5.  And two
redemptions of 70 that overlap, both started at balance 100 and both
confirmed without a `balanceAfter`, leave the balance at -40: each passes the
balance test before either response arrives. -/
theorem coin_balance_counterexample :
    (runCoinEvents ⟨⟨jsn 100, some (jsn 100)⟩, []⟩
        [CoinEvent.spendCalled (SessionLookup.found true true)
          (SpendPayload.object (JSVal.num (jsn 12)) (JSVal.num (jsn 10))),
         CoinEvent.redeemAnswered 0 (RedeemReply.ok (JSVal.num (jsn (-5))))]).system.currentBalance
      = jsn (-5) ∧
    (runCoinEvents ⟨⟨jsn 100, some (jsn 100)⟩, []⟩
        [CoinEvent.earnCalled (SessionLookup.found true true) (jsn 10),
         CoinEvent.grantAnswered 0 (GrantReply.ok (JSVal.num (jsn (5 / 2))))]).system.currentBalance
      = jsn (5 / 2) ∧
    (runCoinEvents ⟨⟨jsn 100, some (jsn 100)⟩, []⟩
        [CoinEvent.spendCalled (SessionLookup.found true true)
          (SpendPayload.object (JSVal.num (jsn 12)) (JSVal.num (jsn 70))),
         CoinEvent.spendCalled (SessionLookup.found true true)
          (SpendPayload.object (JSVal.num (jsn 13)) (JSVal.num (jsn 70))),
         CoinEvent.redeemAnswered 0 (RedeemReply.ok JSVal.undefined),
         CoinEvent.redeemAnswered 0 (RedeemReply.ok JSVal.undefined)]).system.currentBalance
      = jsn (-40) ∧
    ¬ isCoinCount (jsn (-5)) ∧ ¬ isCoinCount (jsn (5 / 2)) ∧ ¬ isCoinCount (jsn (-40)) := by
  refine ⟨by decide!, by decide!, by decide!, not_isCoinCount_neg _ (by norm_num), ?_,
    not_isCoinCount_neg _ (by norm_num)⟩
  rintro ⟨k, hk⟩
  have hq : (5 / 2 : ℚ) = (k : ℚ) := JSNum.num.inj hk
  have h2 : (5 : ℚ) = 2 * (k : ℚ) := by linarith
  have h3 : (5 : ℕ) = 2 * k := by exact_mod_cast h2
  omega

/-- C14, as the code has it.  Starting from a non-negative integer balance
with no call pending, the balance is a non-negative integer, or the infinity
of a sum beyond the range of the Number type, after every sequence of calls
and responses, overlapping or not, in which every grant is called with an
integer amount, every confirming response to a grant carries no
`balanceAfter` or a non-negative integer, and every confirming response to a
redemption carries a `balanceAfter` that is a non-negative integer.  When
each call is awaited before the next, it is enough that each confirming
response carries a `balanceAfter` that is a non-negative integer, or carries
none while the amount of the call is an integer. -/
theorem coin_balance_integral (self : CoinSystem) (h0 : isCoinCount self.currentBalance) :
    (∀ events : List CoinEvent, (∀ e ∈ events, e.integral) →
      isCoinBalance (runCoinEvents ⟨self, []⟩ events).system.currentBalance) ∧
    (∀ calls : List CoinCall, (∀ c ∈ calls, c.integral) →
      isCoinBalance (runCoinEvents ⟨self, []⟩ (sequentialEvents calls)).system.currentBalance) := by
  constructor
  · intro events he
    exact runCoinEvents_integral ⟨self, []⟩ events (Or.inl h0)
      (fun p hp => absurd hp (List.not_mem_nil _)) he
  · intro calls hc
    rw [sequentialEvents_run]
    exact foldl_run_integral self calls (Or.inl h0) hc

/-- C14, an instance: from balance 100 a grant of 10 and a redemption of 70
overlap; the grant is confirmed without a `balanceAfter`, the redemption with
`balanceAfter: 40`. -/
theorem coin_balance_integral_witness :
    isCoinBalance (runCoinEvents ⟨⟨jsn 100, some (jsn 100)⟩, []⟩
      [CoinEvent.earnCalled (SessionLookup.found true true) (jsn 10),
       CoinEvent.spendCalled (SessionLookup.found true true)
        (SpendPayload.object (JSVal.num (jsn 12)) (JSVal.num (jsn 70))),
       CoinEvent.grantAnswered 0 (GrantReply.ok JSVal.undefined),
       CoinEvent.redeemAnswered 0
        (RedeemReply.ok (JSVal.num (jsn 40)))]).system.currentBalance ∧
    (runCoinEvents ⟨⟨jsn 100, some (jsn 100)⟩, []⟩
      [CoinEvent.earnCalled (SessionLookup.found true true) (jsn 10),
       CoinEvent.spendCalled (SessionLookup.found true true)
        (SpendPayload.object (JSVal.num (jsn 12)) (JSVal.num (jsn 70))),
       CoinEvent.grantAnswered 0 (GrantReply.ok JSVal.undefined),
       CoinEvent.redeemAnswered 0
        (RedeemReply.ok (JSVal.num (jsn 40)))]).system.currentBalance = jsn 40 :=
  ⟨(coin_balance_integral ⟨jsn 100, some (jsn 100)⟩ ⟨100, by simp [jsn]⟩).1 _
    (by
      intro e he
      simp only [List.mem_cons, List.mem_singleton, List.not_mem_nil, or_false] at he
      rcases he with rfl | rfl | rfl | rfl
      · exact ⟨10, by simp [jsn]⟩
      · exact trivial
      · intro h
        exact absurd rfl h.1
      · exact ⟨⟨by decide, by decide⟩, ⟨40, by simp [JSVal.toNumber, jsn]⟩⟩),
   by decide!⟩

/-- The infinity is reached: from the balance 2^1023 a grant of 2^1023 that
the server confirms without a `balanceAfter` leaves the balance at
`Infinity`, the sum being beyond the range of the Number type. -/
theorem coin_balance_overflow :
    (runCoinEvents ⟨⟨JSNum.num (2 ^ 1023), some (JSNum.num (2 ^ 1023))⟩, []⟩
        [CoinEvent.earnCalled (SessionLookup.found true true) (JSNum.num (2 ^ 1023)),
         CoinEvent.grantAnswered 0 (GrantReply.ok JSVal.undefined)]).system.currentBalance
      = JSNum.pinf := by
  decide!

/-- C15, the code against the claim: with a session and a confirming server,
`spendCoins` changes the balance although the amount is missing (100 becomes
the confirmed 40) and although it is negative (with no `balanceAfter` in the
response, 100 becomes 105). -/
theorem spendCoins_without_positive_amount :
    (spendCoins ⟨jsn 100, some (jsn 100)⟩ (SessionLookup.found true true)
        (RedeemReply.ok (JSVal.num (jsn 40)))
        (SpendPayload.object (JSVal.num (jsn 12)) JSVal.undefined)).2.1
      = ⟨jsn 40, some (jsn 40)⟩ ∧
    (spendCoins ⟨jsn 100, some (jsn 100)⟩ (SessionLookup.found true true)
        (RedeemReply.ok JSVal.undefined)
        (SpendPayload.object (JSVal.num (jsn 12)) (JSVal.num (jsn (-5))))).2.1
      = ⟨jsn 105, some (jsn 105)⟩ := by
  decide!

/-- C15, as the code has it: a call that goes without a server confirmation
leaves `currentBalance` and the cached value as they were; that is
`earnCoins` with an amount that is missing or not positive, `spendCoins`
without an `itemId`, and either method without a user session or with a
response that is not a 2xx status with a body. -/
theorem coin_call_frame (self : CoinSystem) (c : CoinCall) (h : c.unconfirmed = true) :
    c.run self = self := by
  cases c with
  | earn session reply amount =>
    rcases earnCoins_state_cases self session reply amount with h1 | ⟨b, hb, hg, hs, _⟩
    · exact h1
    · subst hb
      simp only [CoinCall.unconfirmed, hs, GrantReply.isOk, Bool.not_true, Bool.or_false] at h
      rw [h] at hg
      exact absurd hg (by decide)
  | spend session reply payload =>
    rcases spendCoins_state_cases self session reply payload with h1 | ⟨b, hb, hi, hs, _, _⟩
    · exact h1
    · subst hb
      simp [CoinCall.unconfirmed, hs, hi, RedeemReply.isOk] at h

theorem coin_call_frame_witness :
    (CoinCall.earn (SessionLookup.found true true) GrantReply.httpError (jsn 10)).run
        ⟨jsn 100, some (jsn 100)⟩ = ⟨jsn 100, some (jsn 100)⟩ ∧
    (CoinCall.spend (SessionLookup.found true false) (RedeemReply.ok (JSVal.num (jsn 40)))
        (SpendPayload.object (JSVal.num (jsn 12)) (JSVal.num (jsn 10)))).run
        ⟨jsn 100, some (jsn 100)⟩ = ⟨jsn 100, some (jsn 100)⟩ :=
  ⟨coin_call_frame _ _ (by decide!), coin_call_frame _ _ (by decide!)⟩

/-! ## The visible list -/

theorem includes_iff (s sub : Str) : includes s sub = true ↔ sub <:+: s := by
  unfold includes
  rw [List.any_eq_true]
  constructor
  · rintro ⟨t, ht, hp⟩
    rw [List.mem_tails] at ht
    rw [List.isPrefixOf_iff_prefix] at hp
    exact List.infix_iff_prefix_suffix.mpr ⟨t, hp, ht⟩
  · intro h
    obtain ⟨t, hp, ht⟩ := List.infix_iff_prefix_suffix.mp h
    exact ⟨t, (List.mem_tails t s).mpr ht, List.isPrefixOf_iff_prefix.mpr hp⟩

theorem includes_nil (s : Str) : includes s [] = true :=
  (includes_iff s []).mpr List.nil_infix

theorem lowerOrEmpty_of_isTextOrFalsy (v : JSVal) (h : v.isTextOrFalsy = true) :
    lowerOrEmpty v = some (toLowerCase (textOf v)) := by
  cases v with
  | str s =>
    cases s with
    | nil => rfl
    | cons c cs => rfl
  | undefined => rfl
  | null => rfl
  | bool b =>
    cases b with
    | false => rfl
    | true => exact absurd h (by decide)
  | num n =>
    have hn : (JSVal.num n).truthy = false := by
      simpa [JSVal.isTextOrFalsy] using h
    simp [lowerOrEmpty, JSVal.or, hn, textOf, toLowerCase]

theorem filterByDate_isSome_of_date (host : Host) (d : JSDate) (filter : Str) :
    ∃ b, filterByDate host (DateInput.date d) filter = some b := by
  unfold filterByDate
  simp only []
  split_ifs <;> exact ⟨_, rfl⟩

theorem filterTransactions_eq_filter (host : Host) (f : Filters) (p : Transaction → Bool)
    (l : List Transaction) (h : ∀ t ∈ l, matchesFilters host f t = some (p t)) :
    filterTransactions host f l = some (l.filter p) := by
  induction l with
  | nil => rfl
  | cons t ts ih =>
    unfold filterTransactions
    rw [h t (List.mem_cons_self _ _), ih (fun x hx => h x (List.mem_cons_of_mem _ hx))]
    cases hp : p t <;> simp [List.filter_cons, hp]

theorem matchesFilters_of_wellTyped (host : Host) (f : Filters) (t : Transaction)
    (h : t.wellTyped = true) :
    matchesFilters host f t = some (decide
      ((f.search = [] ∨ f.search <:+: toLowerCase (textOf t.title) ∨
          f.search <:+: toLowerCase (textOf t.description)) ∧
        (trim (toLowerCase f.category) = [] ∨
          trim (toLowerCase (textOf t.category)) = trim (toLowerCase f.category)) ∧
        (f.type = [] ∨ t.type = f.type) ∧
        filterByDate host t.date f.date = some true)) := by
  unfold Transaction.wellTyped at h
  simp only [Bool.and_eq_true] at h
  obtain ⟨⟨⟨h1, h2⟩, h3⟩, h4⟩ := h
  unfold matchesFilters
  rw [lowerOrEmpty_of_isTextOrFalsy _ h1, lowerOrEmpty_of_isTextOrFalsy _ h2,
    lowerOrEmpty_of_isTextOrFalsy _ h3]
  cases hd : t.date with
  | prim v => rw [hd] at h4; exact absurd h4 Bool.false_ne_true
  | date d =>
    obtain ⟨b, hb⟩ := filterByDate_isSome_of_date host d f.date
    simp only [hb]
    congr 1
    rw [Bool.eq_iff_iff]
    simp only [Bool.and_eq_true, Bool.or_eq_true, decide_eq_true_eq, includes_iff,
      List.isEmpty_iff, Option.some.injEq]
    tauto

theorem renderTransactions_vars (host : Host) (page : TransactionsPage) :
    (renderTransactions host page).1.transactions = page.transactions ∧
    (renderTransactions host page).1.filteredTransactions = page.filteredTransactions ∧
    (renderTransactions host page).1.currentFilters = page.currentFilters := by
  unfold renderTransactions
  cases page.list <;> simp only [] <;> (try split_ifs) <;> simp

theorem applyFilters_vars (host : Host) (page : TransactionsPage) (visible : List Transaction)
    (h : filterTransactions host page.currentFilters page.transactions = some visible) :
    (applyFilters host page).1.transactions = page.transactions ∧
    (applyFilters host page).1.filteredTransactions = visible ∧
    (applyFilters host page).1.currentFilters = page.currentFilters := by
  unfold applyFilters
  rw [h]
  simp only []
  have hr := renderTransactions_vars host { page with filteredTransactions := visible }
  split_ifs
  · exact hr
  · exact hr

theorem filterByDate_all (host : Host) (d : DateInput) :
    filterByDate host d "all".toList = some true := by
  unfold filterByDate
  simp only []
  rw [if_neg (by decide), if_neg (by decide), if_neg (by decide), if_neg (by decide)]

/-- C11: on a list of transactions whose text fields are strings or missing
and whose dates are `Date` objects, `applyFilters` leaves the full list as it
is and sets the visible list to the transactions, in their order, that satisfy
all four conditions: the search text is empty or occurs in the lower-cased
title or description; the category filter is empty (once lower-cased and
trimmed) or equals the transaction's category, both lower-cased and trimmed;
the type filter is empty or equals the type; `filterByDate` answers `true`.
With every filter empty and the range `all`, the visible list is the full
list. -/
theorem applyFilters_visible (host : Host) (page : TransactionsPage)
    (htyped : ∀ t ∈ page.transactions, t.wellTyped = true) :
    (applyFilters host page).1.filteredTransactions =
      page.transactions.filter (fun t => decide
        ((page.currentFilters.search = [] ∨
            page.currentFilters.search <:+: toLowerCase (textOf t.title) ∨
            page.currentFilters.search <:+: toLowerCase (textOf t.description)) ∧
          (trim (toLowerCase page.currentFilters.category) = [] ∨
            trim (toLowerCase (textOf t.category)) =
              trim (toLowerCase page.currentFilters.category)) ∧
          (page.currentFilters.type = [] ∨ t.type = page.currentFilters.type) ∧
          filterByDate host t.date page.currentFilters.date = some true)) ∧
    (applyFilters host page).1.transactions = page.transactions ∧
    (applyFilters host
        { page with currentFilters := ⟨[], [], [], "all".toList⟩ }).1.filteredTransactions
      = page.transactions := by
  have h1 := filterTransactions_eq_filter host page.currentFilters _ page.transactions
    (fun t ht => matchesFilters_of_wellTyped host page.currentFilters t (htyped t ht))
  have h2 := filterTransactions_eq_filter host ⟨[], [], [], "all".toList⟩ _ page.transactions
    (fun t ht => matchesFilters_of_wellTyped host ⟨[], [], [], "all".toList⟩ t (htyped t ht))
  refine ⟨(applyFilters_vars host page _ h1).2.1, (applyFilters_vars host page _ h1).1, ?_⟩
  rw [(applyFilters_vars host { page with currentFilters := ⟨[], [], [], "all".toList⟩ } _ h2).2.1]
  apply List.filter_eq_self.mpr
  intro t _
  simp only [decide_eq_true_eq, true_or, true_and]
  exact ⟨Or.inl rfl, filterByDate_all host t.date⟩

theorem applyFilters_visible_witness :
    (applyFilters sampleHost samplePage).1.filteredTransactions =
      samplePage.transactions.filter (fun t => decide
        ((samplePage.currentFilters.search = [] ∨
            samplePage.currentFilters.search <:+: toLowerCase (textOf t.title) ∨
            samplePage.currentFilters.search <:+: toLowerCase (textOf t.description)) ∧
          (trim (toLowerCase samplePage.currentFilters.category) = [] ∨
            trim (toLowerCase (textOf t.category)) =
              trim (toLowerCase samplePage.currentFilters.category)) ∧
          (samplePage.currentFilters.type = [] ∨ t.type = samplePage.currentFilters.type) ∧
          filterByDate sampleHost t.date samplePage.currentFilters.date = some true)) ∧
    (applyFilters sampleHost samplePage).1.transactions = samplePage.transactions ∧
    (applyFilters sampleHost
        { samplePage with
          currentFilters := ⟨[], [], [], "all".toList⟩ }).1.filteredTransactions
      = samplePage.transactions :=
  applyFilters_visible sampleHost samplePage (by
    intro t ht
    simp only [samplePage, List.mem_cons, List.mem_singleton, List.not_mem_nil, or_false] at ht
    rcases ht with rfl | rfl <;> rfl)

/-! ## The summary cards -/

theorem foldl_add_finite (l : List Transaction) (acc : ℚ)
    (h : ∀ t ∈ l, ∃ q : ℚ, t.amount = JSNum.num q) :
    l.foldl (fun sum t => JSNum.add sum t.amount) (JSNum.num acc) =
      JSNum.num (acc + (l.map (fun t => t.amount.toRat)).sum) := by
  induction l generalizing acc with
  | nil => simp
  | cons t ts ih =>
    obtain ⟨q, hq⟩ := h t (List.mem_cons_self _ _)
    have hstep : JSNum.add (JSNum.num acc) t.amount = JSNum.num (acc + q) := by
      rw [hq]
      rfl
    rw [List.foldl_cons, hstep, ih (acc + q) (fun x hx => h x (List.mem_cons_of_mem _ hx))]
    simp only [List.map_cons, List.sum_cons, hq, JSNum.toRat]
    congr 1
    ring

theorem sumOfType_finite (type : Str) (l : List Transaction)
    (h : ∀ t ∈ l, ∃ q : ℚ, t.amount = JSNum.num q) :
    sumOfType type l = JSNum.num (totalOfType type l) := by
  unfold sumOfType totalOfType jsn
  rw [foldl_add_finite _ 0 (fun t ht => h t (List.mem_of_mem_filter ht))]
  simp

theorem applyFilters_frame (host : Host) (page : TransactionsPage) :
    (applyFilters host page).1.transactions = page.transactions ∧
    (applyFilters host page).1.incomeCard = page.incomeCard ∧
    (applyFilters host page).1.expenseCard = page.expenseCard ∧
    (applyFilters host page).1.balanceCard = page.balanceCard ∧
    (applyFilters host page).1.transactionCard = page.transactionCard := by
  unfold applyFilters
  cases filterTransactions host page.currentFilters page.transactions with
  | none => exact ⟨rfl, rfl, rfl, rfl, rfl⟩
  | some visible =>
    simp only []
    have hr : ∀ p : TransactionsPage,
        (renderTransactions host p).1.transactions = p.transactions ∧
        (renderTransactions host p).1.incomeCard = p.incomeCard ∧
        (renderTransactions host p).1.expenseCard = p.expenseCard ∧
        (renderTransactions host p).1.balanceCard = p.balanceCard ∧
        (renderTransactions host p).1.transactionCard = p.transactionCard := by
      intro p
      unfold renderTransactions
      cases p.list <;> simp only [] <;> (try split_ifs) <;> simp
    have := hr { page with filteredTransactions := visible }
    split_ifs
    · exact this
    · exact this

/-- C16: for a list of transactions with finite amounts, `updateSummary`
writes to the cards the sum of the amounts of type income, the sum of the
amounts of type expense, their difference and the length of the list;
`applyFilters`, whatever the filters, leaves the full list and the four cards
as they are, so the figures do not depend on the filters. -/
theorem updateSummary_totals (page : TransactionsPage)
    (hfinite : ∀ t ∈ page.transactions, ∃ q : ℚ, t.amount = JSNum.num q) :
    (updateSummary page).incomeCard =
      page.incomeCard.write (jsn (totalOfType "income".toList page.transactions)) ∧
    (updateSummary page).expenseCard =
      page.expenseCard.write (jsn (totalOfType "expense".toList page.transactions)) ∧
    (updateSummary page).balanceCard =
      page.balanceCard.write (jsn (totalOfType "income".toList page.transactions -
        totalOfType "expense".toList page.transactions)) ∧
    (updateSummary page).transactionCard =
      page.transactionCard.write page.transactions.length ∧
    ∀ (host : Host) (filters : Filters),
      (applyFilters host { page with currentFilters := filters }).1.transactions
        = page.transactions ∧
      (applyFilters host { page with currentFilters := filters }).1.incomeCard
        = page.incomeCard ∧
      (applyFilters host { page with currentFilters := filters }).1.expenseCard
        = page.expenseCard ∧
      (applyFilters host { page with currentFilters := filters }).1.balanceCard
        = page.balanceCard ∧
      (applyFilters host { page with currentFilters := filters }).1.transactionCard
        = page.transactionCard := by
  refine ⟨?_, ?_, ?_, rfl, fun host filters =>
    applyFilters_frame host { page with currentFilters := filters }⟩
  · simp only [updateSummary, sumOfType_finite _ _ hfinite, jsn]
  · simp only [updateSummary, sumOfType_finite _ _ hfinite, jsn]
  · simp only [updateSummary, sumOfType_finite _ _ hfinite, jsn, JSNum.sub, JSNum.add,
      JSNum.neg]
    congr 2
    ring

theorem updateSummary_totals_witness :
    (updateSummary samplePage).incomeCard =
      samplePage.incomeCard.write (jsn (totalOfType "income".toList samplePage.transactions)) ∧
    (updateSummary samplePage).expenseCard =
      samplePage.expenseCard.write
        (jsn (totalOfType "expense".toList samplePage.transactions)) ∧
    (updateSummary samplePage).balanceCard =
      samplePage.balanceCard.write (jsn (totalOfType "income".toList samplePage.transactions -
        totalOfType "expense".toList samplePage.transactions)) ∧
    (updateSummary samplePage).transactionCard =
      samplePage.transactionCard.write samplePage.transactions.length ∧
    ∀ (host : Host) (filters : Filters),
      (applyFilters host { samplePage with currentFilters := filters }).1.transactions
        = samplePage.transactions ∧
      (applyFilters host { samplePage with currentFilters := filters }).1.incomeCard
        = samplePage.incomeCard ∧
      (applyFilters host { samplePage with currentFilters := filters }).1.expenseCard
        = samplePage.expenseCard ∧
      (applyFilters host { samplePage with currentFilters := filters }).1.balanceCard
        = samplePage.balanceCard ∧
      (applyFilters host { samplePage with currentFilters := filters }).1.transactionCard
        = samplePage.transactionCard :=
  updateSummary_totals samplePage (by
    intro t ht
    simp only [samplePage, List.mem_cons, List.mem_singleton, List.not_mem_nil, or_false] at ht
    rcases ht with rfl | rfl <;> exact ⟨9 / 2, rfl⟩)

/-- The figures of the sample page: no income, expenses of 9, balance -9, two
transactions. -/
theorem updateSummary_sample :
    (updateSummary samplePage).incomeCard = Slot.shows (jsn 0) ∧
    (updateSummary samplePage).expenseCard = Slot.shows (jsn 9) ∧
    (updateSummary samplePage).balanceCard = Slot.shows (jsn (-9)) ∧
    (updateSummary samplePage).transactionCard = Slot.shows 2 := by
  decide!

/-! ## Loading the transactions -/

theorem incomeTransactions_spec (host : Host) (index : ℕ) (incomeData : List ApiRecord) :
    List.Forall₂
      (fun r t => t.type = "income".toList ∧ t.amount = r.amount.parseFloat ∧
        t.date = DateInput.date
          (parseTransactionDate host (DateInput.prim (r.occurredAt.or r.createdAt))))
      incomeData (incomeTransactions host index incomeData) := by
  induction incomeData generalizing index with
  | nil => exact List.Forall₂.nil
  | cons r rs ih =>
    unfold incomeTransactions
    exact List.Forall₂.cons ⟨rfl, rfl, rfl⟩ (ih (index + 1))

theorem getCategoryIcon_isSome (v : JSVal) (d : Str) (h : v.isTextOrFalsy = true) :
    ∃ icon, getCategoryIcon (v.or (JSVal.str d)) = some icon := by
  have hor : (v.or (JSVal.str d)).isTextOrFalsy = true := by
    unfold JSVal.or
    split_ifs
    · exact h
    · rfl
  unfold getCategoryIcon
  rw [lowerOrEmpty_of_isTextOrFalsy _ hor]
  exact ⟨_, rfl⟩

theorem expenseTransaction_spec (host : Host) (index : ℕ) (r : ApiRecord)
    (hcat : r.categoryName.isTextOrFalsy = true) :
    ∃ t, expenseTransaction host r index = some t ∧
      t.type = "expense".toList ∧ t.amount = r.amount.parseFloat ∧
      t.date = DateInput.date
        (parseTransactionDate host (DateInput.prim (r.occurredAt.or r.createdAt))) := by
  obtain ⟨icon, hicon⟩ := getCategoryIcon_isSome r.categoryName "Uncategorized".toList hcat
  unfold expenseTransaction
  simp only [hicon]
  exact ⟨_, rfl, rfl, rfl, rfl⟩

theorem expenseTransactions_spec (host : Host) (index : ℕ) (expenseData : List ApiRecord)
    (hcat : ∀ r ∈ expenseData, r.categoryName.isTextOrFalsy = true) :
    ∃ expenses, expenseTransactions host index expenseData = some expenses ∧
      List.Forall₂
        (fun r t => t.type = "expense".toList ∧ t.amount = r.amount.parseFloat ∧
          t.date = DateInput.date
            (parseTransactionDate host (DateInput.prim (r.occurredAt.or r.createdAt))))
        expenseData expenses := by
  induction expenseData generalizing index with
  | nil => exact ⟨[], rfl, List.Forall₂.nil⟩
  | cons r rs ih =>
    obtain ⟨t, ht, hspec⟩ := expenseTransaction_spec host index r (hcat r (List.mem_cons_self _ _))
    obtain ⟨es, hes, hrel⟩ := ih (index + 1) (fun x hx => hcat x (List.mem_cons_of_mem _ hx))
    refine ⟨t :: es, ?_, List.Forall₂.cons hspec hrel⟩
    unfold expenseTransactions
    simp only [ht, hes]

theorem loadTransactions_vars (host : Host) (env : LoadEnv) (page : TransactionsPage)
    (merged : List Transaction) (h : mergedTransactions host env = some merged) :
    (loadTransactions host env page).transactions = jsSort compareByDate merged ∧
    (loadTransactions host env page).filteredTransactions = jsSort compareByDate merged := by
  unfold loadTransactions
  rw [h]
  simp only []
  have hr := renderTransactions_vars host
    { page with transactions := jsSort compareByDate merged,
                filteredTransactions := jsSort compareByDate merged }
  split_ifs
  · exact ⟨hr.1, hr.2.1⟩
  · exact ⟨hr.1, hr.2.1⟩

theorem forall₂_mem_right {α β : Type} (R : α → β → Prop) (l₁ : List α) (l₂ : List β)
    (h : List.Forall₂ R l₁ l₂) (b : β) (hb : b ∈ l₂) : ∃ a ∈ l₁, R a b := by
  induction h with
  | nil => exact absurd hb (List.not_mem_nil _)
  | cons hr _ ih =>
    rcases List.mem_cons.mp hb with e | hb'
    · subst e
      exact ⟨_, List.mem_cons_self _ _, hr⟩
    · obtain ⟨a, ha, hab⟩ := ih hb'
      exact ⟨a, List.mem_cons_of_mem _ ha, hab⟩

theorem compareByDate_of_times (a b : Transaction) (ta tb : ℤ)
    (ha : transactionTime a = some ta) (hb : transactionTime b = some tb) :
    ((compareByDate a b).gt (jsn 0) = true ↔ ta < tb) := by
  unfold transactionTime at ha hb
  unfold compareByDate
  cases hda : a.date with
  | prim v => rw [hda] at ha; exact Option.noConfusion ha
  | date da =>
    cases hdb : b.date with
    | prim v => rw [hdb] at hb; exact Option.noConfusion hb
    | date db =>
      rw [hda] at ha
      rw [hdb] at hb
      simp only at ha hb
      subst ha
      subst hb
      simp only [DateInput.toNumber, JSNum.sub, JSNum.add, JSNum.neg, JSNum.gt, JSNum.lt, jsn,
        decide_eq_true_eq]
      constructor
      · intro h
        have : (0 : ℚ) < ((tb - ta : ℤ) : ℚ) := by push_cast; linarith
        have h2 : (0 : ℤ) < tb - ta := by exact_mod_cast this
        omega
      · intro h
        have h2 : (0 : ℤ) < tb - ta := by omega
        have : (0 : ℚ) < ((tb - ta : ℤ) : ℚ) := by exact_mod_cast h2
        push_cast at this
        linarith

/-- C20: after a load in which the session token is present, both requests are
answered with a 2xx status and an array, the category names of the expenses
are strings or missing and every record's date parses to a valid date, the
transaction list is a rearrangement of the income records followed by the
expense records (each converted once, with type `income` or `expense`, its
parsed amount and its parsed date), has as many entries as there are records,
is ordered by time value, newest first, and the filtered list is equal to it. -/
theorem loadTransactions_success (host : Host) (env : LoadEnv) (page : TransactionsPage)
    (incomeData expenseData : List ApiRecord)
    (htoken : env.sessionToken.truthy = true)
    (hincome : env.income = FetchReply.response true (some incomeData))
    (hexpenses : env.expenses = FetchReply.response true (some expenseData))
    (hcat : ∀ r ∈ expenseData, r.categoryName.isTextOrFalsy = true)
    (hdates : ∀ r ∈ incomeData ++ expenseData,
      (parseTransactionDate host (DateInput.prim (r.occurredAt.or r.createdAt))).isSome = true) :
    ∃ incomes expenses : List Transaction,
      List.Forall₂
        (fun r t => t.type = "income".toList ∧ t.amount = r.amount.parseFloat ∧
          t.date = DateInput.date
            (parseTransactionDate host (DateInput.prim (r.occurredAt.or r.createdAt))))
        incomeData incomes ∧
      List.Forall₂
        (fun r t => t.type = "expense".toList ∧ t.amount = r.amount.parseFloat ∧
          t.date = DateInput.date
            (parseTransactionDate host (DateInput.prim (r.occurredAt.or r.createdAt))))
        expenseData expenses ∧
      (loadTransactions host env page).transactions.Perm (incomes ++ expenses) ∧
      (loadTransactions host env page).transactions.length
        = incomeData.length + expenseData.length ∧
      (loadTransactions host env page).transactions.Pairwise
        (fun a b => ∃ ta tb : ℤ,
          transactionTime a = some ta ∧ transactionTime b = some tb ∧ tb ≤ ta) ∧
      (loadTransactions host env page).filteredTransactions
        = (loadTransactions host env page).transactions := by
  have hin := incomeTransactions_spec host 0 incomeData
  obtain ⟨es, hes, hex⟩ := expenseTransactions_spec host 0 expenseData hcat
  have hmerged : mergedTransactions host env = some (incomeTransactions host 0 incomeData ++ es) := by
    unfold mergedTransactions
    simp only [htoken, hincome, hexpenses, hes, Bool.not_true, Bool.or_self, Bool.false_eq_true,
      if_false]
  obtain ⟨ht, hf⟩ := loadTransactions_vars host env page _ hmerged
  have hperm := jsSort_perm compareByDate (incomeTransactions host 0 incomeData ++ es)
  have hvalid : ∀ t ∈ incomeTransactions host 0 incomeData ++ es,
      ∃ tt : ℤ, transactionTime t = some tt := by
    intro t htm
    rcases List.mem_append.mp htm with h | h
    · obtain ⟨r, hr, -, -, hd⟩ := forall₂_mem_right _ _ _ hin t h
      have := hdates r (List.mem_append_left _ hr)
      obtain ⟨tt, htt⟩ := Option.isSome_iff_exists.mp this
      exact ⟨tt, by unfold transactionTime; rw [hd, htt]⟩
    · obtain ⟨r, hr, -, -, hd⟩ := forall₂_mem_right _ _ _ hex t h
      have := hdates r (List.mem_append_right _ hr)
      obtain ⟨tt, htt⟩ := Option.isSome_iff_exists.mp this
      exact ⟨tt, by unfold transactionTime; rw [hd, htt]⟩
  refine ⟨_, es, hin, hex, ?_, ?_, ?_, ?_⟩
  · rw [ht]
    exact hperm
  · rw [ht, hperm.length_eq, List.length_append, hin.length_eq, hex.length_eq]
  · rw [ht]
    have hs := jsSort_sorted compareByDate (fun t => (transactionTime t).getD 0)
      (incomeTransactions host 0 incomeData ++ es)
      (by
        intro a ha b hb
        obtain ⟨ta, hta⟩ := hvalid a ha
        obtain ⟨tb, htb⟩ := hvalid b hb
        simp only [hta, htb, Option.getD_some]
        exact compareByDate_of_times a b ta tb hta htb)
    refine hs.imp_of_mem ?_
    intro a b ha hb hab
    obtain ⟨ta, hta⟩ := hvalid a ((mem_jsSort _ _ _).mp ha)
    obtain ⟨tb, htb⟩ := hvalid b ((mem_jsSort _ _ _).mp hb)
    refine ⟨ta, tb, hta, htb, ?_⟩
    simpa [hta, htb] using hab
  · rw [ht, hf]

theorem loadTransactions_success_witness :
    ∃ incomes expenses : List Transaction,
      List.Forall₂
        (fun r t => t.type = "income".toList ∧ t.amount = r.amount.parseFloat ∧
          t.date = DateInput.date
            (parseTransactionDate sampleHost (DateInput.prim (r.occurredAt.or r.createdAt))))
        [sampleIncomeRecord] incomes ∧
      List.Forall₂
        (fun r t => t.type = "expense".toList ∧ t.amount = r.amount.parseFloat ∧
          t.date = DateInput.date
            (parseTransactionDate sampleHost (DateInput.prim (r.occurredAt.or r.createdAt))))
        [sampleExpenseRecord] expenses ∧
      (loadTransactions sampleHost sampleEnv samplePage).transactions.Perm
        (incomes ++ expenses) ∧
      (loadTransactions sampleHost sampleEnv samplePage).transactions.length = 1 + 1 ∧
      (loadTransactions sampleHost sampleEnv samplePage).transactions.Pairwise
        (fun a b => ∃ ta tb : ℤ,
          transactionTime a = some ta ∧ transactionTime b = some tb ∧ tb ≤ ta) ∧
      (loadTransactions sampleHost sampleEnv samplePage).filteredTransactions
        = (loadTransactions sampleHost sampleEnv samplePage).transactions :=
  loadTransactions_success sampleHost sampleEnv samplePage _ _ rfl rfl rfl
    (by decide) (by decide!)

/-- The list of the worked example: the expense of 15 June before the income
of 14 June. -/
theorem loadTransactions_sample :
    (loadTransactions sampleHost sampleEnv samplePage).transactions.map
        (fun t => (t.id, t.type, t.amount, transactionTime t)) =
      [("expense-0-1718416800000".toList, "expense".toList, jsn (9 / 2), some 1718413200000),
       ("income-0-1718416800000".toList, "income".toList, jsn 100, some 1718359200000)] := by
  decide!

theorem mergedTransactions_none_of_failure (host : Host) (env : LoadEnv)
    (hfail : env.sessionToken.truthy = false ∨ env.income = FetchReply.networkError ∨
      env.expenses = FetchReply.networkError ∨ (∃ body, env.income = FetchReply.response false body) ∨
      (∃ body, env.expenses = FetchReply.response false body)) :
    mergedTransactions host env = none := by
  unfold mergedTransactions
  by_cases ht : env.sessionToken.truthy = true
  · simp only [ht, Bool.not_true, Bool.false_eq_true, if_false]
    rcases hfail with h | h | h | ⟨b, h⟩ | ⟨b, h⟩
    · rw [h] at ht
      exact absurd ht Bool.false_ne_true
    · rw [h]
    · rw [h]
      cases env.income <;> rfl
    · rw [h]
      cases env.expenses with
      | networkError => rfl
      | response ok body => simp
    · rw [h]
      cases env.income with
      | networkError => rfl
      | response ok body => simp
  · simp [ht]

/-- C13, the code against the claim: a reload in which the income request
fails replaces the two date groups the list showed by the error block. -/
theorem loadTransactions_failure_overwrites :
    (∃ g₁ g₂, (loadTransactions sampleHost sampleEnv samplePage).list =
      Slot.shows (ListContent.groups [g₁, g₂])) ∧
    (loadTransactions sampleHost
        ⟨JSVal.str "token".toList, FetchReply.networkError,
         FetchReply.response true (some [sampleExpenseRecord])⟩
        (loadTransactions sampleHost sampleEnv samplePage)).list =
      Slot.shows ListContent.loadError := by
  refine ⟨?_, by decide!⟩
  have h : ∃ gs, (loadTransactions sampleHost sampleEnv samplePage).list =
      Slot.shows (ListContent.groups gs) ∧ gs.length = 2 := by
    refine ⟨(renderGroups sampleHost (groupTransactionsByDate sampleHost
      (loadTransactions sampleHost sampleEnv samplePage).transactions)).1, by decide!, by decide!⟩
  obtain ⟨gs, hgs, hlen⟩ := h
  match gs, hlen with
  | [g₁, g₂], _ => exact ⟨g₁, g₂, hgs⟩

/-- C13, as the code has it: when the session token is missing, a request is
rejected or a response has a status outside 2xx, `loadTransactions` leaves the
transaction list, the filtered list, the filters, the count and the summary
cards as they were, and replaces the content of the list element (if the page
has one) by the error block with its Retry button. -/
theorem loadTransactions_failure (host : Host) (env : LoadEnv) (page : TransactionsPage)
    (hfail : env.sessionToken.truthy = false ∨ env.income = FetchReply.networkError ∨
      env.expenses = FetchReply.networkError ∨ (∃ body, env.income = FetchReply.response false body) ∨
      (∃ body, env.expenses = FetchReply.response false body)) :
    loadTransactions host env page =
      { page with list := page.list.write ListContent.loadError } := by
  unfold loadTransactions
  rw [mergedTransactions_none_of_failure host env hfail]
  rfl

theorem loadTransactions_failure_witness :
    loadTransactions sampleHost
        ⟨JSVal.null, FetchReply.response true (some [sampleIncomeRecord]),
         FetchReply.response true (some [sampleExpenseRecord])⟩ samplePage =
      { samplePage with list := samplePage.list.write ListContent.loadError } :=
  loadTransactions_failure sampleHost _ samplePage (Or.inl rfl)

/-! ## What the rendered list depends on -/

theorem Slot.write_eq_of_absent_iff {α : Type} (s t : Slot α) (a : α)
    (h : s = Slot.absent ↔ t = Slot.absent) : s.write a = t.write a := by
  cases s <;> cases t <;> simp [Slot.write] at h ⊢

theorem Slot.write_absent_iff {α : Type} (s : Slot α) (a : α) :
    s.write a = Slot.absent ↔ s = Slot.absent := by
  cases s <;> simp [Slot.write]

theorem renderTransactions_list (host : Host) (page : TransactionsPage) :
    (renderTransactions host page).1.list =
      page.list.write
        (if page.filteredTransactions.length = 0 then ListContent.noTransactions
         else ListContent.groups
          (renderGroups host (groupTransactionsByDate host page.filteredTransactions)).1) := by
  unfold renderTransactions
  cases hl : page.list <;> simp only [Slot.write] <;> (try split_ifs) <;> simp [hl]

theorem applyFilters_list (host : Host) (page : TransactionsPage) (visible : List Transaction)
    (h : filterTransactions host page.currentFilters page.transactions = some visible) :
    (applyFilters host page).1.list =
      page.list.write
        (if visible.length = 0 then ListContent.noTransactions
         else ListContent.groups (renderGroups host (groupTransactionsByDate host visible)).1) := by
  unfold applyFilters
  rw [h]
  simp only []
  have hr := renderTransactions_list host { page with filteredTransactions := visible }
  by_cases hc : (renderTransactions host { page with filteredTransactions := visible }).2 = true
  · rw [if_pos hc]
    exact hr
  · rw [if_neg hc]
    exact hr

/-- C12, the code against the claim: the same records and the same filters
give different output on two hosts that differ in nothing but the clock (the
second shows the following day): the headers differ, and with the range
`today` so does the visible list. -/
theorem applyFilters_depends_on_clock :
    (applyFilters sampleHost samplePage).1.list ≠
      (applyFilters ⟨36000000, 1718416800000 + 86400000, sampleDateParse⟩ samplePage).1.list ∧
    (applyFilters sampleHost
        { samplePage with currentFilters := ⟨[], [], [], "today".toList⟩ }).1.filteredTransactions
      ≠ (applyFilters ⟨36000000, 1718416800000 + 86400000, sampleDateParse⟩
        { samplePage with
          currentFilters := ⟨[], [], [], "today".toList⟩ }).1.filteredTransactions := by
  decide!

/-- C12, as the code has it: for transactions whose text fields are strings or
missing and whose dates are `Date` objects, what `applyFilters` leaves in the
list element and in the visible list is determined by the full list, the
filters and the host (its clock and time zone): two pages that agree on the
full list and the filters, and both have the list element or both lack it,
end with the same content, whatever they showed before; running `applyFilters`
a second time changes nothing. -/
theorem applyFilters_determined (host : Host) (p q : TransactionsPage)
    (htransactions : p.transactions = q.transactions)
    (hfilters : p.currentFilters = q.currentFilters)
    (hlist : p.list = Slot.absent ↔ q.list = Slot.absent)
    (htyped : ∀ t ∈ p.transactions, t.wellTyped = true) :
    (applyFilters host p).1.list = (applyFilters host q).1.list ∧
    (applyFilters host p).1.filteredTransactions = (applyFilters host q).1.filteredTransactions ∧
    (applyFilters host (applyFilters host p).1).1.list = (applyFilters host p).1.list ∧
    (applyFilters host (applyFilters host p).1).1.filteredTransactions
      = (applyFilters host p).1.filteredTransactions := by
  obtain ⟨visible, hp⟩ : ∃ v, filterTransactions host p.currentFilters p.transactions = some v :=
    ⟨_, filterTransactions_eq_filter host p.currentFilters _ p.transactions
      (fun t ht => matchesFilters_of_wellTyped host p.currentFilters t (htyped t ht))⟩
  have hq : filterTransactions host q.currentFilters q.transactions = some visible := by
    rw [← htransactions, ← hfilters]
    exact hp
  have hvp := applyFilters_vars host p visible hp
  have hvq := applyFilters_vars host q visible hq
  have hp2 : filterTransactions host (applyFilters host p).1.currentFilters
      (applyFilters host p).1.transactions = some visible := by
    rw [hvp.1, hvp.2.2]
    exact hp
  have hvp2 := applyFilters_vars host (applyFilters host p).1 visible hp2
  refine ⟨?_, ?_, ?_, ?_⟩
  · rw [applyFilters_list host p visible hp, applyFilters_list host q visible hq]
    exact Slot.write_eq_of_absent_iff _ _ _ hlist
  · rw [hvp.2.1, hvq.2.1]
  · rw [applyFilters_list host (applyFilters host p).1 visible hp2,
      applyFilters_list host p visible hp]
    exact Slot.write_eq_of_absent_iff _ _ _ (Slot.write_absent_iff _ _)
  · rw [hvp2.2.1, hvp.2.1]

theorem applyFilters_determined_witness :
    (applyFilters sampleHost samplePage).1.list =
      (applyFilters sampleHost (loadTransactions sampleHost
        ⟨JSVal.null, FetchReply.networkError, FetchReply.networkError⟩ samplePage)).1.list ∧
    (applyFilters sampleHost samplePage).1.filteredTransactions =
      (applyFilters sampleHost (loadTransactions sampleHost
        ⟨JSVal.null, FetchReply.networkError, FetchReply.networkError⟩
        samplePage)).1.filteredTransactions ∧
    (applyFilters sampleHost (applyFilters sampleHost samplePage).1).1.list
      = (applyFilters sampleHost samplePage).1.list ∧
    (applyFilters sampleHost (applyFilters sampleHost samplePage).1).1.filteredTransactions
      = (applyFilters sampleHost samplePage).1.filteredTransactions :=
  applyFilters_determined sampleHost samplePage _ rfl rfl (by decide) (by
    intro t ht
    simp only [samplePage, List.mem_cons, List.mem_singleton, List.not_mem_nil, or_false] at ht
    rcases ht with rfl | rfl <;> rfl)

/-! ## The category dialogs -/

theorem knownUserId_mono (log extra : List CategoryCall) (id : JSVal)
    (h : knownUserId log id) : knownUserId (extra ++ log) id := by
  obtain ⟨cats, hc, hu⟩ := h
  exact ⟨cats, List.mem_append_right _ hc, hu⟩

theorem knownUserId_cons (log : List CategoryCall) (c : CategoryCall) (id : JSVal)
    (h : knownUserId log id) : knownUserId (c :: log) id :=
  knownUserId_mono log [c] id h

theorem userCategoryId_of_mem_map (data : List Category) (id : JSVal)
    (h : id ∈ (userCategories data).map (fun c => c.id)) : userCategoryId data id := by
  obtain ⟨c, hc, hid⟩ := List.mem_map.mp h
  unfold userCategories at hc
  obtain ⟨hmem, hsys⟩ := List.mem_filter.mp hc
  exact ⟨c, hmem, hid, by simpa using hsys⟩

theorem knownUserId_of_button (data : List Category) (log : List CategoryCall) (id : JSVal)
    (hdata : data = [] ∨ CategoryCall.loaded data ∈ log)
    (h : userCategoryId data id) : knownUserId log id := by
  rcases hdata with h0 | hl
  · obtain ⟨c, hc, -⟩ := h
    rw [h0] at hc
    exact absurd hc (List.not_mem_nil _)
  · exact ⟨_, hl, h⟩

theorem mem_of_get?_eq_some {α : Type} (l : List α) (i : ℕ) (a : α) (h : l.get? i = some a) :
    a ∈ l := List.get?_mem h

theorem mem_of_mem_eraseIdx {α : Type} (l : List α) (i : ℕ) (a : α)
    (h : a ∈ l.eraseIdx i) : a ∈ l := (List.eraseIdx_sublist l i).subset h

/-- A change of the dialogs that keeps the containers, the list, the buttons
and what is selected within the ids known so far keeps the invariant. -/
theorem DialogInvariant.of_dialogs (r : DialogRun) (s : CategoryDialogs)
    (h : DialogInvariant r)
    (hdb : ∀ id ∈ s.deleteButtons, userCategoryId s.manageCategoriesData id)
    (hmb : ∀ id ∈ s.mergeButtons, userCategoryId s.manageCategoriesData id)
    (hnl : s.hasUserList = false ∨ s.hasSystemList = false → s.deleteButtons = [])
    (hnm : s.hasMergeControls = false → s.mergeButtons = [])
    (hdata : s.manageCategoriesData = [] ∨ CategoryCall.loaded s.manageCategoriesData ∈ r.log)
    (hdel : s.deleteCategoryId ≠ JSVal.null → knownUserId r.log s.deleteCategoryId)
    (hsrc : ∀ id ∈ s.mergeSourceCategoryIds, knownUserId r.log id)
    (htgt : s.mergeTargetCategoryId ≠ JSVal.null → knownUserId r.log s.mergeTargetCategoryId) :
    DialogInvariant { r with dialogs := s } :=
  { deleteButtons := hdb
    mergeButtons := hmb
    noLists := hnl
    noMergeControls := hnm
    data := hdata
    deleteId := hdel
    sources := hsrc
    target := htgt
    copied := h.copied
    calls := h.calls }

theorem prepareMergeModalContent_invariant (r : DialogRun) (h : DialogInvariant r) :
    DialogInvariant { r with dialogs := prepareMergeModalContent r.dialogs } := by
  unfold prepareMergeModalContent
  by_cases hm : (!r.dialogs.hasMergeControls) = true
  · rw [if_pos hm]
    exact h
  · rw [if_neg hm]
    exact DialogInvariant.of_dialogs r _ h h.deleteButtons
      (fun id hid => userCategoryId_of_mem_map _ _ hid) h.noLists
      (fun hf => absurd (show (!r.dialogs.hasMergeControls) = true by
          rw [show r.dialogs.hasMergeControls = false from hf]; rfl) hm)
      h.data h.deleteId (fun _ hid => absurd hid (List.not_mem_nil _))
      (fun ht => absurd rfl ht)

theorem refreshStart_invariant (r : DialogRun) (h : DialogInvariant r) :
    DialogInvariant { r with dialogs := refreshStart r.dialogs } := by
  unfold refreshStart
  by_cases hu : r.dialogs.hasUserList = true
  · rw [if_pos hu]
    exact DialogInvariant.of_dialogs r _ h (fun _ hid => absurd hid (List.not_mem_nil _))
      h.mergeButtons (fun _ => rfl) h.noMergeControls h.data h.deleteId h.sources h.target
  · rw [if_neg hu]
    exact h

theorem refreshLoaded_fields (s : CategoryDialogs) (categories : List Category) :
    (refreshLoaded s categories).hasUserList = s.hasUserList ∧
    (refreshLoaded s categories).hasSystemList = s.hasSystemList ∧
    (refreshLoaded s categories).hasMergeControls = s.hasMergeControls ∧
    (refreshLoaded s categories).manageCategoriesData = categories ∧
    (refreshLoaded s categories).deleteCategoryId = s.deleteCategoryId ∧
    (refreshLoaded s categories).deleteButtons =
      (if s.hasUserList = true ∧ s.hasSystemList = true then
        (userCategories categories).map (fun c => c.id)
       else s.deleteButtons) ∧
    (refreshLoaded s categories).mergeButtons =
      (if s.hasMergeControls = true then (userCategories categories).map (fun c => c.id)
       else s.mergeButtons) ∧
    (refreshLoaded s categories).mergeSourceCategoryIds =
      (if s.hasMergeControls = true then [] else s.mergeSourceCategoryIds) ∧
    (refreshLoaded s categories).mergeTargetCategoryId =
      (if s.hasMergeControls = true then JSVal.null else s.mergeTargetCategoryId) ∧
    (refreshLoaded s categories).confirmDisabled =
      (if s.hasMergeControls = true then true else s.confirmDisabled) := by
  unfold refreshLoaded renderManageCategoriesLists prepareMergeModalContent
  cases hu : s.hasUserList <;> cases hs : s.hasSystemList <;> cases hm : s.hasMergeControls <;>
    simp [hu, hs, hm]

theorem refreshLoaded_invariant (r : DialogRun) (categories : List Category)
    (h : DialogInvariant r) :
    DialogInvariant
      ⟨refreshLoaded r.dialogs categories, r.pending, CategoryCall.loaded categories :: r.log⟩ := by
  obtain ⟨f1, f1b, f2, f3, f4, f5, f6, f7, f8, -⟩ := refreshLoaded_fields r.dialogs categories
  refine
    { deleteButtons := ?_
      mergeButtons := ?_
      noLists := ?_
      noMergeControls := ?_
      data := ?_
      deleteId := ?_
      sources := ?_
      target := ?_
      copied := fun src hsrc id hid => knownUserId_cons _ _ _ (h.copied src hsrc id hid)
      calls := h.calls }
  · show ∀ id ∈ (refreshLoaded r.dialogs categories).deleteButtons,
      userCategoryId (refreshLoaded r.dialogs categories).manageCategoriesData id
    rw [f5, f3]
    intro id hid
    by_cases hu : r.dialogs.hasUserList = true ∧ r.dialogs.hasSystemList = true
    · rw [if_pos hu] at hid
      exact userCategoryId_of_mem_map _ _ hid
    · rw [if_neg hu] at hid
      have hno : r.dialogs.hasUserList = false ∨ r.dialogs.hasSystemList = false := by
        cases h1 : r.dialogs.hasUserList
        · exact Or.inl rfl
        · cases h2 : r.dialogs.hasSystemList
          · exact Or.inr rfl
          · exact absurd ⟨h1, h2⟩ hu
      rw [h.noLists hno] at hid
      exact absurd hid (List.not_mem_nil _)
  · show ∀ id ∈ (refreshLoaded r.dialogs categories).mergeButtons,
      userCategoryId (refreshLoaded r.dialogs categories).manageCategoriesData id
    rw [f6, f3]
    intro id hid
    by_cases hc : r.dialogs.hasMergeControls = true
    · rw [if_pos hc] at hid
      exact userCategoryId_of_mem_map _ _ hid
    · rw [if_neg hc, h.noMergeControls (by simpa using hc)] at hid
      exact absurd hid (List.not_mem_nil _)
  · show (refreshLoaded r.dialogs categories).hasUserList = false ∨
      (refreshLoaded r.dialogs categories).hasSystemList = false →
      (refreshLoaded r.dialogs categories).deleteButtons = []
    rw [f1, f1b, f5]
    intro hno
    have hn : ¬ (r.dialogs.hasUserList = true ∧ r.dialogs.hasSystemList = true) := by
      rintro ⟨h1, h2⟩
      rcases hno with h3 | h3
      · rw [h1] at h3
        exact Bool.noConfusion h3
      · rw [h2] at h3
        exact Bool.noConfusion h3
    rw [if_neg hn]
    exact h.noLists hno
  · show (refreshLoaded r.dialogs categories).hasMergeControls = false →
      (refreshLoaded r.dialogs categories).mergeButtons = []
    rw [f2, f6]
    intro hc
    rw [if_neg (by rw [hc]; exact Bool.false_ne_true)]
    exact h.noMergeControls hc
  · show (refreshLoaded r.dialogs categories).manageCategoriesData = [] ∨
      CategoryCall.loaded (refreshLoaded r.dialogs categories).manageCategoriesData ∈
        CategoryCall.loaded categories :: r.log
    rw [f3]
    exact Or.inr (List.mem_cons_self _ _)
  · show (refreshLoaded r.dialogs categories).deleteCategoryId ≠ JSVal.null →
      knownUserId (CategoryCall.loaded categories :: r.log)
        (refreshLoaded r.dialogs categories).deleteCategoryId
    rw [f4]
    exact fun hn => knownUserId_cons _ _ _ (h.deleteId hn)
  · show ∀ id ∈ (refreshLoaded r.dialogs categories).mergeSourceCategoryIds,
      knownUserId (CategoryCall.loaded categories :: r.log) id
    rw [f7]
    intro id hid
    by_cases hc : r.dialogs.hasMergeControls = true
    · rw [if_pos hc] at hid
      exact absurd hid (List.not_mem_nil _)
    · rw [if_neg hc] at hid
      exact knownUserId_cons _ _ _ (h.sources id hid)
  · show (refreshLoaded r.dialogs categories).mergeTargetCategoryId ≠ JSVal.null →
      knownUserId (CategoryCall.loaded categories :: r.log)
        (refreshLoaded r.dialogs categories).mergeTargetCategoryId
    rw [f8]
    intro ht
    by_cases hc : r.dialogs.hasMergeControls = true
    · rw [if_pos hc] at ht
      exact absurd rfl ht
    · rw [if_neg hc] at ht ⊢
      exact knownUserId_cons _ _ _ (h.target ht)

theorem sourceClick_invariant (r : DialogRun) (id : JSVal)
    (h : DialogInvariant r) (hid : id ∈ r.dialogs.mergeButtons) :
    DialogInvariant { r with dialogs := sourceClick r.dialogs id } := by
  have hk : knownUserId r.log id := knownUserId_of_button _ _ _ h.data (h.mergeButtons id hid)
  unfold sourceClick updateMergeConfirmButton
  refine DialogInvariant.of_dialogs r _ h h.deleteButtons h.mergeButtons h.noLists
    h.noMergeControls h.data h.deleteId ?_ ?_
  · intro x hx
    simp only at hx
    by_cases hmem : id ∈ r.dialogs.mergeSourceCategoryIds
    · rw [if_pos hmem] at hx
      exact h.sources x (List.mem_of_mem_filter hx)
    · rw [if_neg hmem] at hx
      rcases List.mem_append.mp hx with hx' | hx'
      · exact h.sources x hx'
      · rw [List.mem_singleton.mp hx']
        exact hk
  · intro ht
    simp only at ht ⊢
    split_ifs at ht ⊢ <;> first | exact absurd rfl ht | exact h.target ht

theorem targetClick_invariant (r : DialogRun) (id : JSVal)
    (h : DialogInvariant r) (hid : id ∈ r.dialogs.mergeButtons) :
    DialogInvariant { r with dialogs := targetClick r.dialogs id } := by
  have hk : knownUserId r.log id := knownUserId_of_button _ _ _ h.data (h.mergeButtons id hid)
  unfold targetClick updateMergeConfirmButton
  by_cases hmem : id ∈ r.dialogs.mergeSourceCategoryIds
  · rw [if_pos hmem]
    exact h
  · rw [if_neg hmem]
    exact DialogInvariant.of_dialogs r _ h h.deleteButtons h.mergeButtons h.noLists
      h.noMergeControls h.data h.deleteId h.sources (fun _ => hk)

theorem closeDeleteCategoryModal_invariant (r : DialogRun) (h : DialogInvariant r) :
    DialogInvariant { r with dialogs := closeDeleteCategoryModal r.dialogs } :=
  DialogInvariant.of_dialogs r _ h h.deleteButtons h.mergeButtons h.noLists h.noMergeControls
    h.data (fun hn => absurd rfl hn) h.sources h.target

theorem closeMergeCategoriesModal_invariant (r : DialogRun) (h : DialogInvariant r) :
    DialogInvariant { r with dialogs := closeMergeCategoriesModal r.dialogs } :=
  DialogInvariant.of_dialogs r _ h h.deleteButtons h.mergeButtons h.noLists h.noMergeControls
    h.data h.deleteId (fun _ hid => absurd hid (List.not_mem_nil _)) (fun ht => absurd rfl ht)

theorem openDeleteCategoryModal_invariant (r : DialogRun) (id : JSVal)
    (h : DialogInvariant r) (hid : id ∈ r.dialogs.deleteButtons) :
    DialogInvariant { r with dialogs := openDeleteCategoryModal r.dialogs id } :=
  DialogInvariant.of_dialogs r _ h h.deleteButtons h.mergeButtons h.noLists h.noMergeControls
    h.data (fun _ => knownUserId_of_button _ _ _ h.data (h.deleteButtons id hid)) h.sources
    h.target

/-- A change of the suspended handlers that copies no new sources keeps the
invariant. -/
theorem DialogInvariant.of_pending (r : DialogRun) (pending : List PendingDialog)
    (h : DialogInvariant r)
    (hp : ∀ sourceIds, PendingDialog.mergeBudgets sourceIds ∈ pending →
      ∀ id ∈ sourceIds, knownUserId r.log id) :
    DialogInvariant { r with pending := pending } :=
  { deleteButtons := h.deleteButtons
    mergeButtons := h.mergeButtons
    noLists := h.noLists
    noMergeControls := h.noMergeControls
    data := h.data
    deleteId := h.deleteId
    sources := h.sources
    target := h.target
    copied := hp
    calls := h.calls }

theorem copied_append_other (r : DialogRun) (h : DialogInvariant r) (l : List PendingDialog)
    (p : PendingDialog) (hsub : ∀ x ∈ l, x ∈ r.pending)
    (hp : ∀ sourceIds, p ≠ PendingDialog.mergeBudgets sourceIds) :
    ∀ sourceIds, PendingDialog.mergeBudgets sourceIds ∈ l ++ [p] →
      ∀ id ∈ sourceIds, knownUserId r.log id := by
  intro src hsrc
  rcases List.mem_append.mp hsrc with hm | hm
  · exact h.copied src (hsub _ hm)
  · rw [List.mem_singleton] at hm
    exact absurd hm.symm (hp src)

theorem confirmDeleteStart_invariant (r : DialogRun) (h : DialogInvariant r) :
    DialogInvariant (confirmDeleteStart r) := by
  unfold confirmDeleteStart
  split_ifs
  · exact h
  · exact DialogInvariant.of_pending r _ h
      (copied_append_other r h _ _ (fun _ hx => hx) (fun _ => PendingDialog.noConfusion))

theorem confirmMergeStart_invariant (r : DialogRun) (h : DialogInvariant r) :
    DialogInvariant (confirmMergeStart r) := by
  unfold confirmMergeStart
  split_ifs
  · exact h
  · refine DialogInvariant.of_pending r _ h ?_
    intro src hsrc
    rcases List.mem_append.mp hsrc with hm | hm
    · exact h.copied src hm
    · rw [List.mem_singleton] at hm
      injection hm with hm
      rw [hm]
      exact h.sources

theorem budgetsAnswered_invariant (r : DialogRun) (index : ℕ) (resolved userConfirmed : Bool)
    (h : DialogInvariant r) : DialogInvariant (budgetsAnswered r index resolved userConfirmed) := by
  unfold budgetsAnswered
  cases hg : r.pending.get? index with
  | none => exact h
  | some p =>
    have hmem : p ∈ r.pending := mem_of_get?_eq_some _ _ _ hg
    have hsub : ∀ x ∈ r.pending.eraseIdx index, x ∈ r.pending :=
      fun x hx => mem_of_mem_eraseIdx _ _ _ hx
    cases p with
    | deleteBudgets =>
      simp only
      split_ifs
      · refine
          { deleteButtons := h.deleteButtons
            mergeButtons := h.mergeButtons
            noLists := h.noLists
            noMergeControls := h.noMergeControls
            data := h.data.imp id (fun hl => List.mem_cons_of_mem _ hl)
            deleteId := fun hn => knownUserId_cons _ _ _ (h.deleteId hn)
            sources := fun x hx => knownUserId_cons _ _ _ (h.sources x hx)
            target := fun ht => knownUserId_cons _ _ _ (h.target ht)
            copied := ?_
            calls := ?_ }
        · intro src hsrc x hx
          exact knownUserId_cons _ _ _ (copied_append_other r h _ _ hsub
            (fun _ => PendingDialog.noConfusion) src hsrc x hx)
        · refine ⟨?_, h.calls⟩
          by_cases hn : r.dialogs.deleteCategoryId = JSVal.null
          · exact Or.inl hn
          · exact Or.inr (h.deleteId hn)
      · exact DialogInvariant.of_pending r _ h (fun src hsrc => h.copied src (hsub _ hsrc))
    | mergeBudgets sourceIds =>
      simp only
      split_ifs
      · refine
          { deleteButtons := h.deleteButtons
            mergeButtons := h.mergeButtons
            noLists := h.noLists
            noMergeControls := h.noMergeControls
            data := h.data.imp id (fun hl => List.mem_cons_of_mem _ hl)
            deleteId := fun hn => knownUserId_cons _ _ _ (h.deleteId hn)
            sources := fun x hx => knownUserId_cons _ _ _ (h.sources x hx)
            target := fun ht => knownUserId_cons _ _ _ (h.target ht)
            copied := ?_
            calls := ?_ }
        · intro src hsrc x hx
          exact knownUserId_cons _ _ _ (copied_append_other r h _ _ hsub
            (fun _ => PendingDialog.noConfusion) src hsrc x hx)
        · refine ⟨⟨?_, h.copied sourceIds hmem⟩, h.calls⟩
          by_cases hn : r.dialogs.mergeTargetCategoryId = JSVal.null
          · exact Or.inl hn
          · exact Or.inr (h.target hn)
      · exact DialogInvariant.of_pending r _ h (fun src hsrc => h.copied src (hsub _ hsrc))
    | deleteRequest => exact h
    | mergeRequest => exact h
    | refresh after => exact h

theorem requestAnswered_invariant (r : DialogRun) (index : ℕ) (resolved : Bool)
    (h : DialogInvariant r) : DialogInvariant (requestAnswered r index resolved) := by
  unfold requestAnswered
  cases hg : r.pending.get? index with
  | none => exact h
  | some p =>
    have hsub : ∀ x ∈ r.pending.eraseIdx index, x ∈ r.pending :=
      fun x hx => mem_of_mem_eraseIdx _ _ _ hx
    cases p with
    | deleteRequest =>
      simp only
      split_ifs
      · exact DialogInvariant.of_pending { r with dialogs := refreshStart r.dialogs } _
          (refreshStart_invariant r h)
          (copied_append_other r h _ _ hsub (fun _ => PendingDialog.noConfusion))
      · exact DialogInvariant.of_pending r _ h (fun src hsrc => h.copied src (hsub _ hsrc))
    | mergeRequest =>
      simp only
      split_ifs
      · exact DialogInvariant.of_pending { r with dialogs := refreshStart r.dialogs } _
          (refreshStart_invariant r h)
          (copied_append_other r h _ _ hsub (fun _ => PendingDialog.noConfusion))
      · exact DialogInvariant.of_pending r _ h (fun src hsrc => h.copied src (hsub _ hsrc))
    | deleteBudgets => exact h
    | mergeBudgets sourceIds => exact h
    | refresh after => exact h

theorem categoriesLoaded_invariant (r : DialogRun) (index : ℕ) (categories : List Category)
    (h : DialogInvariant r) : DialogInvariant (categoriesLoaded r index categories) := by
  unfold categoriesLoaded
  cases hg : r.pending.get? index with
  | none => exact h
  | some p =>
    have hsub : ∀ x ∈ r.pending.eraseIdx index, x ∈ r.pending :=
      fun x hx => mem_of_mem_eraseIdx _ _ _ hx
    cases p with
    | refresh after =>
      have h1 := refreshLoaded_invariant r categories h
      have h2 : DialogInvariant ⟨refreshLoaded r.dialogs categories, r.pending.eraseIdx index,
          CategoryCall.loaded categories :: r.log⟩ :=
        DialogInvariant.of_pending _ _ h1 (fun src hsrc => h1.copied src (hsub _ hsrc))
      cases after with
      | nothing => exact h2
      | closeDelete => exact closeDeleteCategoryModal_invariant _ h2
      | closeMerge => exact closeMergeCategoriesModal_invariant _ h2
    | deleteBudgets => exact h
    | mergeBudgets sourceIds => exact h
    | deleteRequest => exact h
    | mergeRequest => exact h

theorem dialogStep_invariant (r : DialogRun) (e : DialogEvent) (h : DialogInvariant r) :
    DialogInvariant (dialogStep r e) := by
  cases e with
  | refreshStarted =>
    exact DialogInvariant.of_pending { r with dialogs := refreshStart r.dialogs } _
      (refreshStart_invariant r h)
      (copied_append_other r h _ _ (fun _ hx => hx) (fun _ => PendingDialog.noConfusion))
  | deleteClicked index =>
    simp only [dialogStep]
    cases hg : r.dialogs.deleteButtons.get? index with
    | none => exact h
    | some id => exact openDeleteCategoryModal_invariant r id h (mem_of_get?_eq_some _ _ _ hg)
  | deleteClosed => exact closeDeleteCategoryModal_invariant r h
  | deleteConfirmClicked => exact confirmDeleteStart_invariant r h
  | mergeOpened => exact prepareMergeModalContent_invariant r h
  | mergeClosed => exact closeMergeCategoriesModal_invariant r h
  | sourceClicked index =>
    simp only [dialogStep]
    cases hg : r.dialogs.mergeButtons.get? index with
    | none => exact h
    | some id => exact sourceClick_invariant r id h (mem_of_get?_eq_some _ _ _ hg)
  | targetClicked index =>
    simp only [dialogStep]
    cases hg : r.dialogs.mergeButtons.get? index with
    | none => exact h
    | some id => exact targetClick_invariant r id h (mem_of_get?_eq_some _ _ _ hg)
  | mergeConfirmClicked => exact confirmMergeStart_invariant r h
  | budgetsAnswered index resolved userConfirmed =>
    exact budgetsAnswered_invariant r index resolved userConfirmed h
  | requestAnswered index resolved => exact requestAnswered_invariant r index resolved h
  | categoriesLoaded index categories => exact categoriesLoaded_invariant r index categories h

theorem runDialogs_invariant (r : DialogRun) (events : List DialogEvent)
    (h : DialogInvariant r) : DialogInvariant (runDialogs r events) := by
  induction events generalizing r with
  | nil => exact h
  | cons e rest ih =>
    unfold runDialogs
    rw [List.foldl_cons]
    exact ih _ (dialogStep_invariant r e h)

theorem initialRun_invariant (u sy m cd : Bool) : DialogInvariant (initialRun u sy m cd) :=
  { deleteButtons := fun _ hid => absurd hid (List.not_mem_nil _)
    mergeButtons := fun _ hid => absurd hid (List.not_mem_nil _)
    noLists := fun _ => rfl
    noMergeControls := fun _ => rfl
    data := Or.inl rfl
    deleteId := fun hn => absurd rfl hn
    sources := fun _ hid => absurd hid (List.not_mem_nil _)
    target := fun ht => absurd rfl ht
    copied := fun _ hsrc => absurd hsrc (List.not_mem_nil _)
    calls := trivial }

/-- What the dialogs do guarantee.  After every sequence of events (clicks
on the rendered buttons, dialogs opened and closed, confirmations started,
requests settled in any order, on a page with or without the containers) the
Rename/Delete buttons and the merge source/target buttons hold only ids of
non-system categories of the current list, and every value sent with
`deleteCategory` or with `mergeCategories` is `null` or the id of a non-system
category of a list received before that request: no system category is ever
named. -/
theorem dialogs_name_no_system_category (hasUserList hasSystemList hasMergeControls
    confirmDisabled : Bool) (events : List DialogEvent) :
    (∀ id ∈ (runDialogs (initialRun hasUserList hasSystemList hasMergeControls
          confirmDisabled) events).dialogs.deleteButtons ++
        (runDialogs (initialRun hasUserList hasSystemList hasMergeControls
          confirmDisabled) events).dialogs.mergeButtons,
      userCategoryId (runDialogs (initialRun hasUserList hasSystemList hasMergeControls
          confirmDisabled) events).dialogs.manageCategoriesData id) ∧
    callsNameNoSystem (runDialogs (initialRun hasUserList hasSystemList hasMergeControls
      confirmDisabled) events).log := by
  have h := runDialogs_invariant
    (initialRun hasUserList hasSystemList hasMergeControls confirmDisabled) events
    (initialRun_invariant _ _ _ _)
  refine ⟨?_, h.calls⟩
  intro id hid
  rcases List.mem_append.mp hid with hd | hm
  · exact h.deleteButtons id hd
  · exact h.mergeButtons id hm

/-- C18.  The confirm handler of the delete dialog reads `deleteCategoryId`
again after it has awaited the budget request.  With the sample list loaded,
the user clicks Delete on the category 2 and confirms, closes the dialog
while the budget request is pending, and answers the confirmation prompt with
OK: the request `deleteCategory(null)` is sent, and `null` is the id of no
category.  When the dialog is not closed in between, the id 2 is sent. -/
theorem delete_sends_null_after_close :
    (runDialogs (initialRun true true true true)
        [DialogEvent.refreshStarted,
         DialogEvent.categoriesLoaded 0 sampleCategories,
         DialogEvent.deleteClicked 0,
         DialogEvent.deleteConfirmClicked,
         DialogEvent.deleteClosed,
         DialogEvent.budgetsAnswered 0 true true]).log =
      [CategoryCall.deleteCategory JSVal.null, CategoryCall.loaded sampleCategories] ∧
    ¬ callsSpareSystem
      [CategoryCall.deleteCategory JSVal.null, CategoryCall.loaded sampleCategories] ∧
    (runDialogs (initialRun true true true true)
        [DialogEvent.refreshStarted,
         DialogEvent.categoriesLoaded 0 sampleCategories,
         DialogEvent.deleteClicked 0,
         DialogEvent.deleteConfirmClicked,
         DialogEvent.budgetsAnswered 0 true true]).log =
      [CategoryCall.deleteCategory (JSVal.num (jsn 2)), CategoryCall.loaded sampleCategories] ∧
    (runDialogs (initialRun true true true true)
        [DialogEvent.refreshStarted,
         DialogEvent.categoriesLoaded 0 sampleCategories]).dialogs.deleteButtons =
      [JSVal.num (jsn 2), JSVal.num (jsn 3), JSVal.num (jsn 4)] := by
  refine ⟨by decide!, ?_, by decide!, by decide!⟩
  rintro ⟨⟨cats, hc, hu⟩, -⟩
  simp only [List.mem_singleton, CategoryCall.loaded.injEq] at hc
  subst hc
  exact absurd hu (by unfold userCategoryId; decide!)

/-! ## `escapeHtml` -/

theorem replaceAllChar_append (c : Char) (r a b : Str) :
    replaceAllChar c r (a ++ b) = replaceAllChar c r a ++ replaceAllChar c r b := by
  induction a with
  | nil => rfl
  | cons x xs ih =>
    rw [List.cons_append, replaceAllChar, replaceAllChar, ih]
    by_cases h : x = c
    · rw [if_pos h, if_pos h, List.append_assoc]
    · rw [if_neg h, if_neg h, List.cons_append]

theorem escapeString_cons (c : Char) (cs : Str) :
    escapeString (c :: cs) = escapeChar c ++ escapeString cs := by
  have h1 : ∀ x : Char, ∀ r : Str, x ≠ c → replaceAllChar x r [c] = [c] := by
    intro x r hx
    simp only [replaceAllChar]
    rw [if_neg (fun h => hx h.symm)]
  have hsplit : c :: cs = [c] ++ cs := rfl
  unfold escapeString escapeChar
  rw [hsplit]
  simp only [replaceAllChar_append]
  congr 1
  by_cases ha : c = '&'
  · subst ha
    rfl
  · by_cases hl : c = '<'
    · subst hl
      rfl
    · by_cases hg : c = '>'
      · subst hg
        rfl
      · by_cases hq : c = doubleQuote
        · subst hq
          rfl
        · by_cases hs : c = singleQuote
          · subst hs
            rfl
          · rw [if_neg ha, if_neg hl, if_neg hg, if_neg hq, if_neg hs,
              h1 _ _ (Ne.symm ha), h1 _ _ (Ne.symm hl), h1 _ _ (Ne.symm hg),
              h1 _ _ (Ne.symm hq), h1 _ _ (Ne.symm hs)]

/-- The six shapes of `escapeChar`. -/
theorem escapeChar_cases (c : Char) :
    (c = '&' ∧ escapeChar c = "&amp;".toList) ∨ (c = '<' ∧ escapeChar c = "&lt;".toList) ∨
    (c = '>' ∧ escapeChar c = "&gt;".toList) ∨
    (c = doubleQuote ∧ escapeChar c = "&quot;".toList) ∨
    (c = singleQuote ∧ escapeChar c = "&#39;".toList) ∨
    ((c ≠ '&' ∧ c ≠ '<' ∧ c ≠ '>' ∧ c ≠ doubleQuote ∧ c ≠ singleQuote) ∧ escapeChar c = [c]) := by
  unfold escapeChar
  by_cases ha : c = '&'
  · exact Or.inl ⟨ha, by rw [if_pos ha]⟩
  · by_cases hl : c = '<'
    · exact Or.inr (Or.inl ⟨hl, by rw [if_neg ha, if_pos hl]⟩)
    · by_cases hg : c = '>'
      · exact Or.inr (Or.inr (Or.inl ⟨hg, by rw [if_neg ha, if_neg hl, if_pos hg]⟩))
      · by_cases hq : c = doubleQuote
        · exact Or.inr (Or.inr (Or.inr (Or.inl
            ⟨hq, by rw [if_neg ha, if_neg hl, if_neg hg, if_pos hq]⟩)))
        · by_cases hs : c = singleQuote
          · exact Or.inr (Or.inr (Or.inr (Or.inr (Or.inl
              ⟨hs, by rw [if_neg ha, if_neg hl, if_neg hg, if_neg hq, if_pos hs]⟩))))
          · exact Or.inr (Or.inr (Or.inr (Or.inr (Or.inr
              ⟨⟨ha, hl, hg, hq, hs⟩,
                by rw [if_neg ha, if_neg hl, if_neg hg, if_neg hq, if_neg hs]⟩))))

theorem decodeFrom_escapeChar (c : Char) (rest : Str) :
    decodeFrom 0 (escapeChar c ++ rest) = c :: decodeFrom 0 rest := by
  rcases escapeChar_cases c with ⟨hc, he⟩ | ⟨hc, he⟩ | ⟨hc, he⟩ | ⟨hc, he⟩ | ⟨hc, he⟩ | ⟨hc, he⟩
  · subst hc
    rw [he]
    show decodeFrom 0 ('&' :: 'a' :: 'm' :: 'p' :: ';' :: rest) = _
    simp [decodeFrom, List.isPrefixOf]
  · subst hc
    rw [he]
    show decodeFrom 0 ('&' :: 'l' :: 't' :: ';' :: rest) = _
    simp [decodeFrom, List.isPrefixOf]
  · subst hc
    rw [he]
    show decodeFrom 0 ('&' :: 'g' :: 't' :: ';' :: rest) = _
    simp [decodeFrom, List.isPrefixOf]
  · subst hc
    rw [he]
    show decodeFrom 0 ('&' :: 'q' :: 'u' :: 'o' :: 't' :: ';' :: rest) = _
    simp [decodeFrom, List.isPrefixOf]
  · subst hc
    rw [he]
    show decodeFrom 0 ('&' :: '#' :: '3' :: '9' :: ';' :: rest) = _
    simp [decodeFrom, List.isPrefixOf]
  · rw [he, List.singleton_append, decodeFrom, if_neg hc.1]

theorem split_after_clean (x : Char) (tail rest pre post : Str) (hx : x ∉ tail)
    (h : tail ++ rest = pre ++ x :: post) :
    ∃ pre2, pre = tail ++ pre2 ∧ rest = pre2 ++ x :: post := by
  induction tail generalizing pre with
  | nil => exact ⟨pre, rfl, h⟩
  | cons t ts ih =>
    cases pre with
    | nil =>
      simp only [List.cons_append, List.nil_append, List.cons.injEq] at h
      exact absurd (h.1 ▸ List.mem_cons_self _ _) hx
    | cons p ps =>
      simp only [List.cons_append, List.cons.injEq] at h
      obtain ⟨pre2, h1, h2⟩ := ih ps (fun hm => hx (List.mem_cons_of_mem _ hm)) h.2
      exact ⟨pre2, by rw [h.1, h1, List.cons_append], h2⟩

theorem escapeChar_clean (c : Char) :
    ∀ x ∈ escapeChar c, x ≠ '<' ∧ x ≠ '>' ∧ x ≠ doubleQuote ∧ x ≠ singleQuote := by
  rcases escapeChar_cases c with ⟨_, he⟩ | ⟨_, he⟩ | ⟨_, he⟩ | ⟨_, he⟩ | ⟨_, he⟩ | ⟨hc, he⟩
  · rw [he]; decide
  · rw [he]; decide
  · rw [he]; decide
  · rw [he]; decide
  · rw [he]; decide
  · rw [he]
    intro x hxm
    rw [List.mem_singleton.mp hxm]
    exact hc.2

theorem escapeChar_split (c : Char) (rest pre post : Str)
    (h : escapeChar c ++ rest = pre ++ '&' :: post) :
    (pre = [] ∧ ∃ e ∈ htmlEntities, e.1 = escapeChar c) ∨
    ∃ pre2, pre = escapeChar c ++ pre2 ∧ rest = pre2 ++ '&' :: post := by
  have hentity : ∀ tail : Str, escapeChar c = '&' :: tail → '&' ∉ tail →
      (∃ e ∈ htmlEntities, e.1 = escapeChar c) →
      ((pre = [] ∧ ∃ e ∈ htmlEntities, e.1 = escapeChar c) ∨
        ∃ pre2, pre = escapeChar c ++ pre2 ∧ rest = pre2 ++ '&' :: post) := by
    intro tail he htail hmem
    rw [he] at h ⊢
    cases pre with
    | nil => exact Or.inl ⟨rfl, by rw [← he]; exact hmem⟩
    | cons p ps =>
      simp only [List.cons_append, List.cons.injEq] at h
      obtain ⟨pre2, h1, h2⟩ := split_after_clean '&' tail rest ps post htail h.2
      exact Or.inr ⟨pre2, by rw [← h.1, h1, List.cons_append], h2⟩
  rcases escapeChar_cases c with ⟨_, he⟩ | ⟨_, he⟩ | ⟨_, he⟩ | ⟨_, he⟩ | ⟨_, he⟩ | ⟨hc, he⟩
  · exact hentity "amp;".toList he (by decide) ⟨("&amp;".toList, '&'), by decide, he.symm⟩
  · exact hentity "lt;".toList he (by decide) ⟨("&lt;".toList, '<'), by decide, he.symm⟩
  · exact hentity "gt;".toList he (by decide) ⟨("&gt;".toList, '>'), by decide, he.symm⟩
  · exact hentity "quot;".toList he (by decide)
      ⟨("&quot;".toList, doubleQuote), by decide, he.symm⟩
  · exact hentity "#39;".toList he (by decide)
      ⟨("&#39;".toList, singleQuote), by decide, he.symm⟩
  · right
    rw [he] at h ⊢
    exact split_after_clean '&' [c] rest pre post
      (fun hm => hc.1 (List.mem_singleton.mp hm).symm) h

/-- C29: for every string, both definitions of `escapeHtml` return the chain
of replacements; the result holds none of the characters `<`, `>`, the double
quote and the single quote; wherever it holds `&`, one of the five entities
starts there; and decoding the five entities gives the string back. -/
theorem escapeHtml_clean_and_reversible (s : Str) :
    escapeHtml (JSVal.str s) = escapeString s ∧
    dashboardEscapeHtml (JSVal.str s) = JSVal.str (escapeString s) ∧
    (∀ c ∈ escapeString s, c ≠ '<' ∧ c ≠ '>' ∧ c ≠ doubleQuote ∧ c ≠ singleQuote) ∧
    (∀ pre post : Str, escapeString s = pre ++ '&' :: post →
      ∃ e ∈ htmlEntities, e.1 <+: '&' :: post) ∧
    decodeEntities (escapeString s) = s := by
  refine ⟨rfl, rfl, ?_, ?_, ?_⟩
  · induction s with
    | nil => intro c hc; exact absurd hc (List.not_mem_nil _)
    | cons x xs ih =>
      intro c hc
      rw [escapeString_cons] at hc
      rcases List.mem_append.mp hc with h | h
      · exact escapeChar_clean x c h
      · exact ih c h
  · induction s with
    | nil =>
      intro pre post h
      have : escapeString [] = [] := rfl
      rw [this] at h
      exact absurd h (by simp)
    | cons x xs ih =>
      intro pre post h
      rw [escapeString_cons] at h
      rcases escapeChar_split x (escapeString xs) pre post h with ⟨hpre, e, he, hee⟩ | ⟨pre2, _, h2⟩
      · subst hpre
        refine ⟨e, he, ?_⟩
        rw [List.nil_append] at h
        rw [← h, hee]
        exact List.prefix_append _ _
      · exact ih pre2 post h2
  · unfold decodeEntities
    induction s with
    | nil => rfl
    | cons x xs ih => rw [escapeString_cons, decodeFrom_escapeChar, ih]

/-- The chain on a text that holds all five characters and an entity. -/
theorem escapeHtml_example :
    escapeString "a<b & 'c' > \"d\" &amp;".toList =
      "a&lt;b &amp; &#39;c&#39; &gt; &quot;d&quot; &amp;amp;".toList ∧
    decodeEntities "a&lt;b &amp; &#39;c&#39; &gt; &quot;d&quot; &amp;amp;".toList =
      "a<b & 'c' > \"d\" &amp;".toList ∧
    escapeHtml JSVal.null = [] ∧ dashboardEscapeHtml JSVal.null = JSVal.null := by
  decide

/-! ## Keys of calendar days, read back -/

theorem localDay_midnight (host : Host) (day : ℤ) :
    localDay host (day * msPerDay - host.tzOffset) = day := by
  unfold localDay msPerDay
  omega

theorem time_bounds_of_year (host : Host) (hs : host.sane) (t : ℤ)
    (hy : 1000 ≤ yearFromDay (localDay host t) ∧ yearFromDay (localDay host t) ≤ 9999) :
    -maxTime ≤ t ∧ t ≤ maxTime := by
  obtain ⟨h1, h2⟩ := yearFromDay_spec (localDay host t)
  have hlo : dayFromYear 1000 ≤ dayFromYear (yearFromDay (localDay host t)) := by
    rcases eq_or_lt_of_le hy.1 with e | l
    · rw [← e]
    · exact (dayFromYear_strictMono _ _ l).le
  have hhi : dayFromYear (yearFromDay (localDay host t) + 1) ≤ dayFromYear 10000 := by
    rcases eq_or_lt_of_le hy.2 with e | l
    · rw [e]
      exact le_of_eq rfl
    · exact (dayFromYear_strictMono _ _ (by omega)).le
  have e1 : dayFromYear 1000 = -354285 := by decide
  have e2 : dayFromYear 10000 = 2932897 := by decide
  obtain ⟨⟨z1, z2⟩, -⟩ := hs
  unfold localDay at h1 h2 hlo hhi
  unfold msPerDay at h1 h2 hlo hhi z1 z2
  unfold maxTime
  omega

/-- C30: for two dates whose local years have four digits, on a host with a
fixed zone offset: `parseDateKey(getDateKey(d))` is local midnight of the
calendar day of `d`; taking the key of that again gives the same key; and the
comparator of the key sort, `parseDateKey(b) - parseDateKey(a)`, is positive,
zero or negative exactly as the day of `b` is later than, equal to or earlier
than the day of `a`. -/
theorem dateKey_roundtrip (host : Host) (hs : host.sane) (t u : ℤ)
    (ht : 1000 ≤ yearFromDay (localDay host t) ∧ yearFromDay (localDay host t) ≤ 9999)
    (hu : 1000 ≤ yearFromDay (localDay host u) ∧ yearFromDay (localDay host u) ≤ 9999) :
    parseDateKey host (DateInput.prim (JSVal.str (getDateKey host (some t))))
      = some (localDay host t * msPerDay - host.tzOffset) ∧
    getDateKey host
        (parseDateKey host (DateInput.prim (JSVal.str (getDateKey host (some t)))))
      = getDateKey host (some t) ∧
    compareKeys host (getDateKey host (some t)) (getDateKey host (some u))
      = JSNum.num ((((localDay host u - localDay host t) * msPerDay : ℤ)) : ℚ) ∧
    ((compareKeys host (getDateKey host (some t)) (getDateKey host (some u))).gt (jsn 0) = true
      ↔ localDay host t < localDay host u) ∧
    ((compareKeys host (getDateKey host (some t)) (getDateKey host (some u))).lt (jsn 0) = true
      ↔ localDay host u < localDay host t) := by
  have pt := parseDateKey_getDateKey host t hs.1 (time_bounds_of_year host hs t ht) (by omega)
  have pu := parseDateKey_getDateKey host u hs.1 (time_bounds_of_year host hs u hu) (by omega)
  have hcmp : compareKeys host (getDateKey host (some t)) (getDateKey host (some u))
      = JSNum.num ((((localDay host u - localDay host t) * msPerDay : ℤ)) : ℚ) := by
    unfold compareKeys
    rw [pt, pu]
    show JSNum.num _ = JSNum.num _
    congr 1
    push_cast
    ring
  refine ⟨pt, ?_, hcmp, ?_, ?_⟩
  · rw [pt]
    exact getDateKey_of_localDay host _ _ (localDay_midnight host _)
  · rw [hcmp]
    simp only [JSNum.gt, JSNum.lt, jsn, decide_eq_true_eq]
    constructor
    · intro h
      have h2 : (0 : ℤ) < (localDay host u - localDay host t) * msPerDay := by exact_mod_cast h
      unfold msPerDay at h2
      omega
    · intro h
      have h2 : (0 : ℤ) < (localDay host u - localDay host t) * msPerDay := by
        unfold msPerDay
        omega
      exact_mod_cast h2
  · rw [hcmp]
    simp only [JSNum.lt, jsn, decide_eq_true_eq]
    constructor
    · intro h
      have h2 : (localDay host u - localDay host t) * msPerDay < (0 : ℤ) := by exact_mod_cast h
      unfold msPerDay at h2
      omega
    · intro h
      have h2 : (localDay host u - localDay host t) * msPerDay < (0 : ℤ) := by
        unfold msPerDay
        omega
      exact_mod_cast h2

theorem dateKey_roundtrip_witness :
    parseDateKey sampleHost
        (DateInput.prim (JSVal.str (getDateKey sampleHost (some 1718416800000))))
      = some (localDay sampleHost 1718416800000 * msPerDay - sampleHost.tzOffset) ∧
    getDateKey sampleHost
        (parseDateKey sampleHost
          (DateInput.prim (JSVal.str (getDateKey sampleHost (some 1718416800000)))))
      = getDateKey sampleHost (some 1718416800000) ∧
    compareKeys sampleHost (getDateKey sampleHost (some 1718416800000))
        (getDateKey sampleHost (some 1718330000000))
      = JSNum.num ((((localDay sampleHost 1718330000000 - localDay sampleHost 1718416800000)
          * msPerDay : ℤ)) : ℚ) ∧
    ((compareKeys sampleHost (getDateKey sampleHost (some 1718416800000))
        (getDateKey sampleHost (some 1718330000000))).gt (jsn 0) = true
      ↔ localDay sampleHost 1718416800000 < localDay sampleHost 1718330000000) ∧
    ((compareKeys sampleHost (getDateKey sampleHost (some 1718416800000))
        (getDateKey sampleHost (some 1718330000000))).lt (jsn 0) = true
      ↔ localDay sampleHost 1718330000000 < localDay sampleHost 1718416800000) :=
  dateKey_roundtrip sampleHost (by decide) 1718416800000 1718330000000 (by decide) (by decide)

/-- The keys of the two sample moments: 15 and 14 June 2024. -/
theorem dateKey_sample :
    getDateKey sampleHost (some 1718416800000) = "2024-06-15".toList ∧
    getDateKey sampleHost (some 1718330000000) = "2024-06-14".toList ∧
    parseDateKey sampleHost (DateInput.prim (JSVal.str "2024-06-15".toList))
      = some 1718373600000 := by
  decide!

/-! ## Grouping keeps every transaction -/

theorem groupPush_flatten (grouped : List (Str × List Transaction)) (key : Str)
    (tx : Transaction) :
    ((groupPush grouped key tx).map Prod.snd).flatten.Perm
      ((grouped.map Prod.snd).flatten ++ [tx]) := by
  induction grouped with
  | nil => exact List.Perm.refl _
  | cons p rest ih =>
    obtain ⟨k, txs⟩ := p
    unfold groupPush
    by_cases hk : k = key
    · rw [if_pos hk]
      simp only [List.map_cons, List.flatten_cons, List.append_assoc]
      exact List.Perm.append_left _ List.perm_append_comm
    · rw [if_neg hk]
      simp only [List.map_cons, List.flatten_cons, List.append_assoc]
      exact List.Perm.append_left _ ih

theorem groupFold_flatten (host : Host) (txs : List Transaction)
    (g : List (Str × List Transaction)) :
    ((txs.foldl (fun grouped transaction =>
        groupPush grouped (getDateKey host (parseTransactionDate host transaction.date))
          (transaction.withDate (parseTransactionDate host transaction.date))) g).map
      Prod.snd).flatten.Perm
      ((g.map Prod.snd).flatten ++
        txs.map (fun tx => tx.withDate (parseTransactionDate host tx.date))) := by
  induction txs generalizing g with
  | nil => simp
  | cons tx rest ih =>
    rw [List.foldl_cons, List.map_cons]
    refine (ih _).trans ?_
    refine (List.Perm.append_right _ (groupPush_flatten g _ _)).trans ?_
    rw [List.append_assoc, List.singleton_append]

theorem lookup_of_mem_nodup (g : List (Str × List Transaction))
    (hg : (g.map Prod.fst).Nodup) (p : Str × List Transaction) (hp : p ∈ g) :
    (g.lookup p.1).getD [] = p.2 := by
  induction g with
  | nil => exact absurd hp (List.not_mem_nil _)
  | cons q rest ih =>
    obtain ⟨k, v⟩ := q
    rw [List.map_cons, List.nodup_cons] at hg
    rcases List.mem_cons.mp hp with e | hmem
    · subst e
      simp [List.lookup]
    · have hne : p.1 ≠ k := by
        intro e
        exact hg.1 (List.mem_map.mpr ⟨p, hmem, e⟩)
      have hb : (p.1 == k) = false := by simpa using hne
      simp only [List.lookup, hb]
      exact ih hg.2 hmem

/-- C27: `groupTransactionsByDate` neither drops nor duplicates a transaction:
the concatenation of the returned groups is a rearrangement of the input list,
each entry with its date parsed, and no returned group is empty. -/
theorem groups_partition_input (host : Host) (txs : List Transaction) :
    ((groupTransactionsByDate host txs).map Prod.snd).flatten.Perm
      (txs.map (fun tx => tx.withDate (parseTransactionDate host tx.date))) ∧
    ∀ g ∈ groupTransactionsByDate host txs, g.2 ≠ [] := by
  constructor
  · have hfold := groupFold_flatten host txs []
    simp only [List.map_nil, List.flatten_nil, List.nil_append] at hfold
    refine List.Perm.trans ?_ hfold
    unfold groupTransactionsByDate
    simp only [List.map_map]
    have hkeys := jsSort_perm (compareKeys host) ((groupByKey host txs).map Prod.fst)
    refine ((hkeys.map _).flatten).trans ?_
    rw [List.map_map]
    have hnd := groupByKey_keys_nodup host txs
    rw [← List.flatMap_def, ← List.flatMap_def]
    apply List.Perm.flatMap_left
    intro p hp
    simp only [Function.comp]
    rw [lookup_of_mem_nodup _ hnd p hp]
    exact jsSort_perm _ _
  · intro g hg
    obtain ⟨⟨tx, htx, hk⟩, h2⟩ := (mem_groupTransactionsByDate host txs g).mp hg
    have hmem : tx.withDate (parseTransactionDate host tx.date) ∈
        ((groupByKey host txs).lookup g.1).getD [] :=
      (groupByKey_members host txs g.1 _).mpr ⟨tx, htx, rfl, hk⟩
    intro hnil
    have : tx.withDate (parseTransactionDate host tx.date) ∈ g.2 := by
      rw [h2]
      exact (mem_jsSort _ _ _).mpr hmem
    rw [hnil] at this
    exact absurd this (List.not_mem_nil _)

/-! ## Validation of expenses -/

/-- C21, the code against the claim: `validateExpenseData` does not read
`categoryId`, so its answer is the same whatever the category; an expense of
12.50 with a description, an account, a past date and no category (`null`) is
accepted, and so is one whose date cannot be parsed. -/
theorem validateExpenseData_ignores_category :
    (∀ (host : Host) (amount description accountId occurredAt c₁ c₂ : JSVal),
      validateExpenseData host ⟨amount, description, c₁, accountId, occurredAt⟩ =
        validateExpenseData host ⟨amount, description, c₂, accountId, occurredAt⟩) ∧
    validateExpenseData sampleHost
        ⟨JSVal.num (jsn (25 / 2)), JSVal.str "Lunch".toList, JSVal.null, JSVal.num (jsn 1),
         JSVal.str "2024-06-01T10:00:00Z".toList⟩ = some ⟨true, []⟩ ∧
    validateExpenseData sampleHost
        ⟨JSVal.num (jsn (25 / 2)), JSVal.str "Lunch".toList, JSVal.null, JSVal.num (jsn 1),
         JSVal.str "soon".toList⟩ = some ⟨true, []⟩ := by
  refine ⟨fun _ _ _ _ _ _ _ => rfl, by decide!, by decide!⟩

theorem isBlankText_str (s : Str) : isBlankText (JSVal.str s) = some (decide (trim s = [])) := by
  unfold isBlankText
  by_cases hs : s = []
  · subst hs
    simp [JSVal.truthy, trim, trimStart, trimEnd]
  · have ht : (JSVal.str s).truthy = true := by
      cases s with
      | nil => exact absurd rfl hs
      | cons c cs => simp [JSVal.truthy]
    simp only [ht, Bool.not_true, Bool.false_eq_true, if_false]

/-- What `validateExpenseData` does check, for every expense whose
description is a string or falsy: it accepts exactly when the amount is
truthy and `parseFloat` of it is not `<= 0`, the description is not blank,
the date is given and the date made of it does not compare greater than the
present moment (an invalid date never does), and the account is given. -/
theorem validateExpenseData_isValid_iff (host : Host) (expenseData : ExpenseData)
    (blank : Bool) (hdesc : isBlankText expenseData.description = some blank) :
    ∃ v, validateExpenseData host expenseData = some v ∧
      (v.isValid = true ↔
        (expenseData.amount.truthy = true ∧
          expenseData.amount.parseFloat.le (jsn 0) = false) ∧
        blank = false ∧
        expenseData.occurredAt.truthy = true ∧
        (dateValue (dateOfValue host expenseData.occurredAt)).gt (dateValue (some host.now))
          = false ∧
        expenseData.accountId.truthy = true) := by
  unfold validateExpenseData
  rw [hdesc]
  refine ⟨_, rfl, ?_⟩
  cases blank <;> cases h1 : expenseData.amount.truthy <;>
    cases h2 : expenseData.amount.parseFloat.le (jsn 0) <;>
    cases h3 : expenseData.occurredAt.truthy <;>
    cases h4 : (dateValue (dateOfValue host expenseData.occurredAt)).gt
      (dateValue (some host.now)) <;>
    cases h5 : expenseData.accountId.truthy <;>
    simp [h1, h2, h3, h4, h5]

/-- An instance: the expense of 12.50 for `Lunch` without a date is checked
on the sample host. -/
theorem validateExpenseData_isValid_iff_witness :
    ∃ v, validateExpenseData sampleHost
        ⟨JSVal.num (jsn (25 / 2)), JSVal.str "Lunch".toList, JSVal.null, JSVal.num (jsn 1),
         JSVal.undefined⟩ = some v ∧
      (v.isValid = true ↔
        ((JSVal.num (jsn (25 / 2))).truthy = true ∧
          (JSVal.num (jsn (25 / 2))).parseFloat.le (jsn 0) = false) ∧
        false = false ∧
        JSVal.undefined.truthy = true ∧
        (dateValue (dateOfValue sampleHost JSVal.undefined)).gt
          (dateValue (some sampleHost.now)) = false ∧
        (JSVal.num (jsn 1)).truthy = true) :=
  validateExpenseData_isValid_iff sampleHost
    ⟨JSVal.num (jsn (25 / 2)), JSVal.str "Lunch".toList, JSVal.null, JSVal.num (jsn 1),
     JSVal.undefined⟩ false (by decide)

/-! ## The percentage of a goal -/

theorem toDouble_ne_nan (q : ℚ) : toDouble q ≠ JSNum.nan := by
  unfold toDouble
  split_ifs <;> exact JSNum.noConfusion

theorem fmul_hundred_ne_nan (q : ℚ) :
    JSNum.fmul (toDouble q) (jsn 100) ≠ JSNum.nan := by
  unfold JSNum.fmul
  cases h : toDouble q with
  | nan => exact absurd h (toDouble_ne_nan q)
  | num r =>
    simp only [JSNum.mul, jsn, JSNum.toBinary64]
    exact toDouble_ne_nan _
  | pinf =>
    simp [JSNum.mul, jsn, JSNum.toBinary64, JSNum.infOfSign]
  | ninf =>
    have h100 : ¬ (100 : ℚ) < 0 := by norm_num
    simp [JSNum.mul, jsn, JSNum.toBinary64, JSNum.infOfSign, h100]

theorem toFixed1_close (x : ℚ) :
    ∃ n : ℤ, toFixed1 (jsn x) = jsn ((n : ℚ) / 10) ∧ |(n : ℚ) / 10 - x| ≤ 1 / 20 := by
  unfold toFixed1 jsn
  by_cases hx : 0 ≤ x
  · have h1 : ((⌊x * 10 + 1 / 2⌋ : ℤ) : ℚ) ≤ x * 10 + 1 / 2 := Int.floor_le _
    have h2 : x * 10 + 1 / 2 < ((⌊x * 10 + 1 / 2⌋ : ℤ) : ℚ) + 1 := Int.lt_floor_add_one _
    refine ⟨⌊x * 10 + 1 / 2⌋, by simp only [hx, if_true], ?_⟩
    rw [abs_le]
    constructor <;> linarith
  · have h1 : ((⌊-x * 10 + 1 / 2⌋ : ℤ) : ℚ) ≤ -x * 10 + 1 / 2 := Int.floor_le _
    have h2 : -x * 10 + 1 / 2 < ((⌊-x * 10 + 1 / 2⌋ : ℤ) : ℚ) + 1 := Int.lt_floor_add_one _
    refine ⟨-⌊-x * 10 + 1 / 2⌋, ?_, ?_⟩
    · simp only [hx, if_false]
      congr 1
      push_cast
      ring
    · rw [abs_le]
      push_cast
      constructor <;> linarith

/-- C22, the code against the claim: neither function rounds to an integer or
guards the target.  For a goal of 1 out of 3 the dialog shows 33.3 (the claim
has 33); for 23 out of 80 it shows 28.7, the binary64 product being
28.749999999999996; for a target of 0 it shows Infinity (current 50) or NaN
(current 0); with target 0 the handler takes a contribution of 10 to complete
the goal; and from 74.2 out of 100 a contribution of 0.4 gives the plain
success message, where rounded percentages (74 and 75) would give the 75%
milestone. -/
theorem goal_percentage_counterexample :
    (openContributeModal "car".toList (jsn 1) (jsn 3) JSVal.null Reply.rejected).2.percentage
      = jsn (333 / 10) ∧
    round ((1 : ℚ) / 3 * 100) = 33 ∧
    (openContributeModal "car".toList (jsn 23) (jsn 80) JSVal.null Reply.rejected).2.percentage
      = jsn (287 / 10) ∧
    goalPercentage ⟨"car".toList, jsn 23, jsn 80, JSVal.null⟩
      = jsn (8092405580431359 / 281474976710656) ∧
    (openContributeModal "car".toList (jsn 50) (jsn 0) JSVal.null Reply.rejected).2.percentage
      = JSNum.pinf ∧
    (openContributeModal "car".toList (jsn 0) (jsn 0) JSVal.null Reply.rejected).2.percentage
      = JSNum.nan ∧
    goalPercentage ⟨"car".toList, jsn 50, jsn 0, JSVal.null⟩ = JSNum.pinf ∧
    (contributeSubmit ⟨true, Reply.rejected, Reply.resolved JSVal.undefined, true⟩
        ⟨some ⟨"car".toList, jsn 0, jsn 0, JSVal.num (jsn 1)⟩,
         some ⟨JSVal.num (jsn 2), JSVal.str "Cash".toList, JSVal.num (jsn 500)⟩⟩
        "10".toList).map (fun r => r.2.filterMap GoalEffect.outcome?)
      = some [GoalOutcome.goalCompleted] ∧
    (contributeSubmit ⟨true, Reply.rejected, Reply.resolved JSVal.undefined, true⟩
        ⟨some ⟨"car".toList, toDouble (371 / 5), jsn 100, JSVal.num (jsn 1)⟩,
         some ⟨JSVal.num (jsn 2), JSVal.str "Cash".toList, JSVal.num (jsn 500)⟩⟩
        "0.4".toList).map (fun r => r.2.filterMap GoalEffect.outcome?)
      = some [GoalOutcome.plainSuccess] ∧
    expectedOutcome 74 75 = GoalOutcome.milestone75 := by
  refine ⟨by decide!, ?_, by decide!, by decide!, by decide!, by decide!, by decide!,
    by decide!, by decide!, by decide!⟩
  rw [round_eq]
  norm_num

/-- C22, as the code has it.  For a goal with a positive target the handler
computes `(current / target) * 100` in binary64 arithmetic, unrounded, and
the dialog shows that value rounded to one decimal.  The value is never NaN;
below the overflow range it is finite and within the binary64 rounding error
of the exact `current / target * 100`. -/
theorem goal_percentage_positive_target (goalName : Str) (goalId : JSVal)
    (account : Reply (Option Account)) (c t : ℚ) (ht : 0 < t) :
    (openContributeModal goalName (jsn c) (jsn t) goalId account).1.currentGoal
      = some ⟨goalName, jsn c, jsn t, goalId⟩ ∧
    (openContributeModal goalName (jsn c) (jsn t) goalId account).2.percentage
      = toFixed1 (goalPercentage ⟨goalName, jsn c, jsn t, goalId⟩) ∧
    goalPercentage ⟨goalName, jsn c, jsn t, goalId⟩ ≠ JSNum.nan ∧
    (|c / t * 100| < 2 ^ 1023 →
      ∃ x : ℚ, goalPercentage ⟨goalName, jsn c, jsn t, goalId⟩ = jsn x ∧
        |x - c / t * 100| ≤ |c / t * 100| / 2 ^ 51 + 51 * minSubnormal ∧
        ∃ n : ℤ,
          (openContributeModal goalName (jsn c) (jsn t) goalId account).2.percentage
            = jsn ((n : ℚ) / 10) ∧
          |(n : ℚ) / 10 - x| ≤ 1 / 20) := by
  have ht0 : t ≠ 0 := ne_of_gt ht
  have hp : goalPercentage ⟨goalName, jsn c, jsn t, goalId⟩ =
      JSNum.fmul (toDouble (c / t)) (jsn 100) := by
    simp only [goalPercentage, JSNum.fdiv, JSNum.div, jsn, ht0, if_false, JSNum.toBinary64]
  have hm : (openContributeModal goalName (jsn c) (jsn t) goalId account).2.percentage
      = toFixed1 (goalPercentage ⟨goalName, jsn c, jsn t, goalId⟩) := rfl
  refine ⟨rfl, hm, ?_, ?_⟩
  · rw [hp]
    exact fmul_hundred_ne_nan _
  · intro hfin
    obtain ⟨x, hx, hxc, -, -⟩ := percent_close (c / t) hfin
    refine ⟨x, hp.trans hx, hxc, ?_⟩
    obtain ⟨n, hn, hnc⟩ := toFixed1_close x
    refine ⟨n, ?_, hnc⟩
    rw [hm, hp, hx]
    exact hn

/-- C22, an instance: 40 saved of 100 gives 40, shown as 40.0. -/
theorem goal_percentage_positive_target_witness :
    goalPercentage ⟨"car".toList, jsn 40, jsn 100, JSVal.null⟩ = jsn 40 ∧
    (openContributeModal "car".toList (jsn 40) (jsn 100) JSVal.null Reply.rejected).2.percentage
      = toFixed1 (goalPercentage ⟨"car".toList, jsn 40, jsn 100, JSVal.null⟩) ∧
    goalPercentage ⟨"car".toList, jsn 40, jsn 100, JSVal.null⟩ ≠ JSNum.nan :=
  ⟨by decide!,
   (goal_percentage_positive_target "car".toList JSVal.null Reply.rejected 40 100
     (by norm_num)).2.1,
   (goal_percentage_positive_target "car".toList JSVal.null Reply.rejected 40 100
     (by norm_num)).2.2.1⟩

/-! ## Contributions that are refused -/

theorem contributeWithAccount_insufficient (host : ContributeHost) (page : GoalsPage)
    (goal : Goal) (contribution oldPercentage : JSNum) (account : Account)
    (before : List GoalEffect)
    (h : contribution.gt (account.balance.or (JSVal.num (jsn 0))).toNumber = true) :
    contributeWithAccount host page goal contribution oldPercentage account before =
      (⟨page.currentGoal, some account⟩,
        before ++ [GoalEffect.errorNotification "Insufficient balance"]) := by
  unfold contributeWithAccount
  simp only [h, if_true]

theorem contributeSubmit_of_valid (host : ContributeHost) (page : GoalsPage) (amountInput : Str)
    (goal : Goal) (hgoal : page.currentGoal = some goal)
    (hg : ¬ (!(parseFloatNumber amountInput).truthy || (parseFloatNumber amountInput).le (jsn 0))
      = true) :
    contributeSubmit host page amountInput =
      if ((parseFloatNumber amountInput).gt (JSNum.fsub goal.target goal.current) &&
          !host.confirmAnswer) = true then
        some (page, if (parseFloatNumber amountInput).gt (JSNum.fsub goal.target goal.current) = true
          then [GoalEffect.confirmPrompt] else [])
      else
        match page.contributionAccount with
        | some account =>
          some (contributeWithAccount host page goal (parseFloatNumber amountInput)
            (JSNum.fmul (JSNum.fdiv goal.current goal.target) (jsn 100)) account
            (if (parseFloatNumber amountInput).gt (JSNum.fsub goal.target goal.current) = true
              then [GoalEffect.confirmPrompt] else []))
        | none =>
          match host.primaryAccount with
          | Reply.rejected =>
            some (page, (if (parseFloatNumber amountInput).gt (JSNum.fsub goal.target goal.current)
                = true then [GoalEffect.confirmPrompt] else []) ++ [GoalEffect.accountRequest,
              GoalEffect.errorNotification "Failed to add contribution"])
          | Reply.resolved none =>
            some (page, (if (parseFloatNumber amountInput).gt (JSNum.fsub goal.target goal.current)
                = true then [GoalEffect.confirmPrompt] else []) ++ [GoalEffect.accountRequest,
              GoalEffect.errorNotification "No eligible account found for contributions."])
          | Reply.resolved (some account) =>
            some (contributeWithAccount host page goal (parseFloatNumber amountInput)
              (JSNum.fmul (JSNum.fdiv goal.current goal.target) (jsn 100)) account
              ((if (parseFloatNumber amountInput).gt (JSNum.fsub goal.target goal.current) = true
                then [GoalEffect.confirmPrompt] else []) ++ [GoalEffect.accountRequest])) := by
  unfold contributeSubmit
  simp only [hg, if_false, hgoal, Bool.false_eq_true]

theorem contributeSubmit_of_invalid (host : ContributeHost) (page : GoalsPage)
    (amountInput : Str)
    (hg : (!(parseFloatNumber amountInput).truthy || (parseFloatNumber amountInput).le (jsn 0))
      = true) :
    contributeSubmit host page amountInput =
      some (page, [GoalEffect.errorNotification "Please enter a valid contribution amount!"]) := by
  unfold contributeSubmit
  simp only [hg, if_true]

/-- C25, the code against the claim: with no account cached, a contribution
of 500 that exceeds the balance of 100 is refused only after the account has
been requested from the server, and the account fetched is kept in
`contributionAccount`. -/
theorem contribution_refused_after_account_request :
    contributeSubmit
        ⟨true, Reply.resolved (some ⟨JSVal.num (jsn 2), JSVal.str "Cash".toList,
          JSVal.num (jsn 100)⟩), Reply.resolved JSVal.undefined, true⟩
        ⟨some ⟨"car".toList, jsn 0, jsn 1000, JSVal.num (jsn 1)⟩, none⟩ "500".toList =
      some (⟨some ⟨"car".toList, jsn 0, jsn 1000, JSVal.num (jsn 1)⟩,
          some ⟨JSVal.num (jsn 2), JSVal.str "Cash".toList, JSVal.num (jsn 100)⟩⟩,
        [GoalEffect.accountRequest, GoalEffect.errorNotification "Insufficient balance"]) := by
  decide!

/-- C25, as the code has it: when the amount entered is not a positive number,
or exceeds the available balance of the contribution account (the cached one,
or the one fetched when none is cached), the handler sends no contribute
request and leaves the current goal as it is; when the amount is not positive
or an account is cached, it makes no request at all and changes nothing. -/
theorem contribution_blocked (host : ContributeHost) (page : GoalsPage) (amountInput : Str)
    (goal : Goal) (hgoal : page.currentGoal = some goal)
    (hblocked :
      (!(parseFloatNumber amountInput).truthy || (parseFloatNumber amountInput).le (jsn 0)) = true ∨
      ∀ account, (page.contributionAccount = some account ∨
          (page.contributionAccount = none ∧
            host.primaryAccount = Reply.resolved (some account))) →
        (parseFloatNumber amountInput).gt (account.balance.or (JSVal.num (jsn 0))).toNumber
          = true) :
    ∃ page' effects, contributeSubmit host page amountInput = some (page', effects) ∧
      (∀ a g n, GoalEffect.contributeRequest a g n ∉ effects) ∧
      page'.currentGoal = page.currentGoal ∧
      (((!(parseFloatNumber amountInput).truthy || (parseFloatNumber amountInput).le (jsn 0)) = true ∨
          page.contributionAccount.isSome = true) →
        page' = page ∧ GoalEffect.accountRequest ∉ effects) := by
  by_cases hg : (!(parseFloatNumber amountInput).truthy || (parseFloatNumber amountInput).le (jsn 0))
      = true
  · refine ⟨page, _, contributeSubmit_of_invalid host page amountInput hg, ?_, rfl,
      fun _ => ⟨rfl, ?_⟩⟩
    · intro a g n hm
      simp at hm
    · intro hm
      simp at hm
  · have hbal := hblocked.resolve_left hg
    have hasked : ∀ a g n, GoalEffect.contributeRequest a g n ∉
        (if (parseFloatNumber amountInput).gt (JSNum.fsub goal.target goal.current) = true
          then [GoalEffect.confirmPrompt] else []) := by
      intro a g n hm
      split_ifs at hm <;> simp at hm
    have hasked2 : GoalEffect.accountRequest ∉
        (if (parseFloatNumber amountInput).gt (JSNum.fsub goal.target goal.current) = true
          then [GoalEffect.confirmPrompt] else []) := by
      intro hm
      split_ifs at hm <;> simp at hm
    rw [contributeSubmit_of_valid host page amountInput goal hgoal hg]
    by_cases hc : ((parseFloatNumber amountInput).gt (JSNum.fsub goal.target goal.current) &&
        !host.confirmAnswer) = true
    · rw [if_pos hc]
      exact ⟨page, _, rfl, hasked, rfl, fun _ => ⟨rfl, hasked2⟩⟩
    · rw [if_neg hc]
      cases hacc : page.contributionAccount with
      | some account =>
        simp only []
        rw [contributeWithAccount_insufficient _ _ _ _ _ _ _ (hbal account (Or.inl hacc))]
        refine ⟨_, _, rfl, ?_, rfl, fun _ => ⟨?_, ?_⟩⟩
        · intro a g n hm
          rcases List.mem_append.mp hm with h | h
          · exact hasked a g n h
          · simp at h
        · cases page with
          | mk cg ca =>
            simp only at hacc
            rw [hacc]
        · intro hm
          rcases List.mem_append.mp hm with h | h
          · exact hasked2 h
          · simp at h
      | none =>
        simp only []
        cases hprim : host.primaryAccount with
        | rejected =>
          simp only []
          refine ⟨page, _, rfl, ?_, rfl, ?_⟩
          · intro a g n hm
            rcases List.mem_append.mp hm with h | h
            · exact hasked a g n h
            · simp at h
          · rintro (h | h)
            · exact absurd h hg
            · simp at h
        | resolved r =>
          cases r with
          | none =>
            simp only []
            refine ⟨page, _, rfl, ?_, rfl, ?_⟩
            · intro a g n hm
              rcases List.mem_append.mp hm with h | h
              · exact hasked a g n h
              · simp at h
            · rintro (h | h)
              · exact absurd h hg
              · simp at h
          | some account =>
            simp only []
            rw [contributeWithAccount_insufficient _ _ _ _ _ _ _
              (hbal account (Or.inr ⟨hacc, hprim⟩))]
            refine ⟨_, _, rfl, ?_, rfl, ?_⟩
            · intro a g n hm
              rcases List.mem_append.mp hm with h | h
              · rcases List.mem_append.mp h with h | h
                · exact hasked a g n h
                · simp at h
              · simp at h
            · rintro (h | h)
              · exact absurd h hg
              · simp at h

theorem contribution_blocked_witness :
    ∃ page' effects,
      contributeSubmit ⟨true, Reply.rejected, Reply.resolved JSVal.undefined, true⟩
        ⟨some ⟨"car".toList, jsn 0, jsn 1000, JSVal.num (jsn 1)⟩,
         some ⟨JSVal.num (jsn 2), JSVal.str "Cash".toList, JSVal.num (jsn 100)⟩⟩
        "500".toList = some (page', effects) ∧
      (∀ a g n, GoalEffect.contributeRequest a g n ∉ effects) ∧
      page'.currentGoal = some ⟨"car".toList, jsn 0, jsn 1000, JSVal.num (jsn 1)⟩ ∧
      (((!(parseFloatNumber "500".toList).truthy || (parseFloatNumber "500".toList).le (jsn 0)) = true ∨
          (some (⟨JSVal.num (jsn 2), JSVal.str "Cash".toList, JSVal.num (jsn 100)⟩ :
            Account)).isSome = true) →
        page' = ⟨some ⟨"car".toList, jsn 0, jsn 1000, JSVal.num (jsn 1)⟩,
          some ⟨JSVal.num (jsn 2), JSVal.str "Cash".toList, JSVal.num (jsn 100)⟩⟩ ∧
        GoalEffect.accountRequest ∉ effects) :=
  contribution_blocked ⟨true, Reply.rejected, Reply.resolved JSVal.undefined, true⟩
    ⟨some ⟨"car".toList, jsn 0, jsn 1000, JSVal.num (jsn 1)⟩,
     some ⟨JSVal.num (jsn 2), JSVal.str "Cash".toList, JSVal.num (jsn 100)⟩⟩
    "500".toList ⟨"car".toList, jsn 0, jsn 1000, JSVal.num (jsn 1)⟩ rfl
    (Or.inr (by
      intro account h
      rcases h with h | ⟨h, _⟩
      · rw [← Option.some.inj h]
        decide!
      · exact Option.noConfusion h))

/-! ## Budget alerts -/

theorem ge_80_of_ge_100 (p : JSNum) (h : p.ge (jsn 100) = true) : p.ge (jsn 80) = true := by
  cases p with
  | nan => exact absurd h (by decide)
  | pinf => rfl
  | ninf => exact absurd h (by decide)
  | num q =>
    simp only [JSNum.ge, JSNum.le, jsn, decide_eq_true_eq] at h ⊢
    linarith

theorem danger_ne_warning (p q : JSNum) :
    (⟨"danger", "⚠️", p⟩ : BudgetAlert) ≠ ⟨"warning", "🚨", q⟩ := by
  intro h
  have ht : ("danger" : String) = "warning" := congrArg BudgetAlert.type h
  exact absurd ht (by decide)

theorem alertsForItem_of_numbers (s : BudgetSummary)
    (h1 : (s.spent.or (JSVal.num (jsn 0))).isNumber = true) (h2 : s.budget.isNumber = true) :
    alertsForItem s =
      some (if (alertPercentage s).ge (jsn 100) = true then
          [⟨"danger", "⚠️", alertPercentage s⟩]
        else if (alertPercentage s).ge (jsn 80) = true then
          [⟨"warning", "🚨", alertPercentage s⟩]
        else []) := by
  unfold alertsForItem
  simp only [h1, h2, Bool.and_self, if_true]
  split_ifs <;> rfl

/-- C23: for budget items whose `summary` holds numbers (`spent` may be
missing), `generateBudgetAlerts` returns the alerts of the items in item
order, at most one for each: the `danger` alert exactly when the item's
percentage is at least 100, the `warning` alert exactly when it is at least 80
and not at least 100, and none exactly when it is not at least 80. -/
theorem generateBudgetAlerts_bands (items : List BudgetItem)
    (hnum : ∀ item ∈ items, ∃ s, item.summary = some s ∧
      (s.spent.or (JSVal.num (jsn 0))).isNumber = true ∧ s.budget.isNumber = true) :
    ∃ perItem : List (Option BudgetAlert),
      generateBudgetAlerts items = some (perItem.filterMap id) ∧
      List.Forall₂
        (fun item a => ∃ s, item.summary = some s ∧
          (a = some ⟨"danger", "⚠️", alertPercentage s⟩ ↔
            (alertPercentage s).ge (jsn 100) = true) ∧
          (a = some ⟨"warning", "🚨", alertPercentage s⟩ ↔
            ((alertPercentage s).ge (jsn 80) = true ∧
              (alertPercentage s).ge (jsn 100) = false)) ∧
          (a = none ↔ (alertPercentage s).ge (jsn 80) = false))
        items perItem := by
  induction items with
  | nil => exact ⟨[], rfl, List.Forall₂.nil⟩
  | cons item rest ih =>
    obtain ⟨s, hs, h1, h2⟩ := hnum item (List.mem_cons_self _ _)
    obtain ⟨per, hper, hrel⟩ := ih (fun x hx => hnum x (List.mem_cons_of_mem _ hx))
    by_cases h100 : (alertPercentage s).ge (jsn 100) = true
    · refine ⟨some ⟨"danger", "⚠️", alertPercentage s⟩ :: per, ?_, List.Forall₂.cons ?_ hrel⟩
      · unfold generateBudgetAlerts
        simp only [hs, alertsForItem_of_numbers s h1 h2, h100, if_true, hper, Option.map_some',
          List.filterMap_cons, id, List.singleton_append]
      · refine ⟨s, hs, ⟨fun _ => h100, fun _ => rfl⟩, ?_, ?_⟩
        · constructor
          · intro h
            exact absurd (Option.some.inj h) (danger_ne_warning _ _)
          · rintro ⟨-, h⟩
            rw [h100] at h
            exact absurd h (by decide)
        · constructor
          · intro h
            exact Option.noConfusion h
          · intro h
            rw [ge_80_of_ge_100 _ h100] at h
            exact absurd h (by decide)
    · have h100f : (alertPercentage s).ge (jsn 100) = false := by
        cases hv : (alertPercentage s).ge (jsn 100)
        · rfl
        · exact absurd hv h100
      by_cases h80 : (alertPercentage s).ge (jsn 80) = true
      · refine ⟨some ⟨"warning", "🚨", alertPercentage s⟩ :: per, ?_, List.Forall₂.cons ?_ hrel⟩
        · unfold generateBudgetAlerts
          simp only [hs, alertsForItem_of_numbers s h1 h2, h100f, Bool.false_eq_true, if_false,
            h80, if_true, hper, Option.map_some', List.filterMap_cons, id, List.singleton_append]
        · refine ⟨s, hs, ?_, ⟨fun _ => ⟨h80, h100f⟩, fun _ => rfl⟩, ?_⟩
          · constructor
            · intro h
              exact absurd (Option.some.inj h).symm (danger_ne_warning _ _)
            · intro h
              exact absurd h h100
          · constructor
            · intro h
              exact Option.noConfusion h
            · intro h
              rw [h80] at h
              exact absurd h (by decide)
      · have h80f : (alertPercentage s).ge (jsn 80) = false := by
          cases hv : (alertPercentage s).ge (jsn 80)
          · rfl
          · exact absurd hv h80
        refine ⟨none :: per, ?_, List.Forall₂.cons ?_ hrel⟩
        · unfold generateBudgetAlerts
          simp only [hs, alertsForItem_of_numbers s h1 h2, h100f, h80f, Bool.false_eq_true,
            if_false, hper, Option.map_some', List.filterMap_cons, id, List.nil_append]
        · refine ⟨s, hs, ?_, ?_, ⟨fun _ => h80f, fun _ => rfl⟩⟩
          · constructor
            · intro h
              exact Option.noConfusion h
            · intro h
              exact absurd h h100
          · constructor
            · intro h
              exact Option.noConfusion h
            · rintro ⟨h, -⟩
              exact absurd h h80

theorem generateBudgetAlerts_bands_witness :
    ∃ perItem : List (Option BudgetAlert),
      generateBudgetAlerts sampleBudgetItems = some (perItem.filterMap id) ∧
      List.Forall₂
        (fun item a => ∃ s, item.summary = some s ∧
          (a = some ⟨"danger", "⚠️", alertPercentage s⟩ ↔
            (alertPercentage s).ge (jsn 100) = true) ∧
          (a = some ⟨"warning", "🚨", alertPercentage s⟩ ↔
            ((alertPercentage s).ge (jsn 80) = true ∧
              (alertPercentage s).ge (jsn 100) = false)) ∧
          (a = none ↔ (alertPercentage s).ge (jsn 80) = false))
        sampleBudgetItems perItem :=
  generateBudgetAlerts_bands sampleBudgetItems (by
    intro item hi
    simp only [sampleBudgetItems, List.mem_cons, List.mem_singleton, List.not_mem_nil,
      or_false] at hi
    rcases hi with rfl | rfl | rfl <;> exact ⟨_, rfl, rfl, rfl⟩)

/-- The alerts of the sample items: danger at 120%, none at 10%, warning at
85%. -/
theorem generateBudgetAlerts_sample :
    generateBudgetAlerts sampleBudgetItems =
      some [⟨"danger", "⚠️", jsn 120⟩, ⟨"warning", "🚨", jsn 85⟩] := by
  decide!

/-! ## The merge dialog -/

theorem MergeInvariant.step (r next : DialogRun) (h : MergeInvariant r)
    (ht : next.dialogs.mergeTargetCategoryId.truthy = true →
      next.dialogs.mergeTargetCategoryId ∉ next.dialogs.mergeSourceCategoryIds)
    (hp : ∀ src, PendingDialog.mergeBudgets src ∈ next.pending →
      PendingDialog.mergeBudgets src ∈ r.pending ∨ src ≠ [])
    (hl : ∀ src tgt, CategoryCall.mergeCategories src tgt ∈ next.log →
      CategoryCall.mergeCategories src tgt ∈ r.log ∨ PendingDialog.mergeBudgets src ∈ r.pending) :
    MergeInvariant next :=
  { target := ht
    copied := fun src hs => (hp src hs).elim (h.copied src) id
    calls := fun src tgt hs => (hl src tgt hs).elim (h.calls src tgt) (h.copied src) }

/-- A change of the dialogs alone. -/
theorem MergeInvariant.of_selection (r : DialogRun) (s : CategoryDialogs) (h : MergeInvariant r)
    (ht : s.mergeTargetCategoryId.truthy = true →
      s.mergeTargetCategoryId ∉ s.mergeSourceCategoryIds) :
    MergeInvariant { r with dialogs := s } :=
  MergeInvariant.step r _ h ht (fun _ hs => Or.inl hs) (fun _ _ hs => Or.inl hs)

theorem mergeBudgets_mem_append_other (l : List PendingDialog) (p : PendingDialog)
    (src : List JSVal) (hp : ∀ x, p ≠ PendingDialog.mergeBudgets x)
    (h : PendingDialog.mergeBudgets src ∈ l ++ [p]) : PendingDialog.mergeBudgets src ∈ l := by
  rcases List.mem_append.mp h with hm | hm
  · exact hm
  · rw [List.mem_singleton] at hm
    exact absurd hm.symm (hp src)

theorem refreshStart_fields (s : CategoryDialogs) :
    (refreshStart s).mergeSourceCategoryIds = s.mergeSourceCategoryIds ∧
    (refreshStart s).mergeTargetCategoryId = s.mergeTargetCategoryId ∧
    (refreshStart s).hasMergeControls = s.hasMergeControls ∧
    (refreshStart s).confirmDisabled = s.confirmDisabled := by
  unfold refreshStart
  by_cases hu : s.hasUserList = true
  · rw [if_pos hu]
    exact ⟨rfl, rfl, rfl, rfl⟩
  · rw [if_neg hu]
    exact ⟨rfl, rfl, rfl, rfl⟩

theorem refreshStart_target (s : CategoryDialogs)
    (h : s.mergeTargetCategoryId.truthy = true →
      s.mergeTargetCategoryId ∉ s.mergeSourceCategoryIds) :
    (refreshStart s).mergeTargetCategoryId.truthy = true →
      (refreshStart s).mergeTargetCategoryId ∉ (refreshStart s).mergeSourceCategoryIds := by
  obtain ⟨f1, f2, -, -⟩ := refreshStart_fields s
  rw [f1, f2]
  exact h

theorem refreshLoaded_target (s : CategoryDialogs) (categories : List Category)
    (h : s.mergeTargetCategoryId.truthy = true →
      s.mergeTargetCategoryId ∉ s.mergeSourceCategoryIds) :
    (refreshLoaded s categories).mergeTargetCategoryId.truthy = true →
      (refreshLoaded s categories).mergeTargetCategoryId ∉
        (refreshLoaded s categories).mergeSourceCategoryIds := by
  obtain ⟨-, -, -, -, -, -, -, f7, f8, -⟩ := refreshLoaded_fields s categories
  rw [f7, f8]
  by_cases hc : s.hasMergeControls = true
  · rw [if_pos hc, if_pos hc]
    intro ht
    exact absurd ht Bool.false_ne_true
  · rw [if_neg hc, if_neg hc]
    exact h

theorem prepareMergeModalContent_target (s : CategoryDialogs)
    (h : s.mergeTargetCategoryId.truthy = true →
      s.mergeTargetCategoryId ∉ s.mergeSourceCategoryIds) :
    (prepareMergeModalContent s).mergeTargetCategoryId.truthy = true →
      (prepareMergeModalContent s).mergeTargetCategoryId ∉
        (prepareMergeModalContent s).mergeSourceCategoryIds := by
  unfold prepareMergeModalContent
  by_cases hm : (!s.hasMergeControls) = true
  · rw [if_pos hm]
    exact h
  · rw [if_neg hm]
    intro ht
    exact absurd ht Bool.false_ne_true

theorem sourceClick_target (s : CategoryDialogs) (id : JSVal) :
    (sourceClick s id).mergeTargetCategoryId.truthy = true →
      (sourceClick s id).mergeTargetCategoryId ∉ (sourceClick s id).mergeSourceCategoryIds := by
  unfold sourceClick updateMergeConfirmButton
  simp only
  intro ht
  by_cases hc : s.mergeTargetCategoryId.truthy = true ∧ s.mergeTargetCategoryId ∈
      (if id ∈ s.mergeSourceCategoryIds then s.mergeSourceCategoryIds.filter (fun x => x ≠ id)
       else s.mergeSourceCategoryIds ++ [id])
  · rw [if_pos hc] at ht
    exact absurd ht Bool.false_ne_true
  · rw [if_neg hc] at ht ⊢
    intro hmem
    exact hc ⟨ht, hmem⟩

theorem targetClick_target (s : CategoryDialogs) (id : JSVal)
    (h : s.mergeTargetCategoryId.truthy = true →
      s.mergeTargetCategoryId ∉ s.mergeSourceCategoryIds) :
    (targetClick s id).mergeTargetCategoryId.truthy = true →
      (targetClick s id).mergeTargetCategoryId ∉ (targetClick s id).mergeSourceCategoryIds := by
  unfold targetClick updateMergeConfirmButton
  by_cases hmem : id ∈ s.mergeSourceCategoryIds
  · rw [if_pos hmem]
    exact h
  · rw [if_neg hmem]
    exact fun _ => hmem

theorem confirmMergeStart_merge (r : DialogRun) (h : MergeInvariant r) :
    MergeInvariant (confirmMergeStart r) := by
  unfold confirmMergeStart
  split_ifs with h0
  · exact h
  · refine MergeInvariant.step r _ h h.target ?_ (fun _ _ hs => Or.inl hs)
    intro src hs
    rcases List.mem_append.mp hs with hm | hm
    · exact Or.inl hm
    · rw [List.mem_singleton] at hm
      injection hm with hm
      refine Or.inr ?_
      rw [hm]
      intro e
      exact h0 (Or.inl (by rw [e]; rfl))

theorem budgetsAnswered_merge (r : DialogRun) (index : ℕ) (resolved userConfirmed : Bool)
    (h : MergeInvariant r) : MergeInvariant (budgetsAnswered r index resolved userConfirmed) := by
  unfold budgetsAnswered
  cases hg : r.pending.get? index with
  | none => exact h
  | some p =>
    have hmem : p ∈ r.pending := mem_of_get?_eq_some _ _ _ hg
    have hsub : ∀ x ∈ r.pending.eraseIdx index, x ∈ r.pending :=
      fun x hx => mem_of_mem_eraseIdx _ _ _ hx
    cases p with
    | deleteBudgets =>
      simp only
      split_ifs
      · refine MergeInvariant.step r _ h h.target ?_ ?_
        · intro src hs
          exact Or.inl (hsub _ (mergeBudgets_mem_append_other _ _ src
            (fun _ => PendingDialog.noConfusion) hs))
        · intro src tgt hs
          rcases List.mem_cons.mp hs with e | hm
          · exact CategoryCall.noConfusion e
          · exact Or.inl hm
      · exact MergeInvariant.step r _ h h.target (fun src hs => Or.inl (hsub _ hs))
          (fun _ _ hs => Or.inl hs)
    | mergeBudgets sourceIds =>
      simp only
      split_ifs
      · refine MergeInvariant.step r _ h h.target ?_ ?_
        · intro src hs
          exact Or.inl (hsub _ (mergeBudgets_mem_append_other _ _ src
            (fun _ => PendingDialog.noConfusion) hs))
        · intro src tgt hs
          rcases List.mem_cons.mp hs with e | hm
          · injection e with e1 e2
            rw [e1]
            exact Or.inr hmem
          · exact Or.inl hm
      · exact MergeInvariant.step r _ h h.target (fun src hs => Or.inl (hsub _ hs))
          (fun _ _ hs => Or.inl hs)
    | deleteRequest => exact h
    | mergeRequest => exact h
    | refresh after => exact h

theorem requestAnswered_merge (r : DialogRun) (index : ℕ) (resolved : Bool)
    (h : MergeInvariant r) : MergeInvariant (requestAnswered r index resolved) := by
  unfold requestAnswered
  cases hg : r.pending.get? index with
  | none => exact h
  | some p =>
    have hsub : ∀ x ∈ r.pending.eraseIdx index, x ∈ r.pending :=
      fun x hx => mem_of_mem_eraseIdx _ _ _ hx
    cases p with
    | deleteRequest =>
      simp only
      split_ifs
      · exact MergeInvariant.step r _ h (refreshStart_target _ h.target)
          (fun src hs => Or.inl (hsub _ (mergeBudgets_mem_append_other _ _ src
            (fun _ => PendingDialog.noConfusion) hs)))
          (fun _ _ hs => Or.inl hs)
      · exact MergeInvariant.step r _ h h.target (fun src hs => Or.inl (hsub _ hs))
          (fun _ _ hs => Or.inl hs)
    | mergeRequest =>
      simp only
      split_ifs
      · exact MergeInvariant.step r _ h (refreshStart_target _ h.target)
          (fun src hs => Or.inl (hsub _ (mergeBudgets_mem_append_other _ _ src
            (fun _ => PendingDialog.noConfusion) hs)))
          (fun _ _ hs => Or.inl hs)
      · exact MergeInvariant.step r _ h h.target (fun src hs => Or.inl (hsub _ hs))
          (fun _ _ hs => Or.inl hs)
    | deleteBudgets => exact h
    | mergeBudgets sourceIds => exact h
    | refresh after => exact h

theorem categoriesLoaded_merge (r : DialogRun) (index : ℕ) (categories : List Category)
    (h : MergeInvariant r) : MergeInvariant (categoriesLoaded r index categories) := by
  unfold categoriesLoaded
  cases hg : r.pending.get? index with
  | none => exact h
  | some p =>
    have hsub : ∀ x ∈ r.pending.eraseIdx index, x ∈ r.pending :=
      fun x hx => mem_of_mem_eraseIdx _ _ _ hx
    have hlog : ∀ src tgt, CategoryCall.mergeCategories src tgt ∈
        CategoryCall.loaded categories :: r.log →
        CategoryCall.mergeCategories src tgt ∈ r.log ∨
          PendingDialog.mergeBudgets src ∈ r.pending := by
      intro src tgt hs
      rcases List.mem_cons.mp hs with e | hm
      · exact CategoryCall.noConfusion e
      · exact Or.inl hm
    cases p with
    | refresh after =>
      cases after with
      | nothing =>
        exact MergeInvariant.step r _ h (refreshLoaded_target _ _ h.target)
          (fun src hs => Or.inl (hsub _ hs)) hlog
      | closeDelete =>
        exact MergeInvariant.step r _ h (refreshLoaded_target _ _ h.target)
          (fun src hs => Or.inl (hsub _ hs)) hlog
      | closeMerge =>
        exact MergeInvariant.step r _ h (fun ht => absurd ht Bool.false_ne_true)
          (fun src hs => Or.inl (hsub _ hs)) hlog
    | deleteBudgets => exact h
    | mergeBudgets sourceIds => exact h
    | deleteRequest => exact h
    | mergeRequest => exact h

theorem dialogStep_merge (r : DialogRun) (e : DialogEvent) (h : MergeInvariant r) :
    MergeInvariant (dialogStep r e) := by
  cases e with
  | refreshStarted =>
    exact MergeInvariant.step r _ h (refreshStart_target _ h.target)
      (fun src hs => Or.inl (mergeBudgets_mem_append_other _ _ src
        (fun _ => PendingDialog.noConfusion) hs))
      (fun _ _ hs => Or.inl hs)
  | deleteClicked index =>
    simp only [dialogStep]
    cases r.dialogs.deleteButtons.get? index with
    | none => exact h
    | some id => exact MergeInvariant.of_selection r _ h h.target
  | deleteClosed => exact MergeInvariant.of_selection r _ h h.target
  | deleteConfirmClicked =>
    simp only [dialogStep, confirmDeleteStart]
    split_ifs
    · exact h
    · exact MergeInvariant.step r _ h h.target
        (fun src hs => Or.inl (mergeBudgets_mem_append_other _ _ src
          (fun _ => PendingDialog.noConfusion) hs))
        (fun _ _ hs => Or.inl hs)
  | mergeOpened =>
    exact MergeInvariant.of_selection r _ h (prepareMergeModalContent_target _ h.target)
  | mergeClosed =>
    exact MergeInvariant.of_selection r _ h (fun ht => absurd ht Bool.false_ne_true)
  | sourceClicked index =>
    simp only [dialogStep]
    cases r.dialogs.mergeButtons.get? index with
    | none => exact h
    | some id => exact MergeInvariant.of_selection r _ h (sourceClick_target _ id)
  | targetClicked index =>
    simp only [dialogStep]
    cases r.dialogs.mergeButtons.get? index with
    | none => exact h
    | some id => exact MergeInvariant.of_selection r _ h (targetClick_target _ id h.target)
  | mergeConfirmClicked => exact confirmMergeStart_merge r h
  | budgetsAnswered index resolved userConfirmed =>
    exact budgetsAnswered_merge r index resolved userConfirmed h
  | requestAnswered index resolved => exact requestAnswered_merge r index resolved h
  | categoriesLoaded index categories => exact categoriesLoaded_merge r index categories h

theorem runDialogs_merge (r : DialogRun) (events : List DialogEvent) (h : MergeInvariant r) :
    MergeInvariant (runDialogs r events) := by
  induction events generalizing r with
  | nil => exact h
  | cons e rest ih =>
    unfold runDialogs
    rw [List.foldl_cons]
    exact ih _ (dialogStep_merge r e h)

theorem initialRun_merge (u sy m cd : Bool) : MergeInvariant (initialRun u sy m cd) :=
  { target := fun ht => absurd ht Bool.false_ne_true
    copied := fun _ hs => absurd hs (List.not_mem_nil _)
    calls := fun _ _ hs => absurd hs (List.not_mem_nil _) }

theorem dialogStep_hasMergeControls (r : DialogRun) (e : DialogEvent) :
    (dialogStep r e).dialogs.hasMergeControls = r.dialogs.hasMergeControls := by
  cases e with
  | refreshStarted => exact (refreshStart_fields r.dialogs).2.2.1
  | deleteClicked index =>
    simp only [dialogStep]
    cases r.dialogs.deleteButtons.get? index <;> rfl
  | deleteClosed => rfl
  | deleteConfirmClicked =>
    simp only [dialogStep, confirmDeleteStart]
    split_ifs <;> rfl
  | mergeOpened =>
    simp only [dialogStep, prepareMergeModalContent]
    by_cases hm : (!r.dialogs.hasMergeControls) = true
    · rw [if_pos hm]
    · rw [if_neg hm]
  | mergeClosed => rfl
  | sourceClicked index =>
    simp only [dialogStep]
    cases r.dialogs.mergeButtons.get? index <;> rfl
  | targetClicked index =>
    simp only [dialogStep]
    cases r.dialogs.mergeButtons.get? index with
    | none => rfl
    | some id =>
      simp only [targetClick]
      by_cases hmem : id ∈ r.dialogs.mergeSourceCategoryIds
      · rw [if_pos hmem]
      · rw [if_neg hmem]
        rfl
  | mergeConfirmClicked =>
    simp only [dialogStep, confirmMergeStart]
    split_ifs <;> rfl
  | budgetsAnswered index resolved userConfirmed =>
    simp only [dialogStep, budgetsAnswered]
    cases r.pending.get? index with
    | none => rfl
    | some p => cases p <;> simp only <;> split_ifs <;> rfl
  | requestAnswered index resolved =>
    simp only [dialogStep, requestAnswered]
    cases r.pending.get? index with
    | none => rfl
    | some p =>
      cases p <;> simp only <;> first
        | rfl
        | (split_ifs
           · exact (refreshStart_fields r.dialogs).2.2.1
           · rfl)
  | categoriesLoaded index categories =>
    simp only [dialogStep, categoriesLoaded]
    cases r.pending.get? index with
    | none => rfl
    | some p =>
      cases p with
      | refresh after =>
        cases after <;> exact (refreshLoaded_fields r.dialogs categories).2.2.1
      | deleteBudgets => rfl
      | mergeBudgets sourceIds => rfl
      | deleteRequest => rfl
      | mergeRequest => rfl

theorem runDialogs_hasMergeControls (r : DialogRun) (events : List DialogEvent) :
    (runDialogs r events).dialogs.hasMergeControls = r.dialogs.hasMergeControls := by
  induction events generalizing r with
  | nil => rfl
  | cons e rest ih =>
    unfold runDialogs
    rw [List.foldl_cons]
    exact (ih (dialogStep r e)).trans (dialogStep_hasMergeControls r e)

theorem runDialogs_append (r : DialogRun) (a b : List DialogEvent) :
    runDialogs r (a ++ b) = runDialogs (runDialogs r a) b := by
  unfold runDialogs
  exact List.foldl_append _ _ _ _

theorem dialogStep_click_confirm (r : DialogRun) (e : DialogEvent)
    (he : e.isMergeClick = true) (h : confirmAgrees r.dialogs) :
    confirmAgrees (dialogStep r e).dialogs := by
  cases e with
  | sourceClicked index =>
    simp only [dialogStep]
    cases r.dialogs.mergeButtons.get? index with
    | none => exact h
    | some id => rfl
  | targetClicked index =>
    simp only [dialogStep]
    cases r.dialogs.mergeButtons.get? index with
    | none => exact h
    | some id =>
      simp only [targetClick]
      by_cases hmem : id ∈ r.dialogs.mergeSourceCategoryIds
      · rw [if_pos hmem]
        exact h
      · rw [if_neg hmem]
        rfl
  | refreshStarted => exact absurd he Bool.false_ne_true
  | deleteClicked index => exact absurd he Bool.false_ne_true
  | deleteClosed => exact absurd he Bool.false_ne_true
  | deleteConfirmClicked => exact absurd he Bool.false_ne_true
  | mergeOpened => exact absurd he Bool.false_ne_true
  | mergeClosed => exact absurd he Bool.false_ne_true
  | mergeConfirmClicked => exact absurd he Bool.false_ne_true
  | budgetsAnswered index resolved userConfirmed => exact absurd he Bool.false_ne_true
  | requestAnswered index resolved => exact absurd he Bool.false_ne_true
  | categoriesLoaded index categories => exact absurd he Bool.false_ne_true

theorem runDialogs_clicks_confirm (r : DialogRun) (clicks : List DialogEvent)
    (hclicks : ∀ e ∈ clicks, e.isMergeClick = true) (h : confirmAgrees r.dialogs) :
    confirmAgrees (runDialogs r clicks).dialogs := by
  induction clicks generalizing r with
  | nil => exact h
  | cons e rest ih =>
    unfold runDialogs
    rw [List.foldl_cons]
    exact ih _ (fun x hx => hclicks x (List.mem_cons_of_mem _ hx))
      (dialogStep_click_confirm r e (hclicks e (List.mem_cons_self _ _)) h)

theorem prepareMergeModalContent_confirm (s : CategoryDialogs)
    (hm : s.hasMergeControls = true) : confirmAgrees (prepareMergeModalContent s) := by
  unfold prepareMergeModalContent confirmAgrees
  rw [hm]
  rfl

/-- A confirmation with nothing happening while its budget requests are
pending: the merge it sends names the selected sources and the selected
target, and the target is none of the sources. -/
theorem merge_without_overlap (r : DialogRun) (h : MergeInvariant r)
    (hsrc : r.dialogs.mergeSourceCategoryIds ≠ [])
    (htgt : r.dialogs.mergeTargetCategoryId.truthy = true) :
    (runDialogs r [DialogEvent.mergeConfirmClicked,
        DialogEvent.budgetsAnswered r.pending.length true true]).log =
      CategoryCall.mergeCategories r.dialogs.mergeSourceCategoryIds
        r.dialogs.mergeTargetCategoryId :: r.log ∧
    r.dialogs.mergeTargetCategoryId ∉ r.dialogs.mergeSourceCategoryIds := by
  refine ⟨?_, h.target htgt⟩
  have h0 : ¬ (r.dialogs.mergeSourceCategoryIds.length = 0 ∨
      r.dialogs.mergeTargetCategoryId.truthy = false) := by
    rintro (h1 | h1)
    · exact hsrc (List.length_eq_zero.mp h1)
    · rw [htgt] at h1
      exact Bool.noConfusion h1
  have hget : (r.pending ++ [PendingDialog.mergeBudgets r.dialogs.mergeSourceCategoryIds]).get?
      r.pending.length = some (PendingDialog.mergeBudgets r.dialogs.mergeSourceCategoryIds) := by
    simp
  simp only [runDialogs, List.foldl_cons, List.foldl_nil, dialogStep, confirmMergeStart,
    if_neg h0, budgetsAnswered, hget]
  rfl

/-- The merge dialog, examples.  With the sample categories loaded and the
merge dialog open, selecting the first category as source and the second as
target enables the confirm button; closing the dialog then empties the
selection and leaves the button enabled.  And for a category whose id is 0
the handlers take the selected target for none: clicking it as target and
then as source leaves it both the target and a source, and with another
source selected the button stays disabled. -/
theorem merge_confirm_examples :
    (runDialogs (initialRun true true true true)
        [DialogEvent.refreshStarted, DialogEvent.categoriesLoaded 0 sampleCategories,
         DialogEvent.mergeOpened, DialogEvent.sourceClicked 0,
         DialogEvent.targetClicked 1]).dialogs.confirmDisabled = false ∧
    (runDialogs (initialRun true true true true)
        [DialogEvent.refreshStarted, DialogEvent.categoriesLoaded 0 sampleCategories,
         DialogEvent.mergeOpened, DialogEvent.sourceClicked 0, DialogEvent.targetClicked 1,
         DialogEvent.mergeClosed]).dialogs.mergeSourceCategoryIds = [] ∧
    (runDialogs (initialRun true true true true)
        [DialogEvent.refreshStarted, DialogEvent.categoriesLoaded 0 sampleCategories,
         DialogEvent.mergeOpened, DialogEvent.sourceClicked 0, DialogEvent.targetClicked 1,
         DialogEvent.mergeClosed]).dialogs.mergeTargetCategoryId = JSVal.null ∧
    (runDialogs (initialRun true true true true)
        [DialogEvent.refreshStarted, DialogEvent.categoriesLoaded 0 sampleCategories,
         DialogEvent.mergeOpened, DialogEvent.sourceClicked 0, DialogEvent.targetClicked 1,
         DialogEvent.mergeClosed]).dialogs.confirmDisabled = false ∧
    (runDialogs (initialRun true true true true)
        [DialogEvent.refreshStarted, DialogEvent.categoriesLoaded 0 sampleCategoriesZero,
         DialogEvent.mergeOpened, DialogEvent.targetClicked 0,
         DialogEvent.sourceClicked 0]).dialogs.mergeTargetCategoryId = JSVal.num (jsn 0) ∧
    (runDialogs (initialRun true true true true)
        [DialogEvent.refreshStarted, DialogEvent.categoriesLoaded 0 sampleCategoriesZero,
         DialogEvent.mergeOpened, DialogEvent.targetClicked 0,
         DialogEvent.sourceClicked 0]).dialogs.mergeSourceCategoryIds = [JSVal.num (jsn 0)] ∧
    (runDialogs (initialRun true true true true)
        [DialogEvent.refreshStarted, DialogEvent.categoriesLoaded 0 sampleCategoriesZero,
         DialogEvent.mergeOpened, DialogEvent.sourceClicked 1,
         DialogEvent.targetClicked 0]).dialogs.mergeSourceCategoryIds = [JSVal.num (jsn 5)] ∧
    (runDialogs (initialRun true true true true)
        [DialogEvent.refreshStarted, DialogEvent.categoriesLoaded 0 sampleCategoriesZero,
         DialogEvent.mergeOpened, DialogEvent.sourceClicked 1,
         DialogEvent.targetClicked 0]).dialogs.mergeTargetCategoryId = JSVal.num (jsn 0) ∧
    (runDialogs (initialRun true true true true)
        [DialogEvent.refreshStarted, DialogEvent.categoriesLoaded 0 sampleCategoriesZero,
         DialogEvent.mergeOpened, DialogEvent.sourceClicked 1,
         DialogEvent.targetClicked 0]).dialogs.confirmDisabled = true := by
  decide!

/-- What the merge dialog does guarantee.  After every sequence of events,
the settlements of pending requests included, a selected target with a truthy
id is not among the selected sources, and every merge request sent names at
least one source.  When the page has the merge controls and the events end
with an opening of the merge dialog followed only by clicks on its source and
target buttons, the confirm button is enabled exactly when a source is
selected and the target is a truthy id. -/
theorem merge_selection_invariant (hasUserList hasSystemList hasMergeControls
    confirmDisabled : Bool) (events : List DialogEvent) :
    ((runDialogs (initialRun hasUserList hasSystemList hasMergeControls confirmDisabled)
        events).dialogs.mergeTargetCategoryId.truthy = true →
      (runDialogs (initialRun hasUserList hasSystemList hasMergeControls confirmDisabled)
        events).dialogs.mergeTargetCategoryId ∉
      (runDialogs (initialRun hasUserList hasSystemList hasMergeControls confirmDisabled)
        events).dialogs.mergeSourceCategoryIds) ∧
    (∀ sourceIds targetId, CategoryCall.mergeCategories sourceIds targetId ∈
        (runDialogs (initialRun hasUserList hasSystemList hasMergeControls confirmDisabled)
          events).log → sourceIds ≠ []) ∧
    (∀ before clicks, hasMergeControls = true →
      events = before ++ DialogEvent.mergeOpened :: clicks →
      (∀ e ∈ clicks, e.isMergeClick = true) →
      ((runDialogs (initialRun hasUserList hasSystemList hasMergeControls confirmDisabled)
          events).dialogs.confirmDisabled = false ↔
        (runDialogs (initialRun hasUserList hasSystemList hasMergeControls confirmDisabled)
          events).dialogs.mergeSourceCategoryIds ≠ [] ∧
        (runDialogs (initialRun hasUserList hasSystemList hasMergeControls confirmDisabled)
          events).dialogs.mergeTargetCategoryId.truthy = true)) := by
  have hinv := runDialogs_merge
    (initialRun hasUserList hasSystemList hasMergeControls confirmDisabled) events
    (initialRun_merge _ _ _ _)
  refine ⟨hinv.target, hinv.calls, ?_⟩
  intro before clicks hm hev hclicks
  have hopen : confirmAgrees (runDialogs
      (initialRun hasUserList hasSystemList hasMergeControls confirmDisabled)
      (before ++ [DialogEvent.mergeOpened])).dialogs := by
    rw [runDialogs_append]
    exact prepareMergeModalContent_confirm _ (by
      rw [runDialogs_hasMergeControls]
      exact hm)
  have hagree := runDialogs_clicks_confirm _ clicks hclicks hopen
  rw [← runDialogs_append, List.append_assoc, List.singleton_append, ← hev] at hagree
  unfold confirmAgrees at hagree
  rw [hagree]
  cases hs : (runDialogs
      (initialRun hasUserList hasSystemList hasMergeControls confirmDisabled)
      events).dialogs.mergeSourceCategoryIds with
  | nil => simp
  | cons x xs => simp

/-- C26.  The confirm handler of the merge dialog copies the selected sources
before it awaits the budget requests and reads `mergeTargetCategoryId` after
them.  With the sample list loaded the user selects the category 2 as source
and the category 3 as target and confirms; while the budget request is
pending the user un-selects the source 2 and picks 2 as target; the prompt is
answered with OK: the request `mergeCategories([2], 2, true)` is sent, whose
target is among its sources.  Closing the dialog instead sends the sources
with the target `null`.  Without anything in between, the target 3 is sent. -/
theorem merge_sends_target_among_sources :
    (runDialogs (initialRun true true true true)
        [DialogEvent.refreshStarted, DialogEvent.categoriesLoaded 0 sampleCategories,
         DialogEvent.mergeOpened, DialogEvent.sourceClicked 0, DialogEvent.targetClicked 1,
         DialogEvent.mergeConfirmClicked,
         DialogEvent.sourceClicked 0, DialogEvent.targetClicked 0,
         DialogEvent.budgetsAnswered 0 true true]).log =
      [CategoryCall.mergeCategories [JSVal.num (jsn 2)] (JSVal.num (jsn 2)),
       CategoryCall.loaded sampleCategories] ∧
    JSVal.num (jsn 2) ∈ [JSVal.num (jsn 2)] ∧
    (runDialogs (initialRun true true true true)
        [DialogEvent.refreshStarted, DialogEvent.categoriesLoaded 0 sampleCategories,
         DialogEvent.mergeOpened, DialogEvent.sourceClicked 0, DialogEvent.targetClicked 1,
         DialogEvent.mergeConfirmClicked,
         DialogEvent.mergeClosed,
         DialogEvent.budgetsAnswered 0 true true]).log =
      [CategoryCall.mergeCategories [JSVal.num (jsn 2)] JSVal.null,
       CategoryCall.loaded sampleCategories] ∧
    (runDialogs (initialRun true true true true)
        [DialogEvent.refreshStarted, DialogEvent.categoriesLoaded 0 sampleCategories,
         DialogEvent.mergeOpened, DialogEvent.sourceClicked 0, DialogEvent.targetClicked 1,
         DialogEvent.mergeConfirmClicked,
         DialogEvent.budgetsAnswered 0 true true]).log =
      [CategoryCall.mergeCategories [JSVal.num (jsn 2)] (JSVal.num (jsn 3)),
       CategoryCall.loaded sampleCategories] ∧
    (runDialogs (initialRun true true true true)
        [DialogEvent.refreshStarted, DialogEvent.categoriesLoaded 0 sampleCategories,
         DialogEvent.mergeOpened, DialogEvent.sourceClicked 0, DialogEvent.targetClicked 1,
         DialogEvent.mergeClosed]).dialogs.confirmDisabled = false := by
  decide!

/-! ## The CSV import and a row without a readable date -/

/-- C28.  A row that passes the column, amount and type checks and whose
date text the host cannot parse makes the row loop of `handleImportFile`
throw: the call ends in the exception, the rows after it are not parsed and
no record of theirs is kept.  The claim that such a row never aborts the
parsing fails. -/
theorem import_aborts_on_invalid_date (dateParse : Str → Option ℤ)
    (previous : List ImportedTransaction) (headerRow bad : Str) (rawAmount rawType : Str)
    (post : List Str)
    (hheader : ∀ req ∈ requiredColumns, req ∈ csvHeaders headerRow)
    (hcols : (csvHeaders headerRow).length ≤ (splitOnChar ',' bad).length)
    (hamount : rowField (csvHeaders headerRow) bad "amount".toList = some rawAmount)
    (hnum : (parseFloatStr rawAmount).isNaN = false)
    (htype : rowField (csvHeaders headerRow) bad "type".toList = some rawType)
    (hkind : toLowerCase rawType = "income".toList ∨ toLowerCase rawType = "expense".toList)
    (hdate : dateOfString dateParse (normalizeDateString
        (firstNonEmpty (rowField (csvHeaders headerRow) bad "datetime".toList)
          (rowField (csvHeaders headerRow) bad "date".toList))) = none) :
    importRow dateParse (csvHeaders headerRow) bad = RowResult.threw ∧
    importRows dateParse (csvHeaders headerRow) (bad :: post) [] = ⟨[], true⟩ ∧
    handleImportRows dateParse previous (headerRow :: bad :: post) = ⟨[], ImportEnd.threw⟩ := by
  have hrow : importRow dateParse (csvHeaders headerRow) bad = RowResult.threw := by
    unfold rowField at hamount htype hdate
    have hlen : ¬ (splitOnChar ',' bad).length < (csvHeaders headerRow).length :=
      not_lt.mpr hcols
    have hk : (toLowerCase rawType != "income".toList && toLowerCase rawType != "expense".toList)
        = false := by
      rcases hkind with h | h <;> rw [h] <;> decide
    simp only [importRow, hlen, if_false, hamount, htype, hnum, hk, Bool.or_false,
      Bool.false_eq_true, hdate]
  have hloop : importRows dateParse (csvHeaders headerRow) (bad :: post) [] = ⟨[], true⟩ := by
    rw [importRows_cons, hrow]
  have hfind : requiredColumns.find? (fun req => !(csvHeaders headerRow).contains req) = none := by
    rw [List.find?_eq_none]
    intro req hreq
    simp [hheader req hreq]
  have hlen : ¬ (headerRow :: bad :: post).length < 2 := by
    simp only [List.length_cons]
    omega
  refine ⟨hrow, hloop, ?_⟩
  simp only [handleImportRows, hlen, if_false, hfind, hloop, if_true]

/-- C28, an instance: in a file whose first data row has an empty datetime
and whose second row is valid, the sample parser rejects the text `Z` the
empty field becomes, the call ends in the exception with no record, and the
same file without the first row yields the preview of one record. -/
theorem import_aborts_on_invalid_date_witness :
    sampleDateParse "Z".toList = none ∧
    (importRow sampleDateParse (csvHeaders "datetime,description,amount,type".toList)
        ",Coffee,4.50,expense".toList = RowResult.threw ∧
      importRows sampleDateParse (csvHeaders "datetime,description,amount,type".toList)
        [",Coffee,4.50,expense".toList, "2024-06-01T10:00:00Z,Salary,100,income".toList] []
        = ⟨[], true⟩ ∧
      handleImportRows sampleDateParse []
        ["datetime,description,amount,type".toList, ",Coffee,4.50,expense".toList,
         "2024-06-01T10:00:00Z,Salary,100,income".toList] = ⟨[], ImportEnd.threw⟩) ∧
    handleImportFile sampleDateParse [] "bank.csv".toList
        "datetime,description,amount,type\n,Coffee,4.50,expense\n2024-06-01T10:00:00Z,Salary,100,income\n".toList
      = ⟨[], ImportEnd.threw⟩ ∧
    handleImportFile sampleDateParse [] "bank.csv".toList
        "datetime,description,amount,type\nyesterday,Coffee,4.50,expense\n2024-06-01T10:00:00Z,Salary,100,income\n".toList
      = ⟨[], ImportEnd.threw⟩ ∧
    handleImportFile sampleDateParse [] "bank.csv".toList
        "datetime,description,amount,type\n2024-06-01T10:00:00Z,Salary,100,income\n".toList
      = ⟨[⟨"Salary".toList, jsn 100, 1717236000000, "income".toList, none⟩],
         ImportEnd.preview⟩ :=
  ⟨by decide,
   import_aborts_on_invalid_date sampleDateParse [] "datetime,description,amount,type".toList
     ",Coffee,4.50,expense".toList "4.50".toList "expense".toList
     ["2024-06-01T10:00:00Z,Salary,100,income".toList]
     (by decide) (by decide) (by decide) (by decide!) (by decide) (Or.inr (by decide))
     (by decide),
   by decide!, by decide!, by decide!⟩

/-! ## The top expense categories -/

theorem sortInsert_sorted_rat {α : Type} (cmp : α → α → JSNum) (f : α → ℚ) (x : α) (l : List α)
    (hx : ∀ b ∈ l, ((cmp x b).gt (jsn 0) = true ↔ f x < f b))
    (hl : l.Pairwise (fun a b => f b ≤ f a)) :
    (sortInsert cmp x l).Pairwise (fun a b => f b ≤ f a) := by
  induction l with
  | nil => simp [sortInsert]
  | cons y ys ih =>
    have hy := hx y (List.mem_cons_self _ _)
    obtain ⟨hyall, hys⟩ := List.pairwise_cons.mp hl
    unfold sortInsert
    by_cases hc : (cmp x y).gt (jsn 0) = true
    · rw [if_pos hc]
      have hxy : f x < f y := hy.mp hc
      refine List.pairwise_cons.mpr ⟨?_, ih (fun b hb => hx b (List.mem_cons_of_mem _ hb)) hys⟩
      intro b hb
      rcases List.mem_cons.mp ((sortInsert_perm cmp x ys).mem_iff.mp hb) with e | hb'
      · rw [e]; exact le_of_lt hxy
      · exact hyall b hb'
    · rw [if_neg hc]
      have hxy : f y ≤ f x := not_lt.mp (fun h => hc (hy.mpr h))
      refine List.pairwise_cons.mpr ⟨?_, hl⟩
      intro b hb
      rcases List.mem_cons.mp hb with e | hb'
      · rw [e]; exact hxy
      · exact le_trans (hyall b hb') hxy

/-- A sort whose comparator agrees, on the elements of the array, with the
order of a rational measure leaves the array with the measure
non-increasing. -/
theorem jsSort_sorted_rat {α : Type} (cmp : α → α → JSNum) (f : α → ℚ) (l : List α)
    (h : ∀ a ∈ l, ∀ b ∈ l, ((cmp a b).gt (jsn 0) = true ↔ f a < f b)) :
    (jsSort cmp l).Pairwise (fun a b => f b ≤ f a) := by
  induction l with
  | nil => simp [jsSort]
  | cons x xs ih =>
    unfold jsSort
    apply sortInsert_sorted_rat
    · intro b hb
      exact h x (List.mem_cons_self _ _) b
        (List.mem_cons_of_mem _ ((mem_jsSort cmp xs b).mp hb))
    · exact ih (fun a ha b hb => h a (List.mem_cons_of_mem _ ha) b (List.mem_cons_of_mem _ hb))

theorem setProperty_keys {α : Type} (obj : List (Str × α)) (key : Str) (value : α) :
    (setProperty obj key value).map Prod.fst =
      if key ∈ obj.map Prod.fst then obj.map Prod.fst else obj.map Prod.fst ++ [key] := by
  induction obj with
  | nil => simp [setProperty]
  | cons p rest ih =>
    obtain ⟨k, v⟩ := p
    unfold setProperty
    by_cases hk : k = key
    · rw [if_pos hk]
      have hmem : key ∈ ((k, v) :: rest).map Prod.fst := by
        rw [List.map_cons, hk]
        exact List.mem_cons_self _ _
      rw [if_pos hmem]
      rfl
    · rw [if_neg hk]
      have hk2 : ¬ key = k := fun e => hk e.symm
      simp only [List.map_cons, List.mem_cons, hk2, false_or, ih]
      by_cases hm : key ∈ rest.map Prod.fst
      · rw [if_pos hm, if_pos hm]
      · rw [if_neg hm, if_neg hm]
        rfl

theorem setProperty_lookup {α : Type} (obj : List (Str × α)) (key : Str) (value : α)
    (c : Str) :
    (setProperty obj key value).lookup c =
      if c = key then some value else obj.lookup c := by
  induction obj with
  | nil =>
    by_cases hc : c = key
    · simp [setProperty, List.lookup, hc]
    · have : (c == key) = false := by simpa using hc
      simp [setProperty, List.lookup, hc, this]
  | cons p rest ih =>
    obtain ⟨k, v⟩ := p
    unfold setProperty
    by_cases hk : k = key
    · rw [if_pos hk]
      subst hk
      by_cases hc : c = k
      · subst hc
        simp [List.lookup]
      · have h1 : (c == k) = false := by simpa using hc
        simp [List.lookup, hc, h1]
    · rw [if_neg hk]
      by_cases hck : c = k
      · have hc : ¬ c = key := fun e => hk (hck.symm.trans e)
        simp [List.lookup, hck, hk]
      · have h1 : (c == k) = false := by simpa using hck
        simp only [List.lookup, h1, ih]

theorem categorySum_append (seen : List ExpenseRecord) (tx : ExpenseRecord) (c : Str) :
    categorySum (seen ++ [tx]) c =
      categorySum seen c + (if categoryOf tx = c then (amountOf tx).toRat else 0) := by
  unfold categorySum
  rw [List.filter_append, List.map_append, List.sum_append]
  by_cases h : categoryOf tx = c
  · simp [h]
  · simp [h]

theorem categorySum_of_not_mem (seen : List ExpenseRecord) (c : Str)
    (h : c ∉ seen.map categoryOf) : categorySum seen c = 0 := by
  unfold categorySum
  have : seen.filter (fun tx => decide (categoryOf tx = c)) = [] := by
    rw [List.filter_eq_nil_iff]
    intro tx htx hd
    exact h (List.mem_map.mpr ⟨tx, htx, of_decide_eq_true hd⟩)
  rw [this]
  rfl

theorem addToTotals_invariant (totals : List (Str × Total)) (seen : List ExpenseRecord)
    (tx : ExpenseRecord) (h : TotalsInvariant totals seen)
    (hname : prototypeText (categoryOf tx) = none)
    (hfinite : ∃ q, amountOf tx = JSNum.num q) :
    TotalsInvariant (addToTotals totals (categoryOf tx) (amountOf tx)) (seen ++ [tx]) := by
  obtain ⟨hnodup, hlook⟩ := h
  obtain ⟨q, hq⟩ := hfinite
  have hproto : ¬ categoryOf tx = "__proto__".toList := by
    intro e
    rw [e] at hname
    exact absurd hname (by decide)
  have hstep : addToTotals totals (categoryOf tx) (amountOf tx) =
      setProperty totals (categoryOf tx)
        (Total.number (JSNum.num (categorySum seen (categoryOf tx) + q))) := by
    unfold addToTotals
    rw [if_neg hproto, hlook (categoryOf tx), hname, hq]
    by_cases hm : categoryOf tx ∈ seen.map categoryOf
    · rw [if_pos hm]
      by_cases h0 : categorySum seen (categoryOf tx) = 0
      · simp [JSNum.truthy, JSNum.add, jsn, h0]
      · simp [JSNum.truthy, JSNum.add, jsn, h0]
    · rw [if_neg hm, categorySum_of_not_mem seen _ hm]
      simp [JSNum.add, jsn]
  rw [hstep]
  constructor
  · rw [setProperty_keys]
    by_cases hm : categoryOf tx ∈ totals.map Prod.fst
    · rw [if_pos hm]
      exact hnodup
    · rw [if_neg hm]
      exact List.Nodup.append hnodup (List.nodup_singleton _)
        (by
          intro a ha hb
          rw [List.mem_singleton] at hb
          exact hm (hb ▸ ha))
  · intro c
    rw [setProperty_lookup, hlook c, categorySum_append, hq]
    by_cases hc : c = categoryOf tx
    · rw [if_pos hc, hc]
      simp [JSNum.toRat]
    · rw [if_neg hc]
      have hc2 : ¬ categoryOf tx = c := fun e => hc e.symm
      rw [if_neg hc2, add_zero]
      by_cases hm : c ∈ seen.map categoryOf
      · have hm2 : c ∈ (seen ++ [tx]).map categoryOf := by
          rw [List.map_append]
          exact List.mem_append_left _ hm
        rw [if_pos hm, if_pos hm2]
      · have hm2 : c ∉ (seen ++ [tx]).map categoryOf := by
          rw [List.map_append, List.mem_append]
          rintro (h1 | h1)
          · exact hm h1
          · simp only [List.map_cons, List.map_nil, List.mem_singleton] at h1
            exact hc h1
        rw [if_neg hm, if_neg hm2]

theorem foldl_totals_invariant (rest : List ExpenseRecord) (totals : List (Str × Total))
    (seen : List ExpenseRecord) (h : TotalsInvariant totals seen)
    (hnames : ∀ tx ∈ rest, prototypeText (categoryOf tx) = none)
    (hfinite : ∀ tx ∈ rest, ∃ q, amountOf tx = JSNum.num q) :
    TotalsInvariant
      (rest.foldl (fun totals tx => addToTotals totals (categoryOf tx) (amountOf tx)) totals)
      (seen ++ rest) := by
  induction rest generalizing totals seen with
  | nil =>
    rw [List.append_nil]
    exact h
  | cons tx more ih =>
    rw [List.foldl_cons]
    have hstep := addToTotals_invariant totals seen tx h
      (hnames tx (List.mem_cons_self _ _)) (hfinite tx (List.mem_cons_self _ _))
    have := ih _ (seen ++ [tx]) hstep
      (fun x hx => hnames x (List.mem_cons_of_mem _ hx))
      (fun x hx => hfinite x (List.mem_cons_of_mem _ hx))
    rw [List.append_assoc, List.singleton_append] at this
    exact this

theorem categoryTotals_invariant (expenses : List ExpenseRecord)
    (hnames : ∀ tx ∈ expenses, prototypeText (categoryOf tx) = none)
    (hfinite : ∀ tx ∈ expenses, ∃ q, amountOf tx = JSNum.num q) :
    TotalsInvariant (categoryTotals expenses) expenses := by
  have h := foldl_totals_invariant expenses [] []
    ⟨List.nodup_nil, fun c => by simp [List.lookup]⟩ hnames hfinite
  rw [List.nil_append] at h
  exact h

theorem objectEntries_perm {α : Type} (obj : List (Str × α)) :
    (objectEntries obj).Perm obj := by
  unfold objectEntries
  exact (List.Perm.append_right _ (List.perm_insertionSort _ _)).trans
    (List.filter_append_perm _ obj)

theorem mem_of_lookup_eq_some {α : Type} (l : List (Str × α)) (c : Str) (v : α)
    (h : l.lookup c = some v) : (c, v) ∈ l := by
  induction l with
  | nil => simp [List.lookup] at h
  | cons p rest ih =>
    obtain ⟨k, w⟩ := p
    by_cases hck : c = k
    · subst hck
      simp only [List.lookup, beq_self_eq_true, Option.some.injEq] at h
      rw [h]
      exact List.mem_cons_self _ _
    · have h1 : (c == k) = false := by simpa using hck
      simp only [List.lookup, h1] at h
      exact List.mem_cons_of_mem _ (ih h)

theorem lookup_of_mem_nodup_keys {α : Type} (l : List (Str × α)) (c : Str) (v : α)
    (hn : (l.map Prod.fst).Nodup) (h : (c, v) ∈ l) : l.lookup c = some v := by
  induction l with
  | nil => exact absurd h (List.not_mem_nil _)
  | cons p rest ih =>
    obtain ⟨k, w⟩ := p
    rw [List.map_cons, List.nodup_cons] at hn
    rcases List.mem_cons.mp h with e | hm
    · injection e with e1 e2
      subst e1
      subst e2
      simp [List.lookup]
    · have hck : ¬ c = k := by
        intro e
        subst e
        exact hn.1 (List.mem_map.mpr ⟨(c, v), hm, rfl⟩)
      have h1 : (c == k) = false := by simpa using hck
      simp only [List.lookup, h1]
      exact ih hn.2 hm

/-- On expenses whose categories are none of the names an object literal
inherits and whose amounts are finite, the computation is the one the
specification describes: at most `n` pairs, their categories pairwise
distinct, each the category of an expense with the sum of the amounts of that
category as its total, the totals non-increasing, and no category left out
with a greater total than a listed one. -/
theorem topCategories_of_plain_names (n : ℕ) (expenses : List ExpenseRecord)
    (hnames : ∀ tx ∈ expenses, prototypeText (categoryOf tx) = none)
    (hamounts : ∀ tx ∈ expenses, (amountOf tx).isFinite = true) :
    (topCategories n expenses).length ≤ n ∧
    ((topCategories n expenses).map Prod.fst).Nodup ∧
    (∀ p ∈ topCategories n expenses, p.1 ∈ expenses.map categoryOf ∧
      p.2 = Total.number (JSNum.num (categorySum expenses p.1))) ∧
    (topCategories n expenses).Pairwise
      (fun a b => categorySum expenses b.1 ≤ categorySum expenses a.1) ∧
    (∀ c ∈ expenses.map categoryOf, c ∉ (topCategories n expenses).map Prod.fst →
      ∀ p ∈ topCategories n expenses, categorySum expenses c ≤ categorySum expenses p.1) := by
  have hfinite : ∀ tx ∈ expenses, ∃ q, amountOf tx = JSNum.num q := by
    intro tx htx
    have h := hamounts tx htx
    cases ha : amountOf tx with
    | num q => exact ⟨q, rfl⟩
    | nan => rw [ha] at h; exact absurd h Bool.false_ne_true
    | pinf => rw [ha] at h; exact absurd h Bool.false_ne_true
    | ninf => rw [ha] at h; exact absurd h Bool.false_ne_true
  obtain ⟨hnodup, hlook⟩ := categoryTotals_invariant expenses hnames hfinite
  have hperm : (jsSort compareTotals (objectEntries (categoryTotals expenses))).Perm
      (categoryTotals expenses) :=
    (jsSort_perm _ _).trans (objectEntries_perm _)
  have hval : ∀ p ∈ categoryTotals expenses, p.1 ∈ expenses.map categoryOf ∧
      p.2 = Total.number (JSNum.num (categorySum expenses p.1)) := by
    intro p hp
    have h1 := lookup_of_mem_nodup_keys _ p.1 p.2 hnodup hp
    rw [hlook p.1] at h1
    by_cases hm : p.1 ∈ expenses.map categoryOf
    · rw [if_pos hm] at h1
      exact ⟨hm, (Option.some.inj h1).symm⟩
    · rw [if_neg hm] at h1
      exact Option.noConfusion h1
  have hsorted0 : (jsSort compareTotals (objectEntries (categoryTotals expenses))).Pairwise
      (fun a b => b.2.toNumber.toRat ≤ a.2.toNumber.toRat) := by
    apply jsSort_sorted_rat
    intro a ha b hb
    have ea := (hval a ((objectEntries_perm _).mem_iff.mp ha)).2
    have eb := (hval b ((objectEntries_perm _).mem_iff.mp hb)).2
    unfold compareTotals
    rw [ea, eb]
    simp [Total.toNumber, JSNum.toRat, JSNum.sub, JSNum.neg, JSNum.add, JSNum.gt, JSNum.lt, jsn]
  have hsorted : (jsSort compareTotals (objectEntries (categoryTotals expenses))).Pairwise
      (fun a b => categorySum expenses b.1 ≤ categorySum expenses a.1) := by
    refine List.Pairwise.imp_of_mem ?_ hsorted0
    intro a b ha hb hab
    have ea := (hval a (hperm.mem_iff.mp ha)).2
    have eb := (hval b (hperm.mem_iff.mp hb)).2
    rw [ea, eb] at hab
    exact hab
  have htop : topCategories n expenses =
      (jsSort compareTotals (objectEntries (categoryTotals expenses))).take n := by
    unfold topCategories sliceFromStart
    rw [if_neg (by omega), Int.toNat_ofNat]
  rw [htop]
  refine ⟨?_, ?_, ?_, ?_, ?_⟩
  · rw [List.length_take]
    exact Nat.min_le_left _ _
  · have hn2 : ((jsSort compareTotals (objectEntries (categoryTotals expenses))).map
        Prod.fst).Nodup := (hperm.map Prod.fst).nodup_iff.mpr hnodup
    rw [List.map_take]
    exact hn2.sublist (List.take_sublist _ _)
  · intro p hp
    exact hval p (hperm.mem_iff.mp (List.mem_of_mem_take hp))
  · exact hsorted.sublist (List.take_sublist _ _)
  · intro c hc hout p hp
    have h1 := hlook c
    rw [if_pos hc] at h1
    have hmem := hperm.mem_iff.mpr (mem_of_lookup_eq_some _ _ _ h1)
    rw [← List.take_append_drop n
      (jsSort compareTotals (objectEntries (categoryTotals expenses)))] at hmem hsorted
    rcases List.mem_append.mp hmem with hin | hdrop
    · exact absurd (List.mem_map.mpr ⟨_, hin, rfl⟩) hout
    · exact (List.pairwise_append.mp hsorted).2.2 p hp _ hdrop

/-- An instance on the sample expenses with the limit 2: of the four
categories `Rent` (900.50) and `Uncategorized` (30) are listed. -/
theorem topCategories_of_plain_names_witness :
    topCategories 2 sampleExpenses =
      [("Rent".toList, Total.number (jsn (1801 / 2))),
       ("Uncategorized".toList, Total.number (jsn 30))] ∧
    (topCategories 2 sampleExpenses).length ≤ 2 ∧
    categorySum sampleExpenses "Food".toList = 31 / 2 ∧
    categorySum sampleExpenses "Pets".toList = 0 :=
  ⟨by decide!,
   (topCategories_of_plain_names 2 sampleExpenses (by decide) (by decide!)).1,
   by decide!, by decide!⟩

/-- C24.  A category named like a property an object literal inherits is
not totalled.  One expense of 10 in the category `constructor` gives that
category the text of the function `Object` followed by the amount as its
total, no number; its sum of amounts is 10.  An expense of 50 in the category
`__proto__` is left out of the list although the listed `Food` totals 5 and
the limit 3 is not reached.  Two expenses in `toString` are not added up. -/
theorem topCategories_inherited_names :
    topCategories 3 [⟨some "constructor".toList, JSVal.num (jsn 10)⟩] =
      [("constructor".toList,
        Total.text "function Object() \x7b [native code] \x7d".toList [jsn 10])] ∧
    categorySum [⟨some "constructor".toList, JSVal.num (jsn 10)⟩] "constructor".toList = 10 ∧
    topCategories 3 [⟨some "Food".toList, JSVal.num (jsn 5)⟩,
        ⟨some "__proto__".toList, JSVal.num (jsn 50)⟩] =
      [("Food".toList, Total.number (jsn 5))] ∧
    categorySum [⟨some "Food".toList, JSVal.num (jsn 5)⟩,
        ⟨some "__proto__".toList, JSVal.num (jsn 50)⟩] "__proto__".toList = 50 ∧
    topCategories 3 [⟨some "toString".toList, JSVal.num (jsn 10)⟩,
        ⟨some "toString".toList, JSVal.num (jsn 5)⟩] =
      [("toString".toList,
        Total.text "function toString() \x7b [native code] \x7d".toList [jsn 10, jsn 5])] := by
  decide!

end OverSave
